import Mathlib

/-!
# fmusdk co-simulation master: parser, model description, graph validation and the step loop

A shallow embedding of `src/shared/xml_parser.c`, `src/shared/xml_parser.h` and
`src/co_simulation/fmusim_cs/main.c`, followed by theorems about it.

Conventions of the embedding

* C enums `Elm` and `Att` are natural numbers (the position in the enum declaration); `Enu` is an
  integer because the code uses `-1` for "no such literal".
* A `char*` stored in an attribute slot is a `CStr`: `NULL`, a pointer to an entry of the fixed
  table `attNames` (compared by identity, as the code does), or an owned heap string.
* A nullable pointer is an `Option`; a null-terminated array of nodes is a `List`; a pointer to a
  connection node is the position of the node in `graph->connections`.
* A failed `assert`, a null dereference and an access to a cell at a type it was not allocated
  for are the `Except.error` outcome of a function; printing is not modelled, but the arguments
  of a `printf` are evaluated.
* `calloc` and `strdup` are taken to succeed.
* A finite `double` is the rational number it denotes; the addition of doubles is a parameter of
  the master (`Runtime.add`), with `f64add` the IEEE 754 binary64 addition.
* `sim_support.c`, `sim_support.h` and the FMI headers are not among the sources; what the master
  uses of them is a parameter or is modelled where it is introduced.
* The parser is the state of its globals (stack, `data`, `skipData`, and whether
  `XML_StopParser` has been called) passed through the handlers. The tokenizer library and
  `stack.c` are not among the sources: the handlers are called for a sequence of events whose
  tags match, no handler is called once the parser has been stopped, and the stack is a list.
-/

namespace Fmusdk

deriving instance DecidableEq for Except

/-! ## Schema tables (`xml_parser.c` 26-57, `xml_parser.h` 29-72) -/

abbrev Elm := Nat
abbrev Att := Nat
abbrev Enu := Int

def SIZEOF_ELM : Nat := 39
def SIZEOF_ATT : Nat := 49
def SIZEOF_ENU : Nat := 17

def elmNames : List String :=
  ["fmiModelDescription", "UnitDefinitions", "BaseUnit", "DisplayUnitDefinition", "TypeDefinitions",
   "Type", "RealType", "IntegerType", "BooleanType", "StringType", "EnumerationType", "Item",
   "DefaultExperiment", "VendorAnnotations", "Tool", "Annotation", "ModelVariables", "ScalarVariable",
   "DirectDependency", "Name", "Real", "Integer", "Boolean", "String", "Enumeration",
   "Implementation", "CoSimulation_StandAlone", "CoSimulation_Tool", "Model", "File", "Capabilities",
   "Graph", "Components", "Component", "Inputs", "Outputs", "Port", "Connections", "Connection"]

def attNames : List String :=
  ["fmiVersion", "displayUnit", "gain", "offset", "unit", "name", "description", "quantity",
   "relativeQuantity", "min", "max", "nominal", "declaredType", "start", "fixed", "startTime",
   "stopTime", "tolerance", "value", "valueReference", "variability", "causality", "alias",
   "modelName", "modelIdentifier", "guid", "author", "version", "generationTool",
   "generationDateAndTime", "variableNamingConvention", "numberOfContinuousStates",
   "numberOfEventIndicators", "input",
   "canHandleVariableCommunicationStepSize", "canHandleEvents", "canRejectSteps",
   "canInterpolateInputs", "maxOutputDerivativeOrder", "canRunAsynchronuously", "canSignalEvents",
   "canBeInstantiatedOnlyOncePerProcess", "canNotUseMemoryManagementFunctions", "file",
   "entryPoint", "manualStart", "type",
   "connection", "fmuPath"]

def enuNames : List String :=
  ["flat", "structured", "constant", "parameter", "discrete", "continuous",
   "input", "output", "internal", "none", "noAlias", "alias", "negatedAlias",
   "Boolean", "Integer", "Real", "String"]

-- the members of `Elm` used below
def elm_fmiModelDescription : Elm := 0
def elm_TypeDefinitions : Elm := 4
def elm_Type : Elm := 5
def elm_RealType : Elm := 6
def elm_ModelVariables : Elm := 16
def elm_ScalarVariable : Elm := 17
def elm_Real : Elm := 20
def elm_Integer : Elm := 21
def elm_Boolean : Elm := 22
def elm_String : Elm := 23
def elm_Enumeration : Elm := 24
def elm_Graph : Elm := 31
def elm_Components : Elm := 32
def elm_Component : Elm := 33
def elm_Inputs : Elm := 34
def elm_Outputs : Elm := 35
def elm_Port : Elm := 36
def elm_Connections : Elm := 37
def elm_Connection : Elm := 38

-- the members of `Att` used below
def att_name : Att := 5
def att_declaredType : Att := 12
def att_valueReference : Att := 19
def att_variability : Att := 20
def att_causality : Att := 21
def att_alias : Att := 22
def att_modelIdentifier : Att := 24
def att_guid : Att := 25
def att_variableNamingConvention : Att := 30
def att_input : Att := 33
def att_type : Att := 46
def att_connection : Att := 47
def att_fmuPath : Att := 48

-- the members of `Enu`
def enu_flat : Enu := 0
def enu_structured : Enu := 1
def enu_constant : Enu := 2
def enu_parameter : Enu := 3
def enu_discrete : Enu := 4
def enu_continuous : Enu := 5
def enu_input : Enu := 6
def enu_output : Enu := 7
def enu_internal : Enu := 8
def enu_none : Enu := 9
def enu_noAlias : Enu := 10
def enu_alias : Enu := 11
def enu_negatedAlias : Enu := 12
def enu_Boolean : Enu := 13
def enu_Integer : Enu := 14
def enu_Real : Enu := 15
def enu_String : Enu := 16

/-! ## AST nodes (`xml_parser.h` 74-166) -/

/-- A `const char*` as held in an attribute slot. `tbl a` is the address of `attNames[a]`, `heap s`
a string owned by the node. Two `tbl` pointers are equal exactly when they address the same table
entry, and a heap string is never equal to a table entry: this is the identity comparison
`attr[i]==attNames[a]` of `getString`. -/
inductive CStr where
  | null : CStr
  | tbl (a : Att) : CStr
  | heap (s : String) : CStr
deriving DecidableEq, Repr

/-- The characters a `CStr` points to; `none` for `NULL` (and for a table index out of range). -/
def CStr.str : CStr → Option String
  | CStr.null => none
  | CStr.tbl a => attNames[a]?
  | CStr.heap s => some s

/-- AST node `Element`: `type`, the attribute array (`NULL` or `n` slots, names at even positions
and values at odd positions) and its size `n`. -/
structure Element where
  type : Elm
  attributes : Option (List CStr)
  n : Nat
deriving DecidableEq, Repr

/-! ## Low-level inspection (`xml_parser.c` 70-77) -/

/-- The loop `for (i=0; i<e->n; i+=2) if (attr[i]==attNames[a]) return attr[i+1]; return NULL;`
over the slots that remain from position `i` on. -/
def getStringFrom (a : Att) : List CStr → Option String
  | nm :: v :: rest => if nm = CStr.tbl a then v.str else getStringFrom a rest
  | _ => none

/-- Value of attribute `a` of the node, `none` for `NULL`. Exactly the first `n` slots of the
array are inspected. -/
def getString (e : Element) (a : Att) : Option String :=
  getStringFrom a ((e.attributes.getD []).take e.n)

/-! ## Name checks (`xml_parser.c` 310-333) -/

/-- The loop of `checkName` from index `i`: the first position `j >= i` among the first `n`
entries with `strcmp(name, array[j]) == 0`, or `-1`. `rest` is the table from position `i` on. -/
def checkNameFrom (name : String) (n : Nat) : Nat → List String → Int
  | _, [] => -1
  | i, s :: rest =>
    if i < n then (if name = s then (i : Int) else checkNameFrom name n (i + 1) rest) else -1

/-- Index of `name` in the first `n` entries of `array`, or `-1` (in which case the code also
prints a message and stops the parser). -/
def checkName (name : String) (array : List String) (n : Nat) : Int :=
  checkNameFrom name n 0 array

def checkElement (elm : String) : Int := checkName elm elmNames SIZEOF_ELM

def checkAttribute (att : String) : Int := checkName att attNames SIZEOF_ATT

def checkEnumValue (enu : String) : Int := checkName enu enuNames SIZEOF_ENU

/-! ## Node construction (`xml_parser.c` 414-448) -/

/-- The second loop of `addAttributes`: for each name/value pair of the tokenizer, the slots
`att[n] = attNames[a]` and `att[n+1] = strdup(value)`; `none` is the early `return 0` at the first
name that `checkAttribute` rejects. -/
def addAttributesLoop : List (String × String) → Option (List CStr)
  | [] => some []
  | (name, value) :: rest =>
    let a := checkAttribute name
    if a = -1 then none
    else (addAttributesLoop rest).map (fun att => CStr.tbl a.toNat :: CStr.heap value :: att)

/-- Copies the attribute array of the tokenizer into the node, interning the names. The
null-terminated array `attr` of alternating names and values is given as the list of its pairs.
`none` is the result `0` (error), `some el` the result `1` with the node as it was left. -/
def addAttributes (el : Element) (attr : List (String × String)) : Option Element :=
  let n := 2 * attr.length
  match addAttributesLoop attr with
  | none => none
  | some att => some { el with attributes := (if n > 0 then some att else none), n := n }

/-- Allocates a node of the given element type and adds the attributes; `none` is `NULL`. -/
def newElement (type : Elm) (attr : List (String × String)) : Option Element :=
  let e : Element := { type := type, attributes := none, n := 0 }
  addAttributes e attr


/-- Slots that `addAttributesLoop` produces when every name is known: per pair, the interned name
and the copied value. -/
def internedSlots : List (String × String) → List CStr
  | [] => []
  | p :: rest => CStr.tbl (checkAttribute p.1).toNat :: CStr.heap p.2 :: internedSlots rest

/-! ## Model description (`xml_parser.h` 83-129) -/

/-- AST node `ListElement`. -/
structure ListElement extends Element where
  list : Option (List Element)
deriving DecidableEq, Repr

/-- AST node `Type` of the header; `typeSpec` is one of RealType, IntegerType etc., or `NULL` as
`calloc` leaves it. -/
structure FmiType extends Element where
  typeSpec : Option Element
deriving DecidableEq, Repr

/-- AST node `ScalarVariable`; `typeSpec` is one of Real, Integer etc., or `NULL` as `calloc`
leaves it; `directDependencies` is `NULL` or a list of Name. -/
structure ScalarVariable extends Element where
  typeSpec : Option Element
  directDependencies : Option (List Element)
deriving DecidableEq, Repr

/-- AST node `CoSimulation`. -/
structure CoSimulation extends Element where
  capabilities : Option Element
  model : Option ListElement
deriving DecidableEq, Repr

/-- AST node `ModelDescription`. -/
structure ModelDescription extends Element where
  unitDefinitions : Option (List ListElement)
  typeDefinitions : Option (List FmiType)
  defaultExperiment : Option Element
  vendorAnnotations : Option (List ListElement)
  modelVariables : Option (List ScalarVariable)
  cosimulation : Option CoSimulation
deriving DecidableEq, Repr

/-! ## Convenience accessors (`xml_parser.c` 164-242) -/

/-- Function `getName`: the attribute `name`; the `assert(name)` of the code fails when it is
missing. -/
def getName (element : Element) : Except String String :=
  match getString element att_name with
  | some name => Except.ok name
  | none => Except.error "assert(name)"

/-- The loop of `getVariableByName` over `md->modelVariables`. -/
def getVariableByNameLoop (name : String) :
    List ScalarVariable → Except String (Option ScalarVariable)
  | [] => Except.ok none
  | sv :: rest =>
    match getName sv.toElement with
    | Except.error msg => Except.error msg
    | Except.ok nm => if nm = name then Except.ok (some sv) else getVariableByNameLoop name rest

def getVariableByName (md : ModelDescription) (name : String) :
    Except String (Option ScalarVariable) :=
  match md.modelVariables with
  | some mv => getVariableByNameLoop name mv
  | none => Except.ok none

/-- The loop of `getDeclaredType` over `md->typeDefinitions`. -/
def getDeclaredTypeLoop (declaredType : String) : List FmiType → Except String (Option FmiType)
  | [] => Except.ok none
  | tp :: rest =>
    match getName tp.toElement with
    | Except.error msg => Except.error msg
    | Except.ok nm =>
      if declaredType = nm then Except.ok (some tp) else getDeclaredTypeLoop declaredType rest

def getDeclaredType (md : ModelDescription) (declaredType : Option String) :
    Except String (Option FmiType) :=
  match declaredType, md.typeDefinitions with
  | some d, some tds => getDeclaredTypeLoop d tds
  | _, _ => Except.ok none

/-! ## Validation of a model description (`xml_parser.c` 953-971) -/

/-- The loop of `validate` over `md->modelVariables`, carrying the local `error`. The name of the
variable is evaluated for the warning that is printed. `getString(sv->typeSpec, ...)` dereferences
the type spec. -/
def validateLoop (md : ModelDescription) : List ScalarVariable → Nat → Except String Nat
  | [], error => Except.ok error
  | sv :: rest, error =>
    match sv.typeSpec with
    | none => Except.error "null dereference: sv->typeSpec"
    | some typeSpec =>
      let declaredType := getString typeSpec att_declaredType
      match getDeclaredType md declaredType with
      | Except.error msg => Except.error msg
      | Except.ok decltype =>
        if declaredType.isSome && decltype.isNone then
          match getName sv.toElement with
          | Except.error msg => Except.error msg
          | Except.ok _ => validateLoop md rest (error + 1)
        else validateLoop md rest error

/-- Function `validate`: the value of the local `error` when the scan is over (the count that is
printed), and the pointer returned: `none` (`NULL`) if `error` is not zero, the argument otherwise. -/
def validate (md : ModelDescription) : Except String (Nat × Option ModelDescription) :=
  let scan := match md.modelVariables with
    | some mv => validateLoop md mv 0
    | none => Except.ok 0
  match scan with
  | Except.error msg => Except.error msg
  | Except.ok error => if error ≠ 0 then Except.ok (error, none) else Except.ok (error, some md)

/-- Required attribute `name` present on every Type and every ScalarVariable of the model
description: the precondition that `getName` asserts. -/
def ModelDescription.named (md : ModelDescription) : Prop :=
  (∀ tp ∈ md.typeDefinitions.getD [], getString tp.toElement att_name ≠ none) ∧
  (∀ sv ∈ md.modelVariables.getD [], getString sv.toElement att_name ≠ none)

/-- Type spec present on every ScalarVariable of the model description: the precondition of
`validate`, which dereferences `sv->typeSpec`. -/
def ModelDescription.typed (md : ModelDescription) : Prop :=
  ∀ sv ∈ md.modelVariables.getD [], sv.typeSpec ≠ none

/-- The attribute `declaredType` of a scalar variable, which its type spec carries. -/
def declaredTypeOf (sv : ScalarVariable) : Option String :=
  sv.typeSpec.bind (fun typeSpec => getString typeSpec att_declaredType)

/-- The scalar variable carries a `declaredType` attribute (on its type spec) that names no Type
in `typeDefinitions`. -/
def unresolvedDeclaredType (md : ModelDescription) (sv : ScalarVariable) : Bool :=
  match declaredTypeOf sv with
  | none => false
  | some d => (md.typeDefinitions.getD []).all (fun tp => getString tp.toElement att_name != some d)

/-- Number of scalar variables with an unresolved declared type. -/
def unresolvedCount (md : ModelDescription) : Nat :=
  (md.modelVariables.getD []).countP (unresolvedDeclaredType md)

/-- Every scalar variable that carries a `declaredType` attribute names a Type present in
`typeDefinitions`. -/
def declaredTypesResolved (md : ModelDescription) : Prop :=
  ∀ sv ∈ md.modelVariables.getD [], ∀ d, declaredTypeOf sv = some d →
    ∃ tp ∈ md.typeDefinitions.getD [], getString tp.toElement att_name = some d

/-- A node with the given attribute pairs, names given by their attribute ids. -/
def mkElement (type : Elm) (attr : List (Att × String)) : Element :=
  { type := type,
    attributes := if attr.isEmpty then none
      else some (attr.foldr (fun p acc => CStr.tbl p.1 :: CStr.heap p.2 :: acc) []),
    n := 2 * attr.length }

/-- Example: a scalar variable of kind `kind` with the given name and, optionally, a declared
type on its type spec. -/
def exampleVariable (name : String) (kind : Elm) (declaredType : Option String) : ScalarVariable :=
  { toElement := mkElement elm_ScalarVariable [(att_name, name), (att_valueReference, "0")],
    typeSpec := some (mkElement kind (match declaredType with
      | some d => [(att_declaredType, d)]
      | none => [])),
    directDependencies := none }

/-- Example: a model description with the Type `T` and four variables, two of which declare types
(`U` and `V`) that are not defined. -/
def exampleModel : ModelDescription :=
  { toElement := mkElement elm_fmiModelDescription [(att_modelIdentifier, "m"), (att_guid, "g")],
    unitDefinitions := none,
    typeDefinitions := some [{ toElement := mkElement elm_Type [(att_name, "T")],
                               typeSpec := some (mkElement elm_RealType []) }],
    defaultExperiment := none,
    vendorAnnotations := none,
    modelVariables := some [exampleVariable "a" elm_Real (some "U"),
                            exampleVariable "b" elm_Real (some "T"),
                            exampleVariable "c" elm_Integer (some "V"),
                            exampleVariable "d" elm_Real none],
    cosimulation := none }

/-! ## Enumerated attributes (`xml_parser.h` 184-189, `xml_parser.c` 117-138) -/

inductive ValueStatus where
  | valueMissing : ValueStatus
  | valueDefined : ValueStatus
  | valueIllegal : ValueStatus
deriving DecidableEq, Repr

/-- Function `getEnumValue`: the returned id and the content of `*vs` after the call, given its
content `vs` before the call. -/
def getEnumValue (element : Element) (a : Att) (vs : ValueStatus) : Enu × ValueStatus :=
  match getString element a with
  | none =>
    (if a = att_variableNamingConvention then enu_flat
     else if a = att_variability then enu_continuous
     else if a = att_causality then enu_internal
     else if a = att_alias then enu_noAlias
     else -1, ValueStatus.valueMissing)
  | some value =>
    let id := checkEnumValue value
    (id, if id = -1 then ValueStatus.valueIllegal else vs)

/-! ## Component graph (`xml_parser.h` 131-166) -/

/-- The block a connection's `value` points to: the type it was allocated for and its content.
Finite values of `fmiReal` (double) are the rationals they denote. -/
inductive Cell where
  | real (v : ℚ) : Cell
  | integer (v : Int) : Cell
  | boolean (v : Bool) : Cell
  | string (v : Option String) : Cell
deriving DecidableEq, Repr

/-- The type a cell was allocated for, as the enum literal of the port type. -/
def Cell.type : Cell → Enu
  | Cell.real _ => enu_Real
  | Cell.integer _ => enu_Integer
  | Cell.boolean _ => enu_Boolean
  | Cell.string _ => enu_String

/-- AST node `Connection`; `value` is `NULL` or the value cell. -/
structure Connection extends Element where
  value : Option Cell
deriving DecidableEq, Repr

/-- AST node `Port`; `connection` is `NULL` or the address of a node of `graph->connections`,
given by its position in that array; `variable_` (the field `variable` of the header) is `NULL`
or the bound scalar variable. -/
structure Port extends Element where
  connection : Option Nat
  variable_ : Option ScalarVariable
deriving DecidableEq, Repr

/-- AST node `Component`. Its fields `fmu` and `instance` are kept by the master in lists that
are indexed like `graph->components`. -/
structure Component extends Element where
  inputs : Option (List Port)
  outputs : Option (List Port)
deriving DecidableEq, Repr

/-- AST node `Graph`. -/
structure Graph extends Element where
  components : Option (List Component)
  connections : Option (List Connection)
deriving DecidableEq, Repr

/-- The node `graph->connections[j]`. -/
def Graph.connectionAt (graph : Graph) (j : Nat) : Option Connection :=
  match graph.connections with
  | some cs => cs[j]?
  | none => none

/-- The assignment `con->value = value` at position `j` of a connection array. -/
def setValueAt (value : Cell) : Nat → List Connection → List Connection
  | _, [] => []
  | 0, con :: rest => { con with value := some value } :: rest
  | j + 1, con :: rest => con :: setValueAt value j rest

/-- The assignment `con->value = value` for the node `graph->connections[j]`. -/
def Graph.setValue (graph : Graph) (j : Nat) (value : Cell) : Graph :=
  { graph with connections := graph.connections.map (setValueAt value j) }

/-! ## Graph validation (`xml_parser.c` 974-1064) -/

/-- The loop of `getConnectionByName` from position `i`; the result is the position of the node
that is returned. -/
def getConnectionByNameLoop (connectionName : String) :
    Nat → List Connection → Except String (Option Nat)
  | _, [] => Except.ok none
  | i, con :: rest =>
    match getName con.toElement with
    | Except.error msg => Except.error msg
    | Except.ok nm =>
      if connectionName = nm then Except.ok (some i)
      else getConnectionByNameLoop connectionName (i + 1) rest

def getConnectionByName (graph : Graph) (connectionName : Option String) :
    Except String (Option Nat) :=
  match connectionName, graph.connections with
  | some nm, some cs => getConnectionByNameLoop nm 0 cs
  | _, _ => Except.ok none

/-- Function `getPortType`: the id of the attribute `type`. The status `vs` is an uninitialised
local of the function and is dropped; the id does not depend on it. -/
def getPortType (port : Element) : Enu :=
  (getEnumValue port att_type ValueStatus.valueMissing).1

/-- The four allocating cases of the `switch (type)` in `validatePortConnection`: the zeroed cell
that `calloc` returns; `none` for the `default` case, where `value` stays `NULL`. -/
def callocCell (type : Enu) : Option Cell :=
  if type = enu_Real then some (Cell.real 0)
  else if type = enu_Integer then some (Cell.integer 0)
  else if type = enu_Boolean then some (Cell.boolean false)
  else if type = enu_String then some (Cell.string none)
  else none

/-- Function `validatePortConnection(graph, port, error)`: the graph (whose connection nodes may
have received a cell), the port (whose `connection` may have been set) and `*error` after the
call. The names evaluated for the messages that are printed are part of the control flow. -/
def validatePortConnection (graph : Graph) (port : Port) (error : Nat) :
    Except String (Graph × Port × Nat) :=
  let conName := getString port.toElement att_connection
  match getConnectionByName graph conName with
  | Except.error msg => Except.error msg
  | Except.ok none =>
    if conName.isSome then
      match getName port.toElement with
      | Except.error msg => Except.error msg
      | Except.ok _ => Except.ok (graph, port, error + 1)
    else Except.ok (graph, port, error)
  | Except.ok (some j) =>
    match graph.connectionAt j with
    | none => Except.error "dangling connection"
    | some con =>
      match con.value with
      | some _ => Except.ok (graph, { port with connection := some j }, error)
      | none =>
        let type := getPortType port.toElement
        match callocCell type with
        | some value =>
          Except.ok (graph.setValue j value, { port with connection := some j }, error)
        | none =>
          -- default case of the switch, then `else if (type != -1)`
          match getName port.toElement with
          | Except.error msg => Except.error msg
          | Except.ok _ =>
            Except.ok (graph, { port with connection := some j },
              if type ≠ -1 then error + 1 + 1 else error + 1)

/-- The loop `for (n=0; ports[n]; n++) validatePortConnection(graph, ports[n], &error);`. -/
def validatePorts (graph : Graph) : List Port → Nat → Except String (Graph × List Port × Nat)
  | [], error => Except.ok (graph, [], error)
  | port :: rest, error =>
    match validatePortConnection graph port error with
    | Except.error msg => Except.error msg
    | Except.ok (g1, p1, e1) =>
      match validatePorts g1 rest e1 with
      | Except.error msg => Except.error msg
      | Except.ok (g2, ps, e2) => Except.ok (g2, p1 :: ps, e2)

/-- The guarded loop `if (ports) for ...` over one port array of a component. -/
def validatePortArray (graph : Graph) (ports : Option (List Port)) (error : Nat) :
    Except String (Graph × Option (List Port) × Nat) :=
  match ports with
  | none => Except.ok (graph, none, error)
  | some ps =>
    match validatePorts graph ps error with
    | Except.error msg => Except.error msg
    | Except.ok (g1, ps1, e1) => Except.ok (g1, some ps1, e1)

/-- The loop of `validateGraph` over `graph->components`: per component the outputs, then the
inputs. -/
def validateComponents (graph : Graph) :
    List Component → Nat → Except String (Graph × List Component × Nat)
  | [], error => Except.ok (graph, [], error)
  | comp :: rest, error =>
    match validatePortArray graph comp.outputs error with
    | Except.error msg => Except.error msg
    | Except.ok (g1, outs, e1) =>
      match validatePortArray g1 comp.inputs e1 with
      | Except.error msg => Except.error msg
      | Except.ok (g2, ins, e2) =>
        match validateComponents g2 rest e2 with
        | Except.error msg => Except.error msg
        | Except.ok (g3, comps, e3) =>
          Except.ok (g3, { comp with inputs := ins, outputs := outs } :: comps, e3)

/-- Outcome of `validateGraph`: the final value of the local `error`, the nodes as the run left
them, and the pointer that is returned (`none` for `NULL`). -/
structure GraphValidation where
  error : Nat
  graph : Graph
  result : Option Graph
deriving DecidableEq, Repr

/-- Function `validateGraph`. A graph without a Components section has
`graph->components == NULL`, which the loop header dereferences. -/
def validateGraph (graph : Graph) : Except String GraphValidation :=
  match graph.components with
  | none => Except.error "null dereference: graph->components"
  | some comps =>
    match validateComponents graph comps 0 with
    | Except.error msg => Except.error msg
    | Except.ok (g1, comps1, error) =>
      let final : Graph := { g1 with components := some comps1 }
      Except.ok { error := error, graph := final,
                  result := if error ≠ 0 then none else some final }

/-! ### Vocabulary for statements about `validateGraph` -/

/-- The ports in the order in which `validateGraph` visits them: components in document order,
within a component the outputs before the inputs. -/
def Component.ports (comp : Component) : List Port :=
  comp.outputs.getD [] ++ comp.inputs.getD []

def Graph.ports (graph : Graph) : List Port :=
  (graph.components.getD []).foldr (fun comp acc => comp.ports ++ acc) []

/-- Position (counted from `i`) of the first connection whose attribute `name` is `nm`. -/
def firstNamed (nm : String) : Nat → List Connection → Option Nat
  | _, [] => none
  | i, con :: rest =>
    if getString con.toElement att_name = some nm then some i else firstNamed nm (i + 1) rest

/-- The connection a port names: the position of the first Connection of that name in the
connection list; `none` when the port declares no connection or no such Connection exists. -/
def resolve (graph : Graph) (port : Port) : Option Nat :=
  match getString port.toElement att_connection, graph.connections with
  | some nm, some cs => firstNamed nm 0 cs
  | _, _ => none

/-- The cell of connection `j`, if it has one. -/
def Graph.cellAt (graph : Graph) (j : Nat) : Option Cell :=
  match graph.connectionAt j with
  | some con => con.value
  | none => none

/-- The graph as the parser leaves it: no connection has a cell, no port is bound. -/
def Graph.fresh (graph : Graph) : Prop :=
  (∀ con ∈ graph.connections.getD [], con.value = none) ∧
  (∀ port ∈ graph.ports, port.connection = none)

/-- Required attribute `name` present on every Connection and every Port: the precondition that
`getName` asserts. -/
def Graph.named (graph : Graph) : Prop :=
  (∀ con ∈ graph.connections.getD [], getString con.toElement att_name ≠ none) ∧
  (∀ port ∈ graph.ports, getString port.toElement att_name ≠ none)

/-- Example nodes. -/
def examplePort (name type : String) (connection : Option String) : Port :=
  { toElement := mkElement elm_Port
      ([(att_name, name), (att_type, type)] ++
        (match connection with
          | some c => [(att_connection, c)]
          | none => [])),
    connection := none, variable_ := none }

def exampleConnection (name : String) : Connection :=
  { toElement := mkElement elm_Connection [(att_name, name)], value := none }

def exampleComponent (fmuPath : String) (inputs outputs : Option (List Port)) : Component :=
  { toElement := mkElement elm_Component [(att_fmuPath, fmuPath)],
    inputs := inputs, outputs := outputs }

def exampleGraph (components : List Component) (connections : Option (List Connection)) : Graph :=
  { toElement := mkElement elm_Graph [],
    components := some components, connections := connections }

/-- Number of errors that `validatePortConnection` counts for the port in the given state of the
connections. -/
def portErrors (graph : Graph) (port : Port) : Nat :=
  match resolve graph port with
  | none => if (getString port.toElement att_connection).isSome then 1 else 0
  | some j =>
    match graph.cellAt j with
    | some _ => 0
    | none =>
      match callocCell (getPortType port.toElement) with
      | some _ => 0
      | none => if getPortType port.toElement ≠ -1 then 2 else 1

/-- The port after `validatePortConnection`: bound to the connection it names, if that exists. -/
def bindPort (graph : Graph) (port : Port) : Port :=
  match resolve graph port with
  | some j => { port with connection := some j }
  | none => port

/-- The graph after `validatePortConnection`: the named connection has received a cell if it had
none and the type of the port is one of the four. -/
def allocFor (graph : Graph) (port : Port) : Graph :=
  match resolve graph port with
  | some j =>
    match graph.cellAt j, callocCell (getPortType port.toElement) with
    | none, some value => graph.setValue j value
    | _, _ => graph
  | none => graph

/-- The connections after the ports of the list have been visited in order. -/
def allocAll (graph : Graph) : List Port → Graph
  | [] => graph
  | port :: rest => allocAll (allocFor graph port) rest

/-- The errors counted while the ports of the list are visited in order. -/
def errorsAll (graph : Graph) : List Port → Nat
  | [] => 0
  | port :: rest => portErrors graph port + errorsAll (allocFor graph port) rest

/-- The component with every port bound. -/
def bindComponent (graph : Graph) (comp : Component) : Component :=
  { comp with inputs := comp.inputs.map (List.map (bindPort graph)),
              outputs := comp.outputs.map (List.map (bindPort graph)) }

/-- All ports of a component list in the order of the visit. -/
def portsOf (comps : List Component) : List Port :=
  comps.foldr (fun comp acc => comp.ports ++ acc) []

/-- The attributes of the connections are the same in both graphs. -/
def sameNames (g1 g2 : Graph) : Prop :=
  (g1.connections.getD []).map Connection.toElement
    = (g2.connections.getD []).map Connection.toElement ∧
  (g1.connections.isSome = g2.connections.isSome)

/-- The type of the port is one of the four value types. -/
abbrev legalPortType (type : Enu) : Prop :=
  type = enu_Real ∨ type = enu_Integer ∨ type = enu_Boolean ∨ type = enu_String

/-- Example: component `a.fmu` with the Real output `out` on connection `c`, component `b.fmu`
with the Real input `in` on `c` and an unconnected Real input `u`; connections `c`, `d` and a
second `c`. -/
def exampleWiring : Graph := exampleGraph
  [exampleComponent "a.fmu" none (some [examplePort "out" "Real" (some "c")]),
   exampleComponent "b.fmu"
     (some [examplePort "in" "Real" (some "c"), examplePort "u" "Real" none]) none]
  (some [exampleConnection "c", exampleConnection "d", exampleConnection "c"])

/-- The outcome of `validateGraph` on a graph for which it runs to its end. -/
def validated (graph : Graph) : GraphValidation :=
  match validateGraph graph with
  | Except.ok r => r
  | Except.error _ => { error := 0, graph := graph, result := none }

/-- A valid port: it declares no connection, or it names an existing Connection and its declared
type is one of the four value types. -/
abbrev validPort (graph : Graph) (port : Port) : Prop :=
  getString port.toElement att_connection = none ∨
  ((resolve graph port).isSome = true ∧ legalPortType (getPortType port.toElement))

/-- Example: as `exampleWiring`, but the input `in` of `b.fmu` names the connection `x`, which
is not in the Connections list. -/
def exampleDangling : Graph := exampleGraph
  [exampleComponent "a.fmu" none (some [examplePort "out" "Real" (some "c")]),
   exampleComponent "b.fmu"
     (some [examplePort "in" "Real" (some "x"), examplePort "u" "Real" none]) none]
  (some [exampleConnection "c", exampleConnection "d"])

/-! ## Unsigned attributes and value references (`xml_parser.c` 97-103, 192-201) -/

abbrev fmiValueReference := Nat

/-- Function `getUInt`, with the conversion `1==sscanf(value, "%u", &u)` of the C library given as the
function `scanUInt` (`none`: no conversion). The local `u` starts as `(unsigned)-1`. -/
def getUInt (scanUInt : String → Option Nat) (element : Element) (a : Att) : Nat × ValueStatus :=
  match getString element a with
  | none => (4294967295, ValueStatus.valueMissing)
  | some value =>
    match scanUInt value with
    | some u => (u, ValueStatus.valueDefined)
    | none => (4294967295, ValueStatus.valueIllegal)

/-- Function `getValueReference`, with its two assertions. -/
def getValueReference (scanUInt : String → Option Nat) (scalarVariable : Element) :
    Except String fmiValueReference :=
  let r := getUInt scanUInt scalarVariable att_valueReference
  if scalarVariable.type ≠ elm_ScalarVariable then
    Except.error "assert(type == elm_ScalarVariable)"
  else if r.2 ≠ ValueStatus.valueDefined then Except.error "assert(vs==valueDefined)"
  else Except.ok r.1

/-- Function `getModelIdentifier`, with its assertion. -/
def getModelIdentifier (md : ModelDescription) : Except String String :=
  match getString md.toElement att_modelIdentifier with
  | some modelId => Except.ok modelId
  | none => Except.error "assert(modelId)"

/-! ## The master (`main.c`) -/

/-- The enum `fmiStatus` of the FMI 1.0 header that `fmi_cs.h` includes (the header is not among
the sources): `fmiOK, fmiWarning, fmiDiscard, fmiError, fmiFatal, fmiPending`, in this order. -/
abbrev fmiStatus := Nat
def fmiOK : fmiStatus := 0
def fmiWarning : fmiStatus := 1
def fmiDiscard : fmiStatus := 2
def fmiError : fmiStatus := 3
def fmiFatal : fmiStatus := 4
def fmiPending : fmiStatus := 5

/-- Modelled from the spec: `error` of `sim_support.c`, which is not among the sources. It prints
its message; its result, which `simulate` returns, is the failure code 0. -/
def errorCode : Nat := 0

/-- Modelled from the spec: the struct `FMU` of `sim_support.h`, which is not among the sources.
It holds the parsed model description of the module and the entry points of the lifecycle
protocol (section 6 of the specification). An instance handle is a state of type `σ`; a call
returns the state it leaves. A get-operation receives the content of the buffer and returns the
content it leaves there. -/
structure FMU (σ : Type) where
  modelDescription : ModelDescription
  instantiateSlave : String → Option String → Bool → Option σ
  initializeSlave : σ → ℚ → Bool → ℚ → σ × fmiStatus
  getReal : σ → fmiValueReference → ℚ → σ × ℚ
  getInteger : σ → fmiValueReference → Int → σ × Int
  getBoolean : σ → fmiValueReference → Bool → σ × Bool
  getString : σ → fmiValueReference → Option String → σ × Option String
  setReal : σ → fmiValueReference → ℚ → σ
  setInteger : σ → fmiValueReference → Int → σ
  setBoolean : σ → fmiValueReference → Bool → σ
  setString : σ → fmiValueReference → Option String → σ
  doStep : σ → ℚ → ℚ → Bool → σ × fmiStatus
  terminateSlave : σ → σ × fmiStatus

/-- How the platform lays out the values of the four types in memory, as far as the step loop
depends on it. The loop casts the pointer `value` of a connection to the type of the operation
that it selects, whatever type the block was allocated for: `asReal cell` is what an access
through `(fmiReal*) value` finds in the block `cell` when it holds a value of another type
(likewise for the other three types), and `overwritten cell stored` is the block `cell` after the
value `stored`, of another type than the block, has been written through the cast pointer. -/
structure Representation where
  asReal : Cell → ℚ
  asInteger : Cell → Int
  asBoolean : Cell → Bool
  asString : Cell → Option String
  overwritten : Cell → Cell → Cell

/-- What the master takes from its platform: the addition of two doubles (`time += h`), the
conversion `sscanf("%u")`, whether `fopen(RESULT_FILE, "w")` succeeds, and the layout of the
values in memory. -/
structure Runtime where
  add : ℚ → ℚ → ℚ
  scanUInt : String → Option Nat
  fopenOk : Bool
  representation : Representation

/-- The calls that the master makes, in the order in which it makes them. `i` is the position of
the component, `n` the position of the port in its array, `op` the value type of the operation
and `value` the content of the cell after a get (before a set). -/
inductive Event where
  | instantiateSlave (i : Nat) (ok : Bool) : Event
  | initializeSlave (i : Nat) (status : fmiStatus) : Event
  | get (i n : Nat) (op : Enu) (vr : fmiValueReference) (value : Cell) : Event
  | set (i n : Nat) (op : Enu) (vr : fmiValueReference) (value : Cell) : Event
  | doStep (i : Nat) (time h : ℚ) (status : fmiStatus) : Event
  | outputRow (time : ℚ) (separator : Char) (header : Bool) : Event
  | terminateSlave (i : Nat) : Event
  | freeSlaveInstance (i : Nat) : Event
deriving DecidableEq, Repr

def Event.isGet : Event → Bool
  | Event.get _ _ _ _ _ => true
  | _ => false

def Event.isSet : Event → Bool
  | Event.set _ _ _ _ _ => true
  | _ => false

def Event.isDoStep : Event → Bool
  | Event.doStep _ _ _ _ => true
  | _ => false

/-- The run of `outputRow(graph, time, file, separator, FALSE)` leaves one row of values. -/
def Event.isValueRow : Event → Bool
  | Event.outputRow _ _ header => !header
  | _ => false

/-- State of a run of `simulate`: the graph with its cells, the handles
`graph->components[i]->instance`, and the calls made so far. -/
structure Master (σ : Type) where
  graph : Graph
  instances : List (Option σ)
  trace : List Event

/-- The `switch (sv->typeSpec->type)` of the step loop: the value type of the operation that is
called for a variable whose type spec has the given kind; `none` when no case matches, so that
nothing is called. -/
def dispatch (kind : Elm) : Option Enu :=
  if kind = elm_Real then some enu_Real
  else if kind = elm_Integer then some enu_Integer
  else if kind = elm_Boolean then some enu_Boolean
  else if kind = elm_String then some enu_String
  else none

/-- The operation that the step loop selects for a variable, from the kind of its type spec. -/
def selectedOperation (sv : ScalarVariable) : Option Enu :=
  sv.typeSpec.bind (fun typeSpec => dispatch typeSpec.type)

/-- The content of the block read through `(fmiReal*) value`. -/
def Cell.readReal (rep : Representation) : Cell → ℚ
  | Cell.real v => v
  | cell => rep.asReal cell

/-- The content of the block read through `(fmiInteger*) value`. -/
def Cell.readInteger (rep : Representation) : Cell → Int
  | Cell.integer v => v
  | cell => rep.asInteger cell

/-- The content of the block read through `(fmiBoolean*) value`. -/
def Cell.readBoolean (rep : Representation) : Cell → Bool
  | Cell.boolean v => v
  | cell => rep.asBoolean cell

/-- The content of the block read through `(fmiString*) value`. -/
def Cell.readString (rep : Representation) : Cell → Option String
  | Cell.string v => v
  | cell => rep.asString cell

/-- The block after the value `stored` has been written through the cast pointer: the value
itself when the block was allocated for its type. -/
def Cell.write (rep : Representation) (cell stored : Cell) : Cell :=
  if cell.type = stored.type then stored else rep.overwritten cell stored

/-- The call `fmu->getReal(c, &vr, 1, (fmiReal*) value)` of the `switch` of "read outputs"
(`main.c` 152-164), and the three other cases: the get-operation of value type `op` is called
with the block as its buffer, without any test of the type the block was allocated for. The
result is the handle and the block as the call leaves them. `dispatch` selects no other value of
`op` than the four; for another value nothing is called. -/
def getCell {σ : Type} (rt : Runtime) (fmu : FMU σ) (c : σ) (vr : fmiValueReference) (op : Enu)
    (cell : Cell) : Except String (σ × Cell) :=
  if op = enu_Real then
    let r := fmu.getReal c vr (cell.readReal rt.representation)
    Except.ok (r.1, cell.write rt.representation (Cell.real r.2))
  else if op = enu_Integer then
    let r := fmu.getInteger c vr (cell.readInteger rt.representation)
    Except.ok (r.1, cell.write rt.representation (Cell.integer r.2))
  else if op = enu_Boolean then
    let r := fmu.getBoolean c vr (cell.readBoolean rt.representation)
    Except.ok (r.1, cell.write rt.representation (Cell.boolean r.2))
  else if op = enu_String then
    let r := fmu.getString c vr (cell.readString rt.representation)
    Except.ok (r.1, cell.write rt.representation (Cell.string r.2))
  else Except.ok (c, cell)

/-- The call `fmu->setReal(c, &vr, 1, (fmiReal*) value)` of the `switch` of "set inputs"
(`main.c` 180-192), and the three other cases: the set-operation of value type `op` is called
with the content of the block read through the cast pointer, without any test of the type the
block was allocated for. -/
def setCell {σ : Type} (rt : Runtime) (fmu : FMU σ) (c : σ) (vr : fmiValueReference) (op : Enu)
    (cell : Cell) : Except String σ :=
  if op = enu_Real then Except.ok (fmu.setReal c vr (cell.readReal rt.representation))
  else if op = enu_Integer then
    Except.ok (fmu.setInteger c vr (cell.readInteger rt.representation))
  else if op = enu_Boolean then
    Except.ok (fmu.setBoolean c vr (cell.readBoolean rt.representation))
  else if op = enu_String then
    Except.ok (fmu.setString c vr (cell.readString rt.representation))
  else Except.ok c

/-- The assignment `graph->components[i]->instance = c`. -/
def setInstance {σ : Type} (c : σ) : Nat → List (Option σ) → List (Option σ)
  | _, [] => []
  | 0, _ :: rest => some c :: rest
  | i + 1, x :: rest => x :: setInstance c i rest

/-- The pointers `fmu`, `c` of component `i`; both are dereferenced by every protocol call. -/
def handles {σ : Type} (fmus : List (FMU σ)) (m : Master σ) (i : Nat) :
    Except String (FMU σ × σ) :=
  match fmus[i]? with
  | none => Except.error "null dereference: fmu"
  | some fmu =>
    match m.instances[i]? with
    | some (some c) => Except.ok (fmu, c)
    | _ => Except.error "null dereference: instance"

/-- Body of the inner loop of "read outputs" for the port `ports[n]` of component `i`
(`main.c` 149-165). -/
def readOutput {σ : Type} (rt : Runtime) (fmus : List (FMU σ)) (i n : Nat) (port : Port)
    (m : Master σ) : Except String (Master σ) :=
  match port.variable_ with
  | none => Except.error "null dereference: ports[n]->variable"
  | some sv =>
    match getValueReference rt.scanUInt sv.toElement with
    | Except.error msg => Except.error msg
    | Except.ok vr =>
      match port.connection with
      | none => Except.error "null dereference: ports[n]->connection"
      | some j =>
        match m.graph.connectionAt j with
        | none => Except.error "dangling connection"
        | some con =>
          match sv.typeSpec with
          | none => Except.error "null dereference: sv->typeSpec"
          | some typeSpec =>
            match dispatch typeSpec.type with
            | none => Except.ok m
            | some op =>
              match con.value with
              | none => Except.error "null dereference: value"
              | some cell =>
                match handles fmus m i with
                | Except.error msg => Except.error msg
                | Except.ok (fmu, c) =>
                  match getCell rt fmu c vr op cell with
                  | Except.error msg => Except.error msg
                  | Except.ok (c1, cell1) =>
                    Except.ok { graph := m.graph.setValue j cell1,
                                instances := setInstance c1 i m.instances,
                                trace := m.trace ++ [Event.get i n op vr cell1] }

/-- Body of the inner loop of "set inputs" for the port `ports[n]` of component `i`
(`main.c` 177-193). -/
def setInput {σ : Type} (rt : Runtime) (fmus : List (FMU σ)) (i n : Nat) (port : Port)
    (m : Master σ) : Except String (Master σ) :=
  match port.variable_ with
  | none => Except.error "null dereference: ports[n]->variable"
  | some sv =>
    match getValueReference rt.scanUInt sv.toElement with
    | Except.error msg => Except.error msg
    | Except.ok vr =>
      match port.connection with
      | none => Except.error "null dereference: ports[n]->connection"
      | some j =>
        match m.graph.connectionAt j with
        | none => Except.error "dangling connection"
        | some con =>
          match sv.typeSpec with
          | none => Except.error "null dereference: sv->typeSpec"
          | some typeSpec =>
            match dispatch typeSpec.type with
            | none => Except.ok m
            | some op =>
              match con.value with
              | none => Except.error "null dereference: value"
              | some cell =>
                match handles fmus m i with
                | Except.error msg => Except.error msg
                | Except.ok (fmu, c) =>
                  match setCell rt fmu c vr op cell with
                  | Except.error msg => Except.error msg
                  | Except.ok c1 =>
                    Except.ok { graph := m.graph,
                                instances := setInstance c1 i m.instances,
                                trace := m.trace ++ [Event.set i n op vr cell] }

/-- The loop `for (n=0; ports[n]; n++)` with the given body, from position `n`. -/
def forPorts {σ : Type} (body : Nat → Port → Master σ → Except String (Master σ)) :
    Nat → List Port → Master σ → Except String (Master σ)
  | _, [], m => Except.ok m
  | n, port :: rest, m =>
    match body n port m with
    | Except.error msg => Except.error msg
    | Except.ok m1 => forPorts body (n + 1) rest m1

/-- The loop "read outputs" over the components, from position `i` (`main.c` 142-167). The
port arrays are those of the graph at the start of the loop; the loop does not change them. -/
def readOutputs {σ : Type} (rt : Runtime) (fmus : List (FMU σ)) :
    Nat → List Component → Master σ → Except String (Master σ)
  | _, [], m => Except.ok m
  | i, comp :: rest, m =>
    match comp.outputs with
    | none => readOutputs rt fmus (i + 1) rest m
    | some ports =>
      match forPorts (readOutput rt fmus i) 0 ports m with
      | Except.error msg => Except.error msg
      | Except.ok m1 => readOutputs rt fmus (i + 1) rest m1

/-- The loop "set inputs" over the components, from position `i` (`main.c` 170-195). -/
def setInputs {σ : Type} (rt : Runtime) (fmus : List (FMU σ)) :
    Nat → List Component → Master σ → Except String (Master σ)
  | _, [], m => Except.ok m
  | i, comp :: rest, m =>
    match comp.inputs with
    | none => setInputs rt fmus (i + 1) rest m
    | some ports =>
      match forPorts (setInput rt fmus i) 0 ports m with
      | Except.error msg => Except.error msg
      | Except.ok m1 => setInputs rt fmus (i + 1) rest m1

/-- How a part of `simulate` ends: it falls through to the next statement, or `simulate` returns
the given code from inside it. -/
inductive Flow (σ : Type) where
  | next (m : Master σ) : Flow σ
  | returned (code : Nat) (m : Master σ) : Flow σ

/-- The loop of the `doStep` calls over the components, from position `i` (`main.c` 197-204);
`return error(...)` at the first status other than `fmiOK`. -/
def doSteps {σ : Type} (fmus : List (FMU σ)) (time h : ℚ) :
    Nat → List Component → Master σ → Except String (Flow σ)
  | _, [], m => Except.ok (Flow.next m)
  | i, _ :: rest, m =>
    match handles fmus m i with
    | Except.error msg => Except.error msg
    | Except.ok (fmu, c) =>
      let r := fmu.doStep c time h true
      let m1 : Master σ := { graph := m.graph, instances := setInstance r.1 i m.instances,
                             trace := m.trace ++ [Event.doStep i time h r.2] }
      if r.2 ≠ fmiOK then Except.ok (Flow.returned errorCode m1)
      else doSteps fmus time h (i + 1) rest m1

/-- The components of the graph; `graph->components == NULL` is dereferenced by every loop
header. -/
def componentsOf (graph : Graph) : Except String (List Component) :=
  match graph.components with
  | some comps => Except.ok comps
  | none => Except.error "null dereference: graph->components"

/-- The exchange of one macro-step: read outputs, set inputs, `doStep` (`main.c` 141-204). -/
def exchange {σ : Type} (rt : Runtime) (fmus : List (FMU σ)) (time h : ℚ) (m : Master σ) :
    Except String (Flow σ) :=
  match componentsOf m.graph with
  | Except.error msg => Except.error msg
  | Except.ok comps =>
    match readOutputs rt fmus 0 comps m with
    | Except.error msg => Except.error msg
    | Except.ok m1 =>
      match setInputs rt fmus 0 comps m1 with
      | Except.error msg => Except.error msg
      | Except.ok m2 => doSteps fmus time h 0 comps m2

/-- Modelled from the spec: `outputRow` of `sim_support.c`, which is not among the sources. It
emits one row (the column names if `header`, else the time and the port values) and leaves the
graph and the instances as they are. -/
def outputRow {σ : Type} (m : Master σ) (time : ℚ) (separator : Char) (header : Bool) :
    Master σ :=
  { m with trace := m.trace ++ [Event.outputRow time separator header] }

/-- The content of a `Flow`. -/
def Flow.master {σ : Type} : Flow σ → Master σ
  | Flow.next m => m
  | Flow.returned _ m => m

/-- One macro-step, the body of the simulation loop (`main.c` 141-209): the exchange, then
`time += h`, the row of values and `nSteps++`. -/
def macroStep {σ : Type} (rt : Runtime) (fmus : List (FMU σ)) (h : ℚ) (separator : Char)
    (time : ℚ) (nSteps : Nat) (m : Master σ) : Except String (ℚ × Nat × Flow σ) :=
  match exchange rt fmus time h m with
  | Except.error msg => Except.error msg
  | Except.ok (Flow.returned code m1) => Except.ok (time, nSteps, Flow.returned code m1)
  | Except.ok (Flow.next m1) =>
    Except.ok (rt.add time h, nSteps + 1,
      Flow.next (outputRow m1 (rt.add time h) separator false))

/-- The simulation loop `while (time < tEnd)` (`main.c` 139-210) with the locals `time` and
`nSteps`. `fuel` bounds the number of iterations that are unfolded; when it is used up the result
is an error. -/
def stepLoop {σ : Type} (rt : Runtime) (fmus : List (FMU σ)) (tEnd h : ℚ) (separator : Char) :
    Nat → ℚ → Nat → Master σ → Except String (ℚ × Nat × Flow σ)
  | 0, time, nSteps, m =>
    if time < tEnd then Except.error "iteration bound reached"
    else Except.ok (time, nSteps, Flow.next m)
  | fuel + 1, time, nSteps, m =>
    if time < tEnd then
      match macroStep rt fmus h separator time nSteps m with
      | Except.error msg => Except.error msg
      | Except.ok (time1, nSteps1, Flow.returned code m1) =>
        Except.ok (time1, nSteps1, Flow.returned code m1)
      | Except.ok (time1, nSteps1, Flow.next m1) =>
        stepLoop rt fmus tEnd h separator fuel time1 nSteps1 m1
    else Except.ok (time, nSteps, Flow.next m)

/-- The first `k` macro-steps in a row, whatever the end time. -/
def macroSteps {σ : Type} (rt : Runtime) (fmus : List (FMU σ)) (h : ℚ) (separator : Char) :
    Nat → ℚ → Nat → Master σ → Except String (ℚ × Nat × Flow σ)
  | 0, time, nSteps, m => Except.ok (time, nSteps, Flow.next m)
  | k + 1, time, nSteps, m =>
    match macroStep rt fmus h separator time nSteps m with
    | Except.error msg => Except.error msg
    | Except.ok (time1, nSteps1, Flow.returned code m1) =>
      Except.ok (time1, nSteps1, Flow.returned code m1)
    | Except.ok (time1, nSteps1, Flow.next m1) =>
      macroSteps rt fmus h separator k time1 nSteps1 m1

/-- The loop "instantiate slaves" from position `i` (`main.c` 107-116); `return error(...)` at
the first null handle. -/
def instantiateAll {σ : Type} (fmus : List (FMU σ)) (loggingOn : Bool) :
    Nat → List Component → Master σ → Except String (Flow σ)
  | _, [], m => Except.ok (Flow.next m)
  | i, _ :: rest, m =>
    match fmus[i]? with
    | none => Except.error "null dereference: fmu"
    | some fmu =>
      let md := fmu.modelDescription
      let guid := getString md.toElement att_guid
      match getModelIdentifier md with
      | Except.error msg => Except.error msg
      | Except.ok name =>
        match fmu.instantiateSlave name guid loggingOn with
        | none =>
          Except.ok (Flow.returned errorCode
            { m with trace := m.trace ++ [Event.instantiateSlave i false] })
        | some c =>
          instantiateAll fmus loggingOn (i + 1) rest
            { graph := m.graph, instances := setInstance c i m.instances,
              trace := m.trace ++ [Event.instantiateSlave i true] }

/-- The loop "initialise slaves" from position `i` (`main.c` 127-132); `return error(...)` at the
first status above `fmiWarning`. -/
def initializeAll {σ : Type} (fmus : List (FMU σ)) (tStart tEnd : ℚ) :
    Nat → List Component → Master σ → Except String (Flow σ)
  | _, [], m => Except.ok (Flow.next m)
  | i, _ :: rest, m =>
    match handles fmus m i with
    | Except.error msg => Except.error msg
    | Except.ok (fmu, c) =>
      let r := fmu.initializeSlave c tStart true tEnd
      let m1 : Master σ := { graph := m.graph, instances := setInstance r.1 i m.instances,
                             trace := m.trace ++ [Event.initializeSlave i r.2] }
      if r.2 > fmiWarning then Except.ok (Flow.returned errorCode m1)
      else initializeAll fmus tStart tEnd (i + 1) rest m1

/-- The loop "end simulation" from position `i` (`main.c` 213-218). -/
def terminateAll {σ : Type} (fmus : List (FMU σ)) :
    Nat → List Component → Master σ → Except String (Master σ)
  | _, [], m => Except.ok m
  | i, _ :: rest, m =>
    match handles fmus m i with
    | Except.error msg => Except.error msg
    | Except.ok (fmu, c) =>
      terminateAll fmus (i + 1) rest
        { graph := m.graph, instances := setInstance (fmu.terminateSlave c).1 i m.instances,
          trace := m.trace ++ [Event.terminateSlave i, Event.freeSlaveInstance i] }

/-- Result of `simulate`: the value returned (1 success, 0 failure), the local `nSteps`, the
master time and the state when it returns. -/
structure Simulation (σ : Type) where
  code : Nat
  nSteps : Nat
  time : ℚ
  final : Master σ

/-- Function `simulate(graph, tEnd, h, loggingOn, separator)` (`main.c` 81-225); the modules of the
components are `fmus`, and `fuel` bounds the iterations of the simulation loop. -/
def simulate {σ : Type} (rt : Runtime) (fmus : List (FMU σ)) (graph : Graph) (tEnd h : ℚ)
    (loggingOn : Bool) (separator : Char) (fuel : Nat) : Except String (Simulation σ) :=
  let tStart : ℚ := 0
  match componentsOf graph with
  | Except.error msg => Except.error msg
  | Except.ok comps =>
    let m0 : Master σ := { graph := graph, instances := comps.map (fun _ => none), trace := [] }
    match instantiateAll fmus loggingOn 0 comps m0 with
    | Except.error msg => Except.error msg
    | Except.ok (Flow.returned code m) =>
      Except.ok { code := code, nSteps := 0, time := tStart, final := m }
    | Except.ok (Flow.next m1) =>
      if !rt.fopenOk then Except.ok { code := 0, nSteps := 0, time := tStart, final := m1 }
      else
        match initializeAll fmus tStart tEnd 0 comps m1 with
        | Except.error msg => Except.error msg
        | Except.ok (Flow.returned code m) =>
          Except.ok { code := code, nSteps := 0, time := tStart, final := m }
        | Except.ok (Flow.next m2) =>
          let m3 := outputRow (outputRow m2 tStart separator true) tStart separator false
          match stepLoop rt fmus tEnd h separator fuel tStart 0 m3 with
          | Except.error msg => Except.error msg
          | Except.ok (time, nSteps, Flow.returned code m) =>
            Except.ok { code := code, nSteps := nSteps, time := time, final := m }
          | Except.ok (time, nSteps, Flow.next m4) =>
            match terminateAll fmus 0 comps m4 with
            | Except.error msg => Except.error msg
            | Except.ok m5 => Except.ok { code := 1, nSteps := nSteps, time := time, final := m5 }

/-! ### Loading (`main.c` 36-75) -/

/-- The loops of `loadGraph` over one port array: `ports[n]->variable =
getVariableByName(fmu->modelDescription, getName(ports[n]))`. -/
def bindVariables (md : ModelDescription) : List Port → Except String (List Port)
  | [] => Except.ok []
  | port :: rest =>
    match getName port.toElement with
    | Except.error msg => Except.error msg
    | Except.ok name =>
      match getVariableByName md name with
      | Except.error msg => Except.error msg
      | Except.ok sv =>
        match bindVariables md rest with
        | Except.error msg => Except.error msg
        | Except.ok ports => Except.ok ({ port with variable_ := sv } :: ports)

/-- The guarded loop `if (comps[i]->inputs) ...` over one port array. -/
def bindVariableArray (md : ModelDescription) (ports : Option (List Port)) :
    Except String (Option (List Port)) :=
  match ports with
  | none => Except.ok none
  | some ps =>
    match bindVariables md ps with
    | Except.error msg => Except.error msg
    | Except.ok ps1 => Except.ok (some ps1)

/-- The loop of `loadGraph` over the components: the module is loaded from the attribute
`fmuPath`, the input ports and then the output ports are bound. `loadFMU` of `sim_support.c` is
not among the sources and is a parameter: the module it loads, or the end of the process. -/
def loadComponents {σ : Type} (loadFMU : Option String → Except String (FMU σ)) :
    List Component → Except String (List Component × List (FMU σ))
  | [] => Except.ok ([], [])
  | comp :: rest =>
    match loadFMU (getString comp.toElement att_fmuPath) with
    | Except.error msg => Except.error msg
    | Except.ok fmu =>
      match bindVariableArray fmu.modelDescription comp.inputs with
      | Except.error msg => Except.error msg
      | Except.ok ins =>
        match bindVariableArray fmu.modelDescription comp.outputs with
        | Except.error msg => Except.error msg
        | Except.ok outs =>
          match loadComponents loadFMU rest with
          | Except.error msg => Except.error msg
          | Except.ok (comps, fmus) =>
            Except.ok ({ comp with inputs := ins, outputs := outs } :: comps, fmu :: fmus)

/-- Function `loadGraph`, given the result `parsed` of `parseGraph`: the graph with every port bound to
its variable, and the modules `comps[i]->fmu`. -/
def loadGraph {σ : Type} (loadFMU : Option String → Except String (FMU σ))
    (parsed : Option Graph) : Except String (Graph × List (FMU σ)) :=
  match parsed with
  | none => Except.error "exit(EXIT_FAILURE)"
  | some graph =>
    match componentsOf graph with
    | Except.error msg => Except.error msg
    | Except.ok comps =>
      match loadComponents loadFMU comps with
      | Except.error msg => Except.error msg
      | Except.ok (comps1, fmus) => Except.ok ({ graph with components := some comps1 }, fmus)

/-! ### Addition of doubles -/

/-- Nearest integer to `p / q` for `q > 0`, ties to the even one. -/
def roundHalfEven (p q : Nat) : Nat :=
  let d := p / q
  let r := p % q
  if 2 * r < q then d else if q < 2 * r then d + 1 else if d % 2 = 0 then d else d + 1

/-- Whether `2 ^ k ≤ p / q`. -/
def atLeastPow2 (p q : Nat) (k : Int) : Bool :=
  if 0 ≤ k then decide (q * 2 ^ k.toNat ≤ p) else decide (q ≤ p * 2 ^ (-k).toNat)

/-- Position of the leading binary digit of `n` (0 for `n < 2`); `fuel` bounds the halvings. -/
def log2Floor : Nat → Nat → Nat
  | 0, _ => 0
  | fuel + 1, n => if n < 2 then 0 else 1 + log2Floor fuel (n / 2)

/-- The binary64 number nearest to `p / q` (`p, q > 0`), ties to even: with `e` the exponent of
`p / q`, the significand `p / q * 2 ^ (52 - e)` is rounded to an integer. The exponent range is
not bounded (no overflow, no subnormal numbers). -/
def f64roundPos (p q : Nat) : ℚ :=
  let k : Int := (log2Floor p p : Int) - (log2Floor q q : Int)
  let e : Int := if atLeastPow2 p q k then k else k - 1
  let s : Int := 52 - e
  if 0 ≤ s then mkRat (roundHalfEven (p * 2 ^ s.toNat) q) (2 ^ s.toNat)
  else ((roundHalfEven p (q * 2 ^ (-s).toNat) * 2 ^ (-s).toNat : Nat) : ℚ)

/-- Rounding of a rational to binary64, round to nearest, ties to even. -/
def f64round (x : ℚ) : ℚ :=
  if x = 0 then 0
  else if 0 < x then f64roundPos x.num.toNat x.den
  else - f64roundPos (-x).num.toNat x.den

/-- IEEE 754 addition of two binary64 numbers: the exact sum, rounded. -/
def f64add (x y : ℚ) : ℚ := f64round (x + y)

/-- Value of the leading decimal digits of the characters, continuing from `acc`. -/
def scanDecimalFrom : List Char → Nat → Nat
  | [], acc => acc
  | c :: rest, acc =>
    if c.isDigit then scanDecimalFrom rest (10 * acc + (c.toNat - 48)) else acc

/-- A conversion for `sscanf("%u")` on strings that start with a decimal digit: the value of the
leading digits as an `unsigned int`; no conversion for other strings. -/
def scanDecimal (s : String) : Option Nat :=
  match s.data with
  | [] => none
  | c :: _ => if c.isDigit then some (scanDecimalFrom s.data 0 % 4294967296) else none

/-- The layout for blocks whose bytes are all zero, as `calloc` leaves them, and for stores of
zero values: `0.0`, `0`, `fmiFalse` and `NULL` all have the all-zero layout, so a cast pointer of
any of the four types reads the zero value of its type from such a block, and a store of a zero
value leaves the block as it is. For a block with other content the result depends on the bit
patterns of the values, which the embedding does not hold; `zeroBlocks` is given for the all-zero
blocks only. -/
def zeroBlocks : Representation :=
  { asReal := fun _ => 0, asInteger := fun _ => 0, asBoolean := fun _ => false,
    asString := fun _ => none, overwritten := fun cell _ => cell }

/-- The platform of `main.c` as built for a machine with IEEE 754 doubles; the result file can be
opened. -/
def ieeeRuntime : Runtime :=
  { add := f64add, scanUInt := scanDecimal, fopenOk := true, representation := zeroBlocks }

/-- The same platform with exact addition instead of rounding. -/
def exactRuntime : Runtime :=
  { add := fun x y => x + y, scanUInt := scanDecimal, fopenOk := true,
    representation := zeroBlocks }

/-! ### A producer and a consumer -/

/-- Example: the model description of a module with the single variable `name` of kind `kind`
and value reference 0. -/
def exampleDescription (name : String) (kind : Elm) : ModelDescription :=
  { toElement := mkElement elm_fmiModelDescription [(att_modelIdentifier, name), (att_guid, "g")],
    unitDefinitions := none, typeDefinitions := none, defaultExperiment := none,
    vendorAnnotations := none,
    modelVariables := some [exampleVariable name kind none],
    cosimulation := none }

/-- Example module A: its state is the value of its Real output `y`, which starts at `a0` and
increases by 1.0 per `doStep`. -/
def producerFMU (a0 : ℚ) : FMU ℚ :=
  { modelDescription := exampleDescription "y" elm_Real,
    instantiateSlave := fun _ _ _ => some a0,
    initializeSlave := fun s _ _ _ => (s, fmiOK),
    getReal := fun s _ _ => (s, s),
    getInteger := fun s _ old => (s, old),
    getBoolean := fun s _ old => (s, old),
    getString := fun s _ old => (s, old),
    setReal := fun s _ _ => s,
    setInteger := fun s _ _ => s,
    setBoolean := fun s _ _ => s,
    setString := fun s _ _ => s,
    doStep := fun s _ _ _ => (s + 1, fmiOK),
    terminateSlave := fun s => (s, fmiOK) }

/-- Example module B: its state is the value last set on its Real input `u`. -/
def consumerFMU : FMU ℚ :=
  { modelDescription := exampleDescription "u" elm_Real,
    instantiateSlave := fun _ _ _ => some 0,
    initializeSlave := fun s _ _ _ => (s, fmiOK),
    getReal := fun s _ _ => (s, s),
    getInteger := fun s _ old => (s, old),
    getBoolean := fun s _ old => (s, old),
    getString := fun s _ old => (s, old),
    setReal := fun _ _ v => v,
    setInteger := fun s _ _ => s,
    setBoolean := fun s _ _ => s,
    setString := fun s _ _ => s,
    doStep := fun s _ _ _ => (s, fmiOK),
    terminateSlave := fun s => (s, fmiOK) }

/-- Example: the wiring document of the pair: the output `y` of `a.fmu` and the input `u` of
`b.fmu` on the connection `c`. -/
def pairWiring : Graph := exampleGraph
  [exampleComponent "a.fmu" none (some [examplePort "y" "Real" (some "c")]),
   exampleComponent "b.fmu" (some [examplePort "u" "Real" (some "c")]) none]
  (some [exampleConnection "c"])

/-- Example: the loader of the pair. -/
def pairLoader (a0 : ℚ) (path : Option String) : Except String (FMU ℚ) :=
  if path = some "a.fmu" then Except.ok (producerFMU a0)
  else if path = some "b.fmu" then Except.ok consumerFMU
  else Except.error "exit(EXIT_FAILURE)"

/-- Example: the graph of the pair after `validateGraph` and `loadGraph`, with the value `v` in
the cell of the connection. -/
def pairGraph (v : ℚ) : Graph :=
  { toElement := mkElement elm_Graph [],
    components := some
      [{ toElement := mkElement elm_Component [(att_fmuPath, "a.fmu")],
         inputs := none,
         outputs := some [{ examplePort "y" "Real" (some "c") with
                            connection := some 0,
                            variable_ := some (exampleVariable "y" elm_Real none) }] },
       { toElement := mkElement elm_Component [(att_fmuPath, "b.fmu")],
         inputs := some [{ examplePort "u" "Real" (some "c") with
                           connection := some 0,
                           variable_ := some (exampleVariable "u" elm_Real none) }],
         outputs := none }],
    connections := some [{ exampleConnection "c" with value := some (Cell.real v) }] }

/-- Example: a state of the master of the pair: the output of A is `a`, the input of B holds
`b`, the cell holds `v`. -/
def pairState (a b v : ℚ) (trace : List Event) : Master ℚ :=
  { graph := pairGraph v, instances := [some a, some b], trace := trace }

/-- The master went from `m1` to `m2` by calls of the given kind only. -/
def ContinuesBy {σ : Type} (kind : Event → Bool) (m1 m2 : Master σ) : Prop :=
  ∃ calls, m2.trace = m1.trace ++ calls ∧ ∀ e ∈ calls, kind e = true

/-! ### Further example documents -/

/-- Example: as `pairWiring`, but the input `u` of `b.fmu` declares the type Integer although the
cell of its connection `c` is allocated for the Real output `y`, which is visited first. -/
def mixedWiring : Graph := exampleGraph
  [exampleComponent "a.fmu" none (some [examplePort "y" "Real" (some "c")]),
   exampleComponent "b.fmu" (some [examplePort "u" "Integer" (some "c")]) none]
  (some [exampleConnection "c"])

/-- Example: a graph whose first bound port has the unknown type `Float`. -/
def illegalTypeWiring : Graph := exampleGraph
  [exampleComponent "a.fmu" none (some [examplePort "y" "Float" (some "c")]),
   exampleComponent "b.fmu" (some [examplePort "u" "Real" (some "c")]) none]
  (some [exampleConnection "c"])

/-- Example: the component `a.fmu` with an output that omits the attribute `connection`. -/
def unboundWiring : Graph := exampleGraph
  [exampleComponent "a.fmu" none (some [examplePort "y" "Real" none])]
  none

/-- Example: a module whose variable `y` is of kind `kind`, with the entry points of the
producer. -/
def kindFMU (kind : Elm) : FMU ℚ :=
  { producerFMU 0 with modelDescription := exampleDescription "y" kind }

/-- Example: the loader that finds `kindFMU kind` at every path. -/
def kindLoader (kind : Elm) (_path : Option String) : Except String (FMU ℚ) :=
  Except.ok (kindFMU kind)

/-- Example: the component `a.fmu` with the output `y`, declared Real, on the connection `c`. -/
def singleWiring : Graph := exampleGraph
  [exampleComponent "a.fmu" none (some [examplePort "y" "Real" (some "c")])]
  (some [exampleConnection "c"])

/-- The graph and the modules that `loadGraph` returns. -/
def loaded {σ : Type} (loadFMU : Option String → Except String (FMU σ)) (parsed : Option Graph) :
    Graph × List (FMU σ) :=
  match loadGraph loadFMU parsed with
  | Except.ok r => r
  | Except.error _ => (exampleGraph [] none, [])

/-- Per port of the graph: the value type of the operation that the step loop selects for it and
the type its cell was allocated for. -/
def portTypes (graph : Graph) : List (Option Enu × Option Enu) :=
  graph.ports.map (fun p =>
    (p.variable_.bind selectedOperation,
     p.connection.bind (fun j => (graph.cellAt j).map Cell.type)))

/-- The code that `simulate` returns, the final `nSteps`, the number of value rows, and the
number of get and set calls. -/
def summary {σ : Type} (run : Except String (Simulation σ)) :
    Except String (Nat × Nat × Nat × Nat) :=
  match run with
  | Except.error msg => Except.error msg
  | Except.ok s =>
    Except.ok (s.code, s.nSteps, (s.final.trace.filter Event.isValueRow).length,
      (s.final.trace.filter (fun e => e.isGet || e.isSet)).length)

/-- The time column of the value rows. -/
def rowTimes : List Event → List ℚ
  | [] => []
  | Event.outputRow time _ false :: rest => time :: rowTimes rest
  | _ :: rest => rowTimes rest

/-- The time column of a run. -/
def timeColumn {σ : Type} (run : Except String (Simulation σ)) : List ℚ :=
  match run with
  | Except.error _ => []
  | Except.ok s => rowTimes s.final.trace

/-- What the wiring document and `validateGraph` fix of a port: its attributes and its
connection. `loadGraph` adds the variable. -/
def Port.wiring (port : Port) : Element × Option Nat := (port.toElement, port.connection)

/-! ## Enumerated attributes of a scalar variable (`xml_parser.c` 171-190) -/

/-- Function `getCausality`; `vs` is the content of the local `ValueStatus vs` at the call, which
the code does not initialise. -/
def getCausality (scalarVariable : Element) (vs : ValueStatus) : Enu :=
  (getEnumValue scalarVariable att_causality vs).1

/-- Function `getVariability`; `vs` as for `getCausality`. -/
def getVariability (scalarVariable : Element) (vs : ValueStatus) : Enu :=
  (getEnumValue scalarVariable att_variability vs).1

/-- Function `getAlias`; `vs` as for `getCausality`. -/
def getAlias (scalarVariable : Element) (vs : ValueStatus) : Enu :=
  (getEnumValue scalarVariable att_alias vs).1

/-! ## Vocabulary for the calls of a run -/

/-- The component that a call addresses; a row of the result file addresses none. -/
def Event.component : Event → Option Nat
  | Event.instantiateSlave i _ => some i
  | Event.initializeSlave i _ => some i
  | Event.get i _ _ _ _ => some i
  | Event.set i _ _ _ _ => some i
  | Event.doStep i _ _ _ => some i
  | Event.outputRow _ _ _ => none
  | Event.terminateSlave i => some i
  | Event.freeSlaveInstance i => some i

/-- The place of a call in the lifecycle: 0 instantiate, 1 initialize, 2 the rounds of
get/set/doStep (and the rows written between them), 3 terminate, 4 free. -/
def Event.stage : Event → Nat
  | Event.instantiateSlave _ _ => 0
  | Event.initializeSlave _ _ => 1
  | Event.get _ _ _ _ _ => 2
  | Event.set _ _ _ _ _ => 2
  | Event.doStep _ _ _ _ => 2
  | Event.outputRow _ _ _ => 2
  | Event.terminateSlave _ => 3
  | Event.freeSlaveInstance _ => 4

/-- The order of two calls to one component: the earlier one is at an earlier stage, or both
belong to the rounds of get/set/doStep. -/
def Event.precedes (a b : Event) : Prop :=
  ∀ i, a.component = some i → b.component = some i → a.stage < b.stage ∨ (a.stage = 2 ∧ b.stage = 2)

/-- The results named as abort thresholds: a null handle from `instantiateSlave`, a status above
`fmiWarning` from `initializeSlave`, a status other than `fmiOK` from `doStep`. -/
def Event.aborts : Event → Bool
  | Event.instantiateSlave _ ok => !ok
  | Event.initializeSlave _ status => decide (status > fmiWarning)
  | Event.doStep _ _ _ status => decide (status ≠ fmiOK)
  | _ => false

/-- A call of the rounds, or a row, that is no abort. -/
def Event.steady (e : Event) : Bool := decide (e.stage = 2) && !e.aborts

/-- The call `terminateSlave` or `freeSlaveInstance`. -/
def Event.isTeardown : Event → Bool
  | Event.terminateSlave _ => true
  | Event.freeSlaveInstance _ => true
  | _ => false

/-- The calls `instantiateSlave` to the components `i`, `i + 1`, ... with the given outcomes. -/
def instantiations : Nat → List Bool → List Event
  | _, [] => []
  | i, ok :: rest => Event.instantiateSlave i ok :: instantiations (i + 1) rest

/-- The calls `initializeSlave` to the components `i`, `i + 1`, ... with the given statuses. -/
def initializations : Nat → List fmiStatus → List Event
  | _, [] => []
  | i, status :: rest => Event.initializeSlave i status :: initializations (i + 1) rest

/-- The calls `terminateSlave`, `freeSlaveInstance` to the `k` components from `i` on. -/
def teardowns : Nat → Nat → List Event
  | _, 0 => []
  | i, k + 1 => Event.terminateSlave i :: Event.freeSlaveInstance i :: teardowns (i + 1) k

/-- The phases of a run over `n` components that returned `code`: the instantiations, the
initializations, the rounds and the teardown, each in component order; a later phase starts only
when the one before it is complete, an abort ends the run, and the teardown is made exactly when
the run returns success. -/
def Phases (n : Nat) (fopenOk : Bool) (code : Nat) (trace : List Event) : Prop :=
  ∃ (oks : List Bool) (statuses : List fmiStatus) (rounds : List Event) (t : Nat),
    trace = instantiations 0 oks ++ initializations 0 statuses ++ rounds ++ teardowns 0 t ∧
    oks.length ≤ n ∧ statuses.length ≤ n ∧ (∀ e ∈ rounds, e.stage = 2) ∧
    (statuses ≠ [] → oks = List.replicate n true) ∧
    (rounds ≠ [] → oks = List.replicate n true ∧ statuses.length = n ∧
      ∀ s ∈ statuses, s ≤ fmiWarning) ∧
    (code = 1 → fopenOk = true ∧ t = n ∧ oks = List.replicate n true ∧ statuses.length = n ∧
      (∀ s ∈ statuses, s ≤ fmiWarning) ∧ (∀ e ∈ rounds, e.aborts = false)) ∧
    (code ≠ 1 → code = 0 ∧ t = 0 ∧
      (fopenOk = false ∧ (∀ e ∈ trace, e.aborts = false) ∨
       ∃ calls e, trace = calls ++ [e] ∧ (∀ x ∈ calls, x.aborts = false) ∧ e.aborts = true))

/-- Example: the producer with a `doStep` that returns `status`. -/
def steppingFMU (status : fmiStatus) : FMU ℚ :=
  { producerFMU 0 with doStep := fun s _ _ _ => (s, status) }

/-- Example: the producer with an `initializeSlave` that returns `status`. -/
def initializingFMU (status : fmiStatus) : FMU ℚ :=
  { producerFMU 0 with initializeSlave := fun s _ _ _ => (s, status) }

/-- Example: the graph of `singleWiring` after `validateGraph` and `loadGraph`. -/
def singleGraph : Graph := (loaded (kindLoader elm_Real) (validated singleWiring).result).1

/-- The master went from `m1` to `m2` by steady calls and then one call of the rounds that is an
abort. -/
def AbortsBy {σ : Type} (m1 m2 : Master σ) : Prop :=
  ∃ calls e, m2.trace = m1.trace ++ calls ++ [e] ∧ (∀ x ∈ calls, x.steady = true) ∧
    e.stage = 2 ∧ e.aborts = true

/-- How a part of the step loop ends: it falls through after steady calls, or `simulate` returns
the failure code after an abort. -/
def StepOutcome {σ : Type} (m : Master σ) (f : Flow σ) : Prop :=
  (∃ m1, f = Flow.next m1 ∧ ContinuesBy Event.steady m m1) ∨
  (∃ m1, f = Flow.returned 0 m1 ∧ AbortsBy m m1)

/-- Example: the component `a.fmu` with an output port named `z`, on the connection `c`; the
module found at every path by `kindLoader` declares the variable `y` only. -/
def unmatchedWiring : Graph := exampleGraph
  [exampleComponent "a.fmu" none (some [examplePort "z" "Real" (some "c")])]
  (some [exampleConnection "c"])

/-- Per port of the graph that `loadGraph` returns: its name and whether its variable is set. -/
def boundPorts {σ : Type} (loading : Except String (Graph × List (FMU σ))) :
    Except String (List (Option String × Bool)) :=
  loading.map (fun r => r.1.ports.map (fun p => (getString p.toElement att_name,
    p.variable_.isSome)))

/-- The calls made by the loop "instantiate slaves" at the start of `simulate`. -/
def instantiateCalls {σ : Type} (fmus : List (FMU σ)) (graph : Graph) (loggingOn : Bool) :
    Except String (List Event) :=
  (instantiateAll fmus loggingOn 0 (graph.components.getD [])
    { graph := graph, instances := (graph.components.getD []).map (fun _ => none),
      trace := [] }).map (fun f => f.master.trace)

/-! ## The parser stack machine (`xml_parser.c` 59-65, 301-761) -/

def elm_UnitDefinitions : Elm := 1
def elm_BaseUnit : Elm := 2
def elm_DisplayUnitDefinition : Elm := 3
def elm_IntegerType : Elm := 7
def elm_BooleanType : Elm := 8
def elm_StringType : Elm := 9
def elm_EnumerationType : Elm := 10
def elm_Item : Elm := 11
def elm_DefaultExperiment : Elm := 12
def elm_VendorAnnotations : Elm := 13
def elm_Tool : Elm := 14
def elm_Annotation : Elm := 15
def elm_DirectDependency : Elm := 18
def elm_Name : Elm := 19
def elm_Implementation : Elm := 25
def elm_CoSimulation_StandAlone : Elm := 26
def elm_CoSimulation_Tool : Elm := 27
def elm_Model : Elm := 28
def elm_File : Elm := 29
def elm_Capabilities : Elm := 30

/-- The macro `ANY_TYPE`. -/
def ANY_TYPE : Int := -1

/-- The types of AST nodes (`xml_parser.h` 168-182). -/
inductive AstNodeType where
  | astElement : AstNodeType
  | astListElement : AstNodeType
  | astType : AstNodeType
  | astScalarVariable : AstNodeType
  | astCoSimulation : AstNodeType
  | astModelDescription : AstNodeType
  | astComponent : AstNodeType
  | astPort : AstNodeType
  | astConnection : AstNodeType
  | astGraph : AstNodeType
deriving DecidableEq, Repr

/-- Function `getAstNodeType` (`xml_parser.c` 372-412). -/
def getAstNodeType (e : Elm) : AstNodeType :=
  if e = elm_fmiModelDescription then AstNodeType.astModelDescription
  else if e = elm_Type then AstNodeType.astType
  else if e = elm_ScalarVariable then AstNodeType.astScalarVariable
  else if e = elm_CoSimulation_StandAlone ∨ e = elm_CoSimulation_Tool then
    AstNodeType.astCoSimulation
  else if e = elm_BaseUnit ∨ e = elm_EnumerationType ∨ e = elm_Tool ∨ e = elm_UnitDefinitions ∨
      e = elm_TypeDefinitions ∨ e = elm_VendorAnnotations ∨ e = elm_ModelVariables ∨
      e = elm_DirectDependency ∨ e = elm_Model then AstNodeType.astListElement
  else if e = elm_Graph then AstNodeType.astGraph
  else if e = elm_Component then AstNodeType.astComponent
  else if e = elm_Connection then AstNodeType.astConnection
  else if e = elm_Port then AstNodeType.astPort
  else if e = elm_Components ∨ e = elm_Inputs ∨ e = elm_Outputs ∨ e = elm_Connections then
    AstNodeType.astListElement
  else AstNodeType.astElement

/-- A node as the parser holds it on its stack: one of the structs of `xml_parser.h` 74-166, with
the children it points to. A constructor is the struct that was allocated; the fields after the
`Element` part are `NULL` (`none`) as `calloc` leaves them until an end handler sets them. -/
inductive Node where
  | astElement (e : Element) : Node
  | astListElement (e : Element) (list : Option (List Node)) : Node
  | astType (e : Element) (typeSpec : Option Node) : Node
  | astScalarVariable (e : Element) (typeSpec : Option Node)
      (directDependencies : Option (List Node)) : Node
  | astCoSimulation (e : Element) (capabilities : Option Node) (model : Option Node) : Node
  | astModelDescription (e : Element) (unitDefinitions typeDefinitions : Option (List Node))
      (defaultExperiment : Option Node) (vendorAnnotations modelVariables : Option (List Node))
      (cosimulation : Option Node) : Node
  | astComponent (e : Element) (inputs outputs : Option (List Node)) : Node
  | astPort (e : Element) (connection : Option Nat) (variable_ : Option ScalarVariable) : Node
  | astConnection (e : Element) (value : Option Cell) : Node
  | astGraph (e : Element) (components connections : Option (List Node)) : Node

/-- The `Element` part with which every node starts. -/
def Node.toElement : Node → Element
  | Node.astElement e => e
  | Node.astListElement e _ => e
  | Node.astType e _ => e
  | Node.astScalarVariable e _ _ => e
  | Node.astCoSimulation e _ _ => e
  | Node.astModelDescription e _ _ _ _ _ _ => e
  | Node.astComponent e _ _ => e
  | Node.astPort e _ _ => e
  | Node.astConnection e _ => e
  | Node.astGraph e _ _ => e

/-- The field `type` of a node. -/
def Node.type (node : Node) : Elm := node.toElement.type

/-- The struct that was allocated for the node. -/
def Node.variant : Node → AstNodeType
  | Node.astElement _ => AstNodeType.astElement
  | Node.astListElement _ _ => AstNodeType.astListElement
  | Node.astType _ _ => AstNodeType.astType
  | Node.astScalarVariable _ _ _ => AstNodeType.astScalarVariable
  | Node.astCoSimulation _ _ _ => AstNodeType.astCoSimulation
  | Node.astModelDescription _ _ _ _ _ _ _ => AstNodeType.astModelDescription
  | Node.astComponent _ _ _ => AstNodeType.astComponent
  | Node.astPort _ _ _ => AstNodeType.astPort
  | Node.astConnection _ _ => AstNodeType.astConnection
  | Node.astGraph _ _ _ => AstNodeType.astGraph

/-- The read `((ListElement*)node)->list`. The parser makes this cast only after a test of the
`type` of the node, and `startElement` allocates the struct that `getAstNodeType` gives for the
`type`; for a node of another struct the read is outside the allocation. -/
def Node.list : Node → Except String (Option (List Node))
  | Node.astListElement _ list => Except.ok list
  | _ => Except.error "cast to ListElement of a node of another struct"

/-- The node that `calloc` and `addAttributes` leave for an element of type `type`: the struct
chosen by `getAstNodeType` (the `size` that `startElement` computes) with all pointers `NULL`. -/
def newNode (type : Elm) (e : Element) : Node :=
  match getAstNodeType type with
  | AstNodeType.astElement => Node.astElement e
  | AstNodeType.astListElement => Node.astListElement e none
  | AstNodeType.astType => Node.astType e none
  | AstNodeType.astScalarVariable => Node.astScalarVariable e none none
  | AstNodeType.astCoSimulation => Node.astCoSimulation e none none
  | AstNodeType.astModelDescription => Node.astModelDescription e none none none none none none
  | AstNodeType.astComponent => Node.astComponent e none none
  | AstNodeType.astPort => Node.astPort e none none
  | AstNodeType.astConnection => Node.astConnection e none
  | AstNodeType.astGraph => Node.astGraph e none none

/-- The globals of the parser: the stack (top first; an entry may be `NULL`), whether
`XML_StopParser` has been called, the buffer `data` and the flag `skipData`. -/
structure ParserState where
  stack : List (Option Node)
  stopped : Bool
  data : Option String
  skipData : Bool

/-- The call `XML_StopParser(parser, XML_FALSE)`. -/
def ParserState.stop (p : ParserState) : ParserState := { p with stopped := true }

/-- Modelled from the spec: `stackPush` of `stack.c`, which is not among the sources; the stack
grows as needed. -/
def stackPush (p : ParserState) (e : Option Node) : ParserState := { p with stack := e :: p.stack }

/-- Modelled from the spec: `stackPop` of `stack.c`, which is not among the sources. There is no
entry to return when the stack is empty. -/
def stackPop (p : ParserState) : Except String (Option Node × ParserState) :=
  match p.stack with
  | [] => Except.error "stackPop: empty stack"
  | top :: rest => Except.ok (top, { p with stack := rest })

/-- Function `checkElementType`: 1 if the node has type `e`; otherwise the parser is stopped
(`logFatalTypeError`) and the result is 0. The node is dereferenced. -/
def checkElementType (element : Option Node) (e : Elm) (p : ParserState) :
    Except String (Bool × ParserState) :=
  match element with
  | none => Except.error "null dereference: elm->type"
  | some node => if node.type = e then Except.ok (true, p) else Except.ok (false, p.stop)

/-- Function `checkPeek`. On an empty stack the message names `elmNames[e]`, which for
`e == ANY_TYPE` is a read before the start of the table. -/
def checkPeek (e : Int) (p : ParserState) : Except String (Bool × ParserState) :=
  match p.stack with
  | [] =>
    if e = ANY_TYPE then Except.error "out of bounds: elmNames[ANY_TYPE]"
    else Except.ok (false, p.stop)
  | top :: _ => if e = ANY_TYPE then Except.ok (true, p) else checkElementType top e.toNat p

/-- Function `checkPop`: the popped entry, `NULL` (`none`) when `checkPeek` fails. -/
def checkPop (e : Int) (p : ParserState) : Except String (Option Node × ParserState) :=
  match checkPeek e p with
  | Except.error msg => Except.error msg
  | Except.ok (true, p1) => stackPop p1
  | Except.ok (false, p1) => Except.ok (none, p1)

/-- Function `startElement`. For an unknown element name `checkName` stops the parser and nothing
is pushed. For an unknown attribute name `checkAttribute` stops the parser, `newElement` returns
`NULL`, `checkPointer` stops the parser again, and the `NULL` is pushed. -/
def startElement (elm : String) (attr : List (String × String)) (p : ParserState) :
    ParserState :=
  let el := checkElement elm
  if el = -1 then p.stop
  else
    let p1 := { p with skipData := decide (el.toNat ≠ elm_Name) }
    match newElement el.toNat attr with
    | none => stackPush p1.stop none
    | some e => stackPush p1 (some (newNode el.toNat e))

/-- The loop of `popList`: `elm` is the entry popped last, `stack` what remains, `popped` the
nodes of type `e` popped before it, the one popped last in front. -/
def popListLoop (e : Elm) (elm : Option Node) (stack : List (Option Node)) (popped : List Node) :
    Except String (Node × List (Option Node) × List Node) :=
  match elm with
  | none => Except.error "null dereference: elm->type"
  | some node =>
    if node.type = e then
      match stack with
      | [] => Except.error "stackPop: empty stack"
      | next :: rest => popListLoop e next rest (node :: popped)
    else Except.ok (node, stack, popped)

/-- Function `popList`. The array that `stackLastPopedAsArray0` (of `stack.c`, not among the
sources) builds holds the popped nodes in the order in which they were pushed. -/
def popList (e : Elm) (p : ParserState) : Except String ParserState :=
  match p.stack with
  | [] => Except.error "stackPop: empty stack"
  | top :: rest =>
    match popListLoop e top rest [] with
    | Except.error msg => Except.error msg
    | Except.ok (elm, stack1, array) =>
      match elm with
      | Node.astListElement el _ =>
        if getAstNodeType elm.type ≠ AstNodeType.astListElement then
          Except.ok { p with stack := some elm :: stack1 }
        else Except.ok { p with stack := some (Node.astListElement el (some array)) :: stack1 }
      | _ =>
        if getAstNodeType elm.type ≠ AstNodeType.astListElement then
          Except.ok { p with stack := some elm :: stack1 }
        else Except.error "cast to ListElement of a node of another struct"

/-- How a case of `endElement` ends: the state it leaves and, when it ends with `break`, the
value of `el` for the final `checkPeek(el)`; `none` when it ends with `return`. -/
abbrev CaseEnd := ParserState × Option Elm

/-- The statements `child = checkPop(ANY_TYPE); if (!child) return;` followed by the code `rest`. -/
def popChild (p : ParserState) (rest : Node → ParserState → Except String CaseEnd) :
    Except String CaseEnd :=
  match checkPop ANY_TYPE p with
  | Except.error msg => Except.error msg
  | Except.ok (none, p1) => Except.ok (p1, none)
  | Except.ok (some child, p1) => rest child p1

/-- Case `elm_fmiModelDescription` from the check of the root on (`xml_parser.c` 557-566), with the
locals set so far. -/
def mdAssign (cs : Option Node) (mv va : Option (List Node)) (de : Option Node)
    (td ud : Option (List Node)) (child : Node) (p : ParserState) : Except String CaseEnd :=
  if child.type = elm_fmiModelDescription then
    match child with
    | Node.astModelDescription e _ _ _ _ _ _ =>
      Except.ok (stackPush p (some (Node.astModelDescription e ud td de va mv cs)),
        some elm_fmiModelDescription)
    | _ => Except.error "cast to ModelDescription of a node of another struct"
  else Except.ok (p.stop, none)

/-- Case `elm_fmiModelDescription` from the test for a CoSimulation below the other sections
on (`xml_parser.c` 551-556). -/
def mdCoSimulationBelow (cs : Option Node) (mv va : Option (List Node)) (de : Option Node)
    (td ud : Option (List Node)) (child : Node) (p : ParserState) : Except String CaseEnd :=
  if cs.isNone ∧ (child.type = elm_CoSimulation_StandAlone ∨ child.type = elm_CoSimulation_Tool)
  then popChild p (mdAssign (some child) mv va de td ud)
  else mdAssign cs mv va de td ud child p

/-- Case `elm_fmiModelDescription` from the test for UnitDefinitions on (544-549). -/
def mdUnitDefinitions (cs : Option Node) (mv va : Option (List Node)) (de : Option Node)
    (td : Option (List Node)) (child : Node) (p : ParserState) : Except String CaseEnd :=
  if child.type = elm_UnitDefinitions then
    match child.list with
    | Except.error msg => Except.error msg
    | Except.ok ud => popChild p (mdCoSimulationBelow cs mv va de td ud)
  else mdCoSimulationBelow cs mv va de td none child p

/-- Case `elm_fmiModelDescription` from the test for TypeDefinitions on (538-543). -/
def mdTypeDefinitions (cs : Option Node) (mv va : Option (List Node)) (de : Option Node)
    (child : Node) (p : ParserState) : Except String CaseEnd :=
  if child.type = elm_TypeDefinitions then
    match child.list with
    | Except.error msg => Except.error msg
    | Except.ok td => popChild p (mdUnitDefinitions cs mv va de td)
  else mdUnitDefinitions cs mv va de none child p

/-- Case `elm_fmiModelDescription` from the test for DefaultExperiment on (533-537). -/
def mdDefaultExperiment (cs : Option Node) (mv va : Option (List Node)) (child : Node)
    (p : ParserState) : Except String CaseEnd :=
  if child.type = elm_DefaultExperiment then popChild p (mdTypeDefinitions cs mv va (some child))
  else mdTypeDefinitions cs mv va none child p

/-- Case `elm_fmiModelDescription` from the test for VendorAnnotations on (527-532). -/
def mdVendorAnnotations (cs : Option Node) (mv : Option (List Node)) (child : Node)
    (p : ParserState) : Except String CaseEnd :=
  if child.type = elm_VendorAnnotations then
    match child.list with
    | Except.error msg => Except.error msg
    | Except.ok va => popChild p (mdDefaultExperiment cs mv va)
  else mdDefaultExperiment cs mv none child p

/-- Case `elm_fmiModelDescription` from the test for ModelVariables on (521-526). -/
def mdModelVariables (cs : Option Node) (child : Node) (p : ParserState) :
    Except String CaseEnd :=
  if child.type = elm_ModelVariables then
    match child.list with
    | Except.error msg => Except.error msg
    | Except.ok mv => popChild p (mdVendorAnnotations cs mv)
  else mdVendorAnnotations cs none child p

/-- Case `elm_fmiModelDescription` of `endElement` (`xml_parser.c` 506-568). The first
`checkPop(ANY_TYPE)` is dereferenced without a test. -/
def endModelDescription (p : ParserState) : Except String CaseEnd :=
  match checkPop ANY_TYPE p with
  | Except.error msg => Except.error msg
  | Except.ok (none, _) => Except.error "null dereference: child->type"
  | Except.ok (some child, p1) =>
    if child.type = elm_CoSimulation_StandAlone ∨ child.type = elm_CoSimulation_Tool then
      popChild p1 (mdModelVariables (some child))
    else mdModelVariables none child p1

/-- Case `elm_Implementation` (569-578); `el` becomes the type of the node put back. -/
def endImplementation (p : ParserState) : Except String CaseEnd :=
  match checkPop ANY_TYPE p with
  | Except.error msg => Except.error msg
  | Except.ok (cs, p1) =>
    match checkPop elm_Implementation p1 with
    | Except.error msg => Except.error msg
    | Except.ok (_, p2) =>
      match cs with
      | none => Except.error "null dereference: cs->type"
      | some node => Except.ok (stackPush p2 cs, some node.type)

/-- Case `elm_CoSimulation_StandAlone` (579-587). -/
def endCoSimulationStandAlone (p : ParserState) : Except String CaseEnd :=
  match checkPop elm_Capabilities p with
  | Except.error msg => Except.error msg
  | Except.ok (ca, p1) =>
    match checkPop elm_CoSimulation_StandAlone p1 with
    | Except.error msg => Except.error msg
    | Except.ok (cs, p2) =>
      match ca, cs with
      | some _, some (Node.astCoSimulation e _ model) =>
        Except.ok (stackPush p2 (some (Node.astCoSimulation e ca model)),
          some elm_CoSimulation_StandAlone)
      | some _, some _ => Except.error "cast to CoSimulation of a node of another struct"
      | _, _ => Except.ok (p2, none)

/-- Case `elm_CoSimulation_Tool` (588-598). -/
def endCoSimulationTool (p : ParserState) : Except String CaseEnd :=
  match checkPop elm_Model p with
  | Except.error msg => Except.error msg
  | Except.ok (mo, p1) =>
    match checkPop elm_Capabilities p1 with
    | Except.error msg => Except.error msg
    | Except.ok (ca, p2) =>
      match checkPop elm_CoSimulation_Tool p2 with
      | Except.error msg => Except.error msg
      | Except.ok (cs, p3) =>
        match ca, mo, cs with
        | some _, some _, some (Node.astCoSimulation e _ _) =>
          Except.ok (stackPush p3 (some (Node.astCoSimulation e ca mo)),
            some elm_CoSimulation_Tool)
        | some _, some _, some _ =>
          Except.error "cast to CoSimulation of a node of another struct"
        | _, _, _ => Except.ok (p3, none)

/-- The `switch (ts->type)` of case `elm_Type`. -/
def isTypeSpecOfType (type : Elm) : Bool :=
  decide (type = elm_RealType ∨ type = elm_IntegerType ∨ type = elm_BooleanType ∨
    type = elm_StringType ∨ type = elm_EnumerationType)

/-- The `switch (child->type)` of case `elm_ScalarVariable`. -/
def isTypeSpecOfVariable (type : Elm) : Bool :=
  decide (type = elm_Real ∨ type = elm_Integer ∨ type = elm_Boolean ∨ type = elm_String ∨
    type = elm_Enumeration)

/-- Case `elm_Type` (599-619): the type spec is attached to the node on top of the stack after
the pop, which `checkPeek` has found to be of type Type. -/
def endType (p : ParserState) : Except String CaseEnd :=
  match checkPop ANY_TYPE p with
  | Except.error msg => Except.error msg
  | Except.ok (none, p1) => Except.ok (p1, none)
  | Except.ok (some ts, p1) =>
    match checkPeek elm_Type p1 with
    | Except.error msg => Except.error msg
    | Except.ok (false, p2) => Except.ok (p2, none)
    | Except.ok (true, p2) =>
      if isTypeSpecOfType ts.type then
        match p2.stack with
        | some (Node.astType e _) :: rest =>
          Except.ok ({ p2 with stack := some (Node.astType e (some ts)) :: rest }, some elm_Type)
        | _ => Except.error "cast to Type of a node of another struct"
      else Except.ok (p2.stop, none)

/-- Case `elm_ScalarVariable` from `checkPeek(elm_ScalarVariable)` on (631-647), with the locals
`list` and `child`. -/
def svAttach (list : Option (List Node)) (child : Node) (p : ParserState) :
    Except String CaseEnd :=
  match checkPeek elm_ScalarVariable p with
  | Except.error msg => Except.error msg
  | Except.ok (false, p1) => Except.ok (p1, none)
  | Except.ok (true, p1) =>
    if isTypeSpecOfVariable child.type then
      match p1.stack with
      | some (Node.astScalarVariable e _ _) :: rest =>
        Except.ok ({ p1 with stack := some (Node.astScalarVariable e (some child) list) :: rest },
          some elm_ScalarVariable)
      | _ => Except.error "cast to ScalarVariable of a node of another struct"
    else Except.ok (p1.stop, none)

/-- Case `elm_ScalarVariable` (620-648). -/
def endScalarVariable (p : ParserState) : Except String CaseEnd :=
  popChild p (fun child p1 =>
    if child.type = elm_DirectDependency then
      match child.list with
      | Except.error msg => Except.error msg
      | Except.ok list => popChild p1 (svAttach list)
    else svAttach none child p1)

/-- Case `elm_Name` (658-671): the content recorded in `data` becomes the value of the attribute
`input` of the node. -/
def endName (p : ParserState) : Except String CaseEnd :=
  match checkPop elm_Name p with
  | Except.error msg => Except.error msg
  | Except.ok (none, p1) => Except.ok (p1, none)
  | Except.ok (some name, p1) =>
    match name with
    | Node.astElement e =>
      let slot : CStr := match p1.data with
        | some s => CStr.heap s
        | none => CStr.null
      let e1 : Element := { e with n := 2, attributes := some [CStr.tbl att_input, slot] }
      Except.ok ({ p1 with stack := some (Node.astElement e1) :: p1.stack, data := none,
                           skipData := true }, some elm_Name)
    | _ => Except.error "node of another struct"

/-- Case `elm_Graph` from the test for Components on (`xml_parser.c` 690-701). -/
def graphComponents (conns : Option (List Node)) (child : Node) (p : ParserState) :
    Except String CaseEnd :=
  let assign := fun (comps : Option (List Node)) (child : Node) (p : ParserState) =>
    if child.type = elm_Graph then
      match child with
      | Node.astGraph e _ _ =>
        (Except.ok (stackPush p (some (Node.astGraph e comps conns)), some elm_Graph) :
          Except String CaseEnd)
      | _ => Except.error "cast to Graph of a node of another struct"
    else Except.ok (p.stop, none)
  if child.type = elm_Components then
    match child.list with
    | Except.error msg => Except.error msg
    | Except.ok comps => popChild p (assign comps)
  else assign none child p

/-- Case `elm_Graph` (676-702). The first `checkPop(ANY_TYPE)` is dereferenced without a test. -/
def endGraph (p : ParserState) : Except String CaseEnd :=
  match checkPop ANY_TYPE p with
  | Except.error msg => Except.error msg
  | Except.ok (none, _) => Except.error "null dereference: child->type"
  | Except.ok (some child, p1) =>
    if child.type = elm_Connections then
      match child.list with
      | Except.error msg => Except.error msg
      | Except.ok conns => popChild p1 (graphComponents conns)
    else graphComponents none child p1

/-- Case `elm_Component` from the test for Inputs on (718-730). -/
def componentInputs (outs : Option (List Node)) (child : Node) (p : ParserState) :
    Except String CaseEnd :=
  let assign := fun (ins : Option (List Node)) (child : Node) (p : ParserState) =>
    if child.type = elm_Component then
      match child with
      | Node.astComponent e _ _ =>
        (Except.ok (stackPush p (some (Node.astComponent e ins outs)), some elm_Component) :
          Except String CaseEnd)
      | _ => Except.error "cast to Component of a node of another struct"
    else Except.ok (p.stop, none)
  if child.type = elm_Inputs then
    match child.list with
    | Except.error msg => Except.error msg
    | Except.ok ins => popChild p (assign ins)
  else assign none child p

/-- Case `elm_Component` (703-731). -/
def endComponent (p : ParserState) : Except String CaseEnd :=
  popChild p (fun child p1 =>
    if child.type = elm_Outputs then
      match child.list with
      | Except.error msg => Except.error msg
      | Except.ok outs => popChild p1 (componentInputs outs)
    else componentInputs none child p1)

/-- Case `elm_Connection` (736-743). -/
def endConnection (p : ParserState) : Except String CaseEnd :=
  match checkPop elm_Connection p with
  | Except.error msg => Except.error msg
  | Except.ok (none, p1) => Except.ok (p1, none)
  | Except.ok (some con, p1) =>
    match con with
    | Node.astConnection e _ =>
      Except.ok (stackPush p1 (some (Node.astConnection e none)), some elm_Connection)
    | _ => Except.error "cast to Connection of a node of another struct"

/-- Case `elm_Port` (744-751). -/
def endPort (p : ParserState) : Except String CaseEnd :=
  match checkPop elm_Port p with
  | Except.error msg => Except.error msg
  | Except.ok (none, p1) => Except.ok (p1, none)
  | Except.ok (some port, p1) =>
    match port with
    | Node.astPort e _ variable_ =>
      Except.ok (stackPush p1 (some (Node.astPort e none variable_)), some elm_Port)
    | _ => Except.error "cast to Port of a node of another struct"

/-- A case of `endElement` that is a call of `popList` followed by `break`. -/
def endList (e el : Elm) (p : ParserState) : Except String CaseEnd :=
  match popList e p with
  | Except.error msg => Except.error msg
  | Except.ok p1 => Except.ok (p1, some el)

/-- The `switch (el)` of `endElement` for a known element name. -/
def endCase (el : Elm) (p : ParserState) : Except String CaseEnd :=
  if el = elm_fmiModelDescription then endModelDescription p
  else if el = elm_Implementation then endImplementation p
  else if el = elm_CoSimulation_StandAlone then endCoSimulationStandAlone p
  else if el = elm_CoSimulation_Tool then endCoSimulationTool p
  else if el = elm_Type then endType p
  else if el = elm_ScalarVariable then endScalarVariable p
  else if el = elm_ModelVariables then endList elm_ScalarVariable el p
  else if el = elm_VendorAnnotations then endList elm_Tool el p
  else if el = elm_Tool then endList elm_Annotation el p
  else if el = elm_TypeDefinitions then endList elm_Type el p
  else if el = elm_EnumerationType then endList elm_Item el p
  else if el = elm_UnitDefinitions then endList elm_BaseUnit el p
  else if el = elm_BaseUnit then endList elm_DisplayUnitDefinition el p
  else if el = elm_DirectDependency then endList elm_Name el p
  else if el = elm_Model then endList elm_File el p
  else if el = elm_Name then endName p
  else if el = elm_Graph then endGraph p
  else if el = elm_Component then endComponent p
  else if el = elm_Components then endList elm_Component el p
  else if el = elm_Inputs then endList elm_Port el p
  else if el = elm_Outputs then endList elm_Port el p
  else if el = elm_Connections then endList elm_Connection el p
  else if el = elm_Connection then endConnection p
  else if el = elm_Port then endPort p
  else if getAstNodeType el = AstNodeType.astElement then Except.ok (p, some el)
  else Except.error "assert(getAstNodeType(el)==astElement)"

/-- Function `endElement` (`xml_parser.c` 502-761): the reduction for the element, and after a
`break` the final `checkPeek(el)`, whose result is not used. -/
def endElement (elm : String) (p : ParserState) : Except String ParserState :=
  let el := checkElement elm
  if el = -1 then Except.ok p.stop
  else
    match endCase el.toNat p with
    | Except.error msg => Except.error msg
    | Except.ok (p1, none) => Except.ok p1
    | Except.ok (p1, some el1) =>
      match checkPeek el1 p1 with
      | Except.error msg => Except.error msg
      | Except.ok (_, p2) => Except.ok p2

/-- Function `handleData` (`xml_parser.c` 770-789); the chunk `s` has the length `len`. -/
def handleData (s : String) (p : ParserState) : ParserState :=
  if p.skipData then p
  else
    match p.data with
    | none => { p with data := some (if s = "\n" then "" else s) }
    | some d => { p with data := some (d ++ s) }

/-! ## The tokenizer and the entry functions (`xml_parser.c` 1080-1152) -/

/-- The calls that the tokenizer makes to the handlers registered by `parse` and `parseGraph`:
`startElement` with the element name and the attribute pairs, `endElement` with the element name,
`handleData` with a chunk of element content. -/
inductive XmlEvent where
  | startElement (elm : String) (attr : List (String × String)) : XmlEvent
  | endElement (elm : String) : XmlEvent
  | handleData (s : String) : XmlEvent
deriving DecidableEq, Repr

/-- What the tokenizer and the handlers hold between two calls: the names of the open elements
(innermost first), whether the root has been closed, whether the document is well-formed so far,
and the globals of the parser. -/
structure Tokenizer where
  openTags : List String
  closed : Bool
  wellFormed : Bool
  globals : ParserState

/-- The state at the start of `parse` and `parseGraph`: an empty stack, `data == NULL`,
`skipData == 0`. -/
def Tokenizer.initial : Tokenizer :=
  { openTags := [], closed := false, wellFormed := true,
    globals := { stack := [], stopped := false, data := none, skipData := false } }

/-- Modelled from the spec: one step of `XML_Parse` of the tokenizer library, which is not among
the sources. It checks that open and close tags match and that there is one root element, and
calls the handler for the event; once the parser has been stopped or the document has been found
ill-formed it makes no further call. -/
def deliver (t : Tokenizer) (ev : XmlEvent) : Except String Tokenizer :=
  if t.globals.stopped ∨ t.wellFormed = false then Except.ok t
  else
    match ev with
    | XmlEvent.startElement elm attr =>
      if t.closed then Except.ok { t with wellFormed := false }
      else Except.ok { t with openTags := elm :: t.openTags,
                              globals := startElement elm attr t.globals }
    | XmlEvent.endElement elm =>
      match t.openTags with
      | [] => Except.ok { t with wellFormed := false }
      | top :: below =>
        if top ≠ elm then Except.ok { t with wellFormed := false }
        else
          match endElement elm t.globals with
          | Except.error msg => Except.error msg
          | Except.ok p1 =>
            Except.ok { t with openTags := below, closed := below.isEmpty, globals := p1 }
    | XmlEvent.handleData s =>
      if t.openTags.isEmpty then Except.ok { t with wellFormed := false }
      else Except.ok { t with globals := handleData s t.globals }

/-- The calls for a sequence of events, in order. -/
def deliverAll : Tokenizer → List XmlEvent → Except String Tokenizer
  | t, [] => Except.ok t
  | t, ev :: rest =>
    match deliver t ev with
    | Except.error msg => Except.error msg
    | Except.ok t1 => deliverAll t1 rest

/-- Modelled from the spec: the status that the last `XML_Parse` returns: success when the
document was well-formed, its root was closed and the parser was not stopped. -/
def Tokenizer.status (t : Tokenizer) : Bool :=
  t.wellFormed && t.closed && t.openTags.isEmpty && !t.globals.stopped

/-- The cast of every node of an array. -/
def castAll {α : Type} (cast : Node → Except String α) : List Node → Except String (List α)
  | [] => Except.ok []
  | node :: rest =>
    match cast node with
    | Except.error msg => Except.error msg
    | Except.ok a =>
      match castAll cast rest with
      | Except.error msg => Except.error msg
      | Except.ok as => Except.ok (a :: as)

/-- The cast of an array that may be `NULL`. -/
def castArray {α : Type} (cast : Node → Except String α) :
    Option (List Node) → Except String (Option (List α))
  | none => Except.ok none
  | some nodes =>
    match castAll cast nodes with
    | Except.error msg => Except.error msg
    | Except.ok as => Except.ok (some as)

/-- The cast of a pointer that may be `NULL`. -/
def castPointer {α : Type} (cast : Node → Except String α) :
    Option Node → Except String (Option α)
  | none => Except.ok none
  | some node =>
    match cast node with
    | Except.error msg => Except.error msg
    | Except.ok a => Except.ok (some a)

/-- The node seen as `Element*`, as the header declares the entries of a `list`, a `typeSpec`
and the `capabilities`. -/
def Node.asElement (node : Node) : Except String Element := Except.ok node.toElement

/-- The node seen as `ListElement*`. -/
def Node.asListElement : Node → Except String ListElement
  | Node.astListElement e list =>
    match castArray Node.asElement list with
    | Except.error msg => Except.error msg
    | Except.ok l => Except.ok { toElement := e, list := l }
  | _ => Except.error "cast to ListElement of a node of another struct"

/-- The node seen as `Type*`. -/
def Node.asType : Node → Except String FmiType
  | Node.astType e typeSpec => Except.ok { toElement := e, typeSpec := typeSpec.map Node.toElement }
  | _ => Except.error "cast to Type of a node of another struct"

/-- The node seen as `ScalarVariable*`. -/
def Node.asScalarVariable : Node → Except String ScalarVariable
  | Node.astScalarVariable e typeSpec directDependencies =>
    Except.ok { toElement := e, typeSpec := typeSpec.map Node.toElement,
                directDependencies := directDependencies.map (List.map Node.toElement) }
  | _ => Except.error "cast to ScalarVariable of a node of another struct"

/-- The node seen as `CoSimulation*`. -/
def Node.asCoSimulation : Node → Except String CoSimulation
  | Node.astCoSimulation e capabilities model =>
    match castPointer Node.asListElement model with
    | Except.error msg => Except.error msg
    | Except.ok mo =>
      Except.ok { toElement := e, capabilities := capabilities.map Node.toElement, model := mo }
  | _ => Except.error "cast to CoSimulation of a node of another struct"

/-- The node seen as `ModelDescription*`. -/
def Node.asModelDescription : Node → Except String ModelDescription
  | Node.astModelDescription e ud td de va mv cs =>
    match castArray Node.asListElement ud, castArray Node.asType td,
      castArray Node.asListElement va, castArray Node.asScalarVariable mv,
      castPointer Node.asCoSimulation cs with
    | Except.ok ud1, Except.ok td1, Except.ok va1, Except.ok mv1, Except.ok cs1 =>
      Except.ok { toElement := e, unitDefinitions := ud1, typeDefinitions := td1,
                  defaultExperiment := de.map Node.toElement, vendorAnnotations := va1,
                  modelVariables := mv1, cosimulation := cs1 }
    | _, _, _, _, _ => Except.error "cast of a child of another struct"
  | _ => Except.error "cast to ModelDescription of a node of another struct"

/-- The node seen as `Port*`. -/
def Node.asPort : Node → Except String Port
  | Node.astPort e connection variable_ =>
    Except.ok { toElement := e, connection := connection, variable_ := variable_ }
  | _ => Except.error "cast to Port of a node of another struct"

/-- The node seen as `Connection*`. -/
def Node.asConnection : Node → Except String Connection
  | Node.astConnection e value => Except.ok { toElement := e, value := value }
  | _ => Except.error "cast to Connection of a node of another struct"

/-- The node seen as `Component*`. -/
def Node.asComponent : Node → Except String Component
  | Node.astComponent e inputs outputs =>
    match castArray Node.asPort inputs, castArray Node.asPort outputs with
    | Except.ok ins, Except.ok outs => Except.ok { toElement := e, inputs := ins, outputs := outs }
    | _, _ => Except.error "cast of a child of another struct"
  | _ => Except.error "cast to Component of a node of another struct"

/-- The node seen as `Graph*`. -/
def Node.asGraph : Node → Except String Graph
  | Node.astGraph e components connections =>
    match castArray Node.asComponent components, castArray Node.asConnection connections with
    | Except.ok comps, Except.ok conns =>
      Except.ok { toElement := e, components := comps, connections := conns }
    | _, _ => Except.error "cast of a child of another struct"
  | _ => Except.error "cast to Graph of a node of another struct"

/-- The statements of `parse` and `parseGraph` after the last `XML_Parse`: `NULL` (`none`) when
the tokenizer reports an error, else the node popped from the stack, which must then be empty. -/
def parsedRoot (events : List XmlEvent) : Except String (Option Node) :=
  match deliverAll Tokenizer.initial events with
  | Except.error msg => Except.error msg
  | Except.ok t =>
    if t.status = false then Except.ok none
    else
      match stackPop t.globals with
      | Except.error msg => Except.error msg
      | Except.ok (root, p1) =>
        if p1.stack.isEmpty = false then Except.error "assert(stackIsEmpty(stack))"
        else
          match root with
          | none => Except.error "null dereference: root"
          | some node => Except.ok (some node)

/-- Function `parse` (`xml_parser.c` 1080-1115) on the events that the tokenizer finds in the
file: `NULL` on a parse error, else `validate(md)`. -/
def parse (events : List XmlEvent) : Except String (Option ModelDescription) :=
  match parsedRoot events with
  | Except.error msg => Except.error msg
  | Except.ok none => Except.ok none
  | Except.ok (some node) =>
    match node.asModelDescription with
    | Except.error msg => Except.error msg
    | Except.ok md =>
      match validate md with
      | Except.error msg => Except.error msg
      | Except.ok (_, result) => Except.ok result

/-- Function `parseGraph` (`xml_parser.c` 1117-1152): `NULL` on a parse error, else
`validateGraph(g)`. -/
def parseGraph (events : List XmlEvent) : Except String (Option Graph) :=
  match parsedRoot events with
  | Except.error msg => Except.error msg
  | Except.ok none => Except.ok none
  | Except.ok (some node) =>
    match node.asGraph with
    | Except.error msg => Except.error msg
    | Except.ok g =>
      match validateGraph g with
      | Except.error msg => Except.error msg
      | Except.ok r => Except.ok r.result

/-! ### Example documents -/

/-- Example: a model description with the variables `a` (Real) and `b` (Integer, with a
dependency on `a`) and the Type `T`. -/
def plainDocument : List XmlEvent :=
  [XmlEvent.startElement "fmiModelDescription" [("modelIdentifier", "m"), ("guid", "g")],
   XmlEvent.startElement "TypeDefinitions" [],
   XmlEvent.startElement "Type" [("name", "T")],
   XmlEvent.startElement "RealType" [],
   XmlEvent.endElement "RealType",
   XmlEvent.endElement "Type",
   XmlEvent.endElement "TypeDefinitions",
   XmlEvent.startElement "ModelVariables" [],
   XmlEvent.startElement "ScalarVariable" [("name", "a"), ("valueReference", "0")],
   XmlEvent.startElement "Real" [("declaredType", "T")],
   XmlEvent.endElement "Real",
   XmlEvent.endElement "ScalarVariable",
   XmlEvent.startElement "ScalarVariable" [("name", "b"), ("valueReference", "1")],
   XmlEvent.startElement "Integer" [],
   XmlEvent.endElement "Integer",
   XmlEvent.startElement "DirectDependency" [],
   XmlEvent.startElement "Name" [],
   XmlEvent.handleData "a",
   XmlEvent.endElement "Name",
   XmlEvent.endElement "DirectDependency",
   XmlEvent.endElement "ScalarVariable",
   XmlEvent.endElement "ModelVariables",
   XmlEvent.endElement "fmiModelDescription"]

/-- Example: a model description in which the ScalarVariable `b` with its Real is written inside
the ScalarVariable `a`, before the Real of `a`. -/
def nestedVariableDocument : List XmlEvent :=
  [XmlEvent.startElement "fmiModelDescription" [("modelIdentifier", "m"), ("guid", "g")],
   XmlEvent.startElement "ModelVariables" [],
   XmlEvent.startElement "ScalarVariable" [("name", "a"), ("valueReference", "0")],
   XmlEvent.startElement "ScalarVariable" [("name", "b"), ("valueReference", "1")],
   XmlEvent.startElement "Real" [],
   XmlEvent.endElement "Real",
   XmlEvent.endElement "ScalarVariable",
   XmlEvent.startElement "Real" [],
   XmlEvent.endElement "Real",
   XmlEvent.endElement "ScalarVariable",
   XmlEvent.endElement "ModelVariables",
   XmlEvent.endElement "fmiModelDescription"]

/-- Example: a wiring document in which the Port `v` is written inside the Port `u`. -/
def nestedPortDocument : List XmlEvent :=
  [XmlEvent.startElement "Graph" [],
   XmlEvent.startElement "Components" [],
   XmlEvent.startElement "Component" [("fmuPath", "a.fmu")],
   XmlEvent.startElement "Inputs" [],
   XmlEvent.startElement "Port" [("name", "u"), ("type", "Real"), ("connection", "c")],
   XmlEvent.startElement "Port" [("name", "v"), ("type", "Real"), ("connection", "c")],
   XmlEvent.endElement "Port",
   XmlEvent.endElement "Port",
   XmlEvent.endElement "Inputs",
   XmlEvent.endElement "Component",
   XmlEvent.endElement "Components",
   XmlEvent.startElement "Connections" [],
   XmlEvent.startElement "Connection" [("name", "c")],
   XmlEvent.endElement "Connection",
   XmlEvent.endElement "Connections",
   XmlEvent.endElement "Graph"]

/-- The types of the stack entries after the events, top first (`none` for `NULL`), and whether
the parser has been stopped. -/
def stackAfter (events : List XmlEvent) : Except String (List (Option Elm) × Bool) :=
  (deliverAll Tokenizer.initial events).map
    (fun t => (t.globals.stack.map (Option.map Node.type), t.globals.stopped))

/-! ### The children of a model description -/

/-- The optional sections of a model description as the parser finds them on its stack at the end
of the element: for UnitDefinitions, TypeDefinitions, VendorAnnotations and ModelVariables the
`Element` part and the `list` of the `ListElement`, for DefaultExperiment its node, and the
CoSimulation node that the end of Implementation leaves. -/
structure Sections where
  unitDefinitions : Option (Element × Option (List Node))
  typeDefinitions : Option (Element × Option (List Node))
  defaultExperiment : Option Node
  vendorAnnotations : Option (Element × Option (List Node))
  modelVariables : Option (Element × Option (List Node))
  cosimulation : Option Node

/-- Every section that is present has the element type of its kind. -/
def Sections.wellFormed (s : Sections) : Prop :=
  (∀ x, s.unitDefinitions = some x → x.1.type = elm_UnitDefinitions) ∧
  (∀ x, s.typeDefinitions = some x → x.1.type = elm_TypeDefinitions) ∧
  (∀ node, s.defaultExperiment = some node → node.type = elm_DefaultExperiment) ∧
  (∀ x, s.vendorAnnotations = some x → x.1.type = elm_VendorAnnotations) ∧
  (∀ x, s.modelVariables = some x → x.1.type = elm_ModelVariables) ∧
  (∀ node, s.cosimulation = some node →
    node.type = elm_CoSimulation_StandAlone ∨ node.type = elm_CoSimulation_Tool)

/-- The node of a list section. -/
def listNode (x : Element × Option (List Node)) : Node := Node.astListElement x.1 x.2

/-- The five sections other than CoSimulation that are present, in the canonical order of the
document. -/
def Sections.plain (s : Sections) : List Node :=
  (s.unitDefinitions.map listNode).toList ++ (s.typeDefinitions.map listNode).toList ++
    s.defaultExperiment.toList ++ (s.vendorAnnotations.map listNode).toList ++
    (s.modelVariables.map listNode).toList

/-- The sections that are present, in the canonical order of the document. -/
def Sections.canonicalOrder (s : Sections) : List Node := s.plain ++ s.cosimulation.toList

/-- The sections that are present, with the CoSimulation before all others. -/
def Sections.coSimulationFirst (s : Sections) : List Node := s.cosimulation.toList ++ s.plain

/-- The stack entries that the children leave, given in document order: the last child is on
top. -/
def onStack (children : List Node) : List (Option Node) := (children.map some).reverse

/-- The payload `list` of a list section, `NULL` when the section is absent. -/
def payload (x : Option (Element × Option (List Node))) : Option (List Node) :=
  x.bind (fun y => y.2)

/-- The model-description node with its six fields set from the sections. -/
def Sections.reduced (s : Sections) (e : Element) : Node :=
  Node.astModelDescription e (payload s.unitDefinitions) (payload s.typeDefinitions)
    s.defaultExperiment (payload s.vendorAnnotations) (payload s.modelVariables) s.cosimulation

/-! ## Lookup of variables by value reference and their attributes (`xml_parser.c` 214-295) -/

def att_nominal : Att := 11

/-- The macro `fmiUndefinedValueReference`, `(fmiValueReference)(-1)` for the 32-bit
`unsigned int`. -/
def fmiUndefinedValueReference : fmiValueReference := 4294967295

/-- Function `sameBaseType`: Enumeration and Integer have the same base type. -/
def sameBaseType (t1 t2 : Elm) : Bool :=
  t1 == t2 || (t1 == elm_Enumeration && t2 == elm_Integer) ||
    (t2 == elm_Enumeration && t1 == elm_Integer)

/-- The loop of `getVariable` over `md->modelVariables`. `sv->typeSpec->type` dereferences the
type spec of every variable that is visited; `getValueReference(sv)` is evaluated only when
`sameBaseType` holds (the right operand of `&&`). -/
def getVariableLoop (scanUInt : String → Option Nat) (vr : fmiValueReference) (type : Elm) :
    List ScalarVariable → Except String (Option ScalarVariable)
  | [] => Except.ok none
  | sv :: rest =>
    match sv.typeSpec with
    | none => Except.error "null dereference: sv->typeSpec"
    | some typeSpec =>
      if sameBaseType type typeSpec.type then
        match getValueReference scanUInt sv.toElement with
        | Except.error msg => Except.error msg
        | Except.ok r =>
          if r = vr then Except.ok (some sv) else getVariableLoop scanUInt vr type rest
      else getVariableLoop scanUInt vr type rest

/-- Function `getVariable`; `none` is `NULL`. -/
def getVariable (scanUInt : String → Option Nat) (md : ModelDescription)
    (vr : fmiValueReference) (type : Elm) : Except String (Option ScalarVariable) :=
  match md.modelVariables with
  | none => Except.ok none
  | some mv =>
    if vr ≠ fmiUndefinedValueReference then getVariableLoop scanUInt vr type mv
    else Except.ok none

/-- Function `getString2`: the attribute of the type spec `tp`, else of the type spec of its
declared type. `type->typeSpec` is dereferenced by `getString`. -/
def getString2 (md : ModelDescription) (tp : Element) (a : Att) : Except String (Option String) :=
  match getString tp a with
  | some value => Except.ok (some value)
  | none =>
    match getDeclaredType md (getString tp att_declaredType) with
    | Except.error msg => Except.error msg
    | Except.ok none => Except.ok none
    | Except.ok (some type) =>
      match type.typeSpec with
      | none => Except.error "null dereference: type->typeSpec"
      | some typeSpec => Except.ok (getString typeSpec a)

/-- Function `getVariableAttributeString`; `none` is `NULL`. The type spec of the variable is
present when `getVariable` returned it; `tp->typeSpec` is dereferenced by `getString`. -/
def getVariableAttributeString (scanUInt : String → Option Nat) (md : ModelDescription)
    (vr : fmiValueReference) (type : Elm) (a : Att) : Except String (Option String) :=
  match getVariable scanUInt md vr type with
  | Except.error msg => Except.error msg
  | Except.ok none => Except.ok none
  | Except.ok (some sv) =>
    match sv.typeSpec with
    | none => Except.error "null dereference: sv->typeSpec"
    | some typeSpec =>
      match getString typeSpec a with
      | some value => Except.ok (some value)
      | none =>
        match getDeclaredType md (getString typeSpec att_declaredType) with
        | Except.error msg => Except.error msg
        | Except.ok none => Except.ok none
        | Except.ok (some tp) =>
          match tp.typeSpec with
          | none => Except.error "null dereference: tp->typeSpec"
          | some declared => Except.ok (getString declared a)

/-- Function `getVariableAttributeDouble`, with the conversion `1==sscanf(value, "%lf", &d)` of
the C library given as the function `scanDouble` (`none`: no conversion). The local `d` starts as
`0`; the second component is the content of `*vs` after the call. -/
def getVariableAttributeDouble (scanUInt : String → Option Nat) (scanDouble : String → Option ℚ)
    (md : ModelDescription) (vr : fmiValueReference) (type : Elm) (a : Att) :
    Except String (ℚ × ValueStatus) :=
  match getVariableAttributeString scanUInt md vr type a with
  | Except.error msg => Except.error msg
  | Except.ok none => Except.ok (0, ValueStatus.valueMissing)
  | Except.ok (some value) =>
    match scanDouble value with
    | some d => Except.ok (d, ValueStatus.valueDefined)
    | none => Except.ok (0, ValueStatus.valueIllegal)

/-- Function `getNominal`: `vs==valueDefined ? nominal : 1.0`. -/
def getNominal (scanUInt : String → Option Nat) (scanDouble : String → Option ℚ)
    (md : ModelDescription) (vr : fmiValueReference) : Except String ℚ :=
  match getVariableAttributeDouble scanUInt scanDouble md vr elm_Real att_nominal with
  | Except.error msg => Except.error msg
  | Except.ok (nominal, vs) => Except.ok (if vs = ValueStatus.valueDefined then nominal else 1)

/-! ### Vocabulary for statements about the lookup -/

/-- Every scalar variable of the model description carries a `valueReference` attribute that
converts: the precondition that `getValueReference` asserts. -/
def ModelDescription.referenced (scanUInt : String → Option Nat) (md : ModelDescription) : Prop :=
  ∀ sv ∈ md.modelVariables.getD [],
    sv.type = elm_ScalarVariable ∧
    ∃ value, getString sv.toElement att_valueReference = some value ∧ (scanUInt value).isSome

/-- Type spec present on every Type of the model description. -/
def ModelDescription.typesSpecified (md : ModelDescription) : Prop :=
  ∀ tp ∈ md.typeDefinitions.getD [], tp.typeSpec ≠ none

/-- The value reference of a scalar variable: the converted attribute `valueReference`. -/
def valueReferenceOf (scanUInt : String → Option Nat) (sv : ScalarVariable) : Option Nat :=
  (getString sv.toElement att_valueReference).bind scanUInt

/-- The scalar variable has a type spec of the same base type as `type` and the value
reference `vr`. -/
def matchesReference (scanUInt : String → Option Nat) (vr : fmiValueReference) (type : Elm)
    (sv : ScalarVariable) : Bool :=
  (match sv.typeSpec with
   | some typeSpec => sameBaseType type typeSpec.type
   | none => false) && (valueReferenceOf scanUInt sv == some vr)

/-- The variable for a value reference and a base type, in the words of the description of
`getVariable`: none for the undefined value reference, otherwise the first scalar variable in
list order that matches. -/
def variableFor (scanUInt : String → Option Nat) (md : ModelDescription)
    (vr : fmiValueReference) (type : Elm) : Option ScalarVariable :=
  if vr = fmiUndefinedValueReference then none
  else (md.modelVariables.getD []).find? (matchesReference scanUInt vr type)

/-- The first Type in `typeDefinitions` with the given name. -/
def typeNamed (md : ModelDescription) (d : String) : Option FmiType :=
  (md.typeDefinitions.getD []).find? (fun tp => getString tp.toElement att_name == some d)

/-- The two-level default chain for attribute `a` of a scalar variable, in the words of the
description: the value on the variable's own type spec if present there; otherwise, if the
declared type of the type spec names a Type in `typeDefinitions`, the value on that Type's type
spec; otherwise nothing. -/
def defaultChain (md : ModelDescription) (sv : ScalarVariable) (a : Att) : Option String :=
  match sv.typeSpec.bind (fun typeSpec => getString typeSpec a) with
  | some value => some value
  | none =>
    match (declaredTypeOf sv).bind (typeNamed md) with
    | some tp => tp.typeSpec.bind (fun declared => getString declared a)
    | none => none

/-- The first scalar variable in `modelVariables` with the given name. -/
def variableNamed (md : ModelDescription) (name : String) : Option ScalarVariable :=
  (md.modelVariables.getD []).find? (fun sv => getString sv.toElement att_name == some name)

/-- The names of the scalar variables, in list order (`none` for a variable without name). -/
def variableNames (md : ModelDescription) : List (Option String) :=
  (md.modelVariables.getD []).map (fun sv => getString sv.toElement att_name)

/-- A conversion for `sscanf("%lf")` on strings of decimal digits: the value of the leading
digits; no conversion for strings that do not start with a digit. -/
def scanDigits (s : String) : Option ℚ :=
  match s.data with
  | [] => none
  | c :: _ => if c.isDigit then some (scanDecimalFrom s.data 0 : ℚ) else none

/-- Example: a model description with the Type `T` that carries a nominal value, a Real variable
that declares `T` (value reference 1), a Real variable with a nominal of its own (value reference
2), and an Integer variable (value reference 1). -/
def nominalModel : ModelDescription :=
  { toElement := mkElement elm_fmiModelDescription [(att_modelIdentifier, "m"), (att_guid, "g")],
    unitDefinitions := none,
    typeDefinitions := some [{ toElement := mkElement elm_Type [(att_name, "T")],
                               typeSpec := some (mkElement elm_RealType [(att_nominal, "5")]) }],
    defaultExperiment := none,
    vendorAnnotations := none,
    modelVariables := some [
      { toElement := mkElement elm_ScalarVariable [(att_name, "n"), (att_valueReference, "1")],
        typeSpec := some (mkElement elm_Integer []), directDependencies := none },
      { toElement := mkElement elm_ScalarVariable [(att_name, "x"), (att_valueReference, "1")],
        typeSpec := some (mkElement elm_Real [(att_declaredType, "T")]),
        directDependencies := none },
      { toElement := mkElement elm_ScalarVariable [(att_name, "y"), (att_valueReference, "2")],
        typeSpec := some (mkElement elm_Real [(att_nominal, "7"), (att_declaredType, "T")]),
        directDependencies := none },
      { toElement := mkElement elm_ScalarVariable [(att_name, "z"), (att_valueReference, "3")],
        typeSpec := some (mkElement elm_Real [(att_nominal, "big")]),
        directDependencies := none }],
    cosimulation := none }

/-! ### Vocabulary for statements about the attribute table of a node -/

/-- The attribute array of the node holds `k` pairs: `n = 2k`, the array is `NULL` exactly when
`n = 0`, and the even slots `0, 2, ..., 2k-2` each hold the address of an entry of `attNames`. -/
def Element.holdsPairs (e : Element) (k : Nat) : Prop :=
  e.n = 2 * k ∧ (e.attributes = none ↔ e.n = 0) ∧
  ∀ i < k, ∃ a < SIZEOF_ATT, (e.attributes.getD [])[2 * i]? = some (CStr.tbl a)

/-! ### Vocabulary for the enumerated attributes of a scalar variable -/

/-- The literals that the comment of `getCausality` names. -/
def causalityLiterals : List String := ["input", "output", "internal", "none"]

/-- The literals that the comment of `getVariability` names. -/
def variabilityLiterals : List String := ["constant", "parameter", "discrete", "continuous"]

/-- The literals that the comment of `getAlias` names. -/
def aliasLiterals : List String := ["noAlias", "alias", "negatedAlias"]

/-- Example: a model description whose variable `a` has the causality `continuous` (a literal of
`enuNames`, but of the variability) and whose variable `b` has the causality `sideways` (no
literal of `enuNames`). -/
def mislabelledDocument : List XmlEvent :=
  [XmlEvent.startElement "fmiModelDescription" [("modelIdentifier", "m"), ("guid", "g")],
   XmlEvent.startElement "ModelVariables" [],
   XmlEvent.startElement "ScalarVariable"
     [("name", "a"), ("valueReference", "0"), ("causality", "continuous")],
   XmlEvent.startElement "Real" [],
   XmlEvent.endElement "Real",
   XmlEvent.endElement "ScalarVariable",
   XmlEvent.startElement "ScalarVariable"
     [("name", "b"), ("valueReference", "1"), ("causality", "sideways"),
      ("variability", "input"), ("alias", "flat")],
   XmlEvent.startElement "Real" [],
   XmlEvent.endElement "Real",
   XmlEvent.endElement "ScalarVariable",
   XmlEvent.endElement "ModelVariables",
   XmlEvent.endElement "fmiModelDescription"]

/-- Example: a model description with two scalar variables of the name `a`. -/
def duplicateNameDocument : List XmlEvent :=
  [XmlEvent.startElement "fmiModelDescription" [("modelIdentifier", "m"), ("guid", "g")],
   XmlEvent.startElement "ModelVariables" [],
   XmlEvent.startElement "ScalarVariable" [("name", "a"), ("valueReference", "0")],
   XmlEvent.startElement "Real" [],
   XmlEvent.endElement "Real",
   XmlEvent.endElement "ScalarVariable",
   XmlEvent.startElement "ScalarVariable" [("name", "a"), ("valueReference", "1")],
   XmlEvent.startElement "Integer" [],
   XmlEvent.endElement "Integer",
   XmlEvent.endElement "ScalarVariable",
   XmlEvent.endElement "ModelVariables",
   XmlEvent.endElement "fmiModelDescription"]

/-! ### Vocabulary for the writes of a macro-step -/

/-- An output port with its place: the position `i` of its component and the position `n` of the
port in the output array. -/
structure Place where
  i : Nat
  n : Nat
  port : Port
deriving DecidableEq, Repr

/-- The places of the ports of one array, from position `n` on. -/
def placesOf (i : Nat) : Nat → List Port → List Place
  | _, [] => []
  | n, port :: rest => { i := i, n := n, port := port } :: placesOf i (n + 1) rest

/-- The places of the output ports in the order in which the loop "read outputs" visits them,
for the components from position `i` on. -/
def outputPlaces : Nat → List Component → List Place
  | _, [] => []
  | i, comp :: rest => placesOf i 0 (comp.outputs.getD []) ++ outputPlaces (i + 1) rest

/-- The port is bound to the connection `j`. -/
def Place.boundTo (j : Nat) (p : Place) : Bool := p.port.connection == some j

/-- A write of a value cell: the output port it is made for, and the value type, the value
reference and the new content of the cell of the get call that makes it. -/
structure CellWrite where
  place : Place
  op : Enu
  vr : fmiValueReference
  value : Cell
deriving DecidableEq, Repr

/-- The get call that makes the write. -/
def CellWrite.call (w : CellWrite) : Event := Event.get w.place.i w.place.n w.op w.vr w.value

/-- The effect of the write on the graph: the cell of the connection of the port gets the value. -/
def CellWrite.apply (graph : Graph) (w : CellWrite) : Graph :=
  match w.place.port.connection with
  | some j => graph.setValue j w.value
  | none => graph

/-- Example: the outputs of two modules on the one connection `c`. -/
def twoWritersWiring : Graph := exampleGraph
  [exampleComponent "a.fmu" none (some [examplePort "y" "Real" (some "c")]),
   exampleComponent "p.fmu" none (some [examplePort "y" "Real" (some "c")])]
  (some [exampleConnection "c"])

/-- Example: the loader of the two writers: producers whose outputs start at 1 and at 2. -/
def twoWritersLoader (path : Option String) : Except String (FMU ℚ) :=
  if path = some "a.fmu" then Except.ok (producerFMU 1)
  else if path = some "p.fmu" then Except.ok (producerFMU 2)
  else Except.error "exit(EXIT_FAILURE)"

/-- The calls of the first macro-step of a run on the graph and the modules, after the two
handles have been obtained. -/
def firstExchange (loadedGraph : Graph × List (FMU ℚ)) (instances : List (Option ℚ)) :
    Except String (List Event) :=
  (exchange ieeeRuntime loadedGraph.2 0 (1 / 10)
    { graph := loadedGraph.1, instances := instances, trace := [] }).map
    (fun f => f.master.trace)

/-! ### Example wiring documents without a Components section -/

/-- Example: the wiring document `<Graph/>`. -/
def bareGraphDocument : List XmlEvent :=
  [XmlEvent.startElement "Graph" [], XmlEvent.endElement "Graph"]

/-- Example: a wiring document with a Connections section and no Components section. -/
def connectionsOnlyDocument : List XmlEvent :=
  [XmlEvent.startElement "Graph" [],
   XmlEvent.startElement "Connections" [],
   XmlEvent.startElement "Connection" [("name", "c")],
   XmlEvent.endElement "Connection",
   XmlEvent.endElement "Connections",
   XmlEvent.endElement "Graph"]

/-- Example: a wiring document whose component has neither an Inputs nor an Outputs section. -/
def portlessDocument : List XmlEvent :=
  [XmlEvent.startElement "Graph" [],
   XmlEvent.startElement "Components" [],
   XmlEvent.startElement "Component" [("fmuPath", "a.fmu")],
   XmlEvent.endElement "Component",
   XmlEvent.endElement "Components",
   XmlEvent.endElement "Graph"]

/-! ## Boolean attributes (`xml_parser.c` 105-113) -/

/-- Function `getBoolean`: the value returned (a `char`) and the content of `*vs` after the
call. -/
def getBoolean (element : Element) (a : Att) : Nat × ValueStatus :=
  match getString element a with
  | none => (0, ValueStatus.valueMissing)
  | some value =>
    if value = "true" then (1, ValueStatus.valueDefined)
    else if value = "false" then (0, ValueStatus.valueDefined)
    else (0, ValueStatus.valueIllegal)

/-! ## Vocabulary for the step count -/

/-- The calls and the row that a macro-step leaves when every `doStep` returns `fmiOK`: one
`doStep` call to each of the `n` components, in order, with the current time `time` and the step
size `h`, and the row of values with the time after the step. -/
def stepRound (n : Nat) (time h after : ℚ) (separator : Char) : List Event :=
  (List.range n).map (fun i => Event.doStep i time h fmiOK)
    ++ [Event.outputRow after separator false]

/-- The rounds of the `k` macro-steps that follow macro-step `j`, with exact times: macro-step
`j + 1` starts at the time `j * h` and ends at the time `(j + 1) * h`. -/
def stepRounds (n : Nat) (h : ℚ) (separator : Char) : Nat → Nat → List Event
  | _, 0 => []
  | j, k + 1 =>
    stepRound n ((j : ℚ) * h) h (((j + 1 : Nat) : ℚ) * h) separator
      ++ stepRounds n h separator (j + 1) k

/-- A `doStep` call or a row of values. -/
def Event.isStepOrRow (e : Event) : Bool := e.isDoStep || e.isValueRow

/-! ### Example documents and parser states -/

/-- Example: a model description written inside a model description. -/
def selfNestedDocument : List XmlEvent :=
  [XmlEvent.startElement "fmiModelDescription" [("modelIdentifier", "m"), ("guid", "g")],
   XmlEvent.startElement "fmiModelDescription" [("modelIdentifier", "n"), ("guid", "g")],
   XmlEvent.endElement "fmiModelDescription",
   XmlEvent.endElement "fmiModelDescription"]

/-- Example: the wiring document `<Graph><Graph/></Graph>`. -/
def selfNestedGraphDocument : List XmlEvent :=
  [XmlEvent.startElement "Graph" [], XmlEvent.startElement "Graph" [],
   XmlEvent.endElement "Graph", XmlEvent.endElement "Graph"]

/-- The number of stack entries after the events, and the status of the tokenizer. -/
def stackSizeAfter (events : List XmlEvent) : Except String (Nat × Bool) :=
  (deliverAll Tokenizer.initial events).map (fun t => (t.globals.stack.length, t.status))

/-- The open elements after a sequence of events, innermost first; `none` when an end event
does not match the innermost open element. -/
def openAfter : List String → List XmlEvent → Option (List String)
  | open_, [] => some open_
  | open_, XmlEvent.startElement elm _ :: rest => openAfter (elm :: open_) rest
  | open_, XmlEvent.handleData _ :: rest => openAfter open_ rest
  | [], XmlEvent.endElement _ :: _ => none
  | top :: below, XmlEvent.endElement elm :: rest =>
    if top = elm then openAfter below rest else none

/-- The events are balanced: every end event closes the innermost open element and no element
is left open. -/
def balanced (events : List XmlEvent) : Bool := openAfter [] events == some []

/-- The content that `handleData` records for the chunks of an element, starting from
`data == NULL`: the concatenation of the chunks, with a first chunk that is the single character
newline taken as the empty string; `NULL` when there is no chunk. -/
def recorded : List String → Option String
  | [] => none
  | first :: rest => some (rest.foldl (fun d s => d ++ s) (if first = "\n" then "" else first))

/-- The calls of `handleData` for the chunks, in order. -/
def handleChunks (chunks : List String) (p : ParserState) : ParserState :=
  chunks.foldl (fun q s => handleData s q) p

/-! ## The sample models (`models/waterTankCtr/waterTankCtr.c`, `models/bouncingBall/bouncingBall.c`) -/

/-- The fields of the struct `ModelInstance` (`fmuTemplate.h`) that the model functions use: the
arrays `r`, `i`, `b`, `s` of the values and the array `isPositive` of the event flags. The arrays
have `NUMBER_OF_REALS`, ..., `NUMBER_OF_EVENT_INDICATORS` entries. Finite values of `fmiReal`
(double) are the rationals they denote. -/
structure ModelInstance where
  r : List ℚ
  i : List Int
  b : List Bool
  s : List String
  isPositive : List Bool
  time : ℚ
deriving DecidableEq, Repr

/-- The struct `fmiEventInfo` of the FMI 1.0 header, which is not among the sources. -/
structure fmiEventInfo where
  iterationConverged : Bool
  stateValueReferencesChanged : Bool
  stateValuesChanged : Bool
  terminateSimulation : Bool
  upcomingTimeEvent : Bool
  nextEventTime : ℚ
deriving DecidableEq, Repr

/-- The five assignments to `eventInfo` with which both `eventUpdate` functions end. -/
def fmiEventInfo.updated (eventInfo : fmiEventInfo) : fmiEventInfo :=
  { eventInfo with iterationConverged := true, stateValueReferencesChanged := false,
                   stateValuesChanged := true, terminateSimulation := false,
                   upcomingTimeEvent := false }

def waterTankCtr.NUMBER_OF_REALS : Nat := 3
def waterTankCtr.NUMBER_OF_BOOLEANS : Nat := 1
def waterTankCtr.NUMBER_OF_EVENT_INDICATORS : Nat := 2
def waterTankCtr.H_ : Nat := 0
def waterTankCtr.L_ : Nat := 1
def waterTankCtr.level_ : Nat := 2
def waterTankCtr.pump_ : Nat := 0
def waterTankCtr.level_max_ : Nat := 0
def waterTankCtr.level_min_ : Nat := 1

/-- Function `eventUpdate` of `waterTankCtr.c`. -/
def waterTankCtr.eventUpdate (comp : ModelInstance) (eventInfo : fmiEventInfo) :
    ModelInstance × fmiEventInfo :=
  let c1 : ModelInstance :=
    { comp with isPositive := (comp.isPositive.set waterTankCtr.level_max_
        (decide (comp.r.getD waterTankCtr.level_ 0 > comp.r.getD waterTankCtr.H_ 0))) }
  let c2 : ModelInstance :=
    { c1 with isPositive := (c1.isPositive.set waterTankCtr.level_min_
        (decide (c1.r.getD waterTankCtr.level_ 0 < c1.r.getD waterTankCtr.L_ 0))) }
  let c3 : ModelInstance :=
    if c2.isPositive.getD waterTankCtr.level_max_ false then
      { c2 with b := c2.b.set waterTankCtr.pump_ false }
    else c2
  let c4 : ModelInstance :=
    if c3.isPositive.getD waterTankCtr.level_min_ false then
      { c3 with b := c3.b.set waterTankCtr.pump_ true }
    else c3
  (c4, eventInfo.updated)

/-- A state of the waterTankCtr model: the arrays have the sizes the model defines. -/
def waterTankCtr.sized (comp : ModelInstance) : Prop :=
  comp.r.length = waterTankCtr.NUMBER_OF_REALS ∧
  comp.b.length = waterTankCtr.NUMBER_OF_BOOLEANS ∧
  comp.isPositive.length = waterTankCtr.NUMBER_OF_EVENT_INDICATORS

def bouncingBall.NUMBER_OF_REALS : Nat := 5
def bouncingBall.NUMBER_OF_EVENT_INDICATORS : Nat := 1
def bouncingBall.h_ : Nat := 0
def bouncingBall.der_h_ : Nat := 1
def bouncingBall.v_ : Nat := 2
def bouncingBall.der_v_ : Nat := 3
def bouncingBall.g_ : Nat := 3
def bouncingBall.e_ : Nat := 4

/-- Function `setStartValues` of `bouncingBall.c`; the literals `-9.81` and `0.7` are the doubles
nearest to them. -/
def bouncingBall.setStartValues (comp : ModelInstance) : ModelInstance :=
  let c1 : ModelInstance := { comp with r := comp.r.set bouncingBall.h_ 1 }
  let c2 : ModelInstance := { c1 with r := c1.r.set bouncingBall.v_ 0 }
  let c3 : ModelInstance := { c2 with r := c2.r.set bouncingBall.der_v_ (- f64round (981 / 100)) }
  let c4 : ModelInstance := { c3 with r := c3.r.set bouncingBall.e_ (f64round (7 / 10)) }
  { c4 with isPositive := c4.isPositive.set 0 (decide (c4.r.getD bouncingBall.h_ 0 > 0)) }

/-- Function `eventUpdate` of `bouncingBall.c`, with the product of two doubles given as the
function `mul`. -/
def bouncingBall.eventUpdate (mul : ℚ → ℚ → ℚ) (comp : ModelInstance)
    (eventInfo : fmiEventInfo) : ModelInstance × fmiEventInfo :=
  let c1 : ModelInstance :=
    if comp.isPositive.getD 0 false then
      { comp with r := (comp.r.set bouncingBall.v_
          (mul (- comp.r.getD bouncingBall.e_ 0) (comp.r.getD bouncingBall.v_ 0))) }
    else comp
  let c2 : ModelInstance :=
    { c1 with isPositive := c1.isPositive.set 0 (decide (c1.r.getD bouncingBall.h_ 0 > 0)) }
  (c2, eventInfo.updated)

/-- A state of the bouncingBall model: the arrays have the sizes the model defines. -/
def bouncingBall.sized (comp : ModelInstance) : Prop :=
  comp.r.length = bouncingBall.NUMBER_OF_REALS ∧
  comp.isPositive.length = bouncingBall.NUMBER_OF_EVENT_INDICATORS

/-- Example: the bouncing ball with the height `h`, the velocity `v`, the parameter `e = 1/2`
and the event flag `flag`. -/
def bouncingBall.sample (h v : ℚ) (flag : Bool) : ModelInstance :=
  { r := [h, 0, v, - f64round (981 / 100), 1 / 2], i := [], b := [], s := [],
    isPositive := [flag], time := 0 }

/-- Example: an event-info struct with every flag cleared. -/
def fmiEventInfo.cleared : fmiEventInfo :=
  { iterationConverged := false, stateValueReferencesChanged := false,
    stateValuesChanged := false, terminateSimulation := false, upcomingTimeEvent := false,
    nextEventTime := 0 }

/-- Example: the water tank controller with the thresholds `H`, `L`, the `level` and the
pump state. -/
def waterTankCtr.sample (H L level : ℚ) (pump : Bool) : ModelInstance :=
  { r := [H, L, level], i := [], b := [pump], s := [], isPositive := [false, false], time := 0 }

/-! ## The remaining constants of the enum `Att` (`xml_parser.h` 51-63) -/

def att_fmiVersion : Att := 0
def att_displayUnit : Att := 1
def att_gain : Att := 2
def att_offset : Att := 3
def att_unit : Att := 4
def att_description : Att := 6
def att_quantity : Att := 7
def att_relativeQuantity : Att := 8
def att_min : Att := 9
def att_max : Att := 10
def att_start : Att := 13
def att_fixed : Att := 14
def att_startTime : Att := 15
def att_stopTime : Att := 16
def att_tolerance : Att := 17
def att_value : Att := 18
def att_modelName : Att := 23
def att_author : Att := 26
def att_version : Att := 27
def att_generationTool : Att := 28
def att_generationDateAndTime : Att := 29
def att_numberOfContinuousStates : Att := 31
def att_numberOfEventIndicators : Att := 32
def att_canHandleVariableCommunicationStepSize : Att := 34
def att_canHandleEvents : Att := 35
def att_canRejectSteps : Att := 36
def att_canInterpolateInputs : Att := 37
def att_maxOutputDerivativeOrder : Att := 38
def att_canRunAsynchronuously : Att := 39
def att_canSignalEvents : Att := 40
def att_canBeInstantiatedOnlyOncePerProcess : Att := 41
def att_canNotUseMemoryManagementFunctions : Att := 42
def att_file : Att := 43
def att_entryPoint : Att := 44
def att_manualStart : Att := 45

/-- The constants of the enum `Elm` in the order of their declaration. -/
def elmConstants : List Elm :=
  [elm_fmiModelDescription, elm_UnitDefinitions, elm_BaseUnit, elm_DisplayUnitDefinition,
   elm_TypeDefinitions, elm_Type, elm_RealType, elm_IntegerType, elm_BooleanType,
   elm_StringType, elm_EnumerationType, elm_Item, elm_DefaultExperiment, elm_VendorAnnotations,
   elm_Tool, elm_Annotation, elm_ModelVariables, elm_ScalarVariable, elm_DirectDependency,
   elm_Name, elm_Real, elm_Integer, elm_Boolean, elm_String, elm_Enumeration,
   elm_Implementation, elm_CoSimulation_StandAlone, elm_CoSimulation_Tool, elm_Model, elm_File,
   elm_Capabilities, elm_Graph, elm_Components, elm_Component, elm_Inputs, elm_Outputs,
   elm_Port, elm_Connections, elm_Connection]

/-- The constants of the enum `Att` in the order of their declaration. -/
def attConstants : List Att :=
  [att_fmiVersion, att_displayUnit, att_gain, att_offset, att_unit, att_name, att_description,
   att_quantity, att_relativeQuantity, att_min, att_max, att_nominal, att_declaredType,
   att_start, att_fixed, att_startTime, att_stopTime, att_tolerance, att_value,
   att_valueReference, att_variability, att_causality, att_alias, att_modelName,
   att_modelIdentifier, att_guid, att_author, att_version, att_generationTool,
   att_generationDateAndTime, att_variableNamingConvention, att_numberOfContinuousStates,
   att_numberOfEventIndicators, att_input, att_canHandleVariableCommunicationStepSize,
   att_canHandleEvents, att_canRejectSteps, att_canInterpolateInputs,
   att_maxOutputDerivativeOrder, att_canRunAsynchronuously, att_canSignalEvents,
   att_canBeInstantiatedOnlyOncePerProcess, att_canNotUseMemoryManagementFunctions, att_file,
   att_entryPoint, att_manualStart, att_type, att_connection, att_fmuPath]

/-- The constants of the enum `Enu` in the order of their declaration. -/
def enuConstants : List Enu :=
  [enu_flat, enu_structured, enu_constant, enu_parameter, enu_discrete, enu_continuous,
   enu_input, enu_output, enu_internal, enu_none, enu_noAlias, enu_alias, enu_negatedAlias,
   enu_Boolean, enu_Integer, enu_Real, enu_String]

/-! ### Vocabulary for the accesses of a run -/

/-- Per get and set call of the trace, in order: the value type of the operation that was called
and the type for which the block it was given had been allocated. -/
def accessTypes : List Event → List (Enu × Enu)
  | [] => []
  | Event.get _ _ op _ value :: rest => (op, value.type) :: accessTypes rest
  | Event.set _ _ op _ value :: rest => (op, value.type) :: accessTypes rest
  | _ :: rest => accessTypes rest

/-! ### Vocabulary for the graphs on which the step loop can run -/

/-- The port can be visited by the loops "read outputs" and "set inputs" without a null
dereference and without a failed assertion: it is bound to a scalar variable that has a type spec
and a value reference that converts (what `getValueReference` asserts), and to a connection of
the graph that has a value cell. -/
def Port.ready (scanUInt : String → Option Nat) (graph : Graph) (port : Port) : Prop :=
  ∃ sv typeSpec value j cell,
    port.variable_ = some sv ∧ sv.type = elm_ScalarVariable ∧
    getString sv.toElement att_valueReference = some value ∧ (scanUInt value).isSome = true ∧
    sv.typeSpec = some typeSpec ∧ port.connection = some j ∧ graph.cellAt j = some cell

/-- The master can make a macro-step without a null dereference and without a failed assertion:
the graph has its component array, every component has its module and its instance handle, and
every port of every component is ready. This is the state that the loops "instantiate slaves" and
"initialise slaves" leave for a graph in which every port is bound to a connection and to a
variable. -/
def Master.ready {σ : Type} (scanUInt : String → Option Nat) (fmus : List (FMU σ))
    (m : Master σ) : Prop :=
  ∃ comps, m.graph.components = some comps ∧
    (∀ i < comps.length, (∃ fmu, fmus[i]? = some fmu) ∧ ∃ c, m.instances[i]? = some (some c)) ∧
    ∀ comp ∈ comps, (∀ port ∈ comp.outputs.getD [], port.ready scanUInt m.graph) ∧
      (∀ port ∈ comp.inputs.getD [], port.ready scanUInt m.graph)

/-- The master `m1` has the components of `m`, a cell wherever `m` has one, and an instance
handle wherever `m` has one. -/
def Master.keeps {σ : Type} (m m1 : Master σ) : Prop :=
  m1.graph.components = m.graph.components ∧
  (∀ k : Nat, (m.graph.cellAt k).isSome = true → (m1.graph.cellAt k).isSome = true) ∧
  (∀ k : Nat, (∃ c, m.instances[k]? = some (some c)) → ∃ c, m1.instances[k]? = some (some c))

/-! # Theorems -/

/-! ## Facts about the tables and the name lookup -/

set_option maxRecDepth 100000 in
theorem attNames_inj : ∀ a < SIZEOF_ATT, ∀ b < SIZEOF_ATT, attNames[a]? = attNames[b]? → a = b := by
  decide

theorem checkAttribute_attNames : ∀ a < SIZEOF_ATT, ∀ nm, attNames[a]? = some nm →
    checkAttribute nm = (a : Int) := by
  have h : ∀ a < SIZEOF_ATT, checkAttribute ((attNames[a]?).getD "") = (a : Int) := by decide
  intro a ha nm hnm
  have := h a ha
  rwa [hnm] at this

theorem attNames_index_of_mem (nm : String) (h : nm ∈ attNames) :
    ∃ a, a < SIZEOF_ATT ∧ attNames[a]? = some nm := by
  obtain ⟨a, ha, hnm⟩ := List.mem_iff_getElem.mp h
  refine ⟨a, ?_, ?_⟩
  · have : attNames.length = SIZEOF_ATT := by decide
    omega
  · rw [List.getElem?_eq_getElem ha, hnm]

theorem addAttributesLoop_known (attr : List (String × String))
    (hnames : ∀ p ∈ attr, p.1 ∈ attNames) :
    addAttributesLoop attr = some (internedSlots attr) := by
  induction attr with
  | nil => rfl
  | cons p rest ih =>
    obtain ⟨nm, v⟩ := p
    obtain ⟨a, ha, hnm⟩ := attNames_index_of_mem nm (hnames (nm, v) (List.mem_cons_self _ _))
    have hc := checkAttribute_attNames a ha nm hnm
    have ih2 := ih (fun q hq => hnames q (List.mem_cons_of_mem _ hq))
    have : ¬ ((a : Int) = -1) := by omega
    simp [addAttributesLoop, hc, ih2, internedSlots, this]

theorem internedSlots_length (attr : List (String × String)) :
    (internedSlots attr).length = 2 * attr.length := by
  induction attr with
  | nil => rfl
  | cons p rest ih =>
    simp only [internedSlots, List.length_cons] at ih ⊢
    omega

theorem getStringFrom_internedSlots (attr : List (String × String))
    (hnames : ∀ p ∈ attr, p.1 ∈ attNames) (a : Att) (ha : a < SIZEOF_ATT) (nm : String)
    (hnm : attNames[a]? = some nm) :
    getStringFrom a (internedSlots attr) = (attr.find? (fun p => p.1 = nm)).map Prod.snd := by
  induction attr with
  | nil => rfl
  | cons p rest ih =>
    obtain ⟨nm2, v⟩ := p
    obtain ⟨b, hb, hnm2⟩ := attNames_index_of_mem nm2 (hnames (nm2, v) (List.mem_cons_self _ _))
    have hc := checkAttribute_attNames b hb nm2 hnm2
    have ih2 := ih (fun q hq => hnames q (List.mem_cons_of_mem _ hq))
    simp only [internedSlots, getStringFrom, hc, Int.toNat_ofNat]
    by_cases hab : b = a
    · subst hab
      have : nm2 = nm := by rw [hnm2] at hnm; exact Option.some.inj hnm
      subst this
      simp [CStr.str, List.find?]
    · have hne : nm2 ≠ nm := by
        intro h
        subst h
        exact hab (attNames_inj b hb a ha (by rw [hnm, hnm2]))
      have hne2 : ¬ (CStr.tbl b = CStr.tbl a) := by
        intro h
        exact hab (CStr.tbl.inj h)
      simp only [hne2, if_false, ih2]
      simp [List.find?, hne]

/-- For known names `newElement` succeeds, and `getString` returns the value of the first pair
whose name is the requested table entry. -/
theorem getString_newElement (type : Elm) (attr : List (String × String))
    (hnames : ∀ p ∈ attr, p.1 ∈ attNames) :
    ∃ e, newElement type attr = some e ∧ e.type = type ∧
      ∀ a, a < SIZEOF_ATT → ∀ nm, attNames[a]? = some nm →
        getString e a = (attr.find? (fun p => p.1 = nm)).map Prod.snd := by
  refine ⟨{ type := type,
             attributes := if 2 * attr.length > 0 then some (internedSlots attr) else none,
             n := 2 * attr.length }, ?_, rfl, ?_⟩
  · simp only [newElement, addAttributes, addAttributesLoop_known attr hnames]
  · intro a ha nm hnm
    simp only [getString]
    rw [← getStringFrom_internedSlots attr hnames a ha nm hnm]
    cases attr with
    | nil => simp [internedSlots, getStringFrom]
    | cons p rest =>
      have hl := internedSlots_length (p :: rest)
      simp only [List.length_cons] at hl
      have hpos : 2 * (p :: rest).length > 0 := by simp
      simp only [hpos, if_true, Option.getD_some]
      rw [List.take_of_length_le (by simp only [List.length_cons]; omega)]

theorem find_of_nodup_fst (attr : List (String × String)) (hd : (attr.map Prod.fst).Nodup)
    (nm v : String) (h : (nm, v) ∈ attr) : attr.find? (fun p => p.1 = nm) = some (nm, v) := by
  induction attr with
  | nil => simp at h
  | cons p rest ih =>
    simp only [List.map_cons, List.nodup_cons] at hd
    rcases List.mem_cons.mp h with h1 | h1
    · subst h1
      simp [List.find?]
    · have hne : p.1 ≠ nm := by
        intro hp
        apply hd.1
        rw [hp]
        exact List.mem_map.mpr ⟨(nm, v), h1, rfl⟩
      simp only [List.find?, hne, decide_False]
      exact ih hd.2 h1

/-- C2. Attribute round trip: when every name of the attribute list is an entry of `attNames` and
the names are pairwise distinct, `newElement` builds a node on which, for every attribute id `a`,
`getString` returns the value that was paired with the name `attNames[a]` if that name is in the
list, and `NULL` if it is not. -/
theorem attribute_round_trip (type : Elm) (attr : List (String × String))
    (hnames : ∀ p ∈ attr, p.1 ∈ attNames) (hdistinct : (attr.map Prod.fst).Nodup) :
    ∃ e, newElement type attr = some e ∧
      ∀ a, a < SIZEOF_ATT → ∀ nm, attNames[a]? = some nm →
        (∀ v, (nm, v) ∈ attr → getString e a = some v) ∧
        (nm ∉ attr.map Prod.fst → getString e a = none) := by
  obtain ⟨e, he, -, hget⟩ := getString_newElement type attr hnames
  refine ⟨e, he, ?_⟩
  intro a ha nm hnm
  rw [hget a ha nm hnm]
  constructor
  · intro v hv
    rw [find_of_nodup_fst attr hdistinct nm v hv]
    rfl
  · intro hnot
    have : attr.find? (fun p => p.1 = nm) = none := by
      rw [List.find?_eq_none]
      intro p hp hpn
      apply hnot
      simp only [decide_eq_true_eq] at hpn
      exact List.mem_map.mpr ⟨p, hp, hpn⟩
    rw [this]
    rfl

/-- Instance of C2 at the attributes of a port: `name="x" type="Real"`. -/
theorem attribute_round_trip_witness :
    ∃ e, newElement elm_Port [("name", "x"), ("type", "Real")] = some e ∧
      ∀ a, a < SIZEOF_ATT → ∀ nm, attNames[a]? = some nm →
        (∀ v, (nm, v) ∈ [("name", "x"), ("type", "Real")] → getString e a = some v) ∧
        (nm ∉ [("name", "x"), ("type", "Real")].map Prod.fst → getString e a = none) :=
  attribute_round_trip elm_Port [("name", "x"), ("type", "Real")] (by decide) (by decide)

/-! ## Validation of the model description -/

theorem getName_of_named (e : Element) (h : getString e att_name ≠ none) :
    ∃ nm, getString e att_name = some nm ∧ getName e = Except.ok nm := by
  cases hs : getString e att_name with
  | none => exact absurd hs h
  | some nm => exact ⟨nm, rfl, by simp [getName, hs]⟩

theorem getDeclaredTypeLoop_named (d : String) (tds : List FmiType)
    (h : ∀ tp ∈ tds, getString tp.toElement att_name ≠ none) :
    getDeclaredTypeLoop d tds
      = Except.ok (tds.find? (fun tp => getString tp.toElement att_name == some d)) := by
  induction tds with
  | nil => rfl
  | cons tp rest ih =>
    obtain ⟨nm, hnm, hget⟩ := getName_of_named tp.toElement (h tp (List.mem_cons_self _ _))
    have ih2 := ih (fun q hq => h q (List.mem_cons_of_mem _ hq))
    simp only [getDeclaredTypeLoop, hget, List.find?, hnm, ih2]
    by_cases hd : d = nm
    · subst hd
      simp
    · have hb : (nm == d) = false := by
        rw [beq_eq_false_iff_ne]
        exact fun h => hd h.symm
      simp [hd, hb]

theorem validateLoop_named (md : ModelDescription)
    (hT : ∀ tp ∈ md.typeDefinitions.getD [], getString tp.toElement att_name ≠ none)
    (mv : List ScalarVariable) (hV : ∀ sv ∈ mv, getString sv.toElement att_name ≠ none)
    (hS : ∀ sv ∈ mv, sv.typeSpec ≠ none)
    (error : Nat) :
    validateLoop md mv error = Except.ok (error + mv.countP (unresolvedDeclaredType md)) := by
  induction mv generalizing error with
  | nil => rfl
  | cons sv rest ih =>
    obtain ⟨nm, -, hget⟩ := getName_of_named sv.toElement (hV sv (List.mem_cons_self _ _))
    have ih2 := fun e => ih (fun q hq => hV q (List.mem_cons_of_mem _ hq))
      (fun q hq => hS q (List.mem_cons_of_mem _ hq)) e
    obtain ⟨typeSpec, hts⟩ := Option.ne_none_iff_exists'.mp (hS sv (List.mem_cons_self _ _))
    have hdt : ∀ d, getDeclaredType md (some d)
        = Except.ok ((md.typeDefinitions.getD []).find?
            (fun tp => getString tp.toElement att_name == some d)) := by
      intro d
      cases htd : md.typeDefinitions with
      | none => simp [getDeclaredType, htd]
      | some tds =>
        rw [htd] at hT
        simp only [getDeclaredType, htd, Option.getD_some]
        exact getDeclaredTypeLoop_named d tds hT
    simp only [validateLoop, List.countP_cons, hts]
    cases hd : getString typeSpec att_declaredType with
    | none =>
      simp [getDeclaredType, unresolvedDeclaredType, declaredTypeOf, hts, hd, ih2]
    | some d =>
      rw [hdt d]
      simp only [Option.isSome_some, Bool.true_and, unresolvedDeclaredType, declaredTypeOf, hts,
        Option.some_bind, hd]
      by_cases hall : ((md.typeDefinitions.getD []).all
          (fun tp => getString tp.toElement att_name != some d)) = true
      · have hnone : (md.typeDefinitions.getD []).find?
            (fun tp => getString tp.toElement att_name == some d) = none := by
          rw [List.find?_eq_none]
          intro tp htp
          have := List.all_eq_true.mp hall tp htp
          simpa using this
        simp only [hnone, Option.isNone_none, if_true, hget, ih2, hall]
        congr 1
        omega
      · have hsome : ((md.typeDefinitions.getD []).find?
            (fun tp => getString tp.toElement att_name == some d)).isNone = false := by
          cases hf : (md.typeDefinitions.getD []).find?
              (fun tp => getString tp.toElement att_name == some d) with
          | some tp => rfl
          | none =>
            exfalso
            apply hall
            rw [List.all_eq_true]
            intro tp htp
            have := List.find?_eq_none.mp hf tp htp
            simpa using this
        simp [hsome, ih2, hall]

/-- Under the precondition on names, `validate` ends with `error` equal to the number of
unresolved declared types and returns `NULL` exactly when that number is not zero. -/
theorem validate_eq (md : ModelDescription) (h : md.named) (ht : md.typed) :
    validate md = Except.ok (unresolvedCount md,
      if unresolvedCount md ≠ 0 then none else some md) := by
  obtain ⟨hT, hV⟩ := h
  have hscan : (match md.modelVariables with
      | some mv => validateLoop md mv 0
      | none => Except.ok 0) = Except.ok (unresolvedCount md) := by
    unfold unresolvedCount
    unfold ModelDescription.typed at ht
    revert ht hV
    generalize md.modelVariables = omv
    intro ht hV
    cases omv with
    | none => simp
    | some mv =>
      simp only [Option.getD_some] at hV ht ⊢
      rw [validateLoop_named md hT mv hV ht 0, Nat.zero_add]
  unfold validate
  simp only [hscan]
  split <;> rfl

theorem unresolvedCount_eq_zero_iff (md : ModelDescription) :
    unresolvedCount md = 0 ↔ declaredTypesResolved md := by
  unfold unresolvedCount declaredTypesResolved
  rw [List.countP_eq_zero]
  constructor
  · intro h sv hsv d hd
    have h1 := h sv hsv
    simp only [unresolvedDeclaredType, hd, Bool.not_eq_true] at h1
    by_contra hcon
    have : ((md.typeDefinitions.getD []).all
        (fun tp => getString tp.toElement att_name != some d)) = true := by
      rw [List.all_eq_true]
      intro tp htp
      simp only [bne_iff_ne, ne_eq]
      intro heq
      exact hcon ⟨tp, htp, heq⟩
    rw [this] at h1
    exact Bool.noConfusion h1
  · intro h sv hsv
    simp only [unresolvedDeclaredType, Bool.not_eq_true]
    cases hd : declaredTypeOf sv with
    | none => rfl
    | some d =>
      obtain ⟨tp, htp, hnm⟩ := h sv hsv d hd
      simp only
      rw [← Bool.not_eq_true, List.all_eq_true]
      intro hall
      have := hall tp htp
      simp [hnm] at this

/-- C3. All errors are counted by `validate`: on a model description whose Types and scalar
variables carry the required attribute `name` and whose scalar variables have their type spec, the
scan ends with an error count equal to the number N of scalar variables whose `declaredType` names
no Type in `typeDefinitions` (it does not stop at the first fault), and the result is `NULL`
whenever N is at least 1. -/
theorem validate_counts_every_unresolved (md : ModelDescription) (h : md.named)
    (ht : md.typed) :
    ∃ r, validate md = Except.ok (unresolvedCount md, r) ∧ (1 ≤ unresolvedCount md → r = none) := by
  refine ⟨_, validate_eq md h ht, ?_⟩
  intro h1
  have : unresolvedCount md ≠ 0 := by omega
  simp [this]

/-- Instance of C3: two of the four variables of `exampleModel` declare undefined types; the
count is 2 and the result is `NULL`. -/
theorem validate_counts_every_unresolved_witness :
    exampleModel.named ∧ exampleModel.typed ∧ unresolvedCount exampleModel = 2 ∧
    ∃ r, validate exampleModel = Except.ok (unresolvedCount exampleModel, r) ∧
      (1 ≤ unresolvedCount exampleModel → r = none) :=
  ⟨⟨by decide, by decide⟩, by unfold ModelDescription.typed; decide, by decide,
    validate_counts_every_unresolved exampleModel ⟨by decide, by decide⟩
      (by unfold ModelDescription.typed; decide)⟩

/-- C4. `validate` returns its argument itself exactly when every declared type is resolved, and
`NULL` in every other case (model descriptions whose Types and scalar variables carry the required
attribute `name` and whose scalar variables have their type spec). In particular the argument is
returned when `modelVariables` is absent and when no variable carries a `declaredType`. -/
theorem validate_returns_argument_iff_resolved (md : ModelDescription) (h : md.named)
    (ht : md.typed) :
    ((∃ n, validate md = Except.ok (n, some md)) ↔ declaredTypesResolved md) ∧
    (¬ declaredTypesResolved md → ∃ n, validate md = Except.ok (n, none)) ∧
    (md.modelVariables = none → validate md = Except.ok (0, some md)) ∧
    ((∀ sv ∈ md.modelVariables.getD [], declaredTypeOf sv = none) →
      validate md = Except.ok (0, some md)) := by
  have hv := validate_eq md h ht
  have hz := unresolvedCount_eq_zero_iff md
  have hres : declaredTypesResolved md → validate md = Except.ok (0, some md) := by
    intro hr
    rw [hv, hz.mpr hr]
    rfl
  refine ⟨⟨?_, fun hr => ⟨0, hres hr⟩⟩, ?_, ?_, ?_⟩
  · rintro ⟨n, hn⟩
    rw [hv] at hn
    by_contra hnr
    have hne : unresolvedCount md ≠ 0 := fun h0 => hnr (hz.mp h0)
    simp [hne] at hn
  · intro hnr
    have hne : unresolvedCount md ≠ 0 := fun h0 => hnr (hz.mp h0)
    exact ⟨unresolvedCount md, by rw [hv]; simp [hne]⟩
  · intro hnone
    apply hres
    intro sv hsv
    rw [hnone] at hsv
    simp at hsv
  · intro hno
    apply hres
    intro sv hsv d hd
    rw [hno sv hsv] at hd
    exact Option.noConfusion hd

/-- Instance of C4: `exampleModel` has unresolved declared types and is not handed on. -/
theorem validate_returns_argument_iff_resolved_witness :
    exampleModel.named ∧ exampleModel.typed ∧ validate exampleModel = Except.ok (2, none) ∧
    ((∃ n, validate exampleModel = Except.ok (n, some exampleModel)) ↔
      declaredTypesResolved exampleModel) :=
  ⟨⟨by decide, by decide⟩, by unfold ModelDescription.typed; decide, by decide,
    (validate_returns_argument_iff_resolved exampleModel ⟨by decide, by decide⟩
      (by unfold ModelDescription.typed; decide)).1⟩

/-! ## Graph validation: the run of `validateGraph` in closed form -/

theorem firstNamed_congr (nm : String) (cs cs2 : List Connection) (i : Nat)
    (h : cs2.map Connection.toElement = cs.map Connection.toElement) :
    firstNamed nm i cs2 = firstNamed nm i cs := by
  induction cs generalizing cs2 i with
  | nil =>
    cases cs2 with
    | nil => rfl
    | cons c r => simp at h
  | cons c rest ih =>
    cases cs2 with
    | nil => simp at h
    | cons c2 r2 =>
      simp only [List.map_cons, List.cons.injEq] at h
      simp only [firstNamed, h.1, ih r2 (i + 1) h.2]

theorem firstNamed_bound (nm : String) (cs : List Connection) (i j : Nat)
    (h : firstNamed nm i cs = some j) : i ≤ j ∧ j < i + cs.length := by
  induction cs generalizing i with
  | nil => simp [firstNamed] at h
  | cons c rest ih =>
    simp only [firstNamed] at h
    split at h
    · simp only [Option.some.injEq] at h
      simp only [List.length_cons]
      omega
    · have := ih (i + 1) h
      simp only [List.length_cons]
      omega

theorem getConnectionByNameLoop_named (nm : String) (cs : List Connection) (i : Nat)
    (h : ∀ c ∈ cs, getString c.toElement att_name ≠ none) :
    getConnectionByNameLoop nm i cs = Except.ok (firstNamed nm i cs) := by
  induction cs generalizing i with
  | nil => rfl
  | cons c rest ih =>
    obtain ⟨n2, hn2, hget⟩ := getName_of_named c.toElement (h c (List.mem_cons_self _ _))
    have ih2 := ih (i + 1) (fun q hq => h q (List.mem_cons_of_mem _ hq))
    simp only [getConnectionByNameLoop, hget, firstNamed, hn2, ih2, Option.some.injEq]
    by_cases hd : nm = n2
    · subst hd
      simp
    · have : ¬ (n2 = nm) := fun h => hd h.symm
      simp [hd, this]

theorem getConnectionByName_named (graph : Graph) (port : Port)
    (h : ∀ c ∈ graph.connections.getD [], getString c.toElement att_name ≠ none) :
    getConnectionByName graph (getString port.toElement att_connection)
      = Except.ok (resolve graph port) := by
  unfold getConnectionByName resolve
  cases hn : getString port.toElement att_connection with
  | none => rfl
  | some nm =>
    cases hc : graph.connections with
    | none => rfl
    | some cs =>
      rw [hc] at h
      exact getConnectionByNameLoop_named nm cs 0 h

theorem resolve_connectionAt (graph : Graph) (port : Port) (j : Nat)
    (h : resolve graph port = some j) : ∃ con, graph.connectionAt j = some con := by
  unfold resolve at h
  cases hn : getString port.toElement att_connection with
  | none => simp [hn] at h
  | some nm =>
    cases hc : graph.connections with
    | none => simp [hn, hc] at h
    | some cs =>
      simp only [hn, hc] at h
      have hb := firstNamed_bound nm cs 0 j h
      have hj : j < cs.length := by omega
      exact ⟨cs[j], by simp [Graph.connectionAt, hc, List.getElem?_eq_getElem hj]⟩

/-- One call of `validatePortConnection` in closed form. -/
theorem validatePortConnection_eq (graph : Graph) (port : Port) (error : Nat)
    (hc : ∀ c ∈ graph.connections.getD [], getString c.toElement att_name ≠ none)
    (hp : getString port.toElement att_name ≠ none) :
    validatePortConnection graph port error
      = Except.ok (allocFor graph port, bindPort graph port, error + portErrors graph port) := by
  obtain ⟨pn, -, hpn⟩ := getName_of_named port.toElement hp
  unfold validatePortConnection
  simp only [getConnectionByName_named graph port hc]
  cases hr : resolve graph port with
  | none =>
    simp only [allocFor, bindPort, portErrors, hr, hpn]
    split <;> rfl
  | some j =>
    obtain ⟨con, hcon⟩ := resolve_connectionAt graph port j hr
    simp only [hcon, allocFor, bindPort, portErrors, hr, Graph.cellAt]
    cases hv : con.value with
    | some c => rfl
    | none =>
      simp only
      cases hk : callocCell (getPortType port.toElement) with
      | some value => rfl
      | none =>
        simp only [hpn]
        split <;> rfl

theorem setValueAt_names (value : Cell) (j : Nat) (cs : List Connection) :
    (setValueAt value j cs).map Connection.toElement = cs.map Connection.toElement := by
  induction cs generalizing j with
  | nil => cases j <;> rfl
  | cons c rest ih =>
    cases j with
    | zero => rfl
    | succ k => simp only [setValueAt, List.map_cons, ih k]

theorem setValueAt_get (value : Cell) (j k : Nat) (cs : List Connection) :
    ((setValueAt value j cs)[k]?).bind Connection.value
      = if k = j ∧ j < cs.length then some value else (cs[k]?).bind Connection.value := by
  induction cs generalizing j k with
  | nil => simp [setValueAt]
  | cons c rest ih =>
    cases j with
    | zero =>
      cases k with
      | zero => simp [setValueAt]
      | succ k2 => simp [setValueAt]
    | succ j2 =>
      cases k with
      | zero => simp [setValueAt]
      | succ k2 =>
        simp only [setValueAt, List.getElem?_cons_succ, ih j2 k2, List.length_cons]
        simp only [Nat.add_lt_add_iff_right, Nat.add_right_cancel_iff]

theorem resolve_sameNames (g1 g2 : Graph) (h : sameNames g1 g2) (port : Port) :
    resolve g1 port = resolve g2 port := by
  obtain ⟨hm, hs⟩ := h
  unfold resolve
  cases hn : getString port.toElement att_connection with
  | none => rfl
  | some nm =>
    cases h1 : g1.connections with
    | none =>
      cases h2 : g2.connections with
      | none => rfl
      | some cs2 => simp [h1, h2] at hs
    | some cs1 =>
      cases h2 : g2.connections with
      | none => simp [h1, h2] at hs
      | some cs2 =>
        simp only [h1, h2, Option.getD_some] at hm
        exact firstNamed_congr nm cs2 cs1 0 hm

theorem sameNames_refl (g : Graph) : sameNames g g := ⟨rfl, rfl⟩

theorem sameNames_trans {g1 g2 g3 : Graph} (h1 : sameNames g1 g2) (h2 : sameNames g2 g3) :
    sameNames g1 g3 := ⟨h1.1.trans h2.1, h1.2.trans h2.2⟩

theorem setValue_sameNames (g : Graph) (j : Nat) (value : Cell) :
    sameNames (g.setValue j value) g := by
  unfold sameNames Graph.setValue
  cases hc : g.connections with
  | none => simp
  | some cs => simp [setValueAt_names]

theorem allocFor_sameNames (g : Graph) (port : Port) : sameNames (allocFor g port) g := by
  unfold allocFor
  split
  · split
    · exact setValue_sameNames g _ _
    · exact sameNames_refl g
  · exact sameNames_refl g

theorem allocAll_sameNames (g : Graph) (ports : List Port) : sameNames (allocAll g ports) g := by
  induction ports generalizing g with
  | nil => exact sameNames_refl g
  | cons p rest ih => exact sameNames_trans (ih (allocFor g p)) (allocFor_sameNames g p)

theorem named_of_sameNames (g1 g2 : Graph) (h : sameNames g1 g2)
    (hc : ∀ c ∈ g2.connections.getD [], getString c.toElement att_name ≠ none) :
    ∀ c ∈ g1.connections.getD [], getString c.toElement att_name ≠ none := by
  intro c hcm
  have : c.toElement ∈ (g1.connections.getD []).map Connection.toElement :=
    List.mem_map.mpr ⟨c, hcm, rfl⟩
  rw [h.1] at this
  obtain ⟨c2, hc2, heq⟩ := List.mem_map.mp this
  rw [← heq]
  exact hc c2 hc2

theorem cellAt_setValue (g : Graph) (j k : Nat) (value : Cell)
    (hj : ∃ con, g.connectionAt j = some con) :
    (g.setValue j value).cellAt k = if k = j then some value else g.cellAt k := by
  obtain ⟨con, hcon⟩ := hj
  unfold Graph.connectionAt at hcon
  cases hc : g.connections with
  | none => simp [hc] at hcon
  | some cs =>
    simp only [hc] at hcon
    have hlen : j < cs.length := by
      by_contra hge
      rw [List.getElem?_eq_none (by omega)] at hcon
      exact Option.noConfusion hcon
    have key := setValueAt_get value j k cs
    have e1 : (g.setValue j value).cellAt k
        = ((setValueAt value j cs)[k]?).bind Connection.value := by
      simp only [Graph.cellAt, Graph.connectionAt, Graph.setValue, hc, Option.map_some']
      cases (setValueAt value j cs)[k]? <;> rfl
    have e2 : g.cellAt k = (cs[k]?).bind Connection.value := by
      simp only [Graph.cellAt, Graph.connectionAt, hc]
      cases cs[k]? <;> rfl
    rw [e1, e2, key]
    simp [hlen]

/-- The cell of connection `k` after one call of `validatePortConnection`. -/
theorem cellAt_allocFor (g : Graph) (port : Port) (k : Nat) :
    (allocFor g port).cellAt k
      = if resolve g port = some k ∧ g.cellAt k = none
        then callocCell (getPortType port.toElement) else g.cellAt k := by
  unfold allocFor
  cases hr : resolve g port with
  | none => simp
  | some j =>
    have hj := resolve_connectionAt g port j hr
    simp only [Option.some.injEq]
    cases hcell : g.cellAt j with
    | some c =>
      simp only
      by_cases hjk : j = k
      · subst hjk
        simp [hcell]
      · simp [hjk]
    | none =>
      cases hk : callocCell (getPortType port.toElement) with
      | none =>
        simp only
        by_cases hjk : j = k
        · subst hjk
          simp [hcell]
        · simp [hjk]
      | some value =>
        simp only
        rw [cellAt_setValue g j k value hj]
        by_cases hjk : k = j
        · subst hjk
          simp [hcell]
        · have : ¬ (j = k) := fun h => hjk h.symm
          simp [hjk, this]

theorem bindPort_toElement (g : Graph) (port : Port) :
    (bindPort g port).toElement = port.toElement := by
  unfold bindPort
  split <;> rfl

theorem resolve_toElement (g : Graph) (p q : Port) (h : p.toElement = q.toElement) :
    resolve g p = resolve g q := by
  unfold resolve
  rw [h]

/-- The loop over one port array in closed form. -/
theorem validatePorts_eq (graph : Graph) (ports : List Port) (error : Nat)
    (hc : ∀ c ∈ graph.connections.getD [], getString c.toElement att_name ≠ none)
    (hp : ∀ p ∈ ports, getString p.toElement att_name ≠ none) :
    validatePorts graph ports error
      = Except.ok (allocAll graph ports, ports.map (bindPort graph),
          error + errorsAll graph ports) := by
  induction ports generalizing graph error with
  | nil => rfl
  | cons p rest ih =>
    have h1 := validatePortConnection_eq graph p error hc (hp p (List.mem_cons_self _ _))
    have hc2 := named_of_sameNames _ _ (allocFor_sameNames graph p) hc
    have ih2 := ih (allocFor graph p) (error + portErrors graph p) hc2
      (fun q hq => hp q (List.mem_cons_of_mem _ hq))
    have hb : bindPort (allocFor graph p) = bindPort graph := by
      funext q
      unfold bindPort
      rw [resolve_sameNames _ _ (allocFor_sameNames graph p) q]
    simp only [validatePorts, h1, ih2, allocAll, errorsAll, List.map_cons, hb, Nat.add_assoc]

theorem allocAll_append (g : Graph) (l1 l2 : List Port) :
    allocAll g (l1 ++ l2) = allocAll (allocAll g l1) l2 := by
  induction l1 generalizing g with
  | nil => rfl
  | cons p rest ih =>
    rw [List.cons_append]
    simp only [allocAll]
    exact ih _

theorem errorsAll_append (g : Graph) (l1 l2 : List Port) :
    errorsAll g (l1 ++ l2) = errorsAll g l1 + errorsAll (allocAll g l1) l2 := by
  induction l1 generalizing g with
  | nil => simp [errorsAll, allocAll]
  | cons p rest ih =>
    rw [List.cons_append]
    simp only [errorsAll, allocAll]
    rw [ih, Nat.add_assoc]

theorem bindPort_sameNames (g1 g2 : Graph) (h : sameNames g1 g2) (q : Port) :
    bindPort g1 q = bindPort g2 q := by
  unfold bindPort
  rw [resolve_sameNames g1 g2 h q]

theorem validatePortArray_eq (graph : Graph) (ports : Option (List Port)) (error : Nat)
    (hc : ∀ c ∈ graph.connections.getD [], getString c.toElement att_name ≠ none)
    (hp : ∀ p ∈ ports.getD [], getString p.toElement att_name ≠ none) :
    validatePortArray graph ports error
      = Except.ok (allocAll graph (ports.getD []), ports.map (List.map (bindPort graph)),
          error + errorsAll graph (ports.getD [])) := by
  cases ports with
  | none => rfl
  | some ps =>
    simp only [Option.getD_some] at hp
    simp only [validatePortArray, validatePorts_eq graph ps error hc hp, Option.getD_some,
      Option.map_some']

/-- The loop over the components in closed form. -/
theorem validateComponents_eq (graph : Graph) (comps : List Component) (error : Nat)
    (hc : ∀ c ∈ graph.connections.getD [], getString c.toElement att_name ≠ none)
    (hp : ∀ p ∈ portsOf comps, getString p.toElement att_name ≠ none) :
    validateComponents graph comps error
      = Except.ok (allocAll graph (portsOf comps), comps.map (bindComponent graph),
          error + errorsAll graph (portsOf comps)) := by
  induction comps generalizing graph error with
  | nil => rfl
  | cons comp rest ih =>
    have hpo : ∀ p ∈ comp.outputs.getD [], getString p.toElement att_name ≠ none := by
      intro p hpm
      apply hp
      simp only [portsOf, List.foldr_cons, Component.ports, List.mem_append]
      exact Or.inl (Or.inl hpm)
    have hpi : ∀ p ∈ comp.inputs.getD [], getString p.toElement att_name ≠ none := by
      intro p hpm
      apply hp
      simp only [portsOf, List.foldr_cons, Component.ports, List.mem_append]
      exact Or.inl (Or.inr hpm)
    have hpr : ∀ p ∈ portsOf rest, getString p.toElement att_name ≠ none := by
      intro p hpm
      apply hp
      simp only [portsOf, List.foldr_cons, List.mem_append]
      exact Or.inr hpm
    have s1 := allocAll_sameNames graph (comp.outputs.getD [])
    have hc1 := named_of_sameNames _ _ s1 hc
    have s2 := allocAll_sameNames (allocAll graph (comp.outputs.getD [])) (comp.inputs.getD [])
    have hc2 := named_of_sameNames _ _ s2 hc1
    have e1 := validatePortArray_eq graph comp.outputs error hc hpo
    have e2 := validatePortArray_eq (allocAll graph (comp.outputs.getD [])) comp.inputs
      (error + errorsAll graph (comp.outputs.getD [])) hc1 hpi
    have e3 := ih (allocAll (allocAll graph (comp.outputs.getD [])) (comp.inputs.getD []))
      (error + errorsAll graph (comp.outputs.getD [])
        + errorsAll (allocAll graph (comp.outputs.getD [])) (comp.inputs.getD [])) hc2 hpr
    have hb1 : bindPort (allocAll graph (comp.outputs.getD [])) = bindPort graph :=
      funext (bindPort_sameNames _ _ s1)
    have hb2 : bindComponent
        (allocAll (allocAll graph (comp.outputs.getD [])) (comp.inputs.getD []))
        = bindComponent graph := by
      funext c
      have : bindPort
          (allocAll (allocAll graph (comp.outputs.getD [])) (comp.inputs.getD []))
          = bindPort graph := funext (bindPort_sameNames _ _ (sameNames_trans s2 s1))
      simp only [bindComponent, this]
    have hpo2 : portsOf (comp :: rest)
        = comp.outputs.getD [] ++ (comp.inputs.getD [] ++ portsOf rest) := by
      simp only [portsOf, List.foldr_cons, Component.ports, List.append_assoc]
    rw [hpo2, allocAll_append, allocAll_append, errorsAll_append, errorsAll_append]
    simp only [validateComponents, e1, e2, e3, List.map_cons, hb1, hb2, bindComponent]
    simp only [Nat.add_assoc]

/-- The run of `validateGraph` in closed form, for a graph with a Components section whose
connections and ports carry the required attribute `name`. -/
theorem validateGraph_eq (graph : Graph) (comps : List Component)
    (hcomps : graph.components = some comps) (hn : graph.named) :
    validateGraph graph = Except.ok
      { error := errorsAll graph graph.ports,
        graph := { allocAll graph graph.ports with
                   components := some (comps.map (bindComponent graph)) },
        result := if errorsAll graph graph.ports ≠ 0 then none
          else some { allocAll graph graph.ports with
                      components := some (comps.map (bindComponent graph)) } } := by
  obtain ⟨hc, hp⟩ := hn
  have hports : graph.ports = portsOf comps := by
    simp only [Graph.ports, hcomps, Option.getD_some, portsOf]
  rw [hports] at hp
  unfold validateGraph
  simp only [hcomps, validateComponents_eq graph comps 0 hc hp, hports, Nat.zero_add]

/-! ## Graph validation: which cells exist after the run -/

theorem callocCell_type (type : Enu) (cell : Cell) (h : callocCell type = some cell) :
    cell.type = type ∧ legalPortType type := by
  unfold callocCell at h
  unfold legalPortType
  split at h
  · rename_i ht
    cases h
    exact ⟨ht.symm, Or.inl ht⟩
  · split at h
    · rename_i ht
      cases h
      exact ⟨ht.symm, Or.inr (Or.inl ht)⟩
    · split at h
      · rename_i ht
        cases h
        exact ⟨ht.symm, Or.inr (Or.inr (Or.inl ht))⟩
      · split at h
        · rename_i ht
          cases h
          exact ⟨ht.symm, Or.inr (Or.inr (Or.inr ht))⟩
        · exact Option.noConfusion h

theorem callocCell_of_legal (type : Enu) (h : legalPortType type) :
    ∃ cell, callocCell type = some cell := by
  rcases h with h | h | h | h <;> subst h <;> exact ⟨_, rfl⟩

/-- A cell, once allocated, is kept by every later call. -/
theorem cellAt_allocAll_of_some (g : Graph) (ports : List Port) (j : Nat) (cell : Cell)
    (h : g.cellAt j = some cell) : (allocAll g ports).cellAt j = some cell := by
  induction ports generalizing g with
  | nil => exact h
  | cons p rest ih =>
    apply ih
    rw [cellAt_allocFor, h]
    simp

/-- Ports that name other connections leave the cell of connection `j` alone. -/
theorem cellAt_allocAll_of_unbound (g : Graph) (ports : List Port) (j : Nat)
    (h : ∀ p ∈ ports, resolve g p ≠ some j) : (allocAll g ports).cellAt j = g.cellAt j := by
  induction ports generalizing g with
  | nil => rfl
  | cons p rest ih =>
    have h1 : (allocFor g p).cellAt j = g.cellAt j := by
      rw [cellAt_allocFor]
      simp [h p (List.mem_cons_self _ _)]
    simp only [allocAll]
    rw [ih (allocFor g p), h1]
    intro q hq
    rw [resolve_sameNames _ _ (allocFor_sameNames g p) q]
    exact h q (List.mem_cons_of_mem _ hq)

/-- A cell that exists after the visit existed before or belongs to a connection that one of the
visited ports names. -/
theorem cellAt_allocAll_origin (g : Graph) (ports : List Port) (j : Nat)
    (h : (allocAll g ports).cellAt j ≠ none) :
    g.cellAt j ≠ none ∨ ∃ p ∈ ports, resolve g p = some j := by
  by_contra hcon
  push_neg at hcon
  apply h
  rw [cellAt_allocAll_of_unbound g ports j hcon.2]
  exact hcon.1

/-- With no error counted, the cell of a connection that had none is the zeroed cell of the type
of the first visited port that names it. -/
theorem cellAt_allocAll_first (g : Graph) (ports : List Port) (j : Nat)
    (herr : errorsAll g ports = 0) (hcell : g.cellAt j = none) (first : Port)
    (hfirst : ports.find? (fun q => decide (resolve g q = some j)) = some first) :
    ∃ cell, callocCell (getPortType first.toElement) = some cell ∧
      (allocAll g ports).cellAt j = some cell := by
  induction ports generalizing g with
  | nil => simp at hfirst
  | cons p rest ih =>
    simp only [errorsAll, Nat.add_eq_zero] at herr
    obtain ⟨he1, he2⟩ := herr
    by_cases hr : resolve g p = some j
    · simp only [List.find?, hr, decide_True, Option.some.injEq] at hfirst
      subst hfirst
      cases hk : callocCell (getPortType p.toElement) with
      | none =>
        exfalso
        simp only [portErrors, hr, hcell, hk] at he1
        split at he1 <;> omega
      | some cell =>
        refine ⟨cell, rfl, ?_⟩
        simp only [allocAll]
        apply cellAt_allocAll_of_some
        rw [cellAt_allocFor]
        simp [hr, hcell, hk]
    · simp only [List.find?, hr, decide_False] at hfirst
      simp only [allocAll]
      apply ih (allocFor g p) he2
      · rw [cellAt_allocFor]
        simp [hr, hcell]
      · have : (fun q => decide (resolve (allocFor g p) q = some j))
            = (fun q => decide (resolve g q = some j)) := by
          funext q
          rw [resolve_sameNames _ _ (allocFor_sameNames g p) q]
        rw [this]
        exact hfirst

/-- With no error counted, every visited port that declares a connection names an existing one. -/
theorem resolve_of_no_error (g : Graph) (ports : List Port) (herr : errorsAll g ports = 0)
    (p : Port) (hp : p ∈ ports) (nm : String)
    (hnm : getString p.toElement att_connection = some nm) : ∃ j, resolve g p = some j := by
  induction ports generalizing g with
  | nil => simp at hp
  | cons q rest ih =>
    simp only [errorsAll, Nat.add_eq_zero] at herr
    obtain ⟨he1, he2⟩ := herr
    rcases List.mem_cons.mp hp with h1 | h1
    · subst h1
      cases hr : resolve g p with
      | some j => exact ⟨j, rfl⟩
      | none =>
        exfalso
        simp [portErrors, hr, hnm] at he1
    · obtain ⟨j, hj⟩ := ih (allocFor g q) he2 h1
      exact ⟨j, by rw [← resolve_sameNames _ _ (allocFor_sameNames g q) p]; exact hj⟩

theorem portsOf_map_bind (g : Graph) (comps : List Component) :
    portsOf (comps.map (bindComponent g)) = (portsOf comps).map (bindPort g) := by
  induction comps with
  | nil => rfl
  | cons c rest ih =>
    simp only [List.map_cons, portsOf, List.foldr_cons, List.map_append] at ih ⊢
    rw [ih]
    congr 1
    simp only [Component.ports, bindComponent, List.map_append]
    cases c.outputs <;> cases c.inputs <;> simp

/-- The connection field of a bound port of a fresh graph is the connection the port names. -/
theorem bindPort_connection (g : Graph) (p : Port) (hfresh : p.connection = none) :
    (bindPort g p).connection = resolve g p := by
  unfold bindPort
  cases hr : resolve g p with
  | none => simpa using hfresh
  | some j => rfl

/-- What `validateGraph` leaves behind, as far as the later statements need it. -/
theorem validateGraph_outcome (graph : Graph) (hn : graph.named) (r : GraphValidation)
    (hrun : validateGraph graph = Except.ok r) :
    r.error = errorsAll graph graph.ports ∧
    r.graph.ports = graph.ports.map (bindPort graph) ∧
    r.graph.connections = (allocAll graph graph.ports).connections ∧
    sameNames r.graph graph ∧
    r.result = (if r.error ≠ 0 then none else some r.graph) := by
  cases hcomps : graph.components with
  | none =>
    simp [validateGraph, hcomps] at hrun
  | some comps =>
    rw [validateGraph_eq graph comps hcomps hn] at hrun
    cases hrun
    have hports : graph.ports = portsOf comps := by
      simp only [Graph.ports, hcomps, Option.getD_some, portsOf]
    refine ⟨rfl, ?_, rfl, ?_, rfl⟩
    · rw [hports]
      exact portsOf_map_bind graph comps
    · exact allocAll_sameNames graph graph.ports

theorem cellAt_congr (g1 g2 : Graph) (h : g1.connections = g2.connections) (j : Nat) :
    g1.cellAt j = g2.cellAt j := by
  simp only [Graph.cellAt, Graph.connectionAt, h]

theorem find_congr_mem {α : Type} (l : List α) (p q : α → Bool) (h : ∀ x ∈ l, p x = q x) :
    l.find? p = l.find? q := by
  induction l with
  | nil => rfl
  | cons a rest ih =>
    simp only [List.find?, h a (List.mem_cons_self _ _)]
    rw [ih (fun x hx => h x (List.mem_cons_of_mem _ hx))]

theorem cellAt_of_fresh (g : Graph) (hf : g.fresh) (j : Nat) : g.cellAt j = none := by
  unfold Graph.cellAt Graph.connectionAt
  cases hc : g.connections with
  | none => rfl
  | some cs =>
    simp only
    cases hj : cs[j]? with
    | none => rfl
    | some con =>
      have hm : con ∈ g.connections.getD [] := by
        rw [hc]
        obtain ⟨hlt, heq⟩ := List.getElem?_eq_some.mp hj
        rw [← heq]
        exact List.getElem_mem hlt
      exact hf.1 con hm

/-- The ports of the graph that `validateGraph` leaves: each is a port of the argument with its
connection field set to the connection it names. -/
theorem ports_after_validateGraph (graph : Graph) (hn : graph.named) (hf : graph.fresh)
    (r : GraphValidation) (hrun : validateGraph graph = Except.ok r) (port : Port)
    (hport : port ∈ r.graph.ports) :
    ∃ q ∈ graph.ports, port.toElement = q.toElement ∧ port.connection = resolve graph q ∧
      resolve r.graph port = resolve graph q := by
  obtain ⟨-, hports, -, hsame, -⟩ := validateGraph_outcome graph hn r hrun
  rw [hports] at hport
  obtain ⟨q, hq, rfl⟩ := List.mem_map.mp hport
  refine ⟨q, hq, bindPort_toElement graph q, bindPort_connection graph q (hf.2 q hq), ?_⟩
  rw [resolve_sameNames _ _ hsame, resolve_toElement graph _ q (bindPort_toElement graph q)]

/-- What acceptance by `validateGraph` means for the closed form of the run. -/
theorem accepted_facts (graph : Graph) (hn : graph.named) (r : GraphValidation)
    (accepted : Graph) (hrun : validateGraph graph = Except.ok r)
    (hacc : r.result = some accepted) :
    r.graph = accepted ∧ errorsAll graph graph.ports = 0 ∧
    accepted.ports = graph.ports.map (bindPort graph) ∧
    (∀ j, accepted.cellAt j = (allocAll graph graph.ports).cellAt j) ∧
    sameNames accepted graph := by
  obtain ⟨herr, hports, hconns, hsame, hres⟩ := validateGraph_outcome graph hn r hrun
  have hzero : r.error = 0 := by
    by_contra hne
    rw [hres] at hacc
    simp [hne] at hacc
  have hgr : r.graph = accepted := by
    rw [hres] at hacc
    simpa [hzero] using hacc
  subst hgr
  exact ⟨rfl, by rw [← herr]; exact hzero, hports, fun j => cellAt_congr _ _ hconns j, hsame⟩

/-- In an accepted graph the cell of a connection is the zeroed cell of the type of the first
port bound to it. -/
theorem accepted_first_cell (graph : Graph) (hn : graph.named) (hf : graph.fresh)
    (r : GraphValidation) (accepted : Graph) (hrun : validateGraph graph = Except.ok r)
    (hacc : r.result = some accepted) (j : Nat) (first : Port)
    (hfirst : accepted.ports.find? (fun q => decide (q.connection = some j)) = some first) :
    ∃ cell, accepted.cellAt j = some cell ∧
      callocCell (getPortType first.toElement) = some cell := by
  obtain ⟨-, herr0, hports, hcellEq, -⟩ := accepted_facts graph hn r accepted hrun hacc
  rw [hports, List.find?_map] at hfirst
  have hpred : ∀ q ∈ graph.ports,
      ((fun q => decide (q.connection = some j)) ∘ bindPort graph) q
        = (fun q => decide (resolve graph q = some j)) q := by
    intro q hq
    simp only [Function.comp, bindPort_connection graph q (hf.2 q hq)]
  rw [find_congr_mem _ _ _ hpred] at hfirst
  cases hq0 : graph.ports.find? (fun q => decide (resolve graph q = some j)) with
  | none => simp [hq0] at hfirst
  | some q0 =>
    simp only [hq0, Option.map_some', Option.some.injEq] at hfirst
    subst hfirst
    obtain ⟨cell, hk, hcell⟩ := cellAt_allocAll_first graph graph.ports j herr0
      (cellAt_of_fresh graph hf j) q0 hq0
    rw [bindPort_toElement]
    exact ⟨cell, by rw [hcellEq, hcell], hk⟩

/-- C5. First-port allocation: in a graph that `validateGraph` accepts (started on a graph as the
parser leaves it, whose ports and connections carry the required attribute `name`)
(1) each port that declares a connection name is bound to the first Connection of that name;
(2) each connection bound by at least one port has a cell, the zeroed cell that `calloc` returns
for the declared type (one of Real, Integer, Boolean, String) of the first port bound to it in the
order of the visit;
(3) a call of `validatePortConnection` for a port whose connection already has a cell leaves the
graph, and so the cell, as it is and binds the port;
(4) a connection bound by no port has no cell. -/
theorem first_port_allocation (graph : Graph) (hn : graph.named) (hf : graph.fresh)
    (r : GraphValidation) (accepted : Graph)
    (hrun : validateGraph graph = Except.ok r) (hacc : r.result = some accepted) :
    (∀ port ∈ accepted.ports, ∀ nm, getString port.toElement att_connection = some nm →
      ∃ j, firstNamed nm 0 (accepted.connections.getD []) = some j ∧
        port.connection = some j) ∧
    (∀ j first, accepted.ports.find? (fun q => decide (q.connection = some j)) = some first →
      ∃ cell, accepted.cellAt j = some cell ∧
        callocCell (getPortType first.toElement) = some cell ∧
        cell.type = getPortType first.toElement ∧ legalPortType (getPortType first.toElement)) ∧
    (∀ g port error j cell, getString port.toElement att_name ≠ none →
      (∀ c ∈ g.connections.getD [], getString c.toElement att_name ≠ none) →
      resolve g port = some j → g.cellAt j = some cell →
      validatePortConnection g port error
        = Except.ok (g, { port with connection := some j }, error)) ∧
    (∀ j, (∀ q ∈ accepted.ports, q.connection ≠ some j) → accepted.cellAt j = none) := by
  obtain ⟨hgr, herr0, hports, hcellEq, -⟩ := accepted_facts graph hn r accepted hrun hacc
  subst hgr
  refine ⟨?_, ?_, ?_, ?_⟩
  · intro port hport nm hnm
    obtain ⟨q, hq, hel, hcon, hrs⟩ := ports_after_validateGraph graph hn hf r hrun port hport
    obtain ⟨j, hj⟩ := resolve_of_no_error graph graph.ports herr0 q hq nm (by rw [← hel]; exact hnm)
    refine ⟨j, ?_, by rw [hcon, hj]⟩
    rw [hj] at hrs
    unfold resolve at hrs
    simp only [hnm] at hrs
    cases hc : r.graph.connections with
    | none => simp [hc] at hrs
    | some cs => simpa [hc] using hrs
  · intro j first hfirst
    obtain ⟨cell, hcell, hk⟩ := accepted_first_cell graph hn hf r r.graph hrun hacc j first hfirst
    obtain ⟨ht, hl⟩ := callocCell_type _ cell hk
    exact ⟨cell, hcell, hk, ht, hl⟩
  · intro g port error j cell hp hc hr hcell
    rw [validatePortConnection_eq g port error hc hp]
    simp only [allocFor, bindPort, portErrors, hr, hcell, Nat.add_zero]
  · intro j hnone
    rw [hcellEq, cellAt_allocAll_of_unbound graph graph.ports j, cellAt_of_fresh graph hf j]
    intro q hq hrq
    apply hnone (bindPort graph q)
    · rw [hports]
      exact List.mem_map.mpr ⟨q, hq, rfl⟩
    · rw [bindPort_connection graph q (hf.2 q hq), hrq]

/-- Instance of C5 at `exampleWiring`: the run accepts the graph, the first connection `c` has a
Real cell, and the connections `d` and the second `c`, which no port is bound to, have none. -/
theorem first_port_allocation_witness :
    exampleWiring.named ∧ exampleWiring.fresh ∧
    validateGraph exampleWiring = Except.ok (validated exampleWiring) ∧
    (validated exampleWiring).result = some (validated exampleWiring).graph ∧
    (validated exampleWiring).graph.cellAt 0 = some (Cell.real 0) ∧
    (validated exampleWiring).graph.cellAt 2 = none ∧
    (∀ j, (∀ q ∈ (validated exampleWiring).graph.ports, q.connection ≠ some j) →
      (validated exampleWiring).graph.cellAt j = none) :=
  ⟨⟨by decide, by decide⟩, ⟨by decide, by decide⟩, by decide, by decide, by decide, by decide,
    (first_port_allocation exampleWiring ⟨by decide, by decide⟩ ⟨by decide, by decide⟩
      (validated exampleWiring) (validated exampleWiring).graph (by decide) (by decide)).2.2.2⟩

/-! ## Graph validation: the error count -/

theorem portErrors_valid (g : Graph) (p : Port) (h : validPort g p) : portErrors g p = 0 := by
  unfold portErrors
  rcases h with h | ⟨hr, hl⟩
  · have : resolve g p = none := by simp [resolve, h]
    simp [this, h]
  · cases hres : resolve g p with
    | none => simp [hres] at hr
    | some j =>
      obtain ⟨cell, hcell⟩ := callocCell_of_legal _ hl
      simp only [hcell]
      split <;> rfl

theorem validPort_sameNames (g1 g2 : Graph) (h : sameNames g1 g2) (p : Port)
    (hv : validPort g2 p) : validPort g1 p := by
  unfold validPort at hv ⊢
  rw [resolve_sameNames g1 g2 h p]
  exact hv

theorem errorsAll_valid (g : Graph) (ports : List Port) (h : ∀ p ∈ ports, validPort g p) :
    errorsAll g ports = 0 := by
  induction ports generalizing g with
  | nil => rfl
  | cons p rest ih =>
    simp only [errorsAll, portErrors_valid g p (h p (List.mem_cons_self _ _)), Nat.zero_add]
    apply ih
    intro q hq
    exact validPort_sameNames _ _ (allocFor_sameNames g p) q (h q (List.mem_cons_of_mem _ hq))

theorem firstNamed_absent (nm : String) (cs : List Connection) (i : Nat)
    (h : ∀ con ∈ cs, getString con.toElement att_name ≠ some nm) : firstNamed nm i cs = none := by
  induction cs generalizing i with
  | nil => rfl
  | cons c rest ih =>
    simp only [firstNamed, h c (List.mem_cons_self _ _), if_false]
    exact ih (i + 1) (fun q hq => h q (List.mem_cons_of_mem _ hq))

theorem resolve_absent (g : Graph) (p : Port) (nm : String)
    (hnm : getString p.toElement att_connection = some nm)
    (h : ∀ con ∈ g.connections.getD [], getString con.toElement att_name ≠ some nm) :
    resolve g p = none := by
  unfold resolve
  simp only [hnm]
  cases hc : g.connections with
  | none => rfl
  | some cs =>
    rw [hc] at h
    exact firstNamed_absent nm cs 0 h

/-- One port that names a missing connection among otherwise valid ports: one error. -/
theorem errorsAll_one_unresolved (g : Graph) (ports : List Port) (k : Nat)
    (hk : k < ports.length)
    (hbad : (getString (ports[k]).toElement att_connection).isSome = true ∧
      resolve g ports[k] = none)
    (hothers : ∀ i (hi : i < ports.length), i ≠ k → validPort g ports[i]) :
    errorsAll g ports = 1 := by
  induction ports generalizing g k with
  | nil => simp at hk
  | cons p rest ih =>
    have hs := allocFor_sameNames g p
    cases k with
    | zero =>
      simp only [List.getElem_cons_zero] at hbad
      have h1 : portErrors g p = 1 := by
        simp [portErrors, hbad.2, hbad.1]
      have h2 : errorsAll (allocFor g p) rest = 0 := by
        apply errorsAll_valid
        intro q hq
        obtain ⟨i, hi, rfl⟩ := List.mem_iff_getElem.mp hq
        apply validPort_sameNames _ _ hs
        have := hothers (i + 1) (by simp only [List.length_cons]; omega) (by omega)
        simpa using this
      simp only [errorsAll, h1, h2]
    | succ k2 =>
      have h1 : portErrors g p = 0 := by
        apply portErrors_valid
        have := hothers 0 (by simp) (by omega)
        simpa using this
      simp only [List.length_cons, Nat.add_lt_add_iff_right] at hk
      have h2 : errorsAll (allocFor g p) rest = 1 := by
        apply ih (allocFor g p) k2 hk
        · simp only [List.getElem_cons_succ] at hbad
          exact ⟨hbad.1, by rw [resolve_sameNames _ _ hs]; exact hbad.2⟩
        · intro i hi hik
          apply validPort_sameNames _ _ hs
          have := hothers (i + 1) (by simp only [List.length_cons]; omega) (by omega)
          simpa using this
      simp only [errorsAll, h1, h2]

/-- C6. Unresolved connection scenario: in a graph (as the parser leaves it, ports and connections
carrying the required attribute `name`) in which the port at position `k` of the visit declares a
connection name that no Connection carries (the Connections list may be absent) and every other
port is valid, `validateGraph` counts exactly 1 error and returns `NULL`; the connection reference
of that port stays unset; and every cell that exists afterwards belongs to a connection that
another port names, so none is allocated on account of that port. -/
theorem unresolved_connection_one_error (graph : Graph) (hn : graph.named) (hf : graph.fresh)
    (k : Nat) (hk : k < graph.ports.length) (nm : String)
    (hdecl : getString (graph.ports[k]).toElement att_connection = some nm)
    (habsent : ∀ con ∈ graph.connections.getD [], getString con.toElement att_name ≠ some nm)
    (hothers : ∀ i (hi : i < graph.ports.length), i ≠ k → validPort graph graph.ports[i]) :
    ∃ r, validateGraph graph = Except.ok r ∧ r.error = 1 ∧ r.result = none ∧
      (∃ p, r.graph.ports[k]? = some p ∧ p.toElement = (graph.ports[k]).toElement ∧
        p.connection = none) ∧
      (∀ j, r.graph.cellAt j ≠ none →
        ∃ i, ∃ hi : i < graph.ports.length, i ≠ k ∧ resolve graph graph.ports[i] = some j) := by
  have hres : resolve graph graph.ports[k] = none := resolve_absent graph _ nm hdecl habsent
  cases hcomps : graph.components with
  | none =>
    exfalso
    simp [Graph.ports, hcomps] at hk
  | some comps =>
    have hrun := validateGraph_eq graph comps hcomps hn
    obtain ⟨herr, hports, hconns, -, hresult⟩ := validateGraph_outcome graph hn _ hrun
    have hone : errorsAll graph graph.ports = 1 :=
      errorsAll_one_unresolved graph graph.ports k hk ⟨by simp [hdecl], hres⟩ hothers
    refine ⟨_, hrun, by rw [herr, hone], ?_, ?_, ?_⟩
    · rw [hresult, herr, hone]
      rfl
    · refine ⟨bindPort graph graph.ports[k], ?_, bindPort_toElement _ _, ?_⟩
      · rw [hports, List.getElem?_map, List.getElem?_eq_getElem hk]
        rfl
      · rw [bindPort_connection graph _ (hf.2 _ (List.getElem_mem hk)), hres]
    · intro j hj
      rw [cellAt_congr _ _ hconns j] at hj
      rcases cellAt_allocAll_origin graph graph.ports j hj with h0 | ⟨p, hp, hrp⟩
      · exact absurd (cellAt_of_fresh graph hf j) h0
      · obtain ⟨i, hi, rfl⟩ := List.mem_iff_getElem.mp hp
        refine ⟨i, hi, ?_, hrp⟩
        intro hik
        subst hik
        rw [hres] at hrp
        exact Option.noConfusion hrp

/-- Instance of C6 at `exampleDangling`, whose second port names the missing connection `x`. -/
theorem unresolved_connection_one_error_witness :
    exampleDangling.named ∧ exampleDangling.fresh ∧
    ∃ r, validateGraph exampleDangling = Except.ok r ∧ r.error = 1 ∧ r.result = none ∧
      (∃ p, r.graph.ports[1]? = some p ∧ p.toElement = (exampleDangling.ports[1]).toElement ∧
        p.connection = none) ∧
      (∀ j, r.graph.cellAt j ≠ none →
        ∃ i, ∃ hi : i < exampleDangling.ports.length,
          i ≠ 1 ∧ resolve exampleDangling exampleDangling.ports[i] = some j) :=
  ⟨⟨by decide, by decide⟩, ⟨by decide, by decide⟩,
    unresolved_connection_one_error exampleDangling ⟨by decide, by decide⟩
      ⟨by decide, by decide⟩ 1 (by decide) "x" (by decide) (by decide) (by decide)⟩

/-! ## The step loop: order of the calls -/

theorem continuesBy_refl {σ : Type} (kind : Event → Bool) (m : Master σ) :
    ContinuesBy kind m m := ⟨[], by simp, by simp⟩

theorem continuesBy_trans {σ : Type} {kind : Event → Bool} {m1 m2 m3 : Master σ}
    (h1 : ContinuesBy kind m1 m2) (h2 : ContinuesBy kind m2 m3) : ContinuesBy kind m1 m3 := by
  obtain ⟨c1, e1, k1⟩ := h1
  obtain ⟨c2, e2, k2⟩ := h2
  refine ⟨c1 ++ c2, by rw [e2, e1, List.append_assoc], ?_⟩
  intro e he
  rcases List.mem_append.mp he with h | h
  · exact k1 e h
  · exact k2 e h

theorem readOutput_continues {σ : Type} (rt : Runtime) (fmus : List (FMU σ)) (i n : Nat)
    (port : Port) (m m2 : Master σ) (h : readOutput rt fmus i n port m = Except.ok m2) :
    ContinuesBy Event.isGet m m2 := by
  unfold readOutput at h
  repeat' split at h
  all_goals first
    | exact Except.noConfusion h
    | (cases h; exact continuesBy_refl _ _)
    | (cases h; exact ⟨[_], rfl, by simp [Event.isGet]⟩)

theorem setInput_continues {σ : Type} (rt : Runtime) (fmus : List (FMU σ)) (i n : Nat)
    (port : Port) (m m2 : Master σ) (h : setInput rt fmus i n port m = Except.ok m2) :
    ContinuesBy Event.isSet m m2 := by
  unfold setInput at h
  repeat' split at h
  all_goals first
    | exact Except.noConfusion h
    | (cases h; exact continuesBy_refl _ _)
    | (cases h; exact ⟨[_], rfl, by simp [Event.isSet]⟩)

theorem forPorts_continues {σ : Type} (kind : Event → Bool)
    (body : Nat → Port → Master σ → Except String (Master σ))
    (hbody : ∀ n port m m2, body n port m = Except.ok m2 → ContinuesBy kind m m2)
    (n : Nat) (ports : List Port) (m m2 : Master σ)
    (h : forPorts body n ports m = Except.ok m2) : ContinuesBy kind m m2 := by
  induction ports generalizing n m with
  | nil =>
    simp only [forPorts] at h
    cases h
    exact continuesBy_refl _ _
  | cons p rest ih =>
    simp only [forPorts] at h
    split at h
    · exact Except.noConfusion h
    · rename_i m1 hb
      exact continuesBy_trans (hbody n p m m1 hb) (ih (n + 1) m1 h)

theorem readOutputs_continues {σ : Type} (rt : Runtime) (fmus : List (FMU σ)) (i : Nat)
    (comps : List Component) (m m2 : Master σ)
    (h : readOutputs rt fmus i comps m = Except.ok m2) : ContinuesBy Event.isGet m m2 := by
  induction comps generalizing i m with
  | nil =>
    simp only [readOutputs] at h
    cases h
    exact continuesBy_refl _ _
  | cons c rest ih =>
    simp only [readOutputs] at h
    split at h
    · exact ih (i + 1) m h
    · split at h
      · exact Except.noConfusion h
      · rename_i m1 hb
        exact continuesBy_trans
          (forPorts_continues _ _ (readOutput_continues rt fmus i) 0 _ m m1 hb) (ih (i + 1) m1 h)

theorem setInputs_continues {σ : Type} (rt : Runtime) (fmus : List (FMU σ)) (i : Nat)
    (comps : List Component) (m m2 : Master σ)
    (h : setInputs rt fmus i comps m = Except.ok m2) : ContinuesBy Event.isSet m m2 := by
  induction comps generalizing i m with
  | nil =>
    simp only [setInputs] at h
    cases h
    exact continuesBy_refl _ _
  | cons c rest ih =>
    simp only [setInputs] at h
    split at h
    · exact ih (i + 1) m h
    · split at h
      · exact Except.noConfusion h
      · rename_i m1 hb
        exact continuesBy_trans
          (forPorts_continues _ _ (setInput_continues rt fmus i) 0 _ m m1 hb) (ih (i + 1) m1 h)

theorem doSteps_continues {σ : Type} (fmus : List (FMU σ)) (time h : ℚ) (i : Nat)
    (comps : List Component) (m : Master σ) (f : Flow σ)
    (hrun : doSteps fmus time h i comps m = Except.ok f) :
    ContinuesBy Event.isDoStep m f.master := by
  induction comps generalizing i m with
  | nil =>
    simp only [doSteps] at hrun
    cases hrun
    exact continuesBy_refl _ _
  | cons c rest ih =>
    simp only [doSteps] at hrun
    split at hrun
    · exact Except.noConfusion hrun
    · rename_i fmu c0 hh
      split at hrun
      · cases hrun
        exact ⟨[_], rfl, by simp [Event.isDoStep]⟩
      · exact continuesBy_trans ⟨[_], rfl, by simp [Event.isDoStep]⟩ (ih (i + 1) _ hrun)

/-- In one macro-step every get precedes every set, and every set precedes every `doStep`. -/
theorem exchange_order {σ : Type} (rt : Runtime) (fmus : List (FMU σ)) (time h : ℚ)
    (m : Master σ) (f : Flow σ) (hrun : exchange rt fmus time h m = Except.ok f) :
    ∃ gets sets steps, f.master.trace = m.trace ++ gets ++ sets ++ steps ∧
      (∀ e ∈ gets, e.isGet = true) ∧ (∀ e ∈ sets, e.isSet = true) ∧
      (∀ e ∈ steps, e.isDoStep = true) := by
  unfold exchange at hrun
  split at hrun
  · exact Except.noConfusion hrun
  · rename_i comps hc
    split at hrun
    · exact Except.noConfusion hrun
    · rename_i m1 h1
      split at hrun
      · exact Except.noConfusion hrun
      · rename_i m2 h2
        obtain ⟨gets, eg, kg⟩ := readOutputs_continues rt fmus 0 comps m m1 h1
        obtain ⟨sets, es, ks⟩ := setInputs_continues rt fmus 0 comps m1 m2 h2
        obtain ⟨steps, ed, kd⟩ := doSteps_continues fmus time h 0 comps m2 f hrun
        exact ⟨gets, sets, steps, by rw [ed, es, eg], kg, ks, kd⟩

/-! ## The step loop: producer and consumer -/

theorem pair_valueReference (rt : Runtime) (hscan : rt.scanUInt "0" = some 0) (name : String) :
    getValueReference rt.scanUInt (exampleVariable name elm_Real none).toElement = Except.ok 0 := by
  have hs : getString (exampleVariable name elm_Real none).toElement att_valueReference
      = some "0" := by rfl
  simp only [getValueReference, getUInt, hs, hscan]
  rfl

/-- The exchange of one macro-step of the pair: the cell and the input of B receive the output
`a` that A holds at the start, then A steps to `a + 1`. -/
theorem pair_exchange (rt : Runtime) (hscan : rt.scanUInt "0" = some 0) (a0 a b v time h : ℚ)
    (tr : List Event) :
    exchange rt [producerFMU a0, consumerFMU] time h (pairState a b v tr)
      = Except.ok (Flow.next (pairState (a + 1) a a
          (tr ++ [Event.get 0 0 enu_Real 0 (Cell.real a)]
            ++ [Event.set 1 0 enu_Real 0 (Cell.real a)]
            ++ [Event.doStep 0 time h fmiOK] ++ [Event.doStep 1 time h fmiOK]))) := by
  have h1 := pair_valueReference rt hscan "y"
  have h2 := pair_valueReference rt hscan "u"
  simp only [exchange, componentsOf, pairState, pairGraph, readOutputs, forPorts, readOutput,
    setInputs, setInput, h1, h2]
  rfl

theorem pair_macroStep (rt : Runtime) (hscan : rt.scanUInt "0" = some 0) (a0 a b v time h : ℚ)
    (separator : Char) (nSteps : Nat) (tr : List Event) :
    macroStep rt [producerFMU a0, consumerFMU] h separator time nSteps (pairState a b v tr)
      = Except.ok (rt.add time h, nSteps + 1, Flow.next (pairState (a + 1) a a
          (tr ++ [Event.get 0 0 enu_Real 0 (Cell.real a)]
            ++ [Event.set 1 0 enu_Real 0 (Cell.real a)]
            ++ [Event.doStep 0 time h fmiOK] ++ [Event.doStep 1 time h fmiOK]
            ++ [Event.outputRow (rt.add time h) separator false]))) := by
  simp only [macroStep, pair_exchange rt hscan]
  rfl

/-- After `n` macro-steps of the pair the output of A has grown by `n`. -/
theorem pair_macroSteps (rt : Runtime) (hscan : rt.scanUInt "0" = some 0) (a0 h : ℚ)
    (separator : Char) (n : Nat) (a b v time : ℚ) (nSteps : Nat) (tr : List Event) :
    ∃ time2 b2 v2 tr2,
      macroSteps rt [producerFMU a0, consumerFMU] h separator n time nSteps (pairState a b v tr)
        = Except.ok (time2, nSteps + n, Flow.next (pairState (a + n) b2 v2 tr2)) := by
  induction n generalizing a b v time nSteps tr with
  | zero => exact ⟨time, b, v, tr, by simp [macroSteps]⟩
  | succ k ih =>
    obtain ⟨time2, b2, v2, tr2, hk⟩ := ih (a + 1) a a (rt.add time h) (nSteps + 1)
      (tr ++ [Event.get 0 0 enu_Real 0 (Cell.real a)]
        ++ [Event.set 1 0 enu_Real 0 (Cell.real a)]
        ++ [Event.doStep 0 time h fmiOK] ++ [Event.doStep 1 time h fmiOK]
        ++ [Event.outputRow (rt.add time h) separator false])
    refine ⟨time2, b2, v2, tr2, ?_⟩
    simp only [macroSteps, pair_macroStep rt hscan, hk]
    have e1 : a + 1 + (k : ℚ) = a + ((k + 1 : ℕ) : ℚ) := by push_cast; ring
    have e2 : nSteps + 1 + k = nSteps + (k + 1) := by omega
    rw [e1, e2]

/-- C1. Jacobi ordering of the step loop. In every macro-step the calls of the exchange are a
block of get-operations, then a block of set-operations, then a block of `doStep` calls: every get
precedes every set, and every set precedes every `doStep`. Consequently, for the producer A (Real
output, increased by 1.0 per `doStep`, start value `a0`) wired by one connection to the Real input
of the consumer B: after `n` macro-steps A holds `a0 + n`, and in macro-step `n + 1` the value set
on the input of B is `a0 + n`, the value A held at the end of macro-step `n`, while A ends
macro-step `n + 1` with `a0 + n + 1`. -/
theorem jacobi_ordering :
    (∀ (σ : Type) (rt : Runtime) (fmus : List (FMU σ)) (time h : ℚ) (m : Master σ) (f : Flow σ),
      exchange rt fmus time h m = Except.ok f →
      ∃ gets sets steps, f.master.trace = m.trace ++ gets ++ sets ++ steps ∧
        (∀ e ∈ gets, e.isGet = true) ∧ (∀ e ∈ sets, e.isSet = true) ∧
        (∀ e ∈ steps, e.isDoStep = true)) ∧
    (∀ (rt : Runtime), rt.scanUInt "0" = some 0 →
      ∀ (a0 b0 v0 h : ℚ) (separator : Char) (tr0 : List Event) (n : Nat),
      ∃ time b v tr,
        macroSteps rt [producerFMU a0, consumerFMU] h separator n 0 0 (pairState a0 b0 v0 tr0)
          = Except.ok (time, n, Flow.next (pairState (a0 + n) b v tr)) ∧
        macroStep rt [producerFMU a0, consumerFMU] h separator time n (pairState (a0 + n) b v tr)
          = Except.ok (rt.add time h, n + 1,
              Flow.next (pairState (a0 + n + 1) (a0 + n) (a0 + n)
                (tr ++ [Event.get 0 0 enu_Real 0 (Cell.real (a0 + n))]
                  ++ [Event.set 1 0 enu_Real 0 (Cell.real (a0 + n))]
                  ++ [Event.doStep 0 time h fmiOK] ++ [Event.doStep 1 time h fmiOK]
                  ++ [Event.outputRow (rt.add time h) separator false]))) ∧
        a0 + n ≠ a0 + n + 1) := by
  refine ⟨?_, ?_⟩
  · intro σ rt fmus time h m f hrun
    exact exchange_order rt fmus time h m f hrun
  · intro rt hscan a0 b0 v0 h separator tr0 n
    obtain ⟨time, b, v, tr, hn⟩ := pair_macroSteps rt hscan a0 h separator n a0 b0 v0 0 0 tr0
    refine ⟨time, b, v, tr, ?_, pair_macroStep rt hscan a0 (a0 + n) b v time h separator n tr, ?_⟩
    · rw [hn, Nat.zero_add]
    · intro heq
      have : (0 : ℚ) = 1 := by linarith
      exact absurd this (by norm_num)

/-- Instance of C1: the third macro-step of the pair started at 0 with exact addition and step
size 1/10; B is fed 2, the value A held after two macro-steps, and A ends the step with 3. -/
theorem jacobi_ordering_witness :
    exactRuntime.scanUInt "0" = some 0 ∧
    ∃ time b v tr,
      macroSteps exactRuntime [producerFMU 0, consumerFMU] (1 / 10) ';' 2 0 0 (pairState 0 0 0 [])
        = Except.ok (time, 2, Flow.next (pairState (0 + ((2 : ℕ) : ℚ)) b v tr)) ∧
      macroStep exactRuntime [producerFMU 0, consumerFMU] (1 / 10) ';' time 2
          (pairState (0 + ((2 : ℕ) : ℚ)) b v tr)
        = Except.ok (exactRuntime.add time (1 / 10), 2 + 1,
            Flow.next (pairState (0 + ((2 : ℕ) : ℚ) + 1) (0 + ((2 : ℕ) : ℚ)) (0 + ((2 : ℕ) : ℚ))
              (tr ++ [Event.get 0 0 enu_Real 0 (Cell.real (0 + ((2 : ℕ) : ℚ)))]
                ++ [Event.set 1 0 enu_Real 0 (Cell.real (0 + ((2 : ℕ) : ℚ)))]
                ++ [Event.doStep 0 time (1 / 10) fmiOK] ++ [Event.doStep 1 time (1 / 10) fmiOK]
                ++ [Event.outputRow (exactRuntime.add time (1 / 10)) ';' false]))) ∧
      (0 : ℚ) + ((2 : ℕ) : ℚ) ≠ 0 + ((2 : ℕ) : ℚ) + 1 :=
  ⟨rfl, jacobi_ordering.2 exactRuntime rfl 0 0 0 (1 / 10) ';' [] 2⟩

/-! ## Type checks that `validateGraph` does and does not make -/

/-- Counterexample to C7: in `mixedWiring` the input `u` is declared Integer and is bound to the
connection `c`, whose cell was allocated for the Real output `y`; `validateGraph` counts no error
and returns the graph. -/
theorem mixed_port_types_accepted :
    mixedWiring.ports.map (fun p => getPortType p.toElement) = [enu_Real, enu_Integer] ∧
    validateGraph mixedWiring = Except.ok (validated mixedWiring) ∧
    (validated mixedWiring).error = 0 ∧
    (validated mixedWiring).result = some (validated mixedWiring).graph ∧
    (validated mixedWiring).graph.ports.map Port.connection = [some 0, some 0] ∧
    (validated mixedWiring).graph.cellAt 0 = some (Cell.real 0) := by
  decide

/-- C7, amended. `validateGraph` checks the declared type of a port only when the port is the
first to be bound to its connection: if the first port (in the order of the visit) that names a
connection has a declared type other than Real, Integer, Boolean and String, an error is counted
and the result is `NULL`. A port whose connection already has a cell is bound to it by
`validatePortConnection` without any comparison of its declared type with the cell, and without an
error. -/
theorem port_type_checked_at_first_binding (graph : Graph) (hn : graph.named) (hf : graph.fresh) :
    (∀ j first, graph.ports.find? (fun q => decide (resolve graph q = some j)) = some first →
      ¬ legalPortType (getPortType first.toElement) →
      ∃ r, validateGraph graph = Except.ok r ∧ 1 ≤ r.error ∧ r.result = none) ∧
    (∀ g port error j cell, getString port.toElement att_name ≠ none →
      (∀ c ∈ g.connections.getD [], getString c.toElement att_name ≠ none) →
      resolve g port = some j → g.cellAt j = some cell →
      validatePortConnection g port error
        = Except.ok (g, { port with connection := some j }, error)) := by
  refine ⟨?_, ?_⟩
  · intro j first hfirst hillegal
    cases hcomps : graph.components with
    | none => simp [Graph.ports, hcomps] at hfirst
    | some comps =>
      have hrun := validateGraph_eq graph comps hcomps hn
      obtain ⟨herr, -, -, -, hres⟩ := validateGraph_outcome graph hn _ hrun
      have hne : errorsAll graph graph.ports ≠ 0 := by
        intro h0
        obtain ⟨cell, hk, -⟩ := cellAt_allocAll_first graph graph.ports j h0
          (cellAt_of_fresh graph hf j) first hfirst
        exact hillegal (callocCell_type _ cell hk).2
      refine ⟨_, hrun, ?_, ?_⟩
      · rw [herr]
        omega
      · rw [hres, herr]
        simp [hne]
  · intro g port error j cell hp hc hr hcell
    rw [validatePortConnection_eq g port error hc hp]
    simp only [allocFor, bindPort, portErrors, hr, hcell, Nat.add_zero]

/-- Instance of the amended C7: the first port bound to `c` in `illegalTypeWiring` has the type
`Float`; the graph is rejected. -/
theorem port_type_checked_at_first_binding_witness :
    illegalTypeWiring.named ∧ illegalTypeWiring.fresh ∧
    ∃ r, validateGraph illegalTypeWiring = Except.ok r ∧ 1 ≤ r.error ∧ r.result = none :=
  ⟨⟨by decide, by decide⟩, ⟨by decide, by decide⟩,
    (port_type_checked_at_first_binding illegalTypeWiring ⟨by decide, by decide⟩
      ⟨by decide, by decide⟩).1 0 (examplePort "y" "Float" (some "c")) (by decide) (by decide)⟩

/-! ## Ports without a connection -/

/-- C8, the code at the failing input: the output of `unboundWiring` omits the attribute
`connection`; `validateGraph` counts no error and returns the graph with the connection of the
port still `NULL`, and the first visit of the port in the step loop of `simulate` dereferences
that null pointer. -/
theorem unbound_port_null_dereference :
    validateGraph unboundWiring = Except.ok (validated unboundWiring) ∧
    (validated unboundWiring).error = 0 ∧
    (validated unboundWiring).result = some (validated unboundWiring).graph ∧
    (validated unboundWiring).graph.ports.map Port.connection = [none] ∧
    summary (simulate ieeeRuntime
        (loaded (kindLoader elm_Real) (validated unboundWiring).result).2
        (loaded (kindLoader elm_Real) (validated unboundWiring).result).1
        1 (f64round (1 / 10)) false ';' 20)
      = Except.error "null dereference: ports[n]->connection" := by
  refine ⟨by decide, by decide, by decide, by decide, by decide!⟩

/-! ## The operation selected by the step loop and the type of the cell -/

theorem bindVariables_wiring (md : ModelDescription) (ports ports2 : List Port)
    (h : bindVariables md ports = Except.ok ports2) :
    ports2.map Port.wiring = ports.map Port.wiring := by
  induction ports generalizing ports2 with
  | nil =>
    simp only [bindVariables] at h
    cases h
    rfl
  | cons p rest ih =>
    simp only [bindVariables] at h
    split at h
    · exact Except.noConfusion h
    · split at h
      · exact Except.noConfusion h
      · split at h
        · exact Except.noConfusion h
        · rename_i ps hps
          cases h
          simp only [List.map_cons, ih ps hps]
          rfl

theorem bindVariableArray_wiring (md : ModelDescription) (ports ports2 : Option (List Port))
    (h : bindVariableArray md ports = Except.ok ports2) :
    (ports2.getD []).map Port.wiring = (ports.getD []).map Port.wiring := by
  cases ports with
  | none =>
    simp only [bindVariableArray] at h
    cases h
    rfl
  | some ps =>
    simp only [bindVariableArray] at h
    split at h
    · exact Except.noConfusion h
    · rename_i ps1 hps
      cases h
      exact bindVariables_wiring md ps ps1 hps

theorem loadComponents_wiring {σ : Type} (loadFMU : Option String → Except String (FMU σ))
    (comps comps2 : List Component) (fmus : List (FMU σ))
    (h : loadComponents loadFMU comps = Except.ok (comps2, fmus)) :
    (portsOf comps2).map Port.wiring = (portsOf comps).map Port.wiring := by
  induction comps generalizing comps2 fmus with
  | nil =>
    simp only [loadComponents] at h
    cases h
    rfl
  | cons c rest ih =>
    simp only [loadComponents] at h
    split at h
    · exact Except.noConfusion h
    · rename_i fmu hfmu
      split at h
      · exact Except.noConfusion h
      · rename_i ins hins
        split at h
        · exact Except.noConfusion h
        · rename_i outs houts
          split at h
          · exact Except.noConfusion h
          · rename_i cs fs hrest
            cases h
            have hi := bindVariableArray_wiring _ _ _ hins
            have ho := bindVariableArray_wiring _ _ _ houts
            simp only [portsOf, List.foldr_cons, Component.ports, List.map_append] at ih ⊢
            rw [ih cs fs hrest, hi, ho]

/-- Loading by `loadGraph` leaves the attributes and the connections of the ports, and the connections of the
graph with their cells, as `validateGraph` left them. -/
theorem loadGraph_wiring {σ : Type} (loadFMU : Option String → Except String (FMU σ))
    (graph graph2 : Graph)
    (h : (loadGraph loadFMU (some graph)).map Prod.fst = Except.ok graph2) :
    graph2.ports.map Port.wiring = graph.ports.map Port.wiring ∧
    graph2.connections = graph.connections := by
  simp only [loadGraph, componentsOf] at h
  cases hc : graph.components with
  | none => simp [hc, Except.map] at h
  | some comps =>
    simp only [hc] at h
    cases hl : loadComponents loadFMU comps with
    | error msg => simp [hl, Except.map] at h
    | ok r =>
      obtain ⟨comps2, fmus⟩ := r
      simp only [hl, Except.map, Except.ok.injEq] at h
      subst h
      refine ⟨?_, rfl⟩
      have := loadComponents_wiring loadFMU comps comps2 fmus hl
      simpa [Graph.ports, hc, portsOf] using this

theorem find_wiring (l1 l2 : List Port) (p : Element × Option Nat → Bool)
    (h : l1.map Port.wiring = l2.map Port.wiring) :
    (l1.find? (p ∘ Port.wiring)).map Port.wiring
      = (l2.find? (p ∘ Port.wiring)).map Port.wiring := by
  rw [← List.find?_map, ← List.find?_map, h]

/-- Counterexample to C9: the output `y` of `singleWiring` is declared Real, so the cell of its
connection is allocated for a Real; the module declares its variable `y` as Integer. The graph is
accepted and loaded, and the step loop selects the Integer operation with the Real cell as its
buffer: the run of `simulate` succeeds with 11 macro-steps, and each of its 11 get calls is
`getInteger` on the block allocated for a Real (the module leaves the buffer as it is, all
zero). With a variable of kind Enumeration no operation
is selected: the run succeeds with 11 macro-steps and not one get or set call, the port is
skipped. -/
theorem dispatch_disagrees_with_cell :
    (validated singleWiring).result = some (validated singleWiring).graph ∧
    portTypes (loaded (kindLoader elm_Integer) (validated singleWiring).result).1
      = [(some enu_Integer, some enu_Real)] ∧
    summary (simulate ieeeRuntime
        (loaded (kindLoader elm_Integer) (validated singleWiring).result).2
        (loaded (kindLoader elm_Integer) (validated singleWiring).result).1
        1 (f64round (1 / 10)) false ';' 20)
      = Except.ok (1, 11, 12, 11) ∧
    (simulate ieeeRuntime
        (loaded (kindLoader elm_Integer) (validated singleWiring).result).2
        (loaded (kindLoader elm_Integer) (validated singleWiring).result).1
        1 (f64round (1 / 10)) false ';' 20).map (fun s => accessTypes s.final.trace)
      = Except.ok (List.replicate 11 (enu_Integer, enu_Real)) ∧
    portTypes (loaded (kindLoader elm_Enumeration) (validated singleWiring).result).1
      = [(none, some enu_Real)] ∧
    summary (simulate ieeeRuntime
        (loaded (kindLoader elm_Enumeration) (validated singleWiring).result).2
        (loaded (kindLoader elm_Enumeration) (validated singleWiring).result).1
        1 (f64round (1 / 10)) false ';' 20)
      = Except.ok (1, 11, 12, 0) := by
  refine ⟨by decide, by decide, by decide!, by decide!, by decide, by decide!⟩

set_option linter.unusedVariables false in
/-- C9, amended. In a graph accepted by `validateGraph` and bound by `loadGraph` the step loop
selects the operation from the kind of the bound variable alone, and the cell has the declared
type of the first port bound to the connection. For a port whose declared type is the value type
of the operation selected for its variable, and equals the declared type of the first port bound
to its connection, the operation has the type the cell was allocated for. -/
theorem dispatch_agrees_with_cell {σ : Type} (graph : Graph) (hn : graph.named)
    (hf : graph.fresh) (r : GraphValidation) (accepted : Graph)
    (hrun : validateGraph graph = Except.ok r) (hacc : r.result = some accepted)
    (loadFMU : Option String → Except String (FMU σ)) (bound : Graph)
    (hload : (loadGraph loadFMU (some accepted)).map Prod.fst = Except.ok bound)
    (port : Port) (hport : port ∈ bound.ports) (sv : ScalarVariable) (j : Nat) (first : Port)
    (hsv : port.variable_ = some sv) (hj : port.connection = some j)
    (hfirst : bound.ports.find? (fun q => decide (q.connection = some j)) = some first)
    (hdeclared : selectedOperation sv = some (getPortType port.toElement))
    (hsame : getPortType port.toElement = getPortType first.toElement) :
    ∃ cell, bound.cellAt j = some cell ∧ selectedOperation sv = some cell.type := by
  obtain ⟨hw, hconn⟩ := loadGraph_wiring loadFMU accepted bound hload
  have hf2 := find_wiring bound.ports accepted.ports (fun w => decide (w.2 = some j)) hw
  have hpred : ((fun w : Element × Option Nat => decide (w.2 = some j)) ∘ Port.wiring)
      = (fun q : Port => decide (q.connection = some j)) := rfl
  rw [hpred, hfirst] at hf2
  cases hfa : accepted.ports.find? (fun q => decide (q.connection = some j)) with
  | none => simp [hfa] at hf2
  | some first2 =>
    simp only [hfa, Option.map_some', Option.some.injEq] at hf2
    obtain ⟨cell, hcell, hk⟩ :=
      accepted_first_cell graph hn hf r accepted hrun hacc j first2 hfa
    have hel : first2.toElement = first.toElement := by
      have := congrArg Prod.fst hf2
      exact this.symm
    refine ⟨cell, by rw [cellAt_congr bound accepted hconn j]; exact hcell, ?_⟩
    rw [hdeclared, hsame, ← hel, (callocCell_type _ cell hk).1]

/-- Instance of the amended C9: the output `y` of the pair, declared Real and bound to the Real
variable `y` of the producer. -/
theorem dispatch_agrees_with_cell_witness :
    pairWiring.named ∧ pairWiring.fresh ∧
    ∃ cell, (pairGraph 0).cellAt 0 = some cell ∧
      selectedOperation (exampleVariable "y" elm_Real none) = some cell.type :=
  ⟨⟨by decide, by decide⟩, ⟨by decide, by decide⟩,
    dispatch_agrees_with_cell pairWiring ⟨by decide, by decide⟩ ⟨by decide, by decide⟩
      (validated pairWiring) (validated pairWiring).graph (by decide) (by decide)
      (pairLoader 0) (pairGraph 0) (by decide)
      { examplePort "y" "Real" (some "c") with
        connection := some 0, variable_ := some (exampleVariable "y" elm_Real none) }
      (by decide) (exampleVariable "y" elm_Real none) 0
      { examplePort "y" "Real" (some "c") with
        connection := some 0, variable_ := some (exampleVariable "y" elm_Real none) }
      rfl rfl (by decide) (by decide) (by decide)⟩

/-! ## The default run -/

/-- C10, the code at the failing input: the pair, end time 1.0 and step size 0.1 (the double
nearest to 1/10), with IEEE 754 addition of doubles. Ten additions of 0.1 give
0.99999999999999989 (9007199254740991 / 2^53), which is below 1.0, so the loop makes an eleventh
macro-step: `simulate` returns 1 with `nSteps` = 11 after 12 rows of values, and the last row has
the time 1.0999999999999999. The second row spacing is not that of the first. With exact addition
and step size 1/10 the same run makes 10 macro-steps and 11 rows. -/
theorem default_run_makes_eleven_steps :
    (loadGraph (pairLoader 0) (validated pairWiring).result).map Prod.fst
      = Except.ok (pairGraph 0) ∧
    f64round (1 / 10) = mkRat 3602879701896397 (2 ^ 55) ∧
    summary (simulate ieeeRuntime [producerFMU 0, consumerFMU] (pairGraph 0) 1
        (f64round (1 / 10)) false ';' 20) = Except.ok (1, 11, 12, 22) ∧
    timeColumn (simulate ieeeRuntime [producerFMU 0, consumerFMU] (pairGraph 0) 1
        (f64round (1 / 10)) false ';' 20)
      = [0, mkRat 3602879701896397 36028797018963968, mkRat 3602879701896397 18014398509481984,
         mkRat 1351079888211149 4503599627370496, mkRat 3602879701896397 9007199254740992,
         mkRat 1 2, mkRat 5404319552844595 9007199254740992,
         mkRat 3152519739159347 4503599627370496, mkRat 7205759403792793 9007199254740992,
         mkRat 2026619832316723 2251799813685248, mkRat 9007199254740991 9007199254740992,
         mkRat 4953959590107545 4503599627370496] ∧
    mkRat 9007199254740991 9007199254740992 < 1 ∧
    (1 : ℚ) < mkRat 4953959590107545 4503599627370496 ∧
    mkRat 1351079888211149 4503599627370496 - mkRat 3602879701896397 18014398509481984
      ≠ mkRat 3602879701896397 18014398509481984 - mkRat 3602879701896397 36028797018963968 ∧
    summary (simulate exactRuntime [producerFMU 0, consumerFMU] (pairGraph 0) 1
        (1 / 10) false ';' 20) = Except.ok (1, 10, 11, 20) := by
  refine ⟨by decide, by decide!, by decide!, by decide!, by decide!, by decide!, by decide!,
    by decide!⟩

/-! ## Defaults of the enumerated attributes -/

/-- C19: if one of the attributes causality, variability, alias, variableNamingConvention is
missing on an element, then two calls of `getEnumValue` in a row, the second one starting from the
status that the first one left, return the same value, which is a value of `Enu` and not `-1`; and
each call leaves the status `valueMissing`, whatever the status was before the first call. -/
theorem getEnumValue_default_idempotent (e : Element) (a : Att) (vs : ValueStatus)
    (ha : a = att_causality ∨ a = att_variability ∨ a = att_alias ∨
      a = att_variableNamingConvention)
    (hmissing : getString e a = none) :
    (getEnumValue e a (getEnumValue e a vs).2).1 = (getEnumValue e a vs).1 ∧
    0 ≤ (getEnumValue e a vs).1 ∧ (getEnumValue e a vs).1 < SIZEOF_ENU ∧
    (getEnumValue e a vs).2 = ValueStatus.valueMissing ∧
    (getEnumValue e a (getEnumValue e a vs).2).2 = ValueStatus.valueMissing ∧
    (getEnumValue e a vs).2 ≠ ValueStatus.valueIllegal := by
  simp only [getEnumValue, hmissing]
  rcases ha with h | h | h | h <;> subst h <;> decide

theorem getEnumValue_default_idempotent_witness :
    getString (mkElement elm_ScalarVariable [(att_name, "x")]) att_causality = none ∧
    (getEnumValue (mkElement elm_ScalarVariable [(att_name, "x")]) att_causality
      (getEnumValue (mkElement elm_ScalarVariable [(att_name, "x")]) att_causality
        ValueStatus.valueIllegal).2).1
      = (getEnumValue (mkElement elm_ScalarVariable [(att_name, "x")]) att_causality
        ValueStatus.valueIllegal).1 :=
  ⟨by decide,
   (getEnumValue_default_idempotent (mkElement elm_ScalarVariable [(att_name, "x")])
      att_causality ValueStatus.valueIllegal (Or.inl rfl) (by decide)).1⟩

/-- C20: when the attribute is missing, `getEnumValue` returns `enu_flat` for
variableNamingConvention, `enu_continuous` for variability, `enu_internal` for causality,
`enu_noAlias` for alias and `-1` for every other attribute; so `getCausality`, `getVariability`
and `getAlias` of a scalar variable that lacks the attribute return the values whose names in
`enuNames` are internal, continuous and noAlias. -/
theorem grammar_defaults (e : Element) (a : Att) (vs : ValueStatus)
    (hmissing : getString e a = none) :
    (a = att_variableNamingConvention → (getEnumValue e a vs).1 = enu_flat) ∧
    (a = att_variability → (getEnumValue e a vs).1 = enu_continuous) ∧
    (a = att_causality → (getEnumValue e a vs).1 = enu_internal) ∧
    (a = att_alias → (getEnumValue e a vs).1 = enu_noAlias) ∧
    (a ≠ att_variableNamingConvention → a ≠ att_variability → a ≠ att_causality →
      a ≠ att_alias → (getEnumValue e a vs).1 = -1) ∧
    (a = att_causality → getCausality e vs = enu_internal ∧
      enuNames[(getCausality e vs).toNat]? = some "internal") ∧
    (a = att_variability → getVariability e vs = enu_continuous ∧
      enuNames[(getVariability e vs).toNat]? = some "continuous") ∧
    (a = att_alias → getAlias e vs = enu_noAlias ∧
      enuNames[(getAlias e vs).toNat]? = some "noAlias") := by
  refine ⟨?_, ?_, ?_, ?_, ?_, ?_, ?_, ?_⟩
  · intro h; subst h; simp only [getEnumValue, hmissing]; rfl
  · intro h; subst h; simp only [getEnumValue, hmissing]; rfl
  · intro h; subst h; simp only [getEnumValue, hmissing]; rfl
  · intro h; subst h; simp only [getEnumValue, hmissing]; rfl
  · intro h1 h2 h3 h4; simp only [getEnumValue, hmissing, if_neg h1, if_neg h2, if_neg h3, if_neg h4]
  · intro h; subst h; simp only [getCausality, getEnumValue, hmissing]; exact ⟨rfl, by decide⟩
  · intro h; subst h; simp only [getVariability, getEnumValue, hmissing]; exact ⟨rfl, by decide⟩
  · intro h; subst h; simp only [getAlias, getEnumValue, hmissing]; exact ⟨rfl, by decide⟩

theorem grammar_defaults_witness :
    getString (mkElement elm_ScalarVariable [(att_name, "x")]) att_variability = none ∧
    getVariability (mkElement elm_ScalarVariable [(att_name, "x")]) ValueStatus.valueDefined
      = enu_continuous :=
  ⟨by decide,
   ((grammar_defaults (mkElement elm_ScalarVariable [(att_name, "x")]) att_variability
      ValueStatus.valueDefined (by decide)).2.2.2.2.2.2.1 rfl).1⟩

/-! ## The phases of a run of `simulate` -/

theorem continuesBy_mono {σ : Type} {k1 k2 : Event → Bool} (hk : ∀ e, k1 e = true → k2 e = true)
    {m1 m2 : Master σ} (h : ContinuesBy k1 m1 m2) : ContinuesBy k2 m1 m2 := by
  obtain ⟨calls, e, k⟩ := h
  exact ⟨calls, e, fun x hx => hk x (k x hx)⟩

theorem steady_of_isGet (e : Event) (h : e.isGet = true) : e.steady = true := by
  cases e <;> simp_all [Event.isGet, Event.steady, Event.stage, Event.aborts]

theorem steady_of_isSet (e : Event) (h : e.isSet = true) : e.steady = true := by
  cases e <;> simp_all [Event.isSet, Event.steady, Event.stage, Event.aborts]

theorem abortsBy_of_continues {σ : Type} {m1 m2 m3 : Master σ}
    (h1 : ContinuesBy Event.steady m1 m2) (h2 : AbortsBy m2 m3) : AbortsBy m1 m3 := by
  obtain ⟨c1, e1, k1⟩ := h1
  obtain ⟨c2, e, e2, k2, hs, ha⟩ := h2
  refine ⟨c1 ++ c2, e, by rw [e2, e1]; simp only [List.append_assoc], ?_, hs, ha⟩
  intro x hx
  rcases List.mem_append.mp hx with h | h
  · exact k1 x h
  · exact k2 x h

theorem stepOutcome_of_continues {σ : Type} {m1 m2 : Master σ} {f : Flow σ}
    (h1 : ContinuesBy Event.steady m1 m2) (h2 : StepOutcome m2 f) : StepOutcome m1 f := by
  rcases h2 with ⟨m3, hf, hc⟩ | ⟨m3, hf, ha⟩
  · exact Or.inl ⟨m3, hf, continuesBy_trans h1 hc⟩
  · exact Or.inr ⟨m3, hf, abortsBy_of_continues h1 ha⟩

theorem instantiateAll_trace {σ : Type} (fmus : List (FMU σ)) (loggingOn : Bool) (i : Nat)
    (comps : List Component) (m : Master σ) (f : Flow σ)
    (h : instantiateAll fmus loggingOn i comps m = Except.ok f) :
    (∃ m1, f = Flow.next m1 ∧
      m1.trace = m.trace ++ instantiations i (List.replicate comps.length true)) ∨
    (∃ m1 k, f = Flow.returned 0 m1 ∧ k < comps.length ∧
      m1.trace = m.trace ++ instantiations i (List.replicate k true ++ [false])) := by
  induction comps generalizing i m with
  | nil =>
    simp only [instantiateAll] at h
    cases h
    exact Or.inl ⟨m, rfl, by simp [instantiations]⟩
  | cons c rest ih =>
    simp only [instantiateAll] at h
    split at h
    · exact Except.noConfusion h
    · split at h
      · exact Except.noConfusion h
      · split at h
        · cases h
          exact Or.inr ⟨_, 0, rfl, by simp, by simp [instantiations]⟩
        · rcases ih (i + 1) _ h with ⟨m1, hf, ht⟩ | ⟨m1, k, hf, hk, ht⟩
          · refine Or.inl ⟨m1, hf, ?_⟩
            rw [ht]
            simp [List.replicate_succ, instantiations, List.append_assoc]
          · refine Or.inr ⟨m1, k + 1, hf, by simp; omega, ?_⟩
            rw [ht]
            simp [List.replicate_succ, instantiations, List.append_assoc]

theorem initializeAll_trace {σ : Type} (fmus : List (FMU σ)) (tStart tEnd : ℚ) (i : Nat)
    (comps : List Component) (m : Master σ) (f : Flow σ)
    (h : initializeAll fmus tStart tEnd i comps m = Except.ok f) :
    (∃ m1 statuses, f = Flow.next m1 ∧ statuses.length = comps.length ∧
      (∀ s ∈ statuses, s ≤ fmiWarning) ∧ m1.trace = m.trace ++ initializations i statuses) ∨
    (∃ m1 statuses status, f = Flow.returned 0 m1 ∧ statuses.length < comps.length ∧
      (∀ s ∈ statuses, s ≤ fmiWarning) ∧ status > fmiWarning ∧
      m1.trace = m.trace ++ initializations i (statuses ++ [status])) := by
  induction comps generalizing i m with
  | nil =>
    simp only [initializeAll] at h
    cases h
    exact Or.inl ⟨m, [], rfl, rfl, by simp, by simp [initializations]⟩
  | cons c rest ih =>
    simp only [initializeAll] at h
    split at h
    · exact Except.noConfusion h
    · rename_i fmu c0 hh
      split at h
      · rename_i hgt
        cases h
        exact Or.inr ⟨_, [], _, rfl, by simp, by simp, hgt, by simp [initializations]⟩
      · rename_i hle
        rcases ih (i + 1) _ h with ⟨m1, sts, hf, hl, ha, ht⟩ | ⟨m1, sts, st, hf, hl, ha, hg, ht⟩
        · refine Or.inl ⟨m1, (fmu.initializeSlave c0 tStart true tEnd).2 :: sts, hf, by simp [hl],
            ?_, ?_⟩
          · intro s hs
            rcases List.mem_cons.mp hs with h1 | h1
            · rw [h1]; exact Nat.le_of_not_lt hle
            · exact ha s h1
          · rw [ht]
            simp [initializations, List.append_assoc]
        · refine Or.inr ⟨m1, (fmu.initializeSlave c0 tStart true tEnd).2 :: sts, st, hf,
            by simp; omega, ?_, hg, ?_⟩
          · intro s hs
            rcases List.mem_cons.mp hs with h1 | h1
            · rw [h1]; exact Nat.le_of_not_lt hle
            · exact ha s h1
          · rw [ht]
            simp [initializations, List.append_assoc]

theorem terminateAll_trace {σ : Type} (fmus : List (FMU σ)) (i : Nat) (comps : List Component)
    (m m1 : Master σ) (h : terminateAll fmus i comps m = Except.ok m1) :
    m1.trace = m.trace ++ teardowns i comps.length := by
  induction comps generalizing i m with
  | nil =>
    simp only [terminateAll] at h
    cases h
    simp [teardowns]
  | cons c rest ih =>
    simp only [terminateAll] at h
    split at h
    · exact Except.noConfusion h
    · rw [ih (i + 1) _ h]
      simp [teardowns, List.append_assoc]

theorem doSteps_trace {σ : Type} (fmus : List (FMU σ)) (time h : ℚ) (i : Nat)
    (comps : List Component) (m : Master σ) (f : Flow σ)
    (hrun : doSteps fmus time h i comps m = Except.ok f) : StepOutcome m f := by
  induction comps generalizing i m with
  | nil =>
    simp only [doSteps] at hrun
    cases hrun
    exact Or.inl ⟨m, rfl, continuesBy_refl _ _⟩
  | cons c rest ih =>
    simp only [doSteps] at hrun
    split at hrun
    · exact Except.noConfusion hrun
    · rename_i fmu c0 hh
      split at hrun
      · rename_i hne
        cases hrun
        exact Or.inr ⟨_, rfl, [], Event.doStep i time h (fmu.doStep c0 time h true).2,
          by simp, by simp, rfl, by simp [Event.aborts, hne]⟩
      · rename_i heq
        refine stepOutcome_of_continues ⟨[_], rfl, ?_⟩ (ih (i + 1) _ hrun)
        intro x hx
        rw [List.mem_singleton] at hx
        subst hx
        simp only [ne_eq, Decidable.not_not] at heq
        simp [Event.steady, Event.stage, Event.aborts, heq]

theorem exchange_trace {σ : Type} (rt : Runtime) (fmus : List (FMU σ)) (time h : ℚ)
    (m : Master σ) (f : Flow σ) (hrun : exchange rt fmus time h m = Except.ok f) :
    StepOutcome m f := by
  unfold exchange at hrun
  split at hrun
  · exact Except.noConfusion hrun
  · rename_i comps hc
    split at hrun
    · exact Except.noConfusion hrun
    · rename_i m1 h1
      split at hrun
      · exact Except.noConfusion hrun
      · rename_i m2 h2
        exact stepOutcome_of_continues
          (continuesBy_mono steady_of_isGet (readOutputs_continues rt fmus 0 comps m m1 h1))
          (stepOutcome_of_continues
            (continuesBy_mono steady_of_isSet (setInputs_continues rt fmus 0 comps m1 m2 h2))
            (doSteps_trace fmus time h 0 comps m2 f hrun))

theorem macroStep_trace {σ : Type} (rt : Runtime) (fmus : List (FMU σ)) (h : ℚ)
    (separator : Char) (time : ℚ) (nSteps : Nat) (m : Master σ) (time1 : ℚ) (nSteps1 : Nat)
    (f : Flow σ)
    (hrun : macroStep rt fmus h separator time nSteps m = Except.ok (time1, nSteps1, f)) :
    StepOutcome m f := by
  unfold macroStep at hrun
  split at hrun
  · exact Except.noConfusion hrun
  · rename_i code m1 hx
    cases hrun
    exact exchange_trace rt fmus time h m _ hx
  · rename_i m1 hx
    cases hrun
    rcases exchange_trace rt fmus time h m _ hx with ⟨m2, hf, hc⟩ | ⟨m2, hf, ha⟩
    · cases hf
      exact Or.inl ⟨_, rfl, continuesBy_trans hc ⟨[_], rfl, by simp [Event.steady, Event.stage,
        Event.aborts]⟩⟩
    · exact Flow.noConfusion hf

theorem stepLoop_trace {σ : Type} (rt : Runtime) (fmus : List (FMU σ)) (tEnd h : ℚ)
    (separator : Char) (fuel : Nat) (time : ℚ) (nSteps : Nat) (m : Master σ) (time1 : ℚ)
    (nSteps1 : Nat) (f : Flow σ)
    (hrun : stepLoop rt fmus tEnd h separator fuel time nSteps m
      = Except.ok (time1, nSteps1, f)) :
    StepOutcome m f := by
  induction fuel generalizing time nSteps m with
  | zero =>
    simp only [stepLoop] at hrun
    split at hrun
    · exact Except.noConfusion hrun
    · cases hrun
      exact Or.inl ⟨m, rfl, continuesBy_refl _ _⟩
  | succ k ih =>
    simp only [stepLoop] at hrun
    split at hrun
    · split at hrun
      · exact Except.noConfusion hrun
      · rename_i t2 n2 code m1 hx
        cases hrun
        exact macroStep_trace rt fmus h separator time nSteps m _ _ _ hx
      · rename_i t2 n2 m1 hx
        rcases macroStep_trace rt fmus h separator time nSteps m _ _ _ hx with
          ⟨m2, hf, hc⟩ | ⟨m2, hf, ha⟩
        · cases hf
          exact stepOutcome_of_continues hc (ih t2 n2 m1 hrun)
        · exact Flow.noConfusion hf
    · cases hrun
      exact Or.inl ⟨m, rfl, continuesBy_refl _ _⟩

theorem instantiations_append (i : Nat) (a b : List Bool) :
    instantiations i (a ++ b) = instantiations i a ++ instantiations (i + a.length) b := by
  induction a generalizing i with
  | nil => simp [instantiations]
  | cons x rest ih =>
    rw [List.cons_append]
    simp only [instantiations, ih, List.length_cons, List.cons_append]
    rw [Nat.add_assoc, Nat.add_comm 1]

theorem initializations_append (i : Nat) (a b : List fmiStatus) :
    initializations i (a ++ b) = initializations i a ++ initializations (i + a.length) b := by
  induction a generalizing i with
  | nil => simp [initializations]
  | cons x rest ih =>
    rw [List.cons_append]
    simp only [initializations, ih, List.length_cons, List.cons_append]
    rw [Nat.add_assoc, Nat.add_comm 1]

theorem mem_instantiations (i : Nat) (oks : List Bool) (e : Event)
    (h : e ∈ instantiations i oks) :
    ∃ j ok, e = Event.instantiateSlave j ok ∧ i ≤ j ∧ j < i + oks.length ∧ ok ∈ oks := by
  induction oks generalizing i with
  | nil => simp [instantiations] at h
  | cons x rest ih =>
    simp only [instantiations, List.mem_cons] at h
    rcases h with h | h
    · exact ⟨i, x, h, Nat.le_refl _, by simp, List.mem_cons_self _ _⟩
    · obtain ⟨j, ok, he, hj, hl, hm⟩ := ih (i + 1) h
      exact ⟨j, ok, he, by omega, by simp only [List.length_cons]; omega,
        List.mem_cons_of_mem _ hm⟩

theorem mem_initializations (i : Nat) (statuses : List fmiStatus) (e : Event)
    (h : e ∈ initializations i statuses) :
    ∃ j s, e = Event.initializeSlave j s ∧ i ≤ j ∧ j < i + statuses.length ∧ s ∈ statuses := by
  induction statuses generalizing i with
  | nil => simp [initializations] at h
  | cons x rest ih =>
    simp only [initializations, List.mem_cons] at h
    rcases h with h | h
    · exact ⟨i, x, h, Nat.le_refl _, by simp, List.mem_cons_self _ _⟩
    · obtain ⟨j, s, he, hj, hl, hm⟩ := ih (i + 1) h
      exact ⟨j, s, he, by omega, by simp only [List.length_cons]; omega,
        List.mem_cons_of_mem _ hm⟩

theorem mem_teardowns (i k : Nat) (e : Event) (h : e ∈ teardowns i k) :
    ∃ j, i ≤ j ∧ j < i + k ∧ (e = Event.terminateSlave j ∨ e = Event.freeSlaveInstance j) := by
  induction k generalizing i with
  | zero => simp [teardowns] at h
  | succ k ih =>
    simp only [teardowns, List.mem_cons] at h
    rcases h with h | h | h
    · exact ⟨i, Nat.le_refl _, by omega, Or.inl h⟩
    · exact ⟨i, Nat.le_refl _, by omega, Or.inr h⟩
    · obtain ⟨j, hj, hl, he⟩ := ih (i + 1) h
      exact ⟨j, by omega, by omega, he⟩

theorem instantiations_mem (i : Nat) (oks : List Bool) (j : Nat) (hj : j < oks.length) :
    ∃ ok, ok ∈ oks ∧ Event.instantiateSlave (i + j) ok ∈ instantiations i oks := by
  induction oks generalizing i j with
  | nil => simp at hj
  | cons x rest ih =>
    cases j with
    | zero => exact ⟨x, List.mem_cons_self _ _, by simp [instantiations]⟩
    | succ j =>
      obtain ⟨ok, hm, he⟩ := ih (i + 1) j (by simpa using hj)
      refine ⟨ok, List.mem_cons_of_mem _ hm, ?_⟩
      simp only [instantiations, List.mem_cons]
      right
      have : i + (j + 1) = i + 1 + j := by omega
      rw [this]
      exact he

theorem initializations_mem (i : Nat) (statuses : List fmiStatus) (j : Nat)
    (hj : j < statuses.length) :
    ∃ s, s ∈ statuses ∧ Event.initializeSlave (i + j) s ∈ initializations i statuses := by
  induction statuses generalizing i j with
  | nil => simp at hj
  | cons x rest ih =>
    cases j with
    | zero => exact ⟨x, List.mem_cons_self _ _, by simp [initializations]⟩
    | succ j =>
      obtain ⟨s, hm, he⟩ := ih (i + 1) j (by simpa using hj)
      refine ⟨s, List.mem_cons_of_mem _ hm, ?_⟩
      simp only [initializations, List.mem_cons]
      right
      have : i + (j + 1) = i + 1 + j := by omega
      rw [this]
      exact he

theorem teardowns_mem (i k j : Nat) (hj : j < k) :
    Event.terminateSlave (i + j) ∈ teardowns i k ∧
    Event.freeSlaveInstance (i + j) ∈ teardowns i k := by
  induction k generalizing i j with
  | zero => omega
  | succ k ih =>
    cases j with
    | zero => simp [teardowns]
    | succ j =>
      have h1 := ih (i + 1) j (by omega)
      have : i + (j + 1) = i + 1 + j := by omega
      rw [this]
      simp only [teardowns, List.mem_cons]
      exact ⟨Or.inr (Or.inr h1.1), Or.inr (Or.inr h1.2)⟩

theorem clean_instantiations (i n : Nat) :
    ∀ e ∈ instantiations i (List.replicate n true), e.aborts = false := by
  intro e he
  obtain ⟨j, ok, rfl, -, -, hm⟩ := mem_instantiations i _ e he
  rw [List.mem_replicate] at hm
  simp [Event.aborts, hm.2]

theorem clean_initializations (i : Nat) (statuses : List fmiStatus)
    (h : ∀ s ∈ statuses, s ≤ fmiWarning) :
    ∀ e ∈ initializations i statuses, e.aborts = false := by
  intro e he
  obtain ⟨j, s, rfl, -, -, hm⟩ := mem_initializations i _ e he
  have := h s hm
  simp only [Event.aborts, gt_iff_lt, decide_eq_false_iff_not, not_lt]
  exact this

theorem clean_teardowns (i k : Nat) : ∀ e ∈ teardowns i k, e.aborts = false := by
  intro e he
  obtain ⟨j, -, -, h | h⟩ := mem_teardowns i k e he <;> subst h <;> rfl

theorem clean_of_steady (calls : List Event) (h : ∀ e ∈ calls, e.steady = true) :
    ∀ e ∈ calls, e.aborts = false := by
  intro e he
  have := h e he
  simp only [Event.steady, Bool.and_eq_true, decide_eq_true_eq, Bool.not_eq_true'] at this
  exact this.2

theorem stage_of_steady (calls : List Event) (h : ∀ e ∈ calls, e.steady = true) :
    ∀ e ∈ calls, e.stage = 2 := by
  intro e he
  have := h e he
  simp only [Event.steady, Bool.and_eq_true, decide_eq_true_eq, Bool.not_eq_true'] at this
  exact this.1

/-- Every run of `simulate` that returns has the phases of `Phases`. -/
theorem simulate_phases {σ : Type} (rt : Runtime) (fmus : List (FMU σ)) (graph : Graph)
    (tEnd h : ℚ) (loggingOn : Bool) (separator : Char) (fuel : Nat) (comps : List Component)
    (s : Simulation σ) (hcomps : graph.components = some comps)
    (hrun : simulate rt fmus graph tEnd h loggingOn separator fuel = Except.ok s) :
    Phases comps.length rt.fopenOk s.code s.final.trace := by
  unfold simulate at hrun
  simp only [componentsOf, hcomps] at hrun
  split at hrun
  · exact Except.noConfusion hrun
  · -- a null handle
    rename_i code m hi
    cases hrun
    rcases instantiateAll_trace fmus loggingOn 0 comps _ _ hi with
      ⟨m1, hf, -⟩ | ⟨m1, k, hf, hk, ht⟩
    · exact Flow.noConfusion hf
    · cases hf
      simp only [List.nil_append] at ht
      refine ⟨List.replicate k true ++ [false], [], [], 0, by simp [ht, initializations, teardowns],
        by simp; omega, by simp, by simp, by simp, by simp, by simp, ?_⟩
      intro _
      refine ⟨rfl, rfl, Or.inr ⟨instantiations 0 (List.replicate k true),
        Event.instantiateSlave k false, ?_, clean_instantiations 0 k, rfl⟩⟩
      simp [ht, instantiations_append, instantiations]
  · rename_i m1 hi
    rcases instantiateAll_trace fmus loggingOn 0 comps _ _ hi with
      ⟨m1a, hf, ht1⟩ | ⟨m1a, k, hf, -, -⟩
    swap
    · exact Flow.noConfusion hf
    cases hf
    simp only [List.nil_append] at ht1
    split at hrun
    · -- the result file is not opened
      rename_i hopen
      cases hrun
      simp only [Bool.not_eq_true', ] at hopen
      refine ⟨List.replicate comps.length true, [], [], 0,
        by simp [ht1, initializations, teardowns], by simp, by simp, by simp, by simp, by simp,
        by simp, ?_⟩
      intro _
      refine ⟨rfl, rfl, Or.inl ⟨hopen, ?_⟩⟩
      simp only [ht1]
      exact clean_instantiations 0 _
    · rename_i hopen
      simp only [Bool.not_eq_true', Bool.not_eq_false] at hopen
      split at hrun
      · exact Except.noConfusion hrun
      · -- a status above fmiWarning from initializeSlave
        rename_i code m hn
        cases hrun
        rcases initializeAll_trace fmus 0 tEnd 0 comps _ _ hn with
          ⟨m2, sts, hf, -, -, -⟩ | ⟨m2, sts, st, hf, hl, ha, hg, ht2⟩
        · exact Flow.noConfusion hf
        · cases hf
          refine ⟨List.replicate comps.length true, sts ++ [st], [], 0,
            by simp [ht2, ht1, teardowns], by simp, by simp; omega, by simp, by simp, by simp,
            by simp, ?_⟩
          intro _
          refine ⟨rfl, rfl, Or.inr ⟨instantiations 0 (List.replicate comps.length true)
            ++ initializations 0 sts, Event.initializeSlave sts.length st, ?_, ?_, ?_⟩⟩
          · simp [ht2, ht1, initializations_append, initializations]
          · intro x hx
            rcases List.mem_append.mp hx with hx | hx
            · exact clean_instantiations 0 _ x hx
            · exact clean_initializations 0 sts ha x hx
          · simp only [Event.aborts, decide_eq_true_eq]
            exact hg
      · rename_i m2 hn
        rcases initializeAll_trace fmus 0 tEnd 0 comps _ _ hn with
          ⟨m2a, sts, hf, hl, ha, ht2⟩ | ⟨m2a, sts, st, hf, -, -, -, -⟩
        swap
        · exact Flow.noConfusion hf
        cases hf
        split at hrun
        · exact Except.noConfusion hrun
        · -- a status other than fmiOK from doStep
          rename_i time nSteps code m hs
          cases hrun
          rcases stepLoop_trace rt fmus tEnd h separator fuel 0 0 _ _ _ _ hs with
            ⟨m4, hf, -⟩ | ⟨m4, hf, calls, e, ht3, hc, he, hab⟩
          · exact Flow.noConfusion hf
          · cases hf
            simp only [outputRow] at ht3
            refine ⟨List.replicate comps.length true, sts,
              [Event.outputRow 0 separator true, Event.outputRow 0 separator false] ++ calls ++ [e],
              0, by simp [ht3, ht2, ht1, teardowns], by simp, by omega, ?_, by simp,
              fun _ => ⟨rfl, hl, ha⟩, by simp, ?_⟩
            · intro x hx
              simp only [List.cons_append, List.nil_append, List.mem_cons, List.mem_append,
                List.mem_singleton, List.not_mem_nil, or_false] at hx
              rcases hx with hx | hx | hx | hx
              · subst hx; rfl
              · subst hx; rfl
              · exact stage_of_steady calls hc x hx
              · subst hx; exact he
            · intro _
              refine ⟨rfl, rfl, Or.inr ⟨instantiations 0 (List.replicate comps.length true)
                ++ initializations 0 sts
                ++ [Event.outputRow 0 separator true, Event.outputRow 0 separator false] ++ calls,
                e, by simp [ht3, ht2, ht1], ?_, hab⟩⟩
              intro x hx
              simp only [List.append_assoc, List.mem_append, List.mem_cons, List.mem_singleton,
                List.not_mem_nil, or_false] at hx
              rcases hx with hx | hx | (hx | hx) | hx
              · exact clean_instantiations 0 _ x hx
              · exact clean_initializations 0 sts ha x hx
              · subst hx; rfl
              · subst hx; rfl
              · exact clean_of_steady calls hc x hx
        · rename_i time nSteps m4 hs
          rcases stepLoop_trace rt fmus tEnd h separator fuel 0 0 _ _ _ _ hs with
            ⟨m4a, hf, calls, ht3, hc⟩ | ⟨m4a, hf, -⟩
          swap
          · exact Flow.noConfusion hf
          cases hf
          simp only [outputRow] at ht3
          split at hrun
          · exact Except.noConfusion hrun
          · -- the run is complete
            rename_i m5 ht
            cases hrun
            have ht4 := terminateAll_trace fmus 0 comps _ _ ht
            have hstage : ∀ x ∈ [Event.outputRow 0 separator true,
                Event.outputRow 0 separator false] ++ calls, x.stage = 2 := by
              intro x hx
              simp only [List.cons_append, List.nil_append, List.mem_cons] at hx
              rcases hx with hx | hx | hx
              · subst hx; rfl
              · subst hx; rfl
              · exact stage_of_steady calls hc x hx
            have hclean : ∀ x ∈ [Event.outputRow 0 separator true,
                Event.outputRow 0 separator false] ++ calls, x.aborts = false := by
              intro x hx
              simp only [List.cons_append, List.nil_append, List.mem_cons] at hx
              rcases hx with hx | hx | hx
              · subst hx; rfl
              · subst hx; rfl
              · exact clean_of_steady calls hc x hx
            exact ⟨List.replicate comps.length true, sts,
              [Event.outputRow 0 separator true, Event.outputRow 0 separator false] ++ calls,
              comps.length, by simp [ht4, ht3, ht2, ht1], by simp, by omega, hstage, by simp,
              fun _ => ⟨rfl, hl, ha⟩, fun _ => ⟨hopen, rfl, rfl, hl, ha, hclean⟩, by simp⟩

/-! ## Consequences of the phases -/

theorem precedes_of_stage_lt (a b : Event) (h : a.stage < b.stage) : a.precedes b :=
  fun _ _ _ => Or.inl h

theorem stage_instantiations (i : Nat) (oks : List Bool) :
    ∀ e ∈ instantiations i oks, e.stage = 0 := by
  intro e he
  obtain ⟨j, ok, rfl, -⟩ := mem_instantiations i oks e he
  rfl

theorem stage_initializations (i : Nat) (statuses : List fmiStatus) :
    ∀ e ∈ initializations i statuses, e.stage = 1 := by
  intro e he
  obtain ⟨j, s, rfl, -⟩ := mem_initializations i statuses e he
  rfl

theorem stage_teardowns (i k : Nat) : ∀ e ∈ teardowns i k, 3 ≤ e.stage := by
  intro e he
  obtain ⟨j, -, -, h | h⟩ := mem_teardowns i k e he <;> subst h <;> simp [Event.stage]

theorem stage_le_four (e : Event) : e.stage ≤ 4 := by
  cases e <;> simp [Event.stage]

theorem pairwise_instantiations (i : Nat) (oks : List Bool) :
    (instantiations i oks).Pairwise Event.precedes := by
  induction oks generalizing i with
  | nil => exact List.Pairwise.nil
  | cons x rest ih =>
    simp only [instantiations]
    refine List.Pairwise.cons ?_ (ih (i + 1))
    intro b hb k hk1 hk2
    obtain ⟨j, ok, rfl, hj, -⟩ := mem_instantiations (i + 1) rest b hb
    simp only [Event.component, Option.some.injEq] at hk1 hk2
    omega

theorem pairwise_initializations (i : Nat) (statuses : List fmiStatus) :
    (initializations i statuses).Pairwise Event.precedes := by
  induction statuses generalizing i with
  | nil => exact List.Pairwise.nil
  | cons x rest ih =>
    simp only [initializations]
    refine List.Pairwise.cons ?_ (ih (i + 1))
    intro b hb k hk1 hk2
    obtain ⟨j, s, rfl, hj, -⟩ := mem_initializations (i + 1) rest b hb
    simp only [Event.component, Option.some.injEq] at hk1 hk2
    omega

theorem pairwise_teardowns (i k : Nat) : (teardowns i k).Pairwise Event.precedes := by
  induction k generalizing i with
  | zero => exact List.Pairwise.nil
  | succ k ih =>
    simp only [teardowns]
    refine List.Pairwise.cons ?_ (List.Pairwise.cons ?_ (ih (i + 1)))
    · intro b hb
      rcases List.mem_cons.mp hb with hb | hb
      · subst hb
        exact precedes_of_stage_lt _ _ (by simp [Event.stage])
      · intro n hn1 hn2
        obtain ⟨j, hj, -, h | h⟩ := mem_teardowns (i + 1) k b hb <;> subst h <;>
          simp only [Event.component, Option.some.injEq] at hn1 hn2 <;> omega
    · intro b hb n hn1 hn2
      obtain ⟨j, hj, -, h | h⟩ := mem_teardowns (i + 1) k b hb <;> subst h <;>
        simp only [Event.component, Option.some.injEq] at hn1 hn2 <;> omega

theorem pairwise_rounds (rounds : List Event) (h : ∀ e ∈ rounds, e.stage = 2) :
    rounds.Pairwise Event.precedes := by
  rw [List.Pairwise.imp_mem]
  exact List.pairwise_of_forall (fun a b ha hb _ _ _ => Or.inr ⟨h a ha, h b hb⟩)

/-- In a run with the phases of `Phases` the calls to one component are in lifecycle order. -/
theorem phases_pairwise (n : Nat) (fopenOk : Bool) (code : Nat) (trace : List Event)
    (hp : Phases n fopenOk code trace) : trace.Pairwise Event.precedes := by
  obtain ⟨oks, sts, rounds, t, ht, -, -, hr, -⟩ := hp
  rw [ht]
  have h0 := stage_instantiations 0 oks
  have h1 := stage_initializations 0 sts
  have h3 := stage_teardowns 0 t
  refine List.pairwise_append.mpr ⟨List.pairwise_append.mpr ⟨List.pairwise_append.mpr
    ⟨pairwise_instantiations 0 oks, pairwise_initializations 0 sts, ?_⟩,
    pairwise_rounds rounds hr, ?_⟩, pairwise_teardowns 0 t, ?_⟩
  · intro a ha b hb
    exact precedes_of_stage_lt a b (by rw [h0 a ha, h1 b hb]; omega)
  · intro a ha b hb
    apply precedes_of_stage_lt
    rw [hr b hb]
    rcases List.mem_append.mp ha with ha | ha
    · rw [h0 a ha]; omega
    · rw [h1 a ha]; omega
  · intro a ha b hb
    apply precedes_of_stage_lt
    have := h3 b hb
    rcases List.mem_append.mp ha with ha | ha
    · rcases List.mem_append.mp ha with ha | ha
      · rw [h0 a ha]; omega
      · rw [h1 a ha]; omega
    · rw [hr a ha]; omega

/-- A call that is not in the first part of a run has the whole first part before it. -/
theorem front_of_not_mem {α : Type} (a b pre post : List α) (e : α)
    (h : a ++ b = pre ++ e :: post) (hne : e ∉ a) : ∃ mid, pre = a ++ mid ∧ b = mid ++ e :: post := by
  rcases List.append_eq_append_iff.mp h with ⟨mid, h1, h2⟩ | ⟨mid, h1, h2⟩
  · exact ⟨mid, h1, h2⟩
  · cases mid with
    | nil =>
      simp only [List.append_nil, List.nil_append] at h1 h2
      exact ⟨[], by simp [h1], by simp [h2]⟩
    | cons x rest =>
      simp only [List.cons_append, List.cons.injEq] at h2
      exfalso
      apply hne
      rw [h1, h2.1]
      simp

theorem phases_instantiated_before_initialize (n : Nat) (fopenOk : Bool) (code : Nat)
    (trace : List Event) (hp : Phases n fopenOk code trace) (pre post : List Event) (e : Event)
    (hsplit : trace = pre ++ e :: post) (he : e.stage = 1) (i : Nat) (hi : i < n) :
    Event.instantiateSlave i true ∈ pre := by
  obtain ⟨oks, sts, rounds, t, ht, -, -, hr, hs, -⟩ := hp
  have h0 := stage_instantiations 0 oks
  have h3 := stage_teardowns 0 t
  rw [ht, List.append_assoc, List.append_assoc] at hsplit
  have hne : e ∉ instantiations 0 oks := fun hm => by have := h0 e hm; omega
  obtain ⟨mid, hpre, hmid⟩ := front_of_not_mem _ _ pre post e hsplit hne
  have hmem : e ∈ initializations 0 sts := by
    have : e ∈ initializations 0 sts ++ (rounds ++ teardowns 0 t) := by rw [hmid]; simp
    rcases List.mem_append.mp this with h | h
    · exact h
    · rcases List.mem_append.mp h with h | h
      · have := hr e h; omega
      · have := h3 e h; omega
  have hsts : sts ≠ [] := by
    intro hnil
    rw [hnil] at hmem
    simp [initializations] at hmem
  have hoks := hs hsts
  obtain ⟨ok, hok, hin⟩ := instantiations_mem 0 oks i (by rw [hoks]; simpa using hi)
  rw [hoks, List.mem_replicate] at hok
  rw [hok.2, Nat.zero_add] at hin
  rw [hpre]
  exact List.mem_append_left _ hin

theorem phases_initialized_before_rounds (n : Nat) (fopenOk : Bool) (code : Nat)
    (trace : List Event) (hp : Phases n fopenOk code trace) (pre post : List Event) (e : Event)
    (hsplit : trace = pre ++ e :: post) (he : e.stage = 2) (i : Nat) (hi : i < n) :
    ∃ status, status ≤ fmiWarning ∧ Event.initializeSlave i status ∈ pre := by
  obtain ⟨oks, sts, rounds, t, ht, -, -, hr, -, hs, -⟩ := hp
  have h0 := stage_instantiations 0 oks
  have h1 := stage_initializations 0 sts
  have h3 := stage_teardowns 0 t
  rw [ht, List.append_assoc] at hsplit
  have hne : e ∉ instantiations 0 oks ++ initializations 0 sts := fun hm => by
    rcases List.mem_append.mp hm with h | h
    · have := h0 e h; omega
    · have := h1 e h; omega
  obtain ⟨mid, hpre, hmid⟩ := front_of_not_mem _ _ pre post e hsplit hne
  have hmem : e ∈ rounds := by
    have : e ∈ rounds ++ teardowns 0 t := by rw [hmid]; simp
    rcases List.mem_append.mp this with h | h
    · exact h
    · have := h3 e h; omega
  have hrounds : rounds ≠ [] := by
    intro hnil
    rw [hnil] at hmem
    simp at hmem
  obtain ⟨-, hlen, hall⟩ := hs hrounds
  obtain ⟨s, hsm, hin⟩ := initializations_mem 0 sts i (by omega)
  rw [Nat.zero_add] at hin
  refine ⟨s, hall s hsm, ?_⟩
  rw [hpre]
  exact List.mem_append_left _ (List.mem_append_right _ hin)

theorem teardowns_terminate_before_free (i k : Nat) (pre post : List Event) (j : Nat)
    (h : teardowns i k = pre ++ Event.freeSlaveInstance j :: post) :
    Event.terminateSlave j ∈ pre := by
  induction k generalizing i pre with
  | zero =>
    simp only [teardowns] at h
    have := congrArg List.length h
    simp at this
    omega
  | succ k ih =>
    simp only [teardowns] at h
    cases pre with
    | nil => simp at h
    | cons a pre1 =>
      simp only [List.cons_append, List.cons.injEq] at h
      obtain ⟨ha, h2⟩ := h
      cases pre1 with
      | nil =>
        simp only [List.nil_append, List.cons.injEq, Event.freeSlaveInstance.injEq] at h2
        rw [← ha, h2.1]
        simp
      | cons b pre2 =>
        simp only [List.cons_append, List.cons.injEq] at h2
        have := ih (i + 1) pre2 h2.2
        exact List.mem_cons_of_mem _ (List.mem_cons_of_mem _ this)

theorem phases_free_last (n : Nat) (fopenOk : Bool) (code : Nat)
    (trace : List Event) (hp : Phases n fopenOk code trace) (pre post : List Event) (i : Nat)
    (hsplit : trace = pre ++ Event.freeSlaveInstance i :: post) :
    Event.terminateSlave i ∈ pre ∧ ∀ e ∈ post, e.component ≠ some i := by
  have hpw := phases_pairwise n fopenOk code trace hp
  obtain ⟨oks, sts, rounds, t, ht, -, -, hr, -⟩ := hp
  have h0 := stage_instantiations 0 oks
  have h1 := stage_initializations 0 sts
  constructor
  · have hs2 := hsplit
    rw [ht] at hs2
    have hne : Event.freeSlaveInstance i ∉
        instantiations 0 oks ++ initializations 0 sts ++ rounds := fun hm => by
      rcases List.mem_append.mp hm with h | h
      · rcases List.mem_append.mp h with h | h
        · have := h0 _ h; simp [Event.stage] at this
        · have := h1 _ h; simp [Event.stage] at this
      · have := hr _ h; simp [Event.stage] at this
    obtain ⟨mid, hpre, hmid⟩ := front_of_not_mem _ _ pre post _ hs2 hne
    rw [hpre]
    exact List.mem_append_right _ (teardowns_terminate_before_free 0 t mid post i hmid)
  · intro e he hc
    rw [hsplit, List.pairwise_append] at hpw
    have hcons := List.pairwise_cons.mp hpw.2.1
    have := hcons.1 e he i rfl hc
    have h4 := stage_le_four e
    have h5 : (Event.freeSlaveInstance i).stage = 4 := rfl
    rw [h5] at this
    omega

theorem phases_clean_of_success (n : Nat) (fopenOk : Bool) (trace : List Event)
    (hp : Phases n fopenOk 1 trace) : fopenOk = true ∧ ∀ e ∈ trace, e.aborts = false := by
  obtain ⟨oks, sts, rounds, t, ht, -, -, -, -, -, h1, -⟩ := hp
  obtain ⟨hopen, -, hoks, -, hall, hclean⟩ := h1 rfl
  refine ⟨hopen, ?_⟩
  intro e he
  rw [ht] at he
  rcases List.mem_append.mp he with he | he
  · rcases List.mem_append.mp he with he | he
    · rcases List.mem_append.mp he with he | he
      · rw [hoks] at he
        exact clean_instantiations 0 n e he
      · exact clean_initializations 0 sts hall e he
    · exact hclean e he
  · exact clean_teardowns 0 t e he

theorem phases_success_iff (n : Nat) (fopenOk : Bool) (code : Nat) (trace : List Event)
    (hp : Phases n fopenOk code trace) :
    (code = 1 ↔ fopenOk = true ∧ ∀ e ∈ trace, e.aborts = false) ∧ (code = 0 ∨ code = 1) := by
  by_cases hc : code = 1
  · subst hc
    exact ⟨⟨fun _ => phases_clean_of_success n fopenOk trace hp, fun _ => rfl⟩, Or.inr rfl⟩
  · obtain ⟨oks, sts, rounds, t, ht, -, -, -, -, -, -, h0⟩ := hp
    obtain ⟨hcode, -, hcase⟩ := h0 hc
    refine ⟨⟨fun h => absurd h hc, ?_⟩, Or.inl hcode⟩
    rintro ⟨hopen, hclean⟩
    exfalso
    rcases hcase with ⟨hclosed, -⟩ | ⟨calls, e1, hlast, -, hab⟩
    · rw [hopen] at hclosed
      exact Bool.noConfusion hclosed
    · have := hclean e1 (by rw [hlast]; simp)
      rw [hab] at this
      exact Bool.noConfusion this

theorem phases_teardown (n : Nat) (fopenOk : Bool) (code : Nat) (trace : List Event)
    (hp : Phases n fopenOk code trace) :
    (code = 1 → ∃ calls, trace = calls ++ teardowns 0 n ∧ ∀ e ∈ calls, e.isTeardown = false) ∧
    (code ≠ 1 → ∀ e ∈ trace, e.isTeardown = false) := by
  obtain ⟨oks, sts, rounds, t, ht, -, -, hr, -, -, h1, h0⟩ := hp
  have hfront : ∀ e ∈ instantiations 0 oks ++ initializations 0 sts ++ rounds,
      e.isTeardown = false := by
    intro e he
    have hst : e.stage ≤ 2 := by
      rcases List.mem_append.mp he with he | he
      · rcases List.mem_append.mp he with he | he
        · rw [stage_instantiations 0 oks e he]; omega
        · rw [stage_initializations 0 sts e he]; omega
      · rw [hr e he]
    cases e <;> simp_all [Event.isTeardown, Event.stage]
  constructor
  · intro hc
    obtain ⟨-, htn, -⟩ := h1 hc
    exact ⟨_, by rw [ht, htn], hfront⟩
  · intro hc
    obtain ⟨-, ht0, -⟩ := h0 hc
    rw [ht, ht0]
    simpa [teardowns] using hfront

/-! ## Lifecycle, abort thresholds and teardown of `simulate` -/

/-- C11: lifecycle ordering in `simulate`. In every run that returns, the calls to one component
are in the order instantiateSlave, initializeSlave, rounds of get/set/doStep, terminateSlave,
freeSlaveInstance, each of the four lifecycle calls at most once (`Event.precedes` holds for every
two calls of the trace in their order); when a component is initialized every component has been
instantiated with a non-null handle; when a get, set or doStep is issued every component has been
initialized with a status that is no abort; and `freeSlaveInstance` of a component comes after its
`terminateSlave` and no later call addresses that component. -/
theorem lifecycle_ordering {σ : Type} (rt : Runtime) (fmus : List (FMU σ)) (graph : Graph)
    (tEnd h : ℚ) (loggingOn : Bool) (separator : Char) (fuel : Nat) (comps : List Component)
    (s : Simulation σ) (hcomps : graph.components = some comps)
    (hrun : simulate rt fmus graph tEnd h loggingOn separator fuel = Except.ok s) :
    s.final.trace.Pairwise Event.precedes ∧
    (∀ pre post j status, s.final.trace = pre ++ Event.initializeSlave j status :: post →
      ∀ i, i < comps.length → Event.instantiateSlave i true ∈ pre) ∧
    (∀ pre post e, s.final.trace = pre ++ e :: post →
      e.isGet = true ∨ e.isSet = true ∨ e.isDoStep = true →
      ∀ i, i < comps.length → ∃ status, status ≤ fmiWarning ∧ Event.initializeSlave i status ∈ pre) ∧
    (∀ pre post i, s.final.trace = pre ++ Event.freeSlaveInstance i :: post →
      Event.terminateSlave i ∈ pre ∧ ∀ e ∈ post, e.component ≠ some i) := by
  have hp := simulate_phases rt fmus graph tEnd h loggingOn separator fuel comps s hcomps hrun
  refine ⟨phases_pairwise _ _ _ _ hp, ?_, ?_, ?_⟩
  · intro pre post j status hsplit i hi
    exact phases_instantiated_before_initialize _ _ _ _ hp pre post _ hsplit rfl i hi
  · intro pre post e hsplit hkind i hi
    have hstage : e.stage = 2 := by
      cases e <;> simp_all [Event.isGet, Event.isSet, Event.isDoStep, Event.stage]
    exact phases_initialized_before_rounds _ _ _ _ hp pre post e hsplit hstage i hi
  · intro pre post i hsplit
    exact phases_free_last _ _ _ _ hp pre post i hsplit

/-- Instance of C11: the pair, run from 0 to 1/5 with step size 1/10; the run returns, and its
sixteen calls are in lifecycle order. -/
theorem lifecycle_ordering_witness :
    ∃ s, simulate exactRuntime [producerFMU 0, consumerFMU] (pairGraph 0) (1 / 5) (1 / 10) false
        ';' 5 = Except.ok s ∧
      s.final.trace.Pairwise Event.precedes := by
  have hok : (summary (simulate exactRuntime [producerFMU 0, consumerFMU] (pairGraph 0) (1 / 5)
      (1 / 10) false ';' 5)) = Except.ok (1, 2, 3, 4) := by decide!
  cases hs : simulate exactRuntime [producerFMU 0, consumerFMU] (pairGraph 0) (1 / 5) (1 / 10)
      false ';' 5 with
  | error msg =>
    rw [hs] at hok
    exact Except.noConfusion hok
  | ok s =>
    exact ⟨s, rfl, (lifecycle_ordering exactRuntime [producerFMU 0, consumerFMU] (pairGraph 0)
      (1 / 5) (1 / 10) false ';' 5 _ s rfl hs).1⟩

/-- Counterexample to C13: the single component with a `doStep` that returns `fmiError`. The
component is instantiated and initialized, the run is aborted in the first macro-step and returns
0, and neither `terminateSlave` nor `freeSlaveInstance` is called. -/
theorem aborted_run_has_no_teardown :
    (match simulate exactRuntime [steppingFMU fmiError] singleGraph (1 / 5) (1 / 10) false ';' 5
      with
      | Except.ok s => some (s.code, s.final.trace)
      | Except.error _ => none)
      = some (0, [Event.instantiateSlave 0 true, Event.initializeSlave 0 fmiOK,
          Event.outputRow 0 ';' true, Event.outputRow 0 ';' false,
          Event.get 0 0 enu_Real 0 (Cell.real 0), Event.doStep 0 0 (1 / 10) fmiError]) ∧
    (match simulate exactRuntime [initializingFMU fmiError] singleGraph (1 / 5) (1 / 10) false
        ';' 5 with
      | Except.ok s => some (s.code, s.final.trace)
      | Except.error _ => none)
      = some (0, [Event.instantiateSlave 0 true, Event.initializeSlave 0 fmiError]) := by
  constructor <;> decide!

/-- C13, amended: teardown at the end of a complete run. When `simulate` returns success, the
trace ends with `terminateSlave` and then `freeSlaveInstance` for every component, in component
order, and no such call is made before; when it returns failure (a null handle, the result file
not opened, a status above `fmiWarning` from initializeSlave, a status other than `fmiOK` from
doStep), neither `terminateSlave` nor `freeSlaveInstance` is called for any component. -/
theorem teardown_exactly_on_success {σ : Type} (rt : Runtime) (fmus : List (FMU σ))
    (graph : Graph) (tEnd h : ℚ) (loggingOn : Bool) (separator : Char) (fuel : Nat)
    (comps : List Component) (s : Simulation σ) (hcomps : graph.components = some comps)
    (hrun : simulate rt fmus graph tEnd h loggingOn separator fuel = Except.ok s) :
    (s.code = 1 → (∃ calls, s.final.trace = calls ++ teardowns 0 comps.length ∧
        ∀ e ∈ calls, e.isTeardown = false) ∧
      ∀ i, i < comps.length → Event.terminateSlave i ∈ s.final.trace ∧
        Event.freeSlaveInstance i ∈ s.final.trace) ∧
    (s.code ≠ 1 → s.code = 0 ∧ ∀ e ∈ s.final.trace, e.isTeardown = false) := by
  have hp := simulate_phases rt fmus graph tEnd h loggingOn separator fuel comps s hcomps hrun
  have ht := phases_teardown _ _ _ _ hp
  have hc := (phases_success_iff _ _ _ _ hp).2
  refine ⟨fun h1 => ?_, fun h0 => ⟨by omega, ht.2 h0⟩⟩
  obtain ⟨calls, hsplit, hfront⟩ := ht.1 h1
  refine ⟨⟨calls, hsplit, hfront⟩, ?_⟩
  intro i hi
  have hm := teardowns_mem 0 comps.length i hi
  rw [Nat.zero_add] at hm
  rw [hsplit]
  exact ⟨List.mem_append_right _ hm.1, List.mem_append_right _ hm.2⟩

/-- Instance of the amended C13: the pair, run from 0 to 1/5 with step size 1/10, returns 1 and
ends with the teardown of both components. -/
theorem teardown_exactly_on_success_witness :
    ∃ s, simulate exactRuntime [producerFMU 0, consumerFMU] (pairGraph 0) (1 / 5) (1 / 10) false
        ';' 5 = Except.ok s ∧ s.code = 1 ∧
      ∃ calls, s.final.trace = calls ++ [Event.terminateSlave 0, Event.freeSlaveInstance 0,
        Event.terminateSlave 1, Event.freeSlaveInstance 1] := by
  have hok : (match simulate exactRuntime [producerFMU 0, consumerFMU] (pairGraph 0) (1 / 5)
      (1 / 10) false ';' 5 with
    | Except.ok s => some s.code
    | Except.error _ => none) = some 1 := by decide!
  cases hs : simulate exactRuntime [producerFMU 0, consumerFMU] (pairGraph 0) (1 / 5) (1 / 10)
      false ';' 5 with
  | error msg =>
    rw [hs] at hok
    exact Option.noConfusion hok
  | ok s =>
    rw [hs] at hok
    have hcode := Option.some.inj hok
    obtain ⟨calls, hsplit, -⟩ := ((teardown_exactly_on_success exactRuntime
      [producerFMU 0, consumerFMU] (pairGraph 0) (1 / 5) (1 / 10) false ';' 5 _ s rfl hs).1
      hcode).1
    exact ⟨s, rfl, hcode, calls, hsplit⟩

/-! ## Ports that name no variable -/

/-- C14, the code at the failing input. The port `z` of `unmatchedWiring` names no scalar variable
of its module (`getVariableByName` returns `NULL`); `loadGraph` returns the graph with the
variable of that port `NULL`; `simulate` then instantiates the component and stops in the first
macro-step at the dereference of the variable. -/
theorem unmatched_port_is_loaded :
    getVariableByName (kindFMU elm_Real).modelDescription "z" = Except.ok none ∧
    boundPorts (loadGraph (kindLoader elm_Real) (validated unmatchedWiring).result)
      = Except.ok [(some "z", false)] ∧
    instantiateCalls [kindFMU elm_Real]
      (loaded (kindLoader elm_Real) (validated unmatchedWiring).result).1 false
      = Except.ok [Event.instantiateSlave 0 true] ∧
    summary (simulate exactRuntime [kindFMU elm_Real]
      (loaded (kindLoader elm_Real) (validated unmatchedWiring).result).1 (1 / 5) (1 / 10) false
      ';' 5) = Except.error "null dereference: ports[n]->variable" := by
  refine ⟨by decide, by decide, by decide, by decide!⟩

/-! ## The parser: unknown names -/

theorem checkNameFrom_not_mem (name : String) (n i : Nat) (array : List String)
    (h : name ∉ array) : checkNameFrom name n i array = -1 := by
  induction array generalizing i with
  | nil => rfl
  | cons s rest ih =>
    simp only [List.mem_cons, not_or] at h
    simp only [checkNameFrom, if_neg h.1]
    split
    · exact ih (i + 1) h.2
    · rfl

theorem newElement_unknown_attribute (type : Elm) (attr : List (String × String))
    (h : ∃ pair ∈ attr, checkAttribute pair.1 = -1) : newElement type attr = none := by
  have hloop : addAttributesLoop attr = none := by
    induction attr with
    | nil => simp at h
    | cons pair rest ih =>
      obtain ⟨name, value⟩ := pair
      simp only [addAttributesLoop]
      by_cases ha : checkAttribute name = -1
      · simp [ha]
      · simp only [ha, if_false]
        obtain ⟨q, hq, hbad⟩ := h
        rcases List.mem_cons.mp hq with hq | hq
        · subst hq
          exact absurd hbad ha
        · rw [ih ⟨q, hq, hbad⟩]
          rfl
  simp only [newElement, addAttributes, hloop]

theorem startElement_unknown (elm : String) (attr : List (String × String)) (p : ParserState)
    (h : checkElement elm = -1 ∨ ∃ pair ∈ attr, checkAttribute pair.1 = -1) :
    (startElement elm attr p).stopped = true := by
  unfold startElement
  by_cases he : checkElement elm = -1
  · simp [he, ParserState.stop]
  · rcases h with h | h
    · exact absurd h he
    · simp only [he, if_false, newElement_unknown_attribute _ attr h]
      rfl

theorem deliverAll_append (t : Tokenizer) (a b : List XmlEvent) :
    deliverAll t (a ++ b) = match deliverAll t a with
      | Except.error msg => Except.error msg
      | Except.ok t1 => deliverAll t1 b := by
  induction a generalizing t with
  | nil => rfl
  | cons ev rest ih =>
    simp only [List.cons_append, deliverAll]
    cases deliver t ev with
    | error msg => rfl
    | ok t1 => exact ih t1

theorem deliverAll_halted (t : Tokenizer) (events : List XmlEvent)
    (h : t.globals.stopped = true ∨ t.wellFormed = false) : deliverAll t events = Except.ok t := by
  induction events with
  | nil => rfl
  | cons ev rest ih =>
    simp only [deliverAll, deliver, h, if_true]
    exact ih

theorem status_halted (t : Tokenizer) (h : t.globals.stopped = true ∨ t.wellFormed = false) :
    t.status = false := by
  unfold Tokenizer.status
  rcases h with h | h <;> simp [h]

/-- After a start event with an unknown element or attribute name the tokenizer makes no further
call, and its status is an error. -/
theorem deliver_unknown (t : Tokenizer) (elm : String) (attr : List (String × String))
    (h : checkElement elm = -1 ∨ ∃ pair ∈ attr, checkAttribute pair.1 = -1) :
    ∃ t1, deliver t (XmlEvent.startElement elm attr) = Except.ok t1 ∧
      (t1.globals.stopped = true ∨ t1.wellFormed = false) ∧
      (t.globals.stopped = false → t.wellFormed = true → t.closed = false →
        t1 = { t with openTags := elm :: t.openTags,
                      globals := startElement elm attr t.globals }) := by
  unfold deliver
  by_cases hh : t.globals.stopped = true ∨ t.wellFormed = false
  · refine ⟨t, by simp [hh], hh, ?_⟩
    intro h1 h2
    rcases hh with hh | hh
    · rw [h1] at hh; exact Bool.noConfusion hh
    · rw [h2] at hh; exact Bool.noConfusion hh
  · simp only [hh, if_false]
    by_cases hc : t.closed = true
    · refine ⟨{ t with wellFormed := false }, by simp [hc], Or.inr rfl, ?_⟩
      intro _ _ h3
      rw [h3] at hc
      exact Bool.noConfusion hc
    · refine ⟨{ t with openTags := elm :: t.openTags,
                       globals := startElement elm attr t.globals }, by simp [hc],
        Or.inl (startElement_unknown elm attr t.globals h), fun _ _ _ => rfl⟩

theorem parsedRoot_unknown (pre post : List XmlEvent) (elm : String)
    (attr : List (String × String)) (t : Tokenizer)
    (h : checkElement elm = -1 ∨ ∃ pair ∈ attr, checkAttribute pair.1 = -1)
    (hpre : deliverAll Tokenizer.initial pre = Except.ok t) :
    parsedRoot (pre ++ XmlEvent.startElement elm attr :: post) = Except.ok none := by
  obtain ⟨t1, h1, hhalt, -⟩ := deliver_unknown t elm attr h
  unfold parsedRoot
  rw [deliverAll_append, hpre]
  simp only [deliverAll, h1, deliverAll_halted t1 post hhalt, status_halted t1 hhalt, if_true]

/-! ## The parser: reduction of a model description -/

theorem checkElement_fmiModelDescription : checkElement "fmiModelDescription" = 0 := by decide

theorem type_astListElement (e : Element) (l : Option (List Node)) :
    (Node.astListElement e l).type = e.type := rfl

theorem type_astModelDescription (e : Element) (f1 f2 : Option (List Node)) (f3 : Option Node)
    (f4 f5 : Option (List Node)) (f6 : Option Node) :
    (Node.astModelDescription e f1 f2 f3 f4 f5 f6).type = e.type := rfl

theorem list_astListElement (e : Element) (l : Option (List Node)) :
    (Node.astListElement e l).list = Except.ok l := rfl

/-- The reduction accepts the sections in canonical order. -/
theorem endModelDescription_canonical (s : Sections) (hs : s.wellFormed) (e : Element)
    (f1 f2 : Option (List Node)) (f3 : Option Node) (f4 f5 : Option (List Node))
    (f6 : Option Node) (below : List (Option Node)) (p : ParserState)
    (he : e.type = elm_fmiModelDescription)
    (hstack : p.stack = onStack s.canonicalOrder
      ++ some (Node.astModelDescription e f1 f2 f3 f4 f5 f6) :: below) :
    endModelDescription p = Except.ok ({ p with stack := some (s.reduced e) :: below },
      some elm_fmiModelDescription) := by
  obtain ⟨ud, td, de, va, mv, cs⟩ := s
  obtain ⟨h1, h2, h3, h4, h5, h6⟩ := hs
  simp only at h1 h2 h3 h4 h5 h6
  rcases ud with _ | ⟨eu, lu⟩ <;> rcases td with _ | ⟨et, lt⟩ <;> rcases de with _ | de <;>
    rcases va with _ | ⟨ev, lv⟩ <;> rcases mv with _ | ⟨em, lm⟩ <;> rcases cs with _ | cs <;>
    simp only [Option.some.injEq, forall_eq', Prod.forall, Prod.mk.injEq,
      false_implies, implies_true, forall_const, and_imp, forall_eq_apply_imp_iff,
      forall_apply_eq_imp_iff, forall_eq] at h1 h2 h3 h4 h5 h6 <;>
    simp only [Sections.canonicalOrder, Sections.plain, onStack, Option.map, Option.toList,
      listNode, List.map, List.append_nil, List.nil_append, List.reverse_nil, List.reverse_cons,
      List.cons_append, List.singleton_append, List.map_append, List.map_cons, List.map_nil,
      List.reverse_append, List.append_assoc] at hstack <;>
    first
    | (rcases h6 with h6 | h6 <;>
        simp [endModelDescription, checkPop, checkPeek, stackPop, popChild, mdModelVariables,
          mdVendorAnnotations, mdDefaultExperiment, mdTypeDefinitions, mdUnitDefinitions,
          mdCoSimulationBelow, mdAssign, hstack, type_astListElement, type_astModelDescription,
          list_astListElement, ANY_TYPE, stackPush, h1, h2, h3, h4, h5, h6, he,
          Sections.reduced, payload, elm_UnitDefinitions, elm_TypeDefinitions,
          elm_DefaultExperiment, elm_VendorAnnotations, elm_ModelVariables,
          elm_fmiModelDescription, elm_CoSimulation_StandAlone, elm_CoSimulation_Tool])
    | simp [endModelDescription, checkPop, checkPeek, stackPop, popChild, mdModelVariables,
          mdVendorAnnotations, mdDefaultExperiment, mdTypeDefinitions, mdUnitDefinitions,
          mdCoSimulationBelow, mdAssign, hstack, type_astListElement, type_astModelDescription,
          list_astListElement, ANY_TYPE, stackPush, h1, h2, h3, h4, h5, h6, he,
          Sections.reduced, payload, elm_UnitDefinitions, elm_TypeDefinitions,
          elm_DefaultExperiment, elm_VendorAnnotations, elm_ModelVariables,
          elm_fmiModelDescription, elm_CoSimulation_StandAlone, elm_CoSimulation_Tool]

/-- The reduction accepts a CoSimulation section placed before all other sections. -/
theorem endModelDescription_coSimulationFirst (s : Sections) (hs : s.wellFormed) (e : Element)
    (f1 f2 : Option (List Node)) (f3 : Option Node) (f4 f5 : Option (List Node))
    (f6 : Option Node) (below : List (Option Node)) (p : ParserState)
    (he : e.type = elm_fmiModelDescription)
    (hstack : p.stack = onStack s.coSimulationFirst
      ++ some (Node.astModelDescription e f1 f2 f3 f4 f5 f6) :: below) :
    endModelDescription p = Except.ok ({ p with stack := some (s.reduced e) :: below },
      some elm_fmiModelDescription) := by
  obtain ⟨ud, td, de, va, mv, cs⟩ := s
  obtain ⟨h1, h2, h3, h4, h5, h6⟩ := hs
  simp only at h1 h2 h3 h4 h5 h6
  rcases ud with _ | ⟨eu, lu⟩ <;> rcases td with _ | ⟨et, lt⟩ <;> rcases de with _ | de <;>
    rcases va with _ | ⟨ev, lv⟩ <;> rcases mv with _ | ⟨em, lm⟩ <;> rcases cs with _ | cs <;>
    simp only [Option.some.injEq, forall_eq', Prod.forall, Prod.mk.injEq,
      false_implies, implies_true, forall_const, and_imp, forall_eq_apply_imp_iff,
      forall_apply_eq_imp_iff, forall_eq] at h1 h2 h3 h4 h5 h6 <;>
    simp only [Sections.coSimulationFirst, Sections.plain, onStack, Option.map, Option.toList,
      listNode, List.map, List.append_nil, List.nil_append, List.reverse_nil, List.reverse_cons,
      List.cons_append, List.singleton_append, List.map_append, List.map_cons, List.map_nil,
      List.reverse_append, List.append_assoc] at hstack <;>
    first
    | (rcases h6 with h6 | h6 <;>
        simp [endModelDescription, checkPop, checkPeek, stackPop, popChild, mdModelVariables,
          mdVendorAnnotations, mdDefaultExperiment, mdTypeDefinitions, mdUnitDefinitions,
          mdCoSimulationBelow, mdAssign, hstack, type_astListElement, type_astModelDescription,
          list_astListElement, ANY_TYPE, stackPush, h1, h2, h3, h4, h5, h6, he,
          Sections.reduced, payload, elm_UnitDefinitions, elm_TypeDefinitions,
          elm_DefaultExperiment, elm_VendorAnnotations, elm_ModelVariables,
          elm_fmiModelDescription, elm_CoSimulation_StandAlone, elm_CoSimulation_Tool])
    | simp [endModelDescription, checkPop, checkPeek, stackPop, popChild, mdModelVariables,
          mdVendorAnnotations, mdDefaultExperiment, mdTypeDefinitions, mdUnitDefinitions,
          mdCoSimulationBelow, mdAssign, hstack, type_astListElement, type_astModelDescription,
          list_astListElement, ANY_TYPE, stackPush, h1, h2, h3, h4, h5, h6, he,
          Sections.reduced, payload, elm_UnitDefinitions, elm_TypeDefinitions,
          elm_DefaultExperiment, elm_VendorAnnotations, elm_ModelVariables,
          elm_fmiModelDescription, elm_CoSimulation_StandAlone, elm_CoSimulation_Tool]

/-- After the reduction the final `checkPeek` of `endElement` finds the model-description node:
the parser state is the one that the reduction left. -/
theorem endElement_of_endModelDescription (p : ParserState) (node : Node)
    (below : List (Option Node)) (hnode : node.type = elm_fmiModelDescription)
    (h : endModelDescription p = Except.ok ({ p with stack := some node :: below },
      some elm_fmiModelDescription)) :
    endElement "fmiModelDescription" p = Except.ok { p with stack := some node :: below } := by
  have hcase : endCase 0 p = endModelDescription p := by
    simp [endCase, elm_fmiModelDescription]
  simp only [endElement, checkElement_fmiModelDescription]
  simp only [show ((0 : Int) = -1) = False from by decide, if_false, Int.toNat_zero, hcase, h]
  simp [checkPeek, checkElementType, hnode, ANY_TYPE, elm_fmiModelDescription]

theorem onStack_append (a b : List Node) : onStack (a ++ b) = onStack b ++ onStack a := by
  simp [onStack]

theorem list_ok (node : Node) (l : Option (List Node)) (h : node.list = Except.ok l) :
    ∃ e, node = Node.astListElement e l := by
  cases node <;> simp [Node.list] at h
  subst h
  exact ⟨_, rfl⟩

theorem popChild_ok (p p1 : ParserState) (r : Option Elm)
    (rest : Node → ParserState → Except String CaseEnd)
    (h : popChild p rest = Except.ok (p1, r)) (hn : ∀ x ∈ p.stack, x ≠ none) :
    ∃ next below, p.stack = some next :: below ∧ rest next { p with stack := below }
      = Except.ok (p1, r) := by
  unfold popChild checkPop checkPeek stackPop at h
  cases hs : p.stack with
  | nil => simp [hs, ANY_TYPE] at h
  | cons top below =>
    cases top with
    | none =>
      have := hn none (by rw [hs]; simp)
      exact absurd rfl this
    | some next =>
      simp [hs, ANY_TYPE] at h
      exact ⟨next, below, rfl, h⟩

/-- A block of the reduction that takes a list section of type `kind` if it is on top: either
the section was taken and the next entry is the child that follows, or nothing was taken. -/
theorem listBlock_ok (kind : Elm)
    (rest : Option (List Node) → Node → ParserState → Except String CaseEnd)
    (child : Node) (p p1 : ParserState) (r : Option Elm)
    (h : (if child.type = kind then
        match child.list with
        | Except.error msg => Except.error msg
        | Except.ok l => popChild p (rest l)
      else rest none child p) = Except.ok (p1, r))
    (hn : ∀ x ∈ p.stack, x ≠ none) :
    ∃ (x : Option (Element × Option (List Node))) (next : Node) (below : List (Option Node)),
      (∀ y, x = some y → y.1.type = kind) ∧
      some child :: p.stack = onStack (x.map listNode).toList ++ some next :: below ∧
      (∀ y ∈ below, y ≠ none) ∧
      rest (payload x) next { p with stack := below } = Except.ok (p1, r) := by
  split at h
  · rename_i hk
    cases hl : child.list with
    | error msg => simp [hl] at h
    | ok l =>
      simp only [hl] at h
      obtain ⟨e, rfl⟩ := list_ok child l hl
      obtain ⟨next, below, hs, hrest⟩ := popChild_ok p p1 r (rest l) h hn
      refine ⟨some (e, l), next, below, ?_, ?_, ?_, hrest⟩
      · intro y hy
        cases hy
        exact hk
      · simp [onStack, listNode, hs]
      · intro y hy
        exact hn y (by rw [hs]; exact List.mem_cons_of_mem _ hy)
  · exact ⟨none, child, p.stack, by simp, by simp [onStack], hn, h⟩

/-- A block of the reduction that takes a node for which `test` holds if it is on top. -/
theorem nodeBlock_ok (test : Node → Prop) [DecidablePred test]
    (rest : Option Node → Node → ParserState → Except String CaseEnd)
    (child : Node) (p p1 : ParserState) (r : Option Elm)
    (h : (if test child then popChild p (rest (some child)) else rest none child p)
      = Except.ok (p1, r))
    (hn : ∀ x ∈ p.stack, x ≠ none) :
    ∃ (x : Option Node) (next : Node) (below : List (Option Node)),
      (∀ y, x = some y → test y) ∧
      some child :: p.stack = onStack x.toList ++ some next :: below ∧
      (∀ y ∈ below, y ≠ none) ∧
      rest x next { p with stack := below } = Except.ok (p1, r) := by
  split at h
  · rename_i hk
    obtain ⟨next, below, hs, hrest⟩ := popChild_ok p p1 r (rest (some child)) h hn
    refine ⟨some child, next, below, ?_, ?_, ?_, hrest⟩
    · intro y hy
      cases hy
      exact hk
    · simp [onStack, hs]
    · intro y hy
      exact hn y (by rw [hs]; exact List.mem_cons_of_mem _ hy)
  · exact ⟨none, child, p.stack, by simp, by simp [onStack], hn, h⟩

theorem mdAssign_ok (cs : Option Node) (mv va : Option (List Node)) (de : Option Node)
    (td ud : Option (List Node)) (child : Node) (p p1 : ParserState) (r : Option Elm)
    (h : mdAssign cs mv va de td ud child p = Except.ok (p1, r)) (hs : p1.stopped = false) :
    ∃ e f1 f2 f3 f4 f5 f6, child = Node.astModelDescription e f1 f2 f3 f4 f5 f6 ∧
      e.type = elm_fmiModelDescription ∧ r = some elm_fmiModelDescription ∧
      p1 = { p with stack := some (Node.astModelDescription e ud td de va mv cs) :: p.stack } := by
  unfold mdAssign at h
  split at h
  · rename_i ht
    split at h
    · rename_i e f1 f2 f3 f4 f5 f6
      simp only [Except.ok.injEq, Prod.mk.injEq] at h
      exact ⟨e, f1, f2, f3, f4, f5, f6, rfl, ht, h.2.symm, h.1.symm⟩
    · exact Except.noConfusion h
  · simp only [Except.ok.injEq, Prod.mk.injEq] at h
    rw [← h.1] at hs
    simp [ParserState.stop] at hs

/-- The reduction of a model description ends with `break` and an unstopped parser only on a
stack that holds, above the model-description node, sections in canonical order, or a
CoSimulation section followed by the other sections in canonical order. -/
theorem endModelDescription_accepts (p p1 : ParserState) (r : Option Elm)
    (h : endModelDescription p = Except.ok (p1, r)) (hn : ∀ x ∈ p.stack, x ≠ none)
    (hs : p1.stopped = false) :
    ∃ (s : Sections) (e : Element) (f1 f2 : Option (List Node)) (f3 : Option Node)
      (f4 f5 : Option (List Node)) (f6 : Option Node) (below : List (Option Node)),
      s.wellFormed ∧ e.type = elm_fmiModelDescription ∧
      (p.stack = onStack s.canonicalOrder
          ++ some (Node.astModelDescription e f1 f2 f3 f4 f5 f6) :: below ∨
        p.stack = onStack s.coSimulationFirst
          ++ some (Node.astModelDescription e f1 f2 f3 f4 f5 f6) :: below) ∧
      r = some elm_fmiModelDescription ∧
      p1 = { p with stack := some (s.reduced e) :: below } := by
  unfold endModelDescription checkPop checkPeek stackPop at h
  cases hstack : p.stack with
  | nil => simp [hstack, ANY_TYPE] at h
  | cons top S =>
    cases top with
    | none => exact absurd rfl (hn none (by rw [hstack]; simp))
    | some child =>
      simp only [hstack, ANY_TYPE, if_true] at h
      have hnS : ∀ x ∈ ({ p with stack := S } : ParserState).stack, x ≠ none := by
        intro x hx
        exact hn x (by rw [hstack]; exact List.mem_cons_of_mem _ hx)
      obtain ⟨xcs, n1, b1, t1, e1, hn1, h1⟩ := nodeBlock_ok
        (fun n => n.type = elm_CoSimulation_StandAlone ∨ n.type = elm_CoSimulation_Tool)
        (fun x => mdModelVariables x) child { p with stack := S } p1 r h hnS
      unfold mdModelVariables at h1
      obtain ⟨xmv, n2, b2, t2, e2, hn2, h2⟩ := listBlock_ok elm_ModelVariables
        (fun l => mdVendorAnnotations xcs l) n1 _ p1 r h1 hn1
      unfold mdVendorAnnotations at h2
      obtain ⟨xva, n3, b3, t3, e3, hn3, h3⟩ := listBlock_ok elm_VendorAnnotations
        (fun l => mdDefaultExperiment xcs (payload xmv) l) n2 _ p1 r h2 hn2
      unfold mdDefaultExperiment at h3
      obtain ⟨xde, n4, b4, t4, e4, hn4, h4⟩ := nodeBlock_ok
        (fun n => n.type = elm_DefaultExperiment)
        (fun x => mdTypeDefinitions xcs (payload xmv) (payload xva) x) n3 _ p1 r h3 hn3
      unfold mdTypeDefinitions at h4
      obtain ⟨xtd, n5, b5, t5, e5, hn5, h5⟩ := listBlock_ok elm_TypeDefinitions
        (fun l => mdUnitDefinitions xcs (payload xmv) (payload xva) xde l) n4 _ p1 r h4 hn4
      unfold mdUnitDefinitions at h5
      obtain ⟨xud, n6, b6, t6, e6, hn6, h6⟩ := listBlock_ok elm_UnitDefinitions
        (fun l => mdCoSimulationBelow xcs (payload xmv) (payload xva) xde (payload xtd) l)
        n5 _ p1 r h5 hn5
      unfold mdCoSimulationBelow at h6
      obtain ⟨xb, n7, b7, t7, e7, hn7, h7⟩ := nodeBlock_ok
        (fun n => xcs.isNone ∧
          (n.type = elm_CoSimulation_StandAlone ∨ n.type = elm_CoSimulation_Tool))
        (fun x => mdAssign (x <|> xcs)
          (payload xmv) (payload xva) xde (payload xtd) (payload xud)) n6 _ p1 r h6 hn6
      obtain ⟨e, f1, f2, f3, f4, f5, f6, hmd, het, hr, hp1⟩ := mdAssign_ok _ _ _ _ _ _ n7 _ p1 r
        h7 hs
      subst hmd
      simp only at e1 e2 e3 e4 e5 e6 e7
      have hwhole : some child :: S = onStack xcs.toList ++ (onStack (xmv.map listNode).toList ++
          (onStack (xva.map listNode).toList ++ (onStack xde.toList ++
          (onStack (xtd.map listNode).toList ++ (onStack (xud.map listNode).toList ++
          (onStack xb.toList
            ++ some (Node.astModelDescription e f1 f2 f3 f4 f5 f6) :: b7)))))) := by
        rw [e1, e2, e3, e4, e5, e6, e7]
      refine ⟨⟨xud, xtd, xde, xva, xmv, xb <|> xcs⟩, e, f1, f2, f3, f4, f5, f6, b7, ?_, het, ?_,
        hr, ?_⟩
      · refine ⟨t6, t5, t4, t3, t2, ?_⟩
        intro node hnode
        cases xb with
        | none => exact t1 node hnode
        | some c =>
          have hc : c = node := Option.some.inj hnode
          subst hc
          exact (t7 _ rfl).2
      · cases xb with
        | none =>
          left
          refine hwhole.trans ?_
          simp [Sections.canonicalOrder, Sections.plain, onStack_append, onStack]
        | some c =>
          right
          have hnone : xcs = none := by
            have := (t7 c rfl).1
            cases xcs with
            | none => rfl
            | some _ => simp at this
          subst hnone
          refine hwhole.trans ?_
          simp [Sections.coSimulationFirst, Sections.plain, onStack_append, onStack]
      · refine hp1.trans ?_
        rfl

theorem checkPeek_stopped (e : Int) (p p2 : ParserState) (b : Bool)
    (h : checkPeek e p = Except.ok (b, p2)) (hs : p2.stopped = false) : p2 = p := by
  unfold checkPeek at h
  split at h
  · split at h
    · exact Except.noConfusion h
    · simp only [Except.ok.injEq, Prod.mk.injEq] at h
      rw [← h.2] at hs
      simp [ParserState.stop] at hs
  · split at h
    · simp only [Except.ok.injEq, Prod.mk.injEq] at h
      exact h.2.symm
    · unfold checkElementType at h
      split at h
      · exact Except.noConfusion h
      · split at h
        · simp only [Except.ok.injEq, Prod.mk.injEq] at h
          exact h.2.symm
        · simp only [Except.ok.injEq, Prod.mk.injEq] at h
          rw [← h.2] at hs
          simp [ParserState.stop] at hs

/-- C15: unknown names stop the parse. For a start event whose element name is not in `elmNames`,
or one of whose attribute names is not in `attNames`: `startElement` stops the parser, in whatever
state it is called, and for an unknown element name it leaves the stack as it is; if the
tokenizer delivers the events `pre` before it without a failure of a handler, it makes no call
after that event (its final state is the one after that call when the call is made), it reports
an error, and `parse` and `parseGraph` return `NULL`. -/
theorem unknown_names_stop_the_parse (pre post : List XmlEvent) (elm : String)
    (attr : List (String × String)) (t : Tokenizer)
    (hunknown : elm ∉ elmNames ∨ ∃ pair ∈ attr, pair.1 ∉ attNames)
    (hpre : deliverAll Tokenizer.initial pre = Except.ok t) :
    (∀ p : ParserState, (startElement elm attr p).stopped = true) ∧
    (elm ∉ elmNames → ∀ p : ParserState, (startElement elm attr p).stack = p.stack) ∧
    (∃ t1, deliverAll Tokenizer.initial (pre ++ XmlEvent.startElement elm attr :: post)
        = Except.ok t1 ∧ t1.status = false ∧
      (t.globals.stopped = false → t.wellFormed = true → t.closed = false →
        t1 = { t with openTags := elm :: t.openTags,
                      globals := startElement elm attr t.globals })) ∧
    parse (pre ++ XmlEvent.startElement elm attr :: post) = Except.ok none ∧
    parseGraph (pre ++ XmlEvent.startElement elm attr :: post) = Except.ok none := by
  have hcheck : checkElement elm = -1 ∨ ∃ pair ∈ attr, checkAttribute pair.1 = -1 := by
    rcases hunknown with h | ⟨pair, hp, h⟩
    · exact Or.inl (checkNameFrom_not_mem elm SIZEOF_ELM 0 elmNames h)
    · exact Or.inr ⟨pair, hp, checkNameFrom_not_mem pair.1 SIZEOF_ATT 0 attNames h⟩
  have hroot := parsedRoot_unknown pre post elm attr t hcheck hpre
  refine ⟨fun p => startElement_unknown elm attr p hcheck, ?_, ?_, ?_, ?_⟩
  · intro helm p
    have hel : checkElement elm = -1 := checkNameFrom_not_mem elm SIZEOF_ELM 0 elmNames helm
    simp [startElement, hel, ParserState.stop]
  · obtain ⟨t1, h1, hhalt, hstate⟩ := deliver_unknown t elm attr hcheck
    refine ⟨t1, ?_, status_halted t1 hhalt, hstate⟩
    rw [deliverAll_append, hpre]
    simp only [deliverAll, h1, deliverAll_halted t1 post hhalt]
  · simp only [parse, hroot]
  · simp only [parseGraph, hroot]

/-- Instance of C15: a wiring document in which a Port carries the attribute `nme`; the four
start events before it are delivered, the parser is stopped at the Port, and `parseGraph`
returns `NULL`. -/
theorem unknown_names_stop_the_parse_witness :
    parseGraph ([XmlEvent.startElement "Graph" [], XmlEvent.startElement "Components" [],
      XmlEvent.startElement "Component" [("fmuPath", "a.fmu")],
      XmlEvent.startElement "Inputs" []] ++
      XmlEvent.startElement "Port" [("nme", "u")] ::
      [XmlEvent.endElement "Port", XmlEvent.endElement "Inputs"]) = Except.ok none := by
  have hok : (match deliverAll Tokenizer.initial [XmlEvent.startElement "Graph" [],
      XmlEvent.startElement "Components" [],
      XmlEvent.startElement "Component" [("fmuPath", "a.fmu")],
      XmlEvent.startElement "Inputs" []] with
    | Except.ok _ => true
    | Except.error _ => false) = true := by decide!
  cases hpre : deliverAll Tokenizer.initial [XmlEvent.startElement "Graph" [],
      XmlEvent.startElement "Components" [],
      XmlEvent.startElement "Component" [("fmuPath", "a.fmu")],
      XmlEvent.startElement "Inputs" []] with
  | error msg =>
    rw [hpre] at hok
    exact Bool.noConfusion hok
  | ok t =>
    exact (unknown_names_stop_the_parse _ [XmlEvent.endElement "Port",
      XmlEvent.endElement "Inputs"] "Port" [("nme", "u")] t
      (Or.inr ⟨("nme", "u"), by simp, by decide⟩) hpre).2.2.2.2

/-- C16: reduction of a model description. For every subset of the sections UnitDefinitions,
TypeDefinitions, DefaultExperiment, VendorAnnotations, ModelVariables and CoSimulation (what the
end of Implementation leaves) that lie on the stack above a model-description node in canonical
order, or with the CoSimulation before all others, `endElement` of fmiModelDescription does not
stop the parser and replaces them and the node by the node with its six fields set: the `list` of
a list section, the node of DefaultExperiment and of CoSimulation, and `NULL` for a section that
is absent. Conversely, on a stack without `NULL` entries the call leaves the parser unstopped only
if the stack had one of these two forms: every other order stops the parse. -/
theorem model_description_reduction :
    (∀ (s : Sections) (e : Element) (f1 f2 : Option (List Node)) (f3 : Option Node)
      (f4 f5 : Option (List Node)) (f6 : Option Node) (below : List (Option Node))
      (p : ParserState), s.wellFormed → e.type = elm_fmiModelDescription →
      (p.stack = onStack s.canonicalOrder
          ++ some (Node.astModelDescription e f1 f2 f3 f4 f5 f6) :: below ∨
        p.stack = onStack s.coSimulationFirst
          ++ some (Node.astModelDescription e f1 f2 f3 f4 f5 f6) :: below) →
      endElement "fmiModelDescription" p
        = Except.ok { p with stack := some (Node.astModelDescription e
            (payload s.unitDefinitions) (payload s.typeDefinitions) s.defaultExperiment
            (payload s.vendorAnnotations) (payload s.modelVariables) s.cosimulation) :: below }) ∧
    (∀ (p p1 : ParserState), (∀ x ∈ p.stack, x ≠ none) →
      endElement "fmiModelDescription" p = Except.ok p1 → p1.stopped = false →
      ∃ (s : Sections) (e : Element) (f1 f2 : Option (List Node)) (f3 : Option Node)
        (f4 f5 : Option (List Node)) (f6 : Option Node) (below : List (Option Node)),
        s.wellFormed ∧ e.type = elm_fmiModelDescription ∧
        (p.stack = onStack s.canonicalOrder
            ++ some (Node.astModelDescription e f1 f2 f3 f4 f5 f6) :: below ∨
          p.stack = onStack s.coSimulationFirst
            ++ some (Node.astModelDescription e f1 f2 f3 f4 f5 f6) :: below) ∧
        p1 = { p with stack := some (s.reduced e) :: below }) := by
  constructor
  · intro s e f1 f2 f3 f4 f5 f6 below p hs he hstack
    apply endElement_of_endModelDescription p (s.reduced e) below he
    rcases hstack with h | h
    · exact endModelDescription_canonical s hs e f1 f2 f3 f4 f5 f6 below p he h
    · exact endModelDescription_coSimulationFirst s hs e f1 f2 f3 f4 f5 f6 below p he h
  · intro p p1 hn h hs
    have hcase : endCase 0 p = endModelDescription p := by
      simp [endCase, elm_fmiModelDescription]
    simp only [endElement, checkElement_fmiModelDescription] at h
    simp only [show ((0 : Int) = -1) = False from by decide, if_false, Int.toNat_zero,
      hcase] at h
    split at h
    · exact Except.noConfusion h
    · rename_i q hq
      simp only [Except.ok.injEq] at h
      subst h
      obtain ⟨s, e, f1, f2, f3, f4, f5, f6, below, -, -, -, hr, -⟩ :=
        endModelDescription_accepts p q none hq hn hs
      exact Option.noConfusion hr
    · rename_i q el1 hq
      split at h
      · exact Except.noConfusion h
      · rename_i b p2 hpeek
        simp only [Except.ok.injEq] at h
        subst h
        have hq2 := checkPeek_stopped el1 q p2 b hpeek hs
        subst hq2
        obtain ⟨s, e, f1, f2, f3, f4, f5, f6, below, hw, he, hshape, -, hp1⟩ :=
          endModelDescription_accepts p p2 (some el1) hq hn hs
        exact ⟨s, e, f1, f2, f3, f4, f5, f6, below, hw, he, hshape, hp1⟩

/-- Instance of C16: a ModelVariables section with an empty list above a model-description node;
the end of fmiModelDescription sets `modelVariables` to that list and no other field. -/
theorem model_description_reduction_witness :
    endElement "fmiModelDescription"
      { stack := [some (Node.astListElement (mkElement elm_ModelVariables []) (some [])),
          some (Node.astModelDescription (mkElement elm_fmiModelDescription [])
            none none none none none none)],
        stopped := false, data := none, skipData := true }
      = Except.ok
        { stack := [some (Node.astModelDescription (mkElement elm_fmiModelDescription [])
            none none none none (some []) none)],
          stopped := false, data := none, skipData := true } :=
  model_description_reduction.1
    { unitDefinitions := none, typeDefinitions := none, defaultExperiment := none,
      vendorAnnotations := none,
      modelVariables := some (mkElement elm_ModelVariables [], some []), cosimulation := none }
    (mkElement elm_fmiModelDescription []) none none none none none none []
    { stack := [some (Node.astListElement (mkElement elm_ModelVariables []) (some [])),
        some (Node.astModelDescription (mkElement elm_fmiModelDescription [])
          none none none none none none)],
      stopped := false, data := none, skipData := true }
    ⟨fun _ h => Option.noConfusion h, fun _ h => Option.noConfusion h,
      fun _ h => Option.noConfusion h, fun _ h => Option.noConfusion h,
      fun _ h => by cases h; rfl, fun _ h => Option.noConfusion h⟩
    rfl (Or.inl rfl)

/-! ## The parser: elements nested in an element of their own kind -/

/-- C17, the code at the failing input: in `nestedVariableDocument` the ScalarVariable `b` with
its Real is written inside the ScalarVariable `a`, before the Real of `a`. The parser is not
stopped and leaves the model-description node alone on the stack; its `modelVariables` are `a`
with `typeSpec == NULL` and `b` with the type spec Real; `validate`, called by `parse`, then
dereferences the type spec of `a`. -/
theorem nested_variable_has_no_type_spec :
    stackAfter nestedVariableDocument = Except.ok ([some elm_fmiModelDescription], false) ∧
    (parsedRoot nestedVariableDocument).map (fun root => root.map (fun node =>
      node.asModelDescription.map (fun md => (md.modelVariables.getD []).map (fun sv =>
        (getString sv.toElement att_name, sv.typeSpec.map (fun ts => ts.type))))))
      = Except.ok (some (Except.ok [(some "a", none), (some "b", some elm_Real)])) ∧
    parse nestedVariableDocument = Except.error "null dereference: sv->typeSpec" := by
  refine ⟨by decide!, by decide!, by decide!⟩

/-- C18, the code at the failing input: in `nestedPortDocument` the Port `v` is written inside
the Port `u`. The parser is not stopped, and `parseGraph` returns the graph with both ports in
the input array of the component. -/
theorem nested_port_is_accepted :
    stackAfter nestedPortDocument = Except.ok ([some elm_Graph], false) ∧
    (parseGraph nestedPortDocument).map (fun result => result.map (fun g =>
      (g.components.getD []).map (fun comp => (comp.inputs.getD []).map (fun port =>
        (getString port.toElement att_name, port.connection)))))
      = Except.ok (some [[(some "u", some 0), (some "v", some 0)]]) := by
  refine ⟨by decide!, by decide!⟩

/-! ## Enumerated attributes: status and round trip -/

theorem checkEnumValue_enuNames : ∀ i < SIZEOF_ENU, ∀ v, enuNames[i]? = some v →
    checkEnumValue v = (i : Int) := by
  have h : ∀ i < SIZEOF_ENU, checkEnumValue ((enuNames[i]?).getD "") = (i : Int) := by decide
  intro i hi v hv
  have := h i hi
  rwa [hv] at this

theorem enuNames_index_of_mem (v : String) (h : v ∈ enuNames) :
    ∃ i, i < SIZEOF_ENU ∧ enuNames[i]? = some v := by
  obtain ⟨i, hi, hv⟩ := List.mem_iff_getElem.mp h
  refine ⟨i, ?_, ?_⟩
  · have : enuNames.length = SIZEOF_ENU := by decide
    omega
  · rw [List.getElem?_eq_getElem hi, hv]

theorem checkEnumValue_of_mem (v : String) (h : v ∈ enuNames) :
    ∃ i, i < SIZEOF_ENU ∧ checkEnumValue v = (i : Int) ∧ enuNames[i]? = some v := by
  obtain ⟨i, hi, hv⟩ := enuNames_index_of_mem v h
  exact ⟨i, hi, checkEnumValue_enuNames i hi v hv, hv⟩

theorem checkEnumValue_not_mem (v : String) (h : v ∉ enuNames) : checkEnumValue v = -1 :=
  checkNameFrom_not_mem v SIZEOF_ENU 0 enuNames h

/-- C21 (what the code does): when the attribute is present and its value is one of the literals
of `enuNames`, `getEnumValue` does not assign to `*vs`. The status after the call is the status
before the call, whatever that was; `valueDefined` is never assigned. -/
theorem getEnumValue_keeps_status_of_literal (e : Element) (a : Att) (vs : ValueStatus)
    (v : String) (h : getString e a = some v) (hv : v ∈ enuNames) :
    (getEnumValue e a vs).2 = vs := by
  obtain ⟨i, _, hc, _⟩ := checkEnumValue_of_mem v hv
  have hne : ¬ ((i : Int) = -1) := by omega
  simp [getEnumValue, h, hc, hne]

theorem getEnumValue_keeps_status_of_literal_witness :
    getString (mkElement elm_ScalarVariable [(att_causality, "input")]) att_causality
        = some "input" ∧
      "input" ∈ enuNames ∧
      getEnumValue (mkElement elm_ScalarVariable [(att_causality, "input")]) att_causality
        ValueStatus.valueIllegal = (enu_input, ValueStatus.valueIllegal) :=
  ⟨by decide, by decide,
   Prod.ext (by decide)
     (getEnumValue_keeps_status_of_literal _ att_causality ValueStatus.valueIllegal "input"
       (by decide) (by decide))⟩

/-- C22: for a present attribute value `v`, `getEnumValue` returns an id with `enuNames[id]` equal
to `v` when `v` is one of the 17 literals of `enuNames`, and returns `-1` with the status
`valueIllegal` when `v` is not a literal of the table. -/
theorem enum_id_round_trip (e : Element) (a : Att) (vs : ValueStatus) (v : String)
    (h : getString e a = some v) :
    (v ∈ enuNames → ∃ id : Nat, id < SIZEOF_ENU ∧ (getEnumValue e a vs).1 = (id : Int) ∧
        enuNames[id]? = some v) ∧
    (v ∉ enuNames → getEnumValue e a vs = (-1, ValueStatus.valueIllegal)) := by
  constructor
  · intro hv
    obtain ⟨i, hi, hc, hn⟩ := checkEnumValue_of_mem v hv
    exact ⟨i, hi, by simp [getEnumValue, h, hc], hn⟩
  · intro hv
    simp [getEnumValue, h, checkEnumValue_not_mem v hv]

theorem enum_id_round_trip_witness :
    (∃ id : Nat, id < SIZEOF_ENU ∧
        (getEnumValue (mkElement elm_ScalarVariable [(att_causality, "output")]) att_causality
          ValueStatus.valueMissing).1 = (id : Int) ∧ enuNames[id]? = some "output") ∧
      getEnumValue (mkElement elm_ScalarVariable [(att_causality, "sideways")]) att_causality
        ValueStatus.valueMissing = (-1, ValueStatus.valueIllegal) :=
  ⟨(enum_id_round_trip (mkElement elm_ScalarVariable [(att_causality, "output")]) att_causality
      ValueStatus.valueMissing "output" (by decide)).1 (by decide),
   (enum_id_round_trip (mkElement elm_ScalarVariable [(att_causality, "sideways")]) att_causality
      ValueStatus.valueMissing "sideways" (by decide)).2 (by decide)⟩

/-! ## The attribute table of a node -/

theorem internedSlots_even (attr : List (String × String))
    (hnames : ∀ p ∈ attr, p.1 ∈ attNames) :
    ∀ i < attr.length, ∃ a < SIZEOF_ATT, (internedSlots attr)[2 * i]? = some (CStr.tbl a) := by
  induction attr with
  | nil => intro i hi; simp at hi
  | cons p rest ih =>
    intro i hi
    obtain ⟨nm, v⟩ := p
    cases i with
    | zero =>
      obtain ⟨a, ha, hnm⟩ := attNames_index_of_mem nm (hnames (nm, v) (List.mem_cons_self _ _))
      have hc := checkAttribute_attNames a ha nm hnm
      exact ⟨a, ha, by simp [internedSlots, hc]⟩
    | succ j =>
      have hj : j < rest.length := by simpa using hi
      obtain ⟨a, ha, hs⟩ := ih (fun q hq => hnames q (List.mem_cons_of_mem _ hq)) j hj
      refine ⟨a, ha, ?_⟩
      have : 2 * (j + 1) = 2 * j + 1 + 1 := by ring
      rw [this]
      simpa [internedSlots] using hs

theorem checkPop_result (el : Elm) (p p2 : ParserState) (r : Option Node)
    (h : checkPop (el : Int) p = Except.ok (r, p2)) :
    (r = none ∧ p2.stopped = true) ∨
    (∃ node, r = some node ∧ node.type = el ∧ p.stack = some node :: p2.stack ∧
      p2.stopped = p.stopped ∧ p2.data = p.data) := by
  have hany : ¬ ((el : Int) = ANY_TYPE) := by
    simp only [ANY_TYPE]
    omega
  unfold checkPop checkPeek at h
  cases hstack : p.stack with
  | nil =>
    simp only [hstack, hany, if_false] at h
    simp only [Except.ok.injEq, Prod.mk.injEq] at h
    exact Or.inl ⟨h.1.symm, by rw [← h.2]; rfl⟩
  | cons top rest =>
    simp only [hstack, hany, if_false, Int.toNat_ofNat] at h
    cases top with
    | none => simp [checkElementType] at h
    | some node =>
      by_cases ht : node.type = el
      · simp only [checkElementType, ht, if_true, stackPop, hstack] at h
        simp only [Except.ok.injEq, Prod.mk.injEq] at h
        refine Or.inr ⟨node, h.1.symm, ht, ?_, ?_, ?_⟩ <;> rw [← h.2]
      · simp only [checkElementType, ht, if_false] at h
        simp only [Except.ok.injEq, Prod.mk.injEq] at h
        exact Or.inl ⟨h.1.symm, by rw [← h.2]; rfl⟩

/-- C29: a node built by `newElement` from `k` attribute pairs with known names has `n = 2k`, an
attribute array that is `NULL` exactly when `n = 0`, and an entry of `attNames` in every even
slot; and after `endElement` for `Name` has run without stopping the parser, the Name node on
top of the stack has `n = 2`, a non-null array of two slots, and the entry `attNames[att_input]`
in slot 0. -/
theorem attribute_table_invariant :
    (∀ (type : Elm) (attr : List (String × String)), (∀ p ∈ attr, p.1 ∈ attNames) →
      ∃ e, newElement type attr = some e ∧ e.holdsPairs attr.length) ∧
    (∀ (p p1 : ParserState), endElement "Name" p = Except.ok p1 → p1.stopped = false →
      ∃ e below, p1.stack = some (Node.astElement e) :: below ∧ e.type = elm_Name ∧
        e.holdsPairs 1 ∧ (e.attributes.getD [])[0]? = some (CStr.tbl att_input)) := by
  constructor
  · intro type attr hnames
    refine ⟨{ type := type,
               attributes := if 2 * attr.length > 0 then some (internedSlots attr) else none,
               n := 2 * attr.length }, ?_, rfl, ?_, ?_⟩
    · simp only [newElement, addAttributes, addAttributesLoop_known attr hnames]
    · by_cases hpos : 2 * attr.length > 0
      · simp only [hpos, if_true]
        constructor
        · intro h; cases h
        · intro h; omega
      · simp only [hpos, if_false, true_iff]
        omega
    · intro i hi
      have hpos : 2 * attr.length > 0 := by omega
      simp only [hpos, if_true, Option.getD_some]
      exact internedSlots_even attr hnames i hi
  · intro p p1 h hs
    have hel : checkElement "Name" = ((elm_Name : Nat) : Int) := by decide
    have hcase : endCase elm_Name p = endName p := rfl
    simp only [endElement, hel, Int.toNat_ofNat, hcase] at h
    simp only [show ((((elm_Name : Nat) : Int)) = -1) = False from by decide, if_false] at h
    unfold endName at h
    cases hpop : checkPop elm_Name p with
    | error msg => simp [hpop] at h
    | ok r =>
      obtain ⟨node, p2⟩ := r
      rcases checkPop_result elm_Name p p2 node hpop with ⟨hnone, hstop⟩ | ⟨name, hsome, ht, _, _, _⟩
      · subst hnone
        simp only [hpop, Except.ok.injEq] at h
        subst h
        rw [hstop] at hs
        cases hs
      · subst hsome
        cases name with
        | astElement e =>
          have hte : e.type = elm_Name := ht
          simp only [hpop, checkPeek, checkElementType, Node.type, Node.toElement, hte,
            show ((((elm_Name : Nat) : Int)) = ANY_TYPE) = False from by decide, if_false,
            Int.toNat_ofNat, if_true, Except.ok.injEq] at h
          subst h
          refine ⟨_, p2.stack, rfl, rfl, ⟨rfl, ?_, ?_⟩, rfl⟩
          · simp
          · intro i hi
            have : i = 0 := by omega
            subst this
            exact ⟨att_input, by decide, rfl⟩
        | _ => simp [hpop] at h

theorem attribute_table_invariant_witness :
    (∃ e, newElement elm_Port [("name", "y"), ("type", "Real")] = some e ∧ e.holdsPairs 2) ∧
    (∃ e below, (ParserState.mk
          [some (Node.astElement { type := elm_Name,
                                   attributes := some [CStr.tbl att_input, CStr.heap "u"],
                                   n := 2 })] false none true).stack
          = some (Node.astElement e) :: below ∧ e.type = elm_Name ∧ e.holdsPairs 1 ∧
        (e.attributes.getD [])[0]? = some (CStr.tbl att_input)) :=
  ⟨attribute_table_invariant.1 elm_Port [("name", "y"), ("type", "Real")] (by decide),
   attribute_table_invariant.2
     (ParserState.mk [some (Node.astElement { type := elm_Name, attributes := none, n := 0 })]
       false (some "u") false)
     (ParserState.mk
       [some (Node.astElement { type := elm_Name,
                                attributes := some [CStr.tbl att_input, CStr.heap "u"],
                                n := 2 })] false none true)
     rfl rfl⟩

/-! ## Lookup by value reference and the default chain -/

theorem getValueReference_of_referenced (scanUInt : String → Option Nat) (sv : ScalarVariable)
    (h : sv.type = elm_ScalarVariable ∧
      ∃ value, getString sv.toElement att_valueReference = some value ∧
        (scanUInt value).isSome) :
    ∃ u, valueReferenceOf scanUInt sv = some u ∧
      getValueReference scanUInt sv.toElement = Except.ok u := by
  obtain ⟨ht, value, hv, hs⟩ := h
  obtain ⟨u, hu⟩ := Option.isSome_iff_exists.mp hs
  refine ⟨u, by simp [valueReferenceOf, hv, hu], ?_⟩
  simp [getValueReference, getUInt, hv, hu, ht]

theorem getVariableLoop_eq (scanUInt : String → Option Nat) (vr : fmiValueReference) (type : Elm)
    (mv : List ScalarVariable) (ht : ∀ sv ∈ mv, sv.typeSpec ≠ none)
    (hr : ∀ sv ∈ mv, sv.type = elm_ScalarVariable ∧
      ∃ value, getString sv.toElement att_valueReference = some value ∧
        (scanUInt value).isSome) :
    getVariableLoop scanUInt vr type mv
      = Except.ok (mv.find? (matchesReference scanUInt vr type)) := by
  induction mv with
  | nil => rfl
  | cons sv rest ih =>
    have ih2 := ih (fun q hq => ht q (List.mem_cons_of_mem _ hq))
      (fun q hq => hr q (List.mem_cons_of_mem _ hq))
    obtain ⟨u, hu, hget⟩ := getValueReference_of_referenced scanUInt sv
      (hr sv (List.mem_cons_self _ _))
    cases hts : sv.typeSpec with
    | none => exact absurd hts (ht sv (List.mem_cons_self _ _))
    | some typeSpec =>
      simp only [getVariableLoop, hts, hget, ih2, List.find?, matchesReference, hu]
      by_cases hb : sameBaseType type typeSpec.type = true
      · by_cases huv : u = vr
        · subst huv
          simp [hb]
        · have hne : (u == vr) = false := by simpa using huv
          simp [hb, huv, hne]
      · simp [hb]

theorem getVariable_eq (scanUInt : String → Option Nat) (md : ModelDescription)
    (vr : fmiValueReference) (type : Elm) (ht : md.typed) (hr : md.referenced scanUInt) :
    getVariable scanUInt md vr type = Except.ok (variableFor scanUInt md vr type) := by
  unfold getVariable variableFor
  unfold ModelDescription.typed at ht
  unfold ModelDescription.referenced at hr
  revert ht hr
  generalize md.modelVariables = omv
  intro ht hr
  cases omv with
  | none => by_cases hv : vr = fmiUndefinedValueReference <;> simp [hv]
  | some mv =>
    simp only [Option.getD_some] at ht hr ⊢
    by_cases hv : vr = fmiUndefinedValueReference
    · simp [hv]
    · simp only [hv, ne_eq, not_false_eq_true, if_true, if_false]
      exact getVariableLoop_eq scanUInt vr type mv ht hr

theorem variableFor_typeSpec (scanUInt : String → Option Nat) (md : ModelDescription)
    (vr : fmiValueReference) (type : Elm) (sv : ScalarVariable)
    (h : variableFor scanUInt md vr type = some sv) :
    sv ∈ md.modelVariables.getD [] ∧ matchesReference scanUInt vr type sv = true := by
  unfold variableFor at h
  split at h
  · cases h
  · exact ⟨List.mem_of_find?_eq_some h, List.find?_some h⟩

theorem getDeclaredType_named (md : ModelDescription) (h : md.named) (d : Option String) :
    getDeclaredType md d = Except.ok (d.bind (typeNamed md)) := by
  obtain ⟨hT, _⟩ := h
  unfold getDeclaredType typeNamed
  revert hT
  generalize md.typeDefinitions = otd
  intro hT
  cases d with
  | none => rfl
  | some name =>
    cases otd with
    | none => rfl
    | some tds =>
      simp only [Option.getD_some] at hT
      simp only [Option.bind_some, Option.getD_some]
      exact getDeclaredTypeLoop_named name tds hT

theorem typeNamed_mem (md : ModelDescription) (d : String) (tp : FmiType)
    (h : typeNamed md d = some tp) : tp ∈ md.typeDefinitions.getD [] :=
  List.mem_of_find?_eq_some h

theorem getVariableAttributeString_eq (scanUInt : String → Option Nat) (md : ModelDescription)
    (vr : fmiValueReference) (type : Elm) (a : Att) (hn : md.named) (ht : md.typed)
    (hs : md.typesSpecified) (hr : md.referenced scanUInt) :
    getVariableAttributeString scanUInt md vr type a
      = Except.ok ((variableFor scanUInt md vr type).bind (fun sv => defaultChain md sv a)) := by
  unfold getVariableAttributeString
  rw [getVariable_eq scanUInt md vr type ht hr]
  cases hfound : variableFor scanUInt md vr type with
  | none => rfl
  | some sv =>
    obtain ⟨hmem, _⟩ := variableFor_typeSpec scanUInt md vr type sv hfound
    cases hts : sv.typeSpec with
    | none => exact absurd hts (ht sv hmem)
    | some typeSpec =>
      show _ = Except.ok (defaultChain md sv a)
      simp only [defaultChain, hts, declaredTypeOf, Option.some_bind]
      cases hown : getString typeSpec a with
      | some value => rfl
      | none =>
        simp only [getDeclaredType_named md hn]
        cases htp : (getString typeSpec att_declaredType).bind (typeNamed md) with
        | none => rfl
        | some tp =>
          have hd : ∃ d, typeNamed md d = some tp := by
            cases hdt : getString typeSpec att_declaredType with
            | none => simp [hdt] at htp
            | some d => exact ⟨d, by simpa [hdt] using htp⟩
          obtain ⟨d, hd⟩ := hd
          cases hsp : tp.typeSpec with
          | none => exact absurd hsp (hs tp (typeNamed_mem md d tp hd))
          | some declared => simp [hsp]

theorem getString2_eq (md : ModelDescription) (sv : ScalarVariable) (typeSpec : Element)
    (a : Att) (hn : md.named) (hs : md.typesSpecified) (hts : sv.typeSpec = some typeSpec) :
    getString2 md typeSpec a = Except.ok (defaultChain md sv a) := by
  unfold getString2
  simp only [defaultChain, hts, declaredTypeOf, Option.some_bind]
  cases hown : getString typeSpec a with
  | some value => rfl
  | none =>
    simp only [getDeclaredType_named md hn]
    cases htp : (getString typeSpec att_declaredType).bind (typeNamed md) with
    | none => rfl
    | some tp =>
      have hd : ∃ d, typeNamed md d = some tp := by
        cases hdt : getString typeSpec att_declaredType with
        | none => simp [hdt] at htp
        | some d => exact ⟨d, by simpa [hdt] using htp⟩
      obtain ⟨d, hd⟩ := hd
      cases hsp : tp.typeSpec with
      | none => exact absurd hsp (hs tp (typeNamed_mem md d tp hd))
      | some declared => simp [hsp]

theorem nominalModel_preconditions :
    nominalModel.named ∧ nominalModel.typed ∧ nominalModel.typesSpecified ∧
      nominalModel.referenced scanDecimal := by
  refine ⟨⟨?_, ?_⟩, ?_, ?_, ?_⟩
  · intro tp htp
    simp only [nominalModel, Option.getD_some, List.mem_singleton] at htp
    subst htp
    decide
  · intro sv hsv
    simp only [nominalModel, Option.getD_some, List.mem_cons, List.mem_singleton,
      List.not_mem_nil, or_false] at hsv
    rcases hsv with h | h | h | h <;> subst h <;> decide
  · intro sv hsv
    simp only [nominalModel, Option.getD_some, List.mem_cons, List.mem_singleton,
      List.not_mem_nil, or_false] at hsv
    rcases hsv with h | h | h | h <;> subst h <;> decide
  · intro tp htp
    simp only [nominalModel, Option.getD_some, List.mem_singleton] at htp
    subst htp
    decide
  · intro sv hsv
    simp only [nominalModel, Option.getD_some, List.mem_cons, List.mem_singleton,
      List.not_mem_nil, or_false] at hsv
    rcases hsv with h | h | h | h <;> subst h
    · exact ⟨rfl, "1", by decide, by decide⟩
    · exact ⟨rfl, "1", by decide, by decide⟩
    · exact ⟨rfl, "2", by decide, by decide⟩
    · exact ⟨rfl, "3", by decide, by decide⟩

/-- C30: `getVariable(md, vr, t)` returns `NULL` when `modelVariables` is absent and when `vr` is
`fmiUndefinedValueReference` (4294967295); otherwise, for a model description whose scalar
variables all have a type spec and a `valueReference` that converts, it returns the first scalar
variable in list order whose type-spec kind has the same base type as `t` and whose value
reference equals `vr`, and `NULL` when no variable matches. -/
theorem getVariable_first_match (scanUInt : String → Option Nat) (md : ModelDescription)
    (vr : fmiValueReference) (type : Elm) :
    fmiUndefinedValueReference = 4294967295 ∧
    (md.modelVariables = none ∨ vr = fmiUndefinedValueReference →
      getVariable scanUInt md vr type = Except.ok none) ∧
    (md.typed → md.referenced scanUInt → vr ≠ fmiUndefinedValueReference →
      getVariable scanUInt md vr type
        = Except.ok ((md.modelVariables.getD []).find? (matchesReference scanUInt vr type))) := by
  refine ⟨rfl, ?_, ?_⟩
  · intro h
    unfold getVariable
    rcases h with h | h
    · simp [h]
    · cases md.modelVariables <;> simp [h]
  · intro ht hr hv
    rw [getVariable_eq scanUInt md vr type ht hr]
    simp [variableFor, hv]

theorem getVariable_first_match_witness :
    getVariable scanDecimal nominalModel 1 elm_Real
      = Except.ok ((nominalModel.modelVariables.getD []).find?
          (matchesReference scanDecimal 1 elm_Real)) ∧
    ((nominalModel.modelVariables.getD []).find?
        (matchesReference scanDecimal 1 elm_Real)).bind
      (fun sv => getString sv.toElement att_name) = some "x" ∧
    getVariable scanDecimal nominalModel fmiUndefinedValueReference elm_Real = Except.ok none :=
  ⟨(getVariable_first_match scanDecimal nominalModel 1 elm_Real).2.2
      nominalModel_preconditions.2.1 nominalModel_preconditions.2.2.2 (by decide),
   by decide,
   (getVariable_first_match scanDecimal nominalModel fmiUndefinedValueReference elm_Real).2.1
      (Or.inr rfl)⟩

/-- C24: for a model description whose Types and scalar variables carry their required name,
type spec and value reference, `getVariableAttributeString(md, vr, t, a)` returns `NULL` if
`getVariable` finds no variable for `(vr, t)`; otherwise the value of `a` on the variable's own
type spec if present there; otherwise, if the `declaredType` of the type spec names a Type in
`typeDefinitions`, the value of `a` on that Type's type spec (`NULL` if absent there); otherwise
`NULL`. In particular a value on the variable's own type spec is the result whatever the declared
type holds, and the result is that of `getString2` on the type spec of the variable found. -/
theorem two_level_default_chain (scanUInt : String → Option Nat) (md : ModelDescription)
    (vr : fmiValueReference) (type : Elm) (a : Att) (hn : md.named) (ht : md.typed)
    (hs : md.typesSpecified) (hr : md.referenced scanUInt) :
    getVariable scanUInt md vr type = Except.ok (variableFor scanUInt md vr type) ∧
    getVariableAttributeString scanUInt md vr type a
      = Except.ok ((variableFor scanUInt md vr type).bind (fun sv => defaultChain md sv a)) ∧
    (∀ sv typeSpec value, variableFor scanUInt md vr type = some sv →
      sv.typeSpec = some typeSpec → getString typeSpec a = some value →
      getVariableAttributeString scanUInt md vr type a = Except.ok (some value)) ∧
    (∀ sv typeSpec, variableFor scanUInt md vr type = some sv →
      sv.typeSpec = some typeSpec →
      getVariableAttributeString scanUInt md vr type a = getString2 md typeSpec a) := by
  refine ⟨getVariable_eq scanUInt md vr type ht hr,
    getVariableAttributeString_eq scanUInt md vr type a hn ht hs hr, ?_, ?_⟩
  · intro sv typeSpec value hfound hts hown
    rw [getVariableAttributeString_eq scanUInt md vr type a hn ht hs hr, hfound]
    simp [defaultChain, hts, hown]
  · intro sv typeSpec hfound hts
    rw [getVariableAttributeString_eq scanUInt md vr type a hn ht hs hr, hfound,
      getString2_eq md sv typeSpec a hn hs hts]
    rfl

theorem two_level_default_chain_witness :
    getVariableAttributeString scanDecimal nominalModel 1 elm_Real att_nominal
        = Except.ok (some "5") ∧
    getVariableAttributeString scanDecimal nominalModel 2 elm_Real att_nominal
        = Except.ok (some "7") ∧
    getVariableAttributeString scanDecimal nominalModel 1 elm_Integer att_nominal
        = Except.ok none ∧
    getVariableAttributeString scanDecimal nominalModel 9 elm_Real att_nominal
        = Except.ok none := by
  have key := fun vr type =>
    (two_level_default_chain scanDecimal nominalModel vr type att_nominal
      nominalModel_preconditions.1 nominalModel_preconditions.2.1
      nominalModel_preconditions.2.2.1 nominalModel_preconditions.2.2.2).2.1
  refine ⟨?_, ?_, ?_, ?_⟩
  · rw [key 1 elm_Real]
    decide
  · rw [key 2 elm_Real]
    decide
  · rw [key 1 elm_Integer]
    decide
  · rw [key 9 elm_Real]
    decide

/-- C25: for a model description whose Types and scalar variables carry their required name,
type spec and value reference, `getNominal(md, vr)` returns the converted nominal value when a
nominal attribute is found for the Real variable with value reference `vr` (on its own type
spec, or else on its declared type's spec) and the conversion succeeds, and `1.0` in every other
case; for `vr` equal to `fmiUndefinedValueReference` and for a model description without
`modelVariables` it returns `1.0` without any precondition. -/
theorem nominal_default (scanUInt : String → Option Nat) (scanDouble : String → Option ℚ)
    (md : ModelDescription) (vr : fmiValueReference) :
    (md.named → md.typed → md.typesSpecified → md.referenced scanUInt →
      getNominal scanUInt scanDouble md vr
        = Except.ok
            (match ((variableFor scanUInt md vr elm_Real).bind
                (fun sv => defaultChain md sv att_nominal)).bind scanDouble with
             | some d => d
             | none => 1)) ∧
    (md.modelVariables = none ∨ vr = fmiUndefinedValueReference →
      getNominal scanUInt scanDouble md vr = Except.ok 1) := by
  constructor
  · intro hn ht hs hr
    unfold getNominal getVariableAttributeDouble
    rw [getVariableAttributeString_eq scanUInt md vr elm_Real att_nominal hn ht hs hr]
    cases hv : (variableFor scanUInt md vr elm_Real).bind
        (fun sv => defaultChain md sv att_nominal) with
    | none => simp
    | some value =>
      cases hd : scanDouble value with
      | none => simp [hd]
      | some d => simp [hd]
  · intro h
    have hg : getVariable scanUInt md vr elm_Real = Except.ok none := by
      unfold getVariable
      rcases h with h | h
      · simp [h]
      · cases md.modelVariables <;> simp [h]
    simp [getNominal, getVariableAttributeDouble, getVariableAttributeString, hg]

theorem nominal_default_witness :
    getNominal scanDecimal scanDigits nominalModel 1 = Except.ok 5 ∧
    getNominal scanDecimal scanDigits nominalModel 2 = Except.ok 7 ∧
    getNominal scanDecimal scanDigits nominalModel 3 = Except.ok 1 ∧
    getNominal scanDecimal scanDigits nominalModel 9 = Except.ok 1 ∧
    getNominal scanDecimal scanDigits nominalModel fmiUndefinedValueReference = Except.ok 1 := by
  have key := fun vr =>
    (nominal_default scanDecimal scanDigits nominalModel vr).1
      nominalModel_preconditions.1 nominalModel_preconditions.2.1
      nominalModel_preconditions.2.2.1 nominalModel_preconditions.2.2.2
  refine ⟨?_, ?_, ?_, ?_, ?_⟩
  · rw [key 1]
    decide!
  · rw [key 2]
    decide!
  · rw [key 3]
    decide!
  · rw [key 9]
    decide!
  · exact (nominal_default scanDecimal scanDigits nominalModel fmiUndefinedValueReference).2
      (Or.inr rfl)

/-! ## The enumerated attributes of a scalar variable -/

theorem checkEnumValue_mem_iff (names : List String) (ids : List Int)
    (hsub : ∀ v ∈ names, v ∈ enuNames) (hneg : (-1 : Int) ∉ ids)
    (htab : ∀ i < SIZEOF_ENU, ((i : Int) ∈ ids ↔ (enuNames[i]?).getD "" ∈ names))
    (v : String) : checkEnumValue v ∈ ids ↔ v ∈ names := by
  by_cases hv : v ∈ enuNames
  · obtain ⟨i, hi, hc, hn⟩ := checkEnumValue_of_mem v hv
    have := htab i hi
    rw [hn] at this
    rw [hc]
    exact this
  · rw [checkEnumValue_not_mem v hv]
    exact ⟨fun h => absurd h hneg, fun h => absurd (hsub v h) hv⟩

theorem getEnumValue_mem_iff (sv : Element) (a : Att) (vs : ValueStatus) (names : List String)
    (ids : List Int) (hsub : ∀ v ∈ names, v ∈ enuNames) (hneg : (-1 : Int) ∉ ids)
    (htab : ∀ i < SIZEOF_ENU, ((i : Int) ∈ ids ↔ (enuNames[i]?).getD "" ∈ names))
    (hdefault : ∀ e : Element, getString e a = none → (getEnumValue e a vs).1 ∈ ids) :
    (getEnumValue sv a vs).1 ∈ ids ↔ ∀ v, getString sv a = some v → v ∈ names := by
  cases hs : getString sv a with
  | none =>
    refine ⟨fun _ v hv => Option.noConfusion hv, fun _ => hdefault sv hs⟩
  | some v =>
    have hid : (getEnumValue sv a vs).1 = checkEnumValue v := by simp [getEnumValue, hs]
    rw [hid, checkEnumValue_mem_iff names ids hsub hneg htab v]
    constructor
    · intro h w hw
      cases hw
      exact h
    · intro h
      exact h v rfl

/-- C23, the code at the failing input: `mislabelledDocument` is accepted by `parse` (which ends
with `validate`). For its variable `a`, with the causality `continuous`, `getCausality` returns
`enu_continuous`; for its variable `b`, with the causality `sideways`, the variability `input`
and the alias `flat`, `getCausality` returns `-1`, `getVariability` returns `enu_input` and
`getAlias` returns `enu_flat`. None of these is among the values that the comments on the three
accessors list (`returns one of: input, output, internal, none`, and likewise for the other
two). -/
theorem enum_accessors_outside_range :
    (parse mislabelledDocument).map (fun result => result.map (fun md =>
      (md.modelVariables.getD []).map (fun sv =>
        (getString sv.toElement att_name,
         getCausality sv.toElement ValueStatus.valueMissing,
         getVariability sv.toElement ValueStatus.valueMissing,
         getAlias sv.toElement ValueStatus.valueMissing))))
      = Except.ok (some [(some "a", enu_continuous, enu_continuous, enu_noAlias),
                         (some "b", -1, enu_input, enu_flat)]) := by
  decide!

/-- The results of the three accessors for any element: `getCausality` returns one of input,
output, internal, none exactly when the attribute `causality` is absent or its value is one of
these four literals, and likewise `getVariability` and `getAlias` for their literals. -/
theorem enum_accessor_ranges (sv : Element) (vs : ValueStatus) :
    (getCausality sv vs ∈ [enu_input, enu_output, enu_internal, enu_none] ↔
      ∀ v, getString sv att_causality = some v → v ∈ causalityLiterals) ∧
    (getVariability sv vs ∈ [enu_constant, enu_parameter, enu_discrete, enu_continuous] ↔
      ∀ v, getString sv att_variability = some v → v ∈ variabilityLiterals) ∧
    (getAlias sv vs ∈ [enu_noAlias, enu_alias, enu_negatedAlias] ↔
      ∀ v, getString sv att_alias = some v → v ∈ aliasLiterals) := by
  refine ⟨?_, ?_, ?_⟩
  · exact getEnumValue_mem_iff sv att_causality vs causalityLiterals _ (by decide) (by decide)
      (by decide) (fun e he => by simp [getEnumValue, he]; decide)
  · exact getEnumValue_mem_iff sv att_variability vs variabilityLiterals _ (by decide)
      (by decide) (by decide) (fun e he => by simp [getEnumValue, he]; decide)
  · exact getEnumValue_mem_iff sv att_alias vs aliasLiterals _ (by decide) (by decide)
      (by decide) (fun e he => by simp [getEnumValue, he]; decide)

/-! ## Names of the scalar variables -/

theorem getVariableByNameLoop_named (name : String) (mv : List ScalarVariable)
    (h : ∀ sv ∈ mv, getString sv.toElement att_name ≠ none) :
    getVariableByNameLoop name mv
      = Except.ok (mv.find? (fun sv => getString sv.toElement att_name == some name)) := by
  induction mv with
  | nil => rfl
  | cons sv rest ih =>
    obtain ⟨nm, hnm, hget⟩ := getName_of_named sv.toElement (h sv (List.mem_cons_self _ _))
    have ih2 := ih (fun q hq => h q (List.mem_cons_of_mem _ hq))
    simp only [getVariableByNameLoop, hget, List.find?, hnm, ih2]
    by_cases hd : nm = name
    · subst hd
      simp
    · have hb : (nm == name) = false := by
        rw [beq_eq_false_iff_ne]
        exact hd
      simp [hd, hb]

theorem find_of_nodup_names (mv : List ScalarVariable) (name : String)
    (hd : (mv.map (fun sv => getString sv.toElement att_name)).Nodup)
    (sv : ScalarVariable) (hsv : sv ∈ mv) (hname : getString sv.toElement att_name = some name) :
    mv.find? (fun sv => getString sv.toElement att_name == some name) = some sv := by
  induction mv with
  | nil => simp at hsv
  | cons x rest ih =>
    simp only [List.map_cons, List.nodup_cons] at hd
    rcases List.mem_cons.mp hsv with hx | hx
    · subst hx
      simp [List.find?, hname]
    · have hne : getString x.toElement att_name ≠ some name := by
        intro hxn
        apply hd.1
        rw [hxn, ← hname]
        exact List.mem_map_of_mem _ hx
      have hb : (getString x.toElement att_name == some name) = false := by
        rw [beq_eq_false_iff_ne]
        exact hne
      simp only [List.find?, hb]
      exact ih hd.2 hx

/-- Counterexample to C26: `duplicateNameDocument` declares two scalar variables of the name
`a`; `parse` (which ends with `validate`) accepts it, and the model description it returns has
the two variables in its `modelVariables`. -/
theorem duplicate_names_accepted :
    (parse duplicateNameDocument).map (fun result => result.map variableNames)
      = Except.ok (some [some "a", some "a"]) := by
  decide!

/-- C26, amended: for a model description whose Types and scalar variables carry a name,
`getVariableByName(md, name)` returns the first scalar variable in list order with that name
(`NULL` when there is none or `modelVariables` is absent); when the names of the scalar
variables are pairwise distinct, every scalar variable of that name is the one returned. -/
theorem getVariableByName_first (md : ModelDescription) (name : String) (h : md.named) :
    getVariableByName md name = Except.ok (variableNamed md name) ∧
    ((variableNames md).Nodup → ∀ sv ∈ md.modelVariables.getD [],
      getString sv.toElement att_name = some name →
      getVariableByName md name = Except.ok (some sv)) := by
  obtain ⟨_, hV⟩ := h
  have hfirst : getVariableByName md name = Except.ok (variableNamed md name) := by
    unfold getVariableByName variableNamed
    revert hV
    generalize md.modelVariables = omv
    intro hV
    cases omv with
    | none => rfl
    | some mv =>
      simp only [Option.getD_some] at hV ⊢
      exact getVariableByNameLoop_named name mv hV
  refine ⟨hfirst, ?_⟩
  intro hd sv hsv hname
  rw [hfirst]
  exact congrArg Except.ok (find_of_nodup_names _ name hd sv hsv hname)

theorem getVariableByName_first_witness :
    getVariableByName nominalModel "y" = Except.ok (variableNamed nominalModel "y") ∧
    (variableNames nominalModel).Nodup ∧
    getVariableByName nominalModel "y" = Except.ok (some
      { toElement := mkElement elm_ScalarVariable [(att_name, "y"), (att_valueReference, "2")],
        typeSpec := some (mkElement elm_Real [(att_nominal, "7"), (att_declaredType, "T")]),
        directDependencies := none }) :=
  ⟨(getVariableByName_first nominalModel "y" nominalModel_preconditions.1).1, by decide,
   (getVariableByName_first nominalModel "y" nominalModel_preconditions.1).2 (by decide)
     { toElement := mkElement elm_ScalarVariable [(att_name, "y"), (att_valueReference, "2")],
       typeSpec := some (mkElement elm_Real [(att_nominal, "7"), (att_declaredType, "T")]),
       directDependencies := none } (by decide) (by decide)⟩

/-! ## The writes of a macro-step -/

theorem readOutput_writes {σ : Type} (rt : Runtime) (fmus : List (FMU σ)) (i n : Nat)
    (port : Port) (m m1 : Master σ) (h : readOutput rt fmus i n port m = Except.ok m1) :
    ∃ ws : List CellWrite, (ws.map CellWrite.place).Sublist [{ i := i, n := n, port := port }] ∧
      m1.trace = m.trace ++ ws.map CellWrite.call ∧ m1.graph = ws.foldl CellWrite.apply m.graph := by
  unfold readOutput at h
  repeat' split at h
  all_goals first
    | exact Except.noConfusion h
    | (cases h; exact ⟨[], List.nil_sublist _, by simp, rfl⟩)
    | (cases h
       refine ⟨[⟨⟨i, n, port⟩, _, _, _⟩], List.Sublist.refl _, rfl, ?_⟩
       simp [CellWrite.apply, *])

theorem forPorts_writes {σ : Type} (rt : Runtime) (fmus : List (FMU σ)) (i n : Nat)
    (ports : List Port) (m m1 : Master σ)
    (h : forPorts (readOutput rt fmus i) n ports m = Except.ok m1) :
    ∃ ws : List CellWrite, (ws.map CellWrite.place).Sublist (placesOf i n ports) ∧
      m1.trace = m.trace ++ ws.map CellWrite.call ∧ m1.graph = ws.foldl CellWrite.apply m.graph := by
  induction ports generalizing n m with
  | nil =>
    simp only [forPorts] at h
    cases h
    exact ⟨[], List.nil_sublist _, by simp, rfl⟩
  | cons port rest ih =>
    simp only [forPorts] at h
    split at h
    · exact Except.noConfusion h
    · rename_i m0 h0
      obtain ⟨ws0, s0, t0, g0⟩ := readOutput_writes rt fmus i n port m m0 h0
      obtain ⟨ws1, s1, t1, g1⟩ := ih (n + 1) m0 h
      refine ⟨ws0 ++ ws1, ?_, ?_, ?_⟩
      · rw [List.map_append]
        exact List.Sublist.append s0 s1
      · rw [t1, t0, List.map_append, List.append_assoc]
      · rw [g1, g0, List.foldl_append]

theorem readOutputs_writes {σ : Type} (rt : Runtime) (fmus : List (FMU σ)) (i : Nat)
    (comps : List Component) (m m1 : Master σ)
    (h : readOutputs rt fmus i comps m = Except.ok m1) :
    ∃ ws : List CellWrite, (ws.map CellWrite.place).Sublist (outputPlaces i comps) ∧
      m1.trace = m.trace ++ ws.map CellWrite.call ∧ m1.graph = ws.foldl CellWrite.apply m.graph := by
  induction comps generalizing i m with
  | nil =>
    simp only [readOutputs] at h
    cases h
    exact ⟨[], List.nil_sublist _, by simp, rfl⟩
  | cons comp rest ih =>
    simp only [readOutputs] at h
    split at h
    · rename_i hout
      obtain ⟨ws, s, t, g⟩ := ih (i + 1) m h
      refine ⟨ws, ?_, t, g⟩
      simp only [outputPlaces, hout, Option.getD_none, placesOf, List.nil_append]
      exact s
    · rename_i ports hout
      split at h
      · exact Except.noConfusion h
      · rename_i m0 h0
        obtain ⟨ws0, s0, t0, g0⟩ := forPorts_writes rt fmus i 0 ports m m0 h0
        obtain ⟨ws1, s1, t1, g1⟩ := ih (i + 1) m0 h
        refine ⟨ws0 ++ ws1, ?_, ?_, ?_⟩
        · rw [List.map_append]
          simp only [outputPlaces, hout, Option.getD_some]
          exact List.Sublist.append s0 s1
        · rw [t1, t0, List.map_append, List.append_assoc]
        · rw [g1, g0, List.foldl_append]

theorem setInput_graph {σ : Type} (rt : Runtime) (fmus : List (FMU σ)) (i n : Nat)
    (port : Port) (m m1 : Master σ) (h : setInput rt fmus i n port m = Except.ok m1) :
    m1.graph = m.graph := by
  unfold setInput at h
  repeat' split at h
  all_goals first
    | exact Except.noConfusion h
    | (cases h; rfl)

theorem forPorts_setInput_graph {σ : Type} (rt : Runtime) (fmus : List (FMU σ)) (i n : Nat)
    (ports : List Port) (m m1 : Master σ)
    (h : forPorts (setInput rt fmus i) n ports m = Except.ok m1) : m1.graph = m.graph := by
  induction ports generalizing n m with
  | nil =>
    simp only [forPorts] at h
    cases h
    rfl
  | cons port rest ih =>
    simp only [forPorts] at h
    split at h
    · exact Except.noConfusion h
    · rename_i m0 h0
      rw [ih (n + 1) m0 h, setInput_graph rt fmus i n port m m0 h0]

theorem setInputs_graph {σ : Type} (rt : Runtime) (fmus : List (FMU σ)) (i : Nat)
    (comps : List Component) (m m1 : Master σ)
    (h : setInputs rt fmus i comps m = Except.ok m1) : m1.graph = m.graph := by
  induction comps generalizing i m with
  | nil =>
    simp only [setInputs] at h
    cases h
    rfl
  | cons comp rest ih =>
    simp only [setInputs] at h
    split at h
    · exact ih (i + 1) m h
    · split at h
      · exact Except.noConfusion h
      · rename_i m0 h0
        rw [ih (i + 1) m0 h, forPorts_setInput_graph rt fmus i 0 _ m m0 h0]

theorem doSteps_graph {σ : Type} (fmus : List (FMU σ)) (time h : ℚ) (i : Nat)
    (comps : List Component) (m : Master σ) (f : Flow σ)
    (hrun : doSteps fmus time h i comps m = Except.ok f) : f.master.graph = m.graph := by
  induction comps generalizing i m with
  | nil =>
    simp only [doSteps] at hrun
    cases hrun
    rfl
  | cons c rest ih =>
    simp only [doSteps] at hrun
    split at hrun
    · exact Except.noConfusion hrun
    · split at hrun
      · cases hrun
        rfl
      · rw [ih (i + 1) _ hrun]

theorem writes_bounded (ws : List CellWrite) (places : List Place)
    (hs : (ws.map CellWrite.place).Sublist places) (j : Nat) :
    (ws.filter (fun w => w.place.boundTo j)).length
      ≤ (places.filter (Place.boundTo j)).length := by
  have h1 : (ws.filter (fun w => w.place.boundTo j)).length
      = ((ws.map CellWrite.place).filter (Place.boundTo j)).length := by
    rw [List.filter_map, List.length_map]
    rfl
  rw [h1]
  exact (hs.filter _).length_le

/-- Counterexample to C27: `twoWritersWiring` binds the outputs of two components to the one
connection `c`. `validateGraph` accepts it with 0 errors and both output ports are bound to
connection 0; in the first macro-step the loop "read outputs" makes a get call for each of the
two ports, each with the cell of connection 0 as its buffer, so the cell is written twice (first
with 1, then with 2) before the `doStep` calls. The run of `simulate` on the graph succeeds with
11 macro-steps and 22 get calls. -/
theorem two_writers_accepted :
    (validated twoWritersWiring).error = 0 ∧
    (validated twoWritersWiring).result = some (validated twoWritersWiring).graph ∧
    (outputPlaces 0 ((loaded twoWritersLoader
        (validated twoWritersWiring).result).1.components.getD [])).map
      (fun p => (p.i, p.n, p.port.connection)) = [(0, 0, some 0), (1, 0, some 0)] ∧
    firstExchange (loaded twoWritersLoader (validated twoWritersWiring).result)
        [some 1, some 2]
      = Except.ok [Event.get 0 0 enu_Real 0 (Cell.real 1), Event.get 1 0 enu_Real 0 (Cell.real 2),
          Event.doStep 0 0 (1 / 10) fmiOK, Event.doStep 1 0 (1 / 10) fmiOK] ∧
    summary (simulate ieeeRuntime
        (loaded twoWritersLoader (validated twoWritersWiring).result).2
        (loaded twoWritersLoader (validated twoWritersWiring).result).1
        1 (f64round (1 / 10)) false ';' 20)
      = Except.ok (1, 11, 12, 22) := by
  refine ⟨by decide, by decide, by decide, by decide!, by decide!⟩

/-- C27, amended: in the exchange of a macro-step the cells are written by the get calls of the
loop "read outputs" only: these calls are made for output ports in the order of the loop, at
most one call per port, and each writes the cell of the connection its port is bound to; the
loops "set inputs" and `doStep` leave every cell as it is. Hence the cell of a connection to
which at most one output port is bound is written at most once in the macro-step. -/
theorem cell_writes_of_macro_step {σ : Type} (rt : Runtime) (fmus : List (FMU σ)) (time h : ℚ)
    (m : Master σ) (f : Flow σ) (hrun : exchange rt fmus time h m = Except.ok f) :
    ∃ (writes : List CellWrite) (sets steps : List Event),
      (writes.map CellWrite.place).Sublist (outputPlaces 0 (m.graph.components.getD [])) ∧
      f.master.trace = m.trace ++ writes.map CellWrite.call ++ sets ++ steps ∧
      (∀ e ∈ sets, e.isSet = true) ∧ (∀ e ∈ steps, e.isDoStep = true) ∧
      f.master.graph = writes.foldl CellWrite.apply m.graph ∧
      ∀ j, ((outputPlaces 0 (m.graph.components.getD [])).filter (Place.boundTo j)).length ≤ 1 →
        (writes.filter (fun w => w.place.boundTo j)).length ≤ 1 := by
  unfold exchange at hrun
  split at hrun
  · exact Except.noConfusion hrun
  · rename_i comps hc
    have hcomps : m.graph.components.getD [] = comps := by
      unfold componentsOf at hc
      split at hc
      · rename_i cs hcs
        cases hc
        rw [hcs]
        rfl
      · exact Except.noConfusion hc
    split at hrun
    · exact Except.noConfusion hrun
    · rename_i m1 h1
      split at hrun
      · exact Except.noConfusion hrun
      · rename_i m2 h2
        obtain ⟨ws, s, t, g⟩ := readOutputs_writes rt fmus 0 comps m m1 h1
        obtain ⟨sets, es, ks⟩ := setInputs_continues rt fmus 0 comps m1 m2 h2
        obtain ⟨steps, ed, kd⟩ := doSteps_continues fmus time h 0 comps m2 f hrun
        refine ⟨ws, sets, steps, ?_, by rw [ed, es, t], ks, kd, ?_, ?_⟩
        · rw [hcomps]
          exact s
        · rw [doSteps_graph fmus time h 0 comps m2 f hrun,
            setInputs_graph rt fmus 0 comps m1 m2 h2, g]
        · intro j hj
          rw [hcomps] at hj
          exact le_trans (writes_bounded ws _ s j) hj

theorem cell_writes_of_macro_step_witness :
    exchange ieeeRuntime [producerFMU 3, consumerFMU] 0 (1 / 10) (pairState 3 0 0 [])
      = Except.ok (Flow.next (pairState (3 + 1) 3 3
          ([] ++ [Event.get 0 0 enu_Real 0 (Cell.real 3)]
            ++ [Event.set 1 0 enu_Real 0 (Cell.real 3)]
            ++ [Event.doStep 0 0 (1 / 10) fmiOK] ++ [Event.doStep 1 0 (1 / 10) fmiOK]))) ∧
    ∃ (writes : List CellWrite),
      (writes.map CellWrite.place).Sublist
        (outputPlaces 0 ((pairState 3 0 0 []).graph.components.getD [])) ∧
      pairGraph 3 = writes.foldl CellWrite.apply (pairGraph 0) ∧
      (writes.filter (fun w => w.place.boundTo 0)).length ≤ 1 := by
  have hrun := pair_exchange ieeeRuntime rfl 3 3 0 0 0 (1 / 10) []
  obtain ⟨writes, sets, steps, hs, _, _, _, hg, hj⟩ :=
    cell_writes_of_macro_step ieeeRuntime [producerFMU 3, consumerFMU] 0 (1 / 10)
      (pairState 3 0 0 []) _ hrun
  exact ⟨hrun, writes, hs, hg, hj 0 (by decide)⟩

/-! ## Wiring documents without a Components section -/

/-- C28, the code at the failing input: for the wiring documents `<Graph/>` and
`<Graph><Connections>...</Connections></Graph>` the parser is not stopped and leaves the Graph
node alone on the stack, with `components == NULL`; `validateGraph`, called by `parseGraph`, then
evaluates `graph->components[0]` and dereferences the null pointer, as it does for every graph
whose `components` is `NULL`. The port arrays are guarded: for an absent Inputs or Outputs
section `validatePortArray` returns the graph and the error count as they are, and the document
whose component has neither section is accepted. -/
theorem absent_components_null_dereference :
    stackAfter bareGraphDocument = Except.ok ([some elm_Graph], false) ∧
    stackAfter connectionsOnlyDocument = Except.ok ([some elm_Graph], false) ∧
    (parsedRoot bareGraphDocument).map (fun root => root.map (fun node =>
      node.asGraph.map (fun g => (g.components.isNone, g.connections.isNone))))
      = Except.ok (some (Except.ok (true, true))) ∧
    (parsedRoot connectionsOnlyDocument).map (fun root => root.map (fun node =>
      node.asGraph.map (fun g => (g.components.isNone, g.connections.isNone))))
      = Except.ok (some (Except.ok (true, false))) ∧
    parseGraph bareGraphDocument = Except.error "null dereference: graph->components" ∧
    parseGraph connectionsOnlyDocument = Except.error "null dereference: graph->components" ∧
    (∀ graph : Graph, graph.components = none →
      validateGraph graph = Except.error "null dereference: graph->components") ∧
    (∀ (graph : Graph) (error : Nat),
      validatePortArray graph none error = Except.ok (graph, none, error)) ∧
    (parseGraph portlessDocument).map (fun result => result.map (fun g =>
      (g.components.getD []).map (fun comp => (comp.inputs.isNone, comp.outputs.isNone))))
      = Except.ok (some [(true, true)]) := by
  refine ⟨by decide!, by decide!, by decide!, by decide!, by decide!, by decide!, ?_, ?_,
    by decide!⟩
  · intro graph h
    simp [validateGraph, h]
  · intro graph error
    rfl

/-! ## Base types -/

theorem sameBaseType_iff (t1 t2 : Elm) :
    sameBaseType t1 t2 = true ↔
      (t1 = t2 ∨ (t1 = elm_Integer ∧ t2 = elm_Enumeration) ∨
        (t1 = elm_Enumeration ∧ t2 = elm_Integer)) := by
  simp only [sameBaseType, Bool.or_eq_true, Bool.and_eq_true, beq_iff_eq]
  constructor
  · rintro ((h | ⟨h1, h2⟩) | ⟨h1, h2⟩)
    · exact Or.inl h
    · exact Or.inr (Or.inr ⟨h1, h2⟩)
    · exact Or.inr (Or.inl ⟨h2, h1⟩)
  · rintro (h | ⟨h1, h2⟩ | ⟨h1, h2⟩)
    · exact Or.inl (Or.inl h)
    · exact Or.inr ⟨h2, h1⟩
    · exact Or.inl (Or.inr ⟨h1, h2⟩)

/-- C31: `sameBaseType(t1, t2)` is true iff `t1 = t2` or the two are Integer and Enumeration in
either order; the relation is reflexive, symmetric and transitive, and Real, String and Boolean
are each related only to themselves. -/
theorem sameBaseType_equivalence :
    (∀ t1 t2 : Elm, sameBaseType t1 t2 = true ↔
      (t1 = t2 ∨ (t1 = elm_Integer ∧ t2 = elm_Enumeration) ∨
        (t1 = elm_Enumeration ∧ t2 = elm_Integer))) ∧
    (∀ t : Elm, sameBaseType t t = true) ∧
    (∀ t1 t2 : Elm, sameBaseType t1 t2 = true → sameBaseType t2 t1 = true) ∧
    (∀ t1 t2 t3 : Elm, sameBaseType t1 t2 = true → sameBaseType t2 t3 = true →
      sameBaseType t1 t3 = true) ∧
    (∀ t : Elm, (sameBaseType elm_Real t = true ↔ t = elm_Real) ∧
      (sameBaseType elm_String t = true ↔ t = elm_String) ∧
      (sameBaseType elm_Boolean t = true ↔ t = elm_Boolean)) ∧
    sameBaseType elm_Integer elm_Enumeration = true ∧ elm_Integer ≠ elm_Enumeration := by
  refine ⟨sameBaseType_iff, ?_, ?_, ?_, ?_, by decide, by decide⟩
  · intro t
    exact (sameBaseType_iff t t).mpr (Or.inl rfl)
  · intro t1 t2 h
    rw [sameBaseType_iff] at h ⊢
    rcases h with h | ⟨h1, h2⟩ | ⟨h1, h2⟩
    · exact Or.inl h.symm
    · exact Or.inr (Or.inr ⟨h2, h1⟩)
    · exact Or.inr (Or.inl ⟨h2, h1⟩)
  · intro t1 t2 t3 h12 h23
    rw [sameBaseType_iff] at h12 h23 ⊢
    have hne : elm_Integer ≠ elm_Enumeration := by decide
    rcases h12 with h | ⟨h1, h2⟩ | ⟨h1, h2⟩ <;> rcases h23 with h' | ⟨h3, h4⟩ | ⟨h3, h4⟩
    · exact Or.inl (h.trans h')
    · exact Or.inr (Or.inl ⟨h.trans h3, h4⟩)
    · exact Or.inr (Or.inr ⟨h.trans h3, h4⟩)
    · exact Or.inr (Or.inl ⟨h1, h'.symm.trans h2⟩)
    · exact absurd (h3.symm.trans h2) hne
    · exact Or.inl (h1.trans h4.symm)
    · exact Or.inr (Or.inr ⟨h1, h'.symm.trans h2⟩)
    · exact Or.inl (h1.trans h4.symm)
    · exact absurd (h2.symm.trans h3) hne
  · intro t
    have hr1 : elm_Real ≠ elm_Integer := by decide
    have hr2 : elm_Real ≠ elm_Enumeration := by decide
    have hs1 : elm_String ≠ elm_Integer := by decide
    have hs2 : elm_String ≠ elm_Enumeration := by decide
    have hb1 : elm_Boolean ≠ elm_Integer := by decide
    have hb2 : elm_Boolean ≠ elm_Enumeration := by decide
    simp only [sameBaseType_iff]
    refine ⟨⟨?_, fun h => Or.inl h.symm⟩, ⟨?_, fun h => Or.inl h.symm⟩,
      ⟨?_, fun h => Or.inl h.symm⟩⟩
    · rintro (h | ⟨h, _⟩ | ⟨h, _⟩)
      · exact h.symm
      · exact absurd h hr1
      · exact absurd h hr2
    · rintro (h | ⟨h, _⟩ | ⟨h, _⟩)
      · exact h.symm
      · exact absurd h hs1
      · exact absurd h hs2
    · rintro (h | ⟨h, _⟩ | ⟨h, _⟩)
      · exact h.symm
      · exact absurd h hb1
      · exact absurd h hb2

/-! ## Boolean attributes -/

/-- C32: `getBoolean(e, a, &vs)` returns `(0, valueMissing)` when the attribute is absent,
`(1, valueDefined)` when its value is exactly `true`, `(0, valueDefined)` when it is exactly
`false`, and `(0, valueIllegal)` for every other value string. -/
theorem getBoolean_cases (e : Element) (a : Att) :
    (getString e a = none → getBoolean e a = (0, ValueStatus.valueMissing)) ∧
    (getString e a = some "true" → getBoolean e a = (1, ValueStatus.valueDefined)) ∧
    (getString e a = some "false" → getBoolean e a = (0, ValueStatus.valueDefined)) ∧
    (∀ v, getString e a = some v → v ≠ "true" → v ≠ "false" →
      getBoolean e a = (0, ValueStatus.valueIllegal)) := by
  refine ⟨?_, ?_, ?_, ?_⟩
  · intro h
    simp [getBoolean, h]
  · intro h
    simp [getBoolean, h]
  · intro h
    simp [getBoolean, h]
  · intro v h ht hf
    simp [getBoolean, h, ht, hf]

theorem getBoolean_cases_witness :
    getBoolean (mkElement elm_ScalarVariable []) att_fixed = (0, ValueStatus.valueMissing) ∧
    getBoolean (mkElement elm_Real [(att_fixed, "true")]) att_fixed
      = (1, ValueStatus.valueDefined) ∧
    getBoolean (mkElement elm_Real [(att_fixed, "false")]) att_fixed
      = (0, ValueStatus.valueDefined) ∧
    getBoolean (mkElement elm_Real [(att_fixed, "True")]) att_fixed
      = (0, ValueStatus.valueIllegal) ∧
    getBoolean (mkElement elm_Real [(att_fixed, "1")]) att_fixed
      = (0, ValueStatus.valueIllegal) :=
  ⟨(getBoolean_cases (mkElement elm_ScalarVariable []) att_fixed).1 (by decide),
   (getBoolean_cases (mkElement elm_Real [(att_fixed, "true")]) att_fixed).2.1 (by decide),
   (getBoolean_cases (mkElement elm_Real [(att_fixed, "false")]) att_fixed).2.2.1 (by decide),
   (getBoolean_cases (mkElement elm_Real [(att_fixed, "True")]) att_fixed).2.2.2 "True"
     (by decide) (by decide) (by decide),
   (getBoolean_cases (mkElement elm_Real [(att_fixed, "1")]) att_fixed).2.2.2 "1"
     (by decide) (by decide) (by decide)⟩

/-! ## The name tables -/

theorem checkElement_elmNames : ∀ i < SIZEOF_ELM, ∀ v, elmNames[i]? = some v →
    checkElement v = (i : Int) := by
  have h : ∀ i < SIZEOF_ELM, checkElement ((elmNames[i]?).getD "") = (i : Int) := by decide
  intro i hi v hv
  have := h i hi
  rwa [hv] at this

theorem elmNames_index_of_mem (v : String) (h : v ∈ elmNames) :
    ∃ i, i < SIZEOF_ELM ∧ elmNames[i]? = some v := by
  obtain ⟨i, hi, hv⟩ := List.mem_iff_getElem.mp h
  refine ⟨i, ?_, ?_⟩
  · have : elmNames.length = SIZEOF_ELM := by decide
    omega
  · rw [List.getElem?_eq_getElem hi, hv]

set_option maxRecDepth 100000 in
/-- C37: each of the three name tables is duplicate-free and is indexed by the constants of its
enum in the order of their declaration; the lookup of the entry at an index returns that index,
and `checkName` returns `-1` exactly for the strings that are in no slot of the table; two
interned attribute names are the same table entry iff their strings are equal. -/
theorem interning_injective :
    (elmNames.Nodup ∧ attNames.Nodup ∧ enuNames.Nodup) ∧
    (elmNames.length = SIZEOF_ELM ∧ attNames.length = SIZEOF_ATT ∧
      enuNames.length = SIZEOF_ENU) ∧
    (elmConstants = List.range SIZEOF_ELM ∧ attConstants = List.range SIZEOF_ATT ∧
      enuConstants = (List.range SIZEOF_ENU).map Int.ofNat) ∧
    (∀ e < SIZEOF_ELM, ∃ s, elmNames[e]? = some s ∧ checkElement s = (e : Int)) ∧
    (∀ a < SIZEOF_ATT, ∃ s, attNames[a]? = some s ∧ checkAttribute s = (a : Int)) ∧
    (∀ u < SIZEOF_ENU, ∃ s, enuNames[u]? = some s ∧ checkEnumValue s = (u : Int)) ∧
    (∀ s, (checkElement s = -1 ↔ s ∉ elmNames) ∧ (checkAttribute s = -1 ↔ s ∉ attNames) ∧
      (checkEnumValue s = -1 ↔ s ∉ enuNames)) ∧
    (∀ a < SIZEOF_ATT, ∀ b < SIZEOF_ATT,
      (CStr.tbl a = CStr.tbl b ↔ (CStr.tbl a).str = (CStr.tbl b).str)) := by
  refine ⟨⟨by decide, by decide, by decide⟩, ⟨by decide, by decide, by decide⟩,
    ⟨by decide, by decide, by decide⟩, ?_, ?_, ?_, ?_, ?_⟩
  · intro e he
    have hlen : e < elmNames.length := by
      have : elmNames.length = SIZEOF_ELM := by decide
      omega
    exact ⟨elmNames[e], List.getElem?_eq_getElem hlen,
      checkElement_elmNames e he _ (List.getElem?_eq_getElem hlen)⟩
  · intro a ha
    have hlen : a < attNames.length := by
      have : attNames.length = SIZEOF_ATT := by decide
      omega
    exact ⟨attNames[a], List.getElem?_eq_getElem hlen,
      checkAttribute_attNames a ha _ (List.getElem?_eq_getElem hlen)⟩
  · intro u hu
    have hlen : u < enuNames.length := by
      have : enuNames.length = SIZEOF_ENU := by decide
      omega
    exact ⟨enuNames[u], List.getElem?_eq_getElem hlen,
      checkEnumValue_enuNames u hu _ (List.getElem?_eq_getElem hlen)⟩
  · intro s
    refine ⟨⟨?_, fun h => checkNameFrom_not_mem s SIZEOF_ELM 0 elmNames h⟩,
      ⟨?_, fun h => checkNameFrom_not_mem s SIZEOF_ATT 0 attNames h⟩,
      ⟨?_, fun h => checkNameFrom_not_mem s SIZEOF_ENU 0 enuNames h⟩⟩
    · intro h hmem
      obtain ⟨i, hi, hv⟩ := elmNames_index_of_mem s hmem
      rw [checkElement_elmNames i hi s hv] at h
      omega
    · intro h hmem
      obtain ⟨i, hi, hv⟩ := attNames_index_of_mem s hmem
      rw [checkAttribute_attNames i hi s hv] at h
      omega
    · intro h hmem
      obtain ⟨i, hi, hv⟩ := enuNames_index_of_mem s hmem
      rw [checkEnumValue_enuNames i hi s hv] at h
      omega
  · intro a ha b hb
    constructor
    · intro h
      rw [h]
    · intro h
      have : a = b := attNames_inj a ha b hb h
      rw [this]

/-! ## The sample models -/

theorem list_of_length_three {α : Type} (l : List α) (h : l.length = 3) :
    ∃ x y z, l = [x, y, z] := by
  match l, h with
  | [x, y, z], _ => exact ⟨x, y, z, rfl⟩

theorem list_of_length_two {α : Type} (l : List α) (h : l.length = 2) : ∃ x y, l = [x, y] := by
  match l, h with
  | [x, y], _ => exact ⟨x, y, rfl⟩

theorem list_of_length_one {α : Type} (l : List α) (h : l.length = 1) : ∃ x, l = [x] := by
  match l, h with
  | [x], _ => exact ⟨x, rfl⟩

theorem list_of_length_five {α : Type} (l : List α) (h : l.length = 5) :
    ∃ x0 x1 x2 x3 x4, l = [x0, x1, x2, x3, x4] := by
  match l, h with
  | [x0, x1, x2, x3, x4], _ => exact ⟨x0, x1, x2, x3, x4, rfl⟩

/-- C38: for every state of the waterTankCtr model (arrays of the sizes the model defines),
`eventUpdate` leaves `H`, `L` and `level` unchanged, sets `pump` to true when `level < L`, to
false when `level > H` and not `level < L`, and leaves it unchanged otherwise; the event flags
after the call are `level > H` and `level < L`. -/
theorem waterTankCtr_switching (comp : ModelInstance) (eventInfo : fmiEventInfo)
    (hs : waterTankCtr.sized comp) :
    (waterTankCtr.eventUpdate comp eventInfo).1.r = comp.r ∧
    (waterTankCtr.eventUpdate comp eventInfo).1.isPositive
      = [decide (comp.r.getD waterTankCtr.level_ 0 > comp.r.getD waterTankCtr.H_ 0),
         decide (comp.r.getD waterTankCtr.level_ 0 < comp.r.getD waterTankCtr.L_ 0)] ∧
    (waterTankCtr.eventUpdate comp eventInfo).1.b
      = [if comp.r.getD waterTankCtr.level_ 0 < comp.r.getD waterTankCtr.L_ 0 then true
         else if comp.r.getD waterTankCtr.level_ 0 > comp.r.getD waterTankCtr.H_ 0 then false
         else comp.b.getD waterTankCtr.pump_ false] ∧
    (comp.r.getD waterTankCtr.L_ 0 ≤ comp.r.getD waterTankCtr.level_ 0 →
      comp.r.getD waterTankCtr.level_ 0 ≤ comp.r.getD waterTankCtr.H_ 0 →
      (waterTankCtr.eventUpdate comp eventInfo).1.b = comp.b) := by
  obtain ⟨hr, hb, hp⟩ := hs
  obtain ⟨H, L, level, hr⟩ := list_of_length_three comp.r hr
  obtain ⟨pump, hb⟩ := list_of_length_one comp.b hb
  obtain ⟨p0, p1, hp⟩ := list_of_length_two comp.isPositive hp
  simp only [waterTankCtr.eventUpdate, hr, hb, hp, waterTankCtr.level_, waterTankCtr.H_,
    waterTankCtr.L_, waterTankCtr.pump_, waterTankCtr.level_max_, waterTankCtr.level_min_,
    List.getD_cons_zero, List.getD_cons_succ, List.set_cons_zero, List.set_cons_succ]
  by_cases h1 : level < L <;> by_cases h2 : level > H <;>
    simp [h1, h2, not_le.mpr, not_lt.mp]

theorem waterTankCtr_switching_witness :
    waterTankCtr.sized (waterTankCtr.sample 14 1 15 true) ∧
    (waterTankCtr.eventUpdate (waterTankCtr.sample 14 1 15 true) fmiEventInfo.cleared).1.b
      = [false] ∧
    (waterTankCtr.eventUpdate (waterTankCtr.sample 14 1 15 true)
        fmiEventInfo.cleared).1.isPositive = [true, false] := by
  have hs : waterTankCtr.sized (waterTankCtr.sample 14 1 15 true) := ⟨rfl, rfl, rfl⟩
  obtain ⟨_, hp, hb, _⟩ :=
    waterTankCtr_switching (waterTankCtr.sample 14 1 15 true) fmiEventInfo.cleared hs
  refine ⟨hs, ?_, ?_⟩
  · rw [hb]
    decide!
  · rw [hp]
    decide!

/-- Counterexample to C39: the start values leave the height 1 and the event flag set. For the
ball at the height 1 with the velocity -2, the parameter `e = 1/2` and the flag set,
`eventUpdate` replaces the velocity by 1 although the height is not below 0; for the ball at the
height -1 with the same velocity and the flag cleared, it leaves the velocity as it is although
the height is below 0. -/
theorem bouncingBall_flag_decides :
    (bouncingBall.setStartValues
        { r := [0, 0, 0, 0, 0], i := [], b := [], s := [], isPositive := [false],
          time := 0 }).isPositive = [true] ∧
    (bouncingBall.setStartValues
        { r := [0, 0, 0, 0, 0], i := [], b := [], s := [], isPositive := [false],
          time := 0 }).r.getD bouncingBall.h_ 0 = 1 ∧
    (bouncingBall.eventUpdate (fun x y => x * y) (bouncingBall.sample 1 (-2) true)
        fmiEventInfo.cleared).1.r = (bouncingBall.sample 1 1 true).r ∧
    (bouncingBall.eventUpdate (fun x y => x * y) (bouncingBall.sample (-1) (-2) false)
        fmiEventInfo.cleared).1.r = (bouncingBall.sample (-1) (-2) false).r := by
  refine ⟨by decide!, by decide!, by decide!, by decide!⟩

/-- C39, amended: for every state of the bouncingBall model (arrays of the sizes the model
defines), `eventUpdate` replaces the velocity `v` by the product of `-e` and `v` exactly when the
event flag `isPositive[0]` is set at the time of the call, and leaves `v` unchanged otherwise;
`h`, `e` and the gravity value are unchanged, and the flag after the call is `h > 0`. For a state
whose flag is set exactly when `h` is below 0, the velocity is replaced exactly when `h` is
below 0. -/
theorem bouncingBall_reinit (mul : ℚ → ℚ → ℚ) (comp : ModelInstance) (eventInfo : fmiEventInfo)
    (hs : bouncingBall.sized comp) :
    (bouncingBall.eventUpdate mul comp eventInfo).1.r.getD bouncingBall.v_ 0
      = (if comp.isPositive.getD 0 false = true then
          mul (- comp.r.getD bouncingBall.e_ 0) (comp.r.getD bouncingBall.v_ 0)
         else comp.r.getD bouncingBall.v_ 0) ∧
    (bouncingBall.eventUpdate mul comp eventInfo).1.r.getD bouncingBall.h_ 0
      = comp.r.getD bouncingBall.h_ 0 ∧
    (bouncingBall.eventUpdate mul comp eventInfo).1.r.getD bouncingBall.e_ 0
      = comp.r.getD bouncingBall.e_ 0 ∧
    (bouncingBall.eventUpdate mul comp eventInfo).1.r.getD bouncingBall.g_ 0
      = comp.r.getD bouncingBall.g_ 0 ∧
    (bouncingBall.eventUpdate mul comp eventInfo).1.isPositive
      = [decide (comp.r.getD bouncingBall.h_ 0 > 0)] ∧
    (comp.isPositive.getD 0 false = decide (comp.r.getD bouncingBall.h_ 0 < 0) →
      (bouncingBall.eventUpdate mul comp eventInfo).1.r.getD bouncingBall.v_ 0
        = (if comp.r.getD bouncingBall.h_ 0 < 0 then
            mul (- comp.r.getD bouncingBall.e_ 0) (comp.r.getD bouncingBall.v_ 0)
           else comp.r.getD bouncingBall.v_ 0)) := by
  obtain ⟨hr, hp⟩ := hs
  obtain ⟨h, dh, v, g, e, hr⟩ := list_of_length_five comp.r hr
  obtain ⟨flag, hp⟩ := list_of_length_one comp.isPositive hp
  cases flag <;>
    simp [bouncingBall.eventUpdate, hr, hp, bouncingBall.v_, bouncingBall.h_, bouncingBall.e_,
      bouncingBall.g_]
  · intro hneg
    simp [not_lt.mpr hneg]
  · intro hneg
    simp [hneg]

theorem bouncingBall_reinit_witness :
    bouncingBall.sized (bouncingBall.sample (-1) (-2) true) ∧
    (bouncingBall.sample (-1) (-2) true).isPositive.getD 0 false
      = decide ((bouncingBall.sample (-1) (-2) true).r.getD bouncingBall.h_ 0 < 0) ∧
    (bouncingBall.eventUpdate (fun x y => x * y) (bouncingBall.sample (-1) (-2) true)
        fmiEventInfo.cleared).1.r.getD bouncingBall.v_ 0 = 1 := by
  have hs : bouncingBall.sized (bouncingBall.sample (-1) (-2) true) := ⟨rfl, rfl⟩
  have hflag : (bouncingBall.sample (-1) (-2) true).isPositive.getD 0 false
      = decide ((bouncingBall.sample (-1) (-2) true).r.getD bouncingBall.h_ 0 < 0) := by
    decide!
  refine ⟨hs, hflag, ?_⟩
  rw [(bouncingBall_reinit (fun x y => x * y) (bouncingBall.sample (-1) (-2) true)
    fmiEventInfo.cleared hs).2.2.2.2.2 hflag]
  decide!

/-! ## The stack after the last end event -/

/-- C36, the code at the failing input: in `selfNestedDocument` a model description is written
inside a model description, in `selfNestedGraphDocument` a Graph inside a Graph. The events are
balanced with a single root, the parser is not stopped and the tokenizer reports success, but two
nodes are on the stack after the last end event: the assertion `assert(stackIsEmpty(stack))` of
`parse` and of `parseGraph` fails. -/
theorem self_nested_root_fails_assertion :
    balanced selfNestedDocument = true ∧
    stackAfter selfNestedDocument
      = Except.ok ([some elm_fmiModelDescription, some elm_fmiModelDescription], false) ∧
    stackSizeAfter selfNestedDocument = Except.ok (2, true) ∧
    parse selfNestedDocument = Except.error "assert(stackIsEmpty(stack))" ∧
    balanced selfNestedGraphDocument = true ∧
    stackAfter selfNestedGraphDocument = Except.ok ([some elm_Graph, some elm_Graph], false) ∧
    stackSizeAfter selfNestedGraphDocument = Except.ok (2, true) ∧
    parseGraph selfNestedGraphDocument = Except.error "assert(stackIsEmpty(stack))" := by
  refine ⟨by decide!, by decide!, by decide!, by decide!, by decide!, by decide!, by decide!,
    by decide!⟩

/-! ## List reduction -/

theorem popListLoop_stop (e : Elm) (node : Node) (stack : List (Option Node))
    (popped : List Node) (h : node.type ≠ e) :
    popListLoop e (some node) stack popped = Except.ok (node, stack, popped) := by
  cases stack <;> simp [popListLoop, h]

theorem popListLoop_children (e : Elm) (children : List Node) (node : Node)
    (below : List (Option Node)) (popped : List Node) (last : Node)
    (hkind : ∀ c ∈ children, c.type = e) (hlast : last.type = e) (hnode : node.type ≠ e) :
    popListLoop e (some last) (onStack children ++ some node :: below) popped
      = Except.ok (node, below, children ++ last :: popped) := by
  induction children using List.reverseRecOn generalizing last popped with
  | nil =>
    simp [onStack, popListLoop, hlast, popListLoop_stop e node below _ hnode]
  | append_singleton init c ih =>
    have hc : c.type = e := hkind c (by simp)
    have hinit : ∀ x ∈ init, x.type = e := fun x hx => hkind x (by simp [hx])
    have hs : onStack (init ++ [c]) = some c :: onStack init := by simp [onStack]
    rw [hs, List.cons_append]
    simp only [popListLoop, hlast, if_true]
    rw [ih (last :: popped) c hinit hc]
    simp

/-- C34: for a stack that holds the nodes `c1, ..., ck` (`k >= 0`) of type `e`, pushed in this
order, directly above a list-element node `L` of a type other than `e`, `popList(e)` leaves `L`
on top of the stack with everything below it unchanged, removes `c1, ..., ck`, and sets the child
list of `L` to `[c1, ..., ck]` in this order; nothing else of the parser state changes. -/
theorem popList_reduces (e : Elm) (children : List Node) (el : Element)
    (old : Option (List Node)) (below : List (Option Node)) (p : ParserState)
    (hkind : ∀ c ∈ children, c.type = e) (hL : el.type ≠ e)
    (hlist : getAstNodeType el.type = AstNodeType.astListElement)
    (hstack : p.stack = onStack children ++ some (Node.astListElement el old) :: below) :
    popList e p
      = Except.ok { p with stack := some (Node.astListElement el (some children)) :: below } := by
  have hnode : (Node.astListElement el old).type ≠ e := hL
  unfold popList
  rw [hstack]
  induction children using List.reverseRecOn with
  | nil =>
    simp only [onStack, List.map_nil, List.reverse_nil, List.nil_append]
    rw [popListLoop_stop e _ below [] hnode]
    simp [Node.type, Node.toElement, hlist]
  | append_singleton init c _ =>
    have hc : c.type = e := hkind c (by simp)
    have hinit : ∀ x ∈ init, x.type = e := fun x hx => hkind x (by simp [hx])
    have hs : onStack (init ++ [c]) = some c :: onStack init := by simp [onStack]
    rw [hs, List.cons_append]
    simp only [popListLoop_children e init _ below [] c hinit hc hnode]
    simp [Node.type, Node.toElement, hlist]

theorem popList_reduces_witness :
    popList elm_ScalarVariable
        { stack := onStack [Node.astScalarVariable (mkElement elm_ScalarVariable []) none none,
                            Node.astScalarVariable (mkElement elm_ScalarVariable []) none none]
            ++ some (Node.astListElement (mkElement elm_ModelVariables []) none)
              :: [some (Node.astModelDescription (mkElement elm_fmiModelDescription [])
                    none none none none none none)],
          stopped := false, data := none, skipData := true }
      = Except.ok
        { stack := some (Node.astListElement (mkElement elm_ModelVariables [])
              (some [Node.astScalarVariable (mkElement elm_ScalarVariable []) none none,
                     Node.astScalarVariable (mkElement elm_ScalarVariable []) none none]))
            :: [some (Node.astModelDescription (mkElement elm_fmiModelDescription [])
                  none none none none none none)],
          stopped := false, data := none, skipData := true } :=
  popList_reduces elm_ScalarVariable _ (mkElement elm_ModelVariables []) none _ _
    (fun c hc => by
      simp only [List.mem_cons, List.mem_singleton, List.not_mem_nil, or_false, or_self] at hc
      subst hc
      rfl)
    (by decide) (by decide) rfl

/-! ## The content of a Name element -/

theorem checkElement_name_iff (elm : String) (h : checkElement elm ≠ -1) :
    (checkElement elm).toNat = elm_Name ↔ elm = "Name" := by
  constructor
  · intro h19
    have hmem : elm ∈ elmNames := by
      by_contra hn
      exact h (checkNameFrom_not_mem elm SIZEOF_ELM 0 elmNames hn)
    obtain ⟨i, hi, hv⟩ := elmNames_index_of_mem elm hmem
    rw [checkElement_elmNames i hi elm hv, Int.toNat_ofNat] at h19
    subst h19
    have : elmNames[elm_Name]? = some "Name" := by decide
    rw [this] at hv
    exact (Option.some.inj hv).symm
  · intro hn
    subst hn
    decide

theorem handleChunks_append (chunks : List String) (p : ParserState) (d : String)
    (hs : p.skipData = false) (hd : p.data = some d) :
    handleChunks chunks p = { p with data := some (chunks.foldl (fun x s => x ++ s) d) } := by
  induction chunks generalizing p d with
  | nil =>
    simp only [handleChunks, List.foldl_nil]
    cases p
    simp only at hd
    rw [hd]
  | cons s rest ih =>
    have h1 : handleData s p = { p with data := some (d ++ s) } := by
      simp [handleData, hs, hd]
    have := ih { p with data := some (d ++ s) } (d ++ s) hs rfl
    simp only [handleChunks, List.foldl_cons] at this ⊢
    rw [h1, this]

theorem handleChunks_recorded (chunks : List String) (p : ParserState) (value : String)
    (hs : p.skipData = false) (hd : p.data = none) (hv : recorded chunks = some value) :
    handleChunks chunks p = { p with data := some value } := by
  cases chunks with
  | nil => simp [recorded] at hv
  | cons first rest =>
    simp only [recorded, Option.some.injEq] at hv
    have h1 : handleData first p = { p with data := some (if first = "\n" then "" else first) } := by
      simp [handleData, hs, hd]
    have h2 := handleChunks_append rest { p with data := some (if first = "\n" then "" else first) }
      _ hs rfl
    simp only [handleChunks, List.foldl_cons] at h2 ⊢
    rw [h1, h2, hv]

/-- C35: after `startElement` for a known element name the flag `skipData` is clear exactly when
the element is Name; `handleData` leaves the state as it is while the flag is set and records the
chunk while it is clear. For a Name element with known attribute names, started with
`data == NULL`, whose content arrives as the chunks `s1, ..., sk` (`k >= 1`), `endElement` leaves
on the stack the Name node with exactly one attribute pair, input, whose value is the
concatenation of the chunks with a first chunk that is the single newline taken as the empty
string; `getString(name, att_input)` returns that value, `data` is `NULL` again and the flag
`skipData` is set. -/
theorem name_content_recording :
    (∀ (elm : String) (attr : List (String × String)) (p : ParserState),
      checkElement elm ≠ -1 → ((startElement elm attr p).skipData = false ↔ elm = "Name")) ∧
    (∀ (s : String) (p : ParserState),
      (p.skipData = true → handleData s p = p) ∧
      (p.skipData = false → (handleData s p).data ≠ none)) ∧
    (∀ (attr : List (String × String)) (chunks : List String) (p : ParserState),
      (∀ q ∈ attr, q.1 ∈ attNames) → p.data = none → chunks ≠ [] →
      ∃ e value, recorded chunks = some value ∧
        endElement "Name" (handleChunks chunks (startElement "Name" attr p))
          = Except.ok { stack := some (Node.astElement e) :: p.stack, stopped := p.stopped,
                        data := none, skipData := true } ∧
        e.type = elm_Name ∧ e.n = 2 ∧
        e.attributes = some [CStr.tbl att_input, CStr.heap value] ∧
        getString e att_input = some value) := by
  refine ⟨?_, ?_, ?_⟩
  · intro elm attr p hel
    have hskip : (startElement elm attr p).skipData
        = decide ((checkElement elm).toNat ≠ elm_Name) := by
      unfold startElement
      simp only [hel, if_false]
      split <;> rfl
    rw [hskip, ← checkElement_name_iff elm hel]
    simp
  · intro s p
    constructor
    · intro h
      simp [handleData, h]
    · intro h
      cases hd : p.data <;> simp [handleData, h, hd]
  · intro attr chunks p hnames hdata hne
    obtain ⟨value, hv⟩ : ∃ value, recorded chunks = some value := by
      cases chunks with
      | nil => exact absurd rfl hne
      | cons first rest => exact ⟨_, rfl⟩
    obtain ⟨e0, hnew, htype, _⟩ := getString_newElement elm_Name attr hnames
    have hel : checkElement "Name" = ((elm_Name : Nat) : Int) := by decide
    have hnode : newNode elm_Name e0 = Node.astElement e0 := by
      unfold newNode
      have : getAstNodeType elm_Name = AstNodeType.astElement := by decide
      rw [this]
    have hstart : startElement "Name" attr p
        = { stack := some (Node.astElement e0) :: p.stack, stopped := p.stopped,
            data := none, skipData := false } := by
      unfold startElement
      simp only [hel, Int.toNat_ofNat, hnew, hnode, stackPush,
        show ((((elm_Name : Nat) : Int)) = -1) = False from by decide, if_false]
      simp [hdata]
    have hchunks := handleChunks_recorded chunks _ value
      (show (startElement "Name" attr p).skipData = false by rw [hstart])
      (show (startElement "Name" attr p).data = none by rw [hstart]) hv
    rw [hchunks, hstart]
    refine ⟨{ e0 with n := 2, attributes := some [CStr.tbl att_input, CStr.heap value] }, value,
      hv, ?_, htype, rfl, rfl, ?_⟩
    · have hcase : ∀ q, endCase elm_Name q = endName q := fun _ => rfl
      simp only [endElement, hel, Int.toNat_ofNat, hcase,
        show ((((elm_Name : Nat) : Int)) = -1) = False from by decide, if_false]
      simp [endName, checkPop, checkPeek, checkElementType, stackPop, Node.type, Node.toElement,
        htype, ANY_TYPE, elm_Name]
    · simp [getString, getStringFrom, CStr.str]

theorem name_content_recording_witness :
    recorded ["\n", "ab", "c"] = some "abc" ∧
    ∃ e value, recorded ["\n", "ab", "c"] = some value ∧
      endElement "Name" (handleChunks ["\n", "ab", "c"]
          (startElement "Name" [] Tokenizer.initial.globals))
        = Except.ok { stack := some (Node.astElement e) :: Tokenizer.initial.globals.stack,
                      stopped := Tokenizer.initial.globals.stopped,
                      data := none, skipData := true } ∧
      e.type = elm_Name ∧ e.n = 2 ∧
      e.attributes = some [CStr.tbl att_input, CStr.heap value] ∧
      getString e att_input = some value :=
  ⟨by decide,
   name_content_recording.2.2 [] ["\n", "ab", "c"] Tokenizer.initial.globals
     (fun q hq => absurd hq (List.not_mem_nil q)) rfl (by decide)⟩

/-! ## The number of macro-steps with exact time -/

theorem doSteps_next {σ : Type} (fmus : List (FMU σ)) (time h : ℚ) (i : Nat)
    (comps : List Component) (m m1 : Master σ)
    (hrun : doSteps fmus time h i comps m = Except.ok (Flow.next m1)) :
    m1.trace = m.trace
      ++ (List.range' i comps.length).map (fun j => Event.doStep j time h fmiOK) := by
  induction comps generalizing i m with
  | nil =>
    simp only [doSteps] at hrun
    cases hrun
    simp
  | cons c rest ih =>
    simp only [doSteps] at hrun
    split at hrun
    · exact Except.noConfusion hrun
    · rename_i fmu c0 hh
      split at hrun
      · cases hrun
      · rename_i hok
        have hstatus : (fmu.doStep c0 time h true).2 = fmiOK := by
          by_contra hne
          exact hok hne
        rw [ih (i + 1) _ hrun, hstatus]
        simp [List.range'_succ]

theorem foldl_apply_components (ws : List CellWrite) (graph : Graph) :
    (ws.foldl CellWrite.apply graph).components = graph.components := by
  induction ws generalizing graph with
  | nil => rfl
  | cons w rest ih =>
    simp only [List.foldl_cons]
    rw [ih]
    unfold CellWrite.apply
    split <;> rfl

theorem filter_eq_nil_of_kind (kind other : Event → Bool) (calls : List Event)
    (hk : ∀ e ∈ calls, kind e = true) (hno : ∀ e, kind e = true → other e = false) :
    calls.filter other = [] := by
  rw [List.filter_eq_nil_iff]
  intro e he
  rw [hno e (hk e he)]
  simp

theorem filter_doStep_calls (n : Nat) (i : Nat) (time h : ℚ) :
    ((List.range' i n).map (fun j => Event.doStep j time h fmiOK)).filter Event.isStepOrRow
      = (List.range' i n).map (fun j => Event.doStep j time h fmiOK) := by
  rw [List.filter_eq_self]
  intro e he
  obtain ⟨j, _, rfl⟩ := List.mem_map.mp he
  rfl

theorem exchange_next {σ : Type} (rt : Runtime) (fmus : List (FMU σ)) (time h : ℚ)
    (m m1 : Master σ) (hrun : exchange rt fmus time h m = Except.ok (Flow.next m1)) :
    m1.trace.filter Event.isStepOrRow = m.trace.filter Event.isStepOrRow
      ++ (List.range (m.graph.components.getD []).length).map
          (fun j => Event.doStep j time h fmiOK) ∧
    m1.graph.components = m.graph.components := by
  unfold exchange at hrun
  split at hrun
  · exact Except.noConfusion hrun
  · rename_i comps hc
    have hcomps : m.graph.components.getD [] = comps := by
      unfold componentsOf at hc
      split at hc
      · rename_i cs hcs
        cases hc
        rw [hcs]
        rfl
      · exact Except.noConfusion hc
    split at hrun
    · exact Except.noConfusion hrun
    · rename_i ma h1
      split at hrun
      · exact Except.noConfusion hrun
      · rename_i mb h2
        obtain ⟨ws, _, _, g⟩ := readOutputs_writes rt fmus 0 comps m ma h1
        obtain ⟨gets, eg, kg⟩ := readOutputs_continues rt fmus 0 comps m ma h1
        obtain ⟨sets, es, ks⟩ := setInputs_continues rt fmus 0 comps ma mb h2
        have ed := doSteps_next fmus time h 0 comps mb m1 hrun
        have hg1 := doSteps_graph fmus time h 0 comps mb _ hrun
        have hg2 := setInputs_graph rt fmus 0 comps ma mb h2
        constructor
        · rw [ed, es, eg, hcomps, List.filter_append, List.filter_append, List.filter_append,
            filter_eq_nil_of_kind Event.isGet Event.isStepOrRow gets kg
              (fun e he => by cases e <;> simp_all [Event.isGet, Event.isStepOrRow,
                Event.isDoStep, Event.isValueRow]),
            filter_eq_nil_of_kind Event.isSet Event.isStepOrRow sets ks
              (fun e he => by cases e <;> simp_all [Event.isSet, Event.isStepOrRow,
                Event.isDoStep, Event.isValueRow]),
            filter_doStep_calls, List.append_nil, List.append_nil, List.range_eq_range']
        · have : m1.graph = mb.graph := hg1
          rw [this, hg2, g, foldl_apply_components]

theorem steps_lt_iff (tEnd h : ℚ) (hh : 0 < h) (j : Nat) :
    (j : ℚ) * h < tEnd ↔ j < ⌈tEnd / h⌉₊ := by
  rw [Nat.lt_ceil, lt_div_iff₀ hh]

theorem stepLoop_exact {σ : Type} (rt : Runtime) (hadd : ∀ x y, rt.add x y = x + y)
    (fmus : List (FMU σ)) (tEnd h : ℚ) (hh : 0 < h) (separator : Char)
    (inv : Master σ → Prop)
    (hstep : ∀ time m, inv m → ∃ m1, exchange rt fmus time h m = Except.ok (Flow.next m1) ∧
      inv (outputRow m1 (rt.add time h) separator false))
    (n fuel j : Nat) (m : Master σ) (hm : inv m)
    (hn : (m.graph.components.getD []).length = n) (hj : j ≤ ⌈tEnd / h⌉₊)
    (hfuel : ⌈tEnd / h⌉₊ - j ≤ fuel) :
    ∃ m1, stepLoop rt fmus tEnd h separator fuel ((j : ℚ) * h) j m
        = Except.ok ((⌈tEnd / h⌉₊ : ℚ) * h, ⌈tEnd / h⌉₊, Flow.next m1) ∧ inv m1 ∧
      m1.trace.filter Event.isStepOrRow = m.trace.filter Event.isStepOrRow
        ++ stepRounds n h separator j (⌈tEnd / h⌉₊ - j) := by
  induction fuel generalizing j m with
  | zero =>
    have hjN : j = ⌈tEnd / h⌉₊ := by omega
    have hnot : ¬ ((j : ℚ) * h < tEnd) := by
      rw [steps_lt_iff tEnd h hh]
      omega
    refine ⟨m, ?_, hm, ?_⟩
    · simp only [stepLoop, hnot, if_false]
      rw [← hjN]
    · rw [← hjN, Nat.sub_self]
      simp [stepRounds]
  | succ fuel ih =>
    by_cases hlt : (j : ℚ) * h < tEnd
    · have hjN : j < ⌈tEnd / h⌉₊ := (steps_lt_iff tEnd h hh j).mp hlt
      obtain ⟨ma, hx, hinv⟩ := hstep ((j : ℚ) * h) m hm
      obtain ⟨htr, hcomp⟩ := exchange_next rt fmus ((j : ℚ) * h) h m ma hx
      have htime : rt.add ((j : ℚ) * h) h = ((j + 1 : Nat) : ℚ) * h := by
        rw [hadd]
        push_cast
        ring
      have hn1 : ((outputRow ma (rt.add ((j : ℚ) * h) h) separator false).graph.components.getD
          []).length = n := by
        show (ma.graph.components.getD []).length = n
        rw [hcomp, hn]
      obtain ⟨m1, hrun, hinv1, htr1⟩ := ih (j + 1) _ hinv hn1 (by omega) (by omega)
      refine ⟨m1, ?_, hinv1, ?_⟩
      · simp only [stepLoop, hlt, if_true, macroStep, hx]
        rw [htime]
        rw [htime] at hrun
        exact hrun
      · rw [htr1]
        have hsplit : ⌈tEnd / h⌉₊ - j = (⌈tEnd / h⌉₊ - (j + 1)) + 1 := by omega
        rw [hsplit]
        simp only [stepRounds, stepRound]
        have hrow : (outputRow ma (rt.add ((j : ℚ) * h) h) separator false).trace
            = ma.trace ++ [Event.outputRow (rt.add ((j : ℚ) * h) h) separator false] := rfl
        rw [hrow, List.filter_append, htr, hn, htime]
        simp [Event.isStepOrRow, Event.isDoStep, Event.isValueRow, List.append_assoc]
    · have hjN : j = ⌈tEnd / h⌉₊ := by
        have := (steps_lt_iff tEnd h hh j).not.mp hlt
        omega
      refine ⟨m, ?_, hm, ?_⟩
      · simp only [stepLoop, hlt, if_false]
        rw [← hjN]
      · rw [← hjN, Nat.sub_self]
        simp [stepRounds]


/-! ## Macro-steps on a graph whose ports are bound -/

theorem keeps_refl {σ : Type} (m : Master σ) : m.keeps m :=
  ⟨rfl, fun _ h => h, fun _ h => h⟩

theorem keeps_trans {σ : Type} {m1 m2 m3 : Master σ} (h12 : m1.keeps m2) (h23 : m2.keeps m3) :
    m1.keeps m3 :=
  ⟨h23.1.trans h12.1, fun k h => h23.2.1 k (h12.2.1 k h), fun k h => h23.2.2 k (h12.2.2 k h)⟩

theorem ready_of_cells (scanUInt : String → Option Nat) (g g1 : Graph) (port : Port)
    (hcells : ∀ k, (g.cellAt k).isSome = true → (g1.cellAt k).isSome = true)
    (h : port.ready scanUInt g) : port.ready scanUInt g1 := by
  obtain ⟨sv, typeSpec, value, j, cell, h1, h2, h3, h4, h5, h6, h7⟩ := h
  have hsome := hcells j (by rw [h7]; rfl)
  obtain ⟨cell1, hcell1⟩ := Option.isSome_iff_exists.mp hsome
  exact ⟨sv, typeSpec, value, j, cell1, h1, h2, h3, h4, h5, h6, hcell1⟩

theorem setInstance_keeps {σ : Type} (c1 : σ) (i k : Nat) (l : List (Option σ))
    (h : ∃ c, l[k]? = some (some c)) : ∃ c, (setInstance c1 i l)[k]? = some (some c) := by
  induction l generalizing i k with
  | nil => simp at h
  | cons x rest ih =>
    cases i with
    | zero =>
      cases k with
      | zero => exact ⟨c1, by simp [setInstance]⟩
      | succ k2 => simpa [setInstance] using h
    | succ i2 =>
      cases k with
      | zero => simpa [setInstance] using h
      | succ k2 =>
        simp only [setInstance, List.getElem?_cons_succ] at h ⊢
        exact ih i2 k2 h

theorem keeps_setInstance {σ : Type} (m : Master σ) (c1 : σ) (i : Nat) (tr : List Event) :
    m.keeps { graph := m.graph, instances := setInstance c1 i m.instances, trace := tr } :=
  ⟨rfl, fun _ hk => hk, fun k hk => setInstance_keeps c1 i k m.instances hk⟩

theorem getCell_ok {σ : Type} (rt : Runtime) (fmu : FMU σ) (c : σ) (vr : fmiValueReference)
    (op : Enu) (cell : Cell) : ∃ r, getCell rt fmu c vr op cell = Except.ok r := by
  unfold getCell
  split
  · exact ⟨_, rfl⟩
  · split
    · exact ⟨_, rfl⟩
    · split
      · exact ⟨_, rfl⟩
      · split <;> exact ⟨_, rfl⟩

theorem setCell_ok {σ : Type} (rt : Runtime) (fmu : FMU σ) (c : σ) (vr : fmiValueReference)
    (op : Enu) (cell : Cell) : ∃ r, setCell rt fmu c vr op cell = Except.ok r := by
  unfold setCell
  split
  · exact ⟨_, rfl⟩
  · split
    · exact ⟨_, rfl⟩
    · split
      · exact ⟨_, rfl⟩
      · split <;> exact ⟨_, rfl⟩

theorem connection_of_cell (g : Graph) (j : Nat) (cell : Cell) (h : g.cellAt j = some cell) :
    ∃ con, g.connectionAt j = some con ∧ con.value = some cell := by
  unfold Graph.cellAt at h
  cases hc : g.connectionAt j with
  | none => simp [hc] at h
  | some con => exact ⟨con, rfl, by simpa [hc] using h⟩

theorem setValue_keeps_cells (g : Graph) (j : Nat) (value cell : Cell)
    (hj : g.cellAt j = some cell) (k : Nat) (h : (g.cellAt k).isSome = true) :
    ((g.setValue j value).cellAt k).isSome = true := by
  obtain ⟨con, hcon, _⟩ := connection_of_cell g j cell hj
  rw [cellAt_setValue g j k value ⟨con, hcon⟩]
  split
  · rfl
  · exact h

theorem readOutput_ready {σ : Type} (rt : Runtime) (fmus : List (FMU σ)) (i n : Nat)
    (port : Port) (m : Master σ) (hport : port.ready rt.scanUInt m.graph)
    (hfmu : ∃ fmu, fmus[i]? = some fmu) (hc : ∃ c, m.instances[i]? = some (some c)) :
    ∃ m1, readOutput rt fmus i n port m = Except.ok m1 ∧ m.keeps m1 := by
  obtain ⟨sv, typeSpec, value, j, cell, h1, h2, h3, h4, h5, h6, h7⟩ := hport
  obtain ⟨u, _, hget⟩ := getValueReference_of_referenced rt.scanUInt sv ⟨h2, value, h3, h4⟩
  obtain ⟨con, hcon, hval⟩ := connection_of_cell m.graph j cell h7
  obtain ⟨fmu, hfmu⟩ := hfmu
  obtain ⟨c, hc⟩ := hc
  have hh : handles fmus m i = Except.ok (fmu, c) := by simp [handles, hfmu, hc]
  unfold readOutput
  simp only [h1, hget, h6, hcon, h5, hval, hh]
  cases hd : dispatch typeSpec.type with
  | none => exact ⟨m, rfl, keeps_refl m⟩
  | some op =>
    obtain ⟨⟨c1, cell1⟩, hg⟩ := getCell_ok rt fmu c u op cell
    simp only [hg]
    exact ⟨_, rfl, rfl, fun k hk => setValue_keeps_cells m.graph j cell1 cell h7 k hk,
      fun k hk => setInstance_keeps c1 i k m.instances hk⟩

theorem setInput_ready {σ : Type} (rt : Runtime) (fmus : List (FMU σ)) (i n : Nat)
    (port : Port) (m : Master σ) (hport : port.ready rt.scanUInt m.graph)
    (hfmu : ∃ fmu, fmus[i]? = some fmu) (hc : ∃ c, m.instances[i]? = some (some c)) :
    ∃ m1, setInput rt fmus i n port m = Except.ok m1 ∧ m.keeps m1 := by
  obtain ⟨sv, typeSpec, value, j, cell, h1, h2, h3, h4, h5, h6, h7⟩ := hport
  obtain ⟨u, _, hget⟩ := getValueReference_of_referenced rt.scanUInt sv ⟨h2, value, h3, h4⟩
  obtain ⟨con, hcon, hval⟩ := connection_of_cell m.graph j cell h7
  obtain ⟨fmu, hfmu⟩ := hfmu
  obtain ⟨c, hc⟩ := hc
  have hh : handles fmus m i = Except.ok (fmu, c) := by simp [handles, hfmu, hc]
  unfold setInput
  simp only [h1, hget, h6, hcon, h5, hval, hh]
  cases hd : dispatch typeSpec.type with
  | none => exact ⟨m, rfl, keeps_refl m⟩
  | some op =>
    obtain ⟨c1, hs⟩ := setCell_ok rt fmu c u op cell
    simp only [hs]
    exact ⟨_, rfl, rfl, fun k hk => hk, fun k hk => setInstance_keeps c1 i k m.instances hk⟩

theorem forPorts_ready {σ : Type} (rt : Runtime) (fmus : List (FMU σ)) (i : Nat)
    (body : Nat → Port → Master σ → Except String (Master σ))
    (hbody : ∀ n port m, port.ready rt.scanUInt m.graph → (∃ fmu, fmus[i]? = some fmu) →
      (∃ c, m.instances[i]? = some (some c)) → ∃ m1, body n port m = Except.ok m1 ∧ m.keeps m1)
    (n : Nat) (ports : List Port) (m : Master σ)
    (hports : ∀ port ∈ ports, port.ready rt.scanUInt m.graph)
    (hfmu : ∃ fmu, fmus[i]? = some fmu) (hc : ∃ c, m.instances[i]? = some (some c)) :
    ∃ m1, forPorts body n ports m = Except.ok m1 ∧ m.keeps m1 := by
  induction ports generalizing n m with
  | nil => exact ⟨m, rfl, keeps_refl m⟩
  | cons port rest ih =>
    obtain ⟨m0, h0, k0⟩ := hbody n port m (hports port (List.mem_cons_self _ _)) hfmu hc
    obtain ⟨m1, h1, k1⟩ := ih (n + 1) m0
      (fun q hq => ready_of_cells rt.scanUInt m.graph m0.graph q k0.2.1
        (hports q (List.mem_cons_of_mem _ hq)))
      (k0.2.2 i hc)
    exact ⟨m1, by simp only [forPorts, h0, h1], keeps_trans k0 k1⟩

theorem loop_ready {σ : Type} (rt : Runtime) (fmus : List (FMU σ))
    (loop : Nat → List Component → Master σ → Except String (Master σ))
    (side : Component → Option (List Port))
    (body : Nat → Nat → Port → Master σ → Except String (Master σ))
    (hloop : ∀ i comp rest m, loop i (comp :: rest) m
      = match side comp with
        | none => loop (i + 1) rest m
        | some ports =>
          match forPorts (body i) 0 ports m with
          | Except.error msg => Except.error msg
          | Except.ok m1 => loop (i + 1) rest m1)
    (hnil : ∀ i m, loop i [] m = Except.ok m)
    (hbody : ∀ i n port m, port.ready rt.scanUInt m.graph → (∃ fmu, fmus[i]? = some fmu) →
      (∃ c, m.instances[i]? = some (some c)) →
      ∃ m1, body i n port m = Except.ok m1 ∧ m.keeps m1)
    (i : Nat) (comps : List Component) (m : Master σ)
    (hports : ∀ comp ∈ comps, ∀ port ∈ (side comp).getD [], port.ready rt.scanUInt m.graph)
    (hhandles : ∀ k, i ≤ k → k < i + comps.length →
      (∃ fmu, fmus[k]? = some fmu) ∧ ∃ c, m.instances[k]? = some (some c)) :
    ∃ m1, loop i comps m = Except.ok m1 ∧ m.keeps m1 := by
  induction comps generalizing i m with
  | nil => exact ⟨m, hnil i m, keeps_refl m⟩
  | cons comp rest ih =>
    rw [hloop]
    have hi := hhandles i (Nat.le_refl i) (by simp)
    cases hside : side comp with
    | none =>
      simp only
      exact ih (i + 1) m (fun q hq => hports q (List.mem_cons_of_mem _ hq))
        (fun k hk1 hk2 => hhandles k (by omega) (by simp only [List.length_cons]; omega))
    | some ports =>
      simp only
      have hp : ∀ port ∈ ports, port.ready rt.scanUInt m.graph := by
        intro port hport
        have := hports comp (List.mem_cons_self _ _) port
        rw [hside] at this
        exact this hport
      obtain ⟨m0, h0, k0⟩ := forPorts_ready rt fmus i (body i) (hbody i) 0 ports m hp hi.1 hi.2
      obtain ⟨m1, h1, k1⟩ := ih (i + 1) m0
        (fun q hq port hport => ready_of_cells rt.scanUInt m.graph m0.graph port k0.2.1
          (hports q (List.mem_cons_of_mem _ hq) port hport))
        (fun k hk1 hk2 =>
          ⟨(hhandles k (by omega) (by simp only [List.length_cons]; omega)).1,
           k0.2.2 k (hhandles k (by omega) (by simp only [List.length_cons]; omega)).2⟩)
      exact ⟨m1, by simp only [h0, h1], keeps_trans k0 k1⟩

theorem doSteps_ready {σ : Type} (fmus : List (FMU σ)) (time h : ℚ)
    (hok : ∀ fmu ∈ fmus, ∀ c t, (fmu.doStep c t h true).2 = fmiOK)
    (i : Nat) (comps : List Component) (m : Master σ)
    (hhandles : ∀ k, i ≤ k → k < i + comps.length →
      (∃ fmu, fmus[k]? = some fmu) ∧ ∃ c, m.instances[k]? = some (some c)) :
    ∃ m1, doSteps fmus time h i comps m = Except.ok (Flow.next m1) ∧ m.keeps m1 := by
  induction comps generalizing i m with
  | nil => exact ⟨m, rfl, keeps_refl m⟩
  | cons comp rest ih =>
    obtain ⟨⟨fmu, hfmu⟩, ⟨c, hc⟩⟩ := hhandles i (Nat.le_refl i) (by simp)
    have hh : handles fmus m i = Except.ok (fmu, c) := by simp [handles, hfmu, hc]
    have hmem : fmu ∈ fmus := List.getElem?_mem hfmu
    have hstatus : (fmu.doStep c time h true).2 = fmiOK := hok fmu hmem c time
    have k0 := keeps_setInstance m (fmu.doStep c time h true).1 i
      (m.trace ++ [Event.doStep i time h (fmu.doStep c time h true).2])
    obtain ⟨m1, h1, k1⟩ := ih (i + 1) _
      (fun k hk1 hk2 =>
        ⟨(hhandles k (by omega) (by simp only [List.length_cons]; omega)).1,
         k0.2.2 k (hhandles k (by omega) (by simp only [List.length_cons]; omega)).2⟩)
    refine ⟨m1, ?_, keeps_trans k0 k1⟩
    simp only [doSteps, hh, hstatus, ne_eq, not_true_eq_false, if_false]
    rw [hstatus] at h1
    exact h1

theorem ready_of_keeps {σ : Type} (scanUInt : String → Option Nat) (fmus : List (FMU σ))
    (m m1 : Master σ) (hm : m.ready scanUInt fmus) (hk : m.keeps m1) :
    m1.ready scanUInt fmus := by
  obtain ⟨comps, hc, hh, hp⟩ := hm
  refine ⟨comps, hk.1.trans hc, fun i hi => ⟨(hh i hi).1, hk.2.2 i (hh i hi).2⟩, ?_⟩
  intro comp hcomp
  exact ⟨fun port hport => ready_of_cells scanUInt m.graph m1.graph port hk.2.1
      ((hp comp hcomp).1 port hport),
    fun port hport => ready_of_cells scanUInt m.graph m1.graph port hk.2.1
      ((hp comp hcomp).2 port hport)⟩

theorem exchange_ready {σ : Type} (rt : Runtime) (fmus : List (FMU σ)) (time h : ℚ)
    (hok : ∀ fmu ∈ fmus, ∀ c t, (fmu.doStep c t h true).2 = fmiOK)
    (m : Master σ) (hm : m.ready rt.scanUInt fmus) :
    ∃ m1, exchange rt fmus time h m = Except.ok (Flow.next m1) ∧ m.keeps m1 := by
  obtain ⟨comps, hc, hh, hp⟩ := hm
  have hcomps : componentsOf m.graph = Except.ok comps := by simp [componentsOf, hc]
  have hh0 : ∀ (m0 : Master σ), m.keeps m0 → ∀ k, 0 ≤ k → k < 0 + comps.length →
      (∃ fmu, fmus[k]? = some fmu) ∧ ∃ c, m0.instances[k]? = some (some c) :=
    fun m0 hk k _ hk2 => ⟨(hh k (by omega)).1, hk.2.2 k (hh k (by omega)).2⟩
  obtain ⟨ma, ha, ka⟩ := loop_ready rt fmus (readOutputs rt fmus) Component.outputs
    (readOutput rt fmus) (fun _ _ _ _ => rfl) (fun _ _ => rfl)
    (fun i n port m0 => readOutput_ready rt fmus i n port m0) 0 comps m
    (fun comp hcomp => (hp comp hcomp).1) (hh0 m (keeps_refl m))
  obtain ⟨mb, hb, kb⟩ := loop_ready rt fmus (setInputs rt fmus) Component.inputs
    (setInput rt fmus) (fun _ _ _ _ => rfl) (fun _ _ => rfl)
    (fun i n port m0 => setInput_ready rt fmus i n port m0) 0 comps ma
    (fun comp hcomp port hport => ready_of_cells rt.scanUInt m.graph ma.graph port ka.2.1
      ((hp comp hcomp).2 port hport)) (hh0 ma ka)
  obtain ⟨m1, h1, k1⟩ := doSteps_ready fmus time h hok 0 comps mb (hh0 mb (keeps_trans ka kb))
  exact ⟨m1, by simp only [exchange, hcomps, ha, hb, h1], keeps_trans (keeps_trans ka kb) k1⟩

/-! ## The number of macro-steps -/

theorem outputRow_ready {σ : Type} (scanUInt : String → Option Nat) (fmus : List (FMU σ))
    (m : Master σ) (time : ℚ) (separator : Char) (header : Bool)
    (hm : m.ready scanUInt fmus) : (outputRow m time separator header).ready scanUInt fmus :=
  ready_of_keeps scanUInt fmus m _ hm ⟨rfl, fun _ hk => hk, fun _ hk => hk⟩

theorem macro_step_ready {σ : Type} (rt : Runtime) (fmus : List (FMU σ)) (h : ℚ)
    (separator : Char) (hok : ∀ fmu ∈ fmus, ∀ c t, (fmu.doStep c t h true).2 = fmiOK)
    (time : ℚ) (m : Master σ) (hm : m.ready rt.scanUInt fmus) :
    ∃ m1, exchange rt fmus time h m = Except.ok (Flow.next m1) ∧
      (outputRow m1 (rt.add time h) separator false).ready rt.scanUInt fmus := by
  obtain ⟨m1, h1, k1⟩ := exchange_ready rt fmus time h hok m hm
  exact ⟨m1, h1, outputRow_ready rt.scanUInt fmus m1 _ separator false
    (ready_of_keeps rt.scanUInt fmus m m1 hm k1)⟩

/-- C33: with exact addition of the time, a step size `h > 0`, every `doStep` call returning
`fmiOK`, and a master that is ready for a macro-step (the graph has its component array, every
component its module and its instance handle, every port its variable, its connection and the
cell of the connection; the declared type of a port need not be the type of the cell), the step
loop started at time 0 returns when it is given at least `ceil(tEnd / h)` iterations: it has
then made exactly `ceil(tEnd / h)` macro-steps (none when `tEnd <= 0`), the master time is that
number times `h`, and in macro-step `k` every component received exactly one `doStep` call, with
the current time `(k - 1) * h` and the step size `h`, followed by the row of values for the time
`k * h`. -/
theorem step_count_exact {σ : Type} (rt : Runtime) (hadd : ∀ x y, rt.add x y = x + y)
    (fmus : List (FMU σ)) (tEnd h : ℚ) (hh : 0 < h) (separator : Char)
    (hok : ∀ fmu ∈ fmus, ∀ c t, (fmu.doStep c t h true).2 = fmiOK)
    (m : Master σ) (hm : m.ready rt.scanUInt fmus) (fuel : Nat) (hfuel : ⌈tEnd / h⌉₊ ≤ fuel) :
    ∃ m1, stepLoop rt fmus tEnd h separator fuel 0 0 m
        = Except.ok ((⌈tEnd / h⌉₊ : ℚ) * h, ⌈tEnd / h⌉₊, Flow.next m1) ∧
      m1.trace.filter Event.isStepOrRow = m.trace.filter Event.isStepOrRow
        ++ stepRounds (m.graph.components.getD []).length h separator 0 ⌈tEnd / h⌉₊ ∧
      (tEnd ≤ 0 → ⌈tEnd / h⌉₊ = 0) ∧
      (0 < tEnd → ((⌈tEnd / h⌉₊ : ℚ) - 1) * h < tEnd ∧ tEnd ≤ (⌈tEnd / h⌉₊ : ℚ) * h) := by
  obtain ⟨m1, hrun, _, htr⟩ := stepLoop_exact rt hadd fmus tEnd h hh separator
    (fun m0 => m0.ready rt.scanUInt fmus) (macro_step_ready rt fmus h separator hok)
    (m.graph.components.getD []).length fuel 0 m hm rfl (Nat.zero_le _) (by omega)
  refine ⟨m1, ?_, ?_, ?_, ?_⟩
  · have h0 : ((0 : Nat) : ℚ) * h = 0 := by simp
    rw [h0] at hrun
    exact hrun
  · rw [htr, Nat.sub_zero]
  · intro hle
    rw [Nat.ceil_eq_zero]
    exact div_nonpos_of_nonpos_of_nonneg hle hh.le
  · intro hpos
    have hdiv : 0 < tEnd / h := div_pos hpos hh
    constructor
    · have := Nat.ceil_lt_add_one hdiv.le
      have h2 : (⌈tEnd / h⌉₊ : ℚ) - 1 < tEnd / h := by linarith
      exact (lt_div_iff₀ hh).mp h2
    · have := Nat.le_ceil (tEnd / h)
      exact (div_le_iff₀ hh).mp this

theorem pairState_ready (fmus : List (FMU ℚ)) (hfmus : fmus.length = 2) (a b v : ℚ)
    (tr : List Event) : (pairState a b v tr).ready scanDecimal fmus := by
  refine ⟨_, rfl, ?_, ?_⟩
  · intro i hi
    have hi2 : i < 2 := hi
    have hlt : i < fmus.length := by omega
    refine ⟨⟨fmus[i], List.getElem?_eq_getElem hlt⟩, ?_⟩
    rcases i with _ | _ | i
    · exact ⟨a, rfl⟩
    · exact ⟨b, rfl⟩
    · omega
  · intro comp hcomp
    simp only [List.mem_cons, List.mem_singleton, List.not_mem_nil, or_false] at hcomp
    rcases hcomp with rfl | rfl
    · constructor
      · intro port hport
        simp only [Option.getD_some, List.mem_singleton] at hport
        subst hport
        exact ⟨_, _, "0", 0, Cell.real v, rfl, rfl, rfl, rfl, rfl, rfl, rfl⟩
      · intro port hport
        simp at hport
    · constructor
      · intro port hport
        simp at hport
      · intro port hport
        simp only [Option.getD_some, List.mem_singleton] at hport
        subst hport
        exact ⟨_, _, "0", 0, Cell.real v, rfl, rfl, rfl, rfl, rfl, rfl, rfl⟩

theorem pair_doStep_ok (a0 h : ℚ) :
    ∀ fmu ∈ [producerFMU a0, consumerFMU], ∀ c t, (fmu.doStep c t h true).2 = fmiOK := by
  intro fmu hmem c t
  simp only [List.mem_cons, List.mem_singleton, List.not_mem_nil, or_false] at hmem
  rcases hmem with rfl | rfl <;> rfl

theorem step_count_exact_witness :
    ⌈(1 : ℚ) / (1 / 10)⌉₊ = 10 ∧
    (stepLoop exactRuntime [producerFMU 0, consumerFMU] 1 (1 / 10) ';' 20 0 0
        (pairState 0 0 0 [])).map (fun r => (r.1, r.2.1)) = Except.ok (1, 10) ∧
    ∃ m1, stepLoop exactRuntime [producerFMU 0, consumerFMU] 1 (1 / 10) ';' 20 0 0
          (pairState 0 0 0 [])
        = Except.ok ((⌈(1 : ℚ) / (1 / 10)⌉₊ : ℚ) * (1 / 10), ⌈(1 : ℚ) / (1 / 10)⌉₊,
            Flow.next m1) ∧
      m1.trace.filter Event.isStepOrRow
        = (pairState 0 0 0 []).trace.filter Event.isStepOrRow
          ++ stepRounds ((pairState 0 0 0 []).graph.components.getD []).length (1 / 10) ';' 0
              ⌈(1 : ℚ) / (1 / 10)⌉₊ ∧
      ((1 : ℚ) ≤ 0 → ⌈(1 : ℚ) / (1 / 10)⌉₊ = 0) ∧
      ((0 : ℚ) < 1 → ((⌈(1 : ℚ) / (1 / 10)⌉₊ : ℚ) - 1) * (1 / 10) < 1 ∧
        1 ≤ (⌈(1 : ℚ) / (1 / 10)⌉₊ : ℚ) * (1 / 10)) := by
  have hc : ⌈(1 : ℚ) / (1 / 10)⌉₊ = 10 := by
    rw [show (1 : ℚ) / (1 / 10) = ((10 : ℕ) : ℚ) by norm_num, Nat.ceil_natCast]
  refine ⟨hc, by decide!, ?_⟩
  exact step_count_exact exactRuntime (fun _ _ => rfl) [producerFMU 0, consumerFMU] 1 (1 / 10)
    (by norm_num) ';' (pair_doStep_ok 0 (1 / 10)) (pairState 0 0 0 [])
    (pairState_ready [producerFMU 0, consumerFMU] rfl 0 0 0 []) 20 (by rw [hc]; norm_num)

end Fmusdk
